import Mathlib

/-! MD4C-RTF: shallow embedding of the RTF renderer (`src/src/md4c-rtf.c`)

The renderer receives block / span / text events from the MD4C parsing engine and
appends RTF bytes to an output sink.  The embedding follows the C source function by
function and keeps the source's names.

Conventions of the embedding:

* a byte (`MD_CHAR`, `unsigned char`) is a `Fin 256`;
* a `(pointer, size)` pair is a `List Byte`, `size` being its length; reading a byte
  at an index that is not below the size makes the function return `none`;
* `unsigned` values are natural numbers, reduced `% 2^32` where the source can wrap;
  offsets (`MD_OFFSET`, `MD_SIZE`, declared by the parsing engine's header) are
  natural numbers;
* the sink (`process_output` / `userdata`) is the field `out`: the concatenation, in
  call order, of all chunks handed to the callback;
* `while` loops are recursive functions over an iteration budget; running out of
  budget gives `none`.
-/

namespace Md4cRtf

/-! ## Bytes, C strings, libc helpers -/

/-- One `MD_CHAR` / `unsigned char`. -/
abbrev Byte := Fin 256

/-- Bytes of an ASCII string literal of the source. -/
def cstr (s : String) : List Byte := s.toList.map (fun c => Fin.ofNat c.toNat)

/-- What `strlen` sees of a character buffer: the bytes before the first NUL. -/
def c_str (s : List Byte) : List Byte := s.takeWhile (fun b => b != 0)

/-- Result of `strchr(s, ch) != NULL` for a C string literal `s` (given without its
terminator): libc's `strchr` also finds the terminating NUL. -/
def strchr (s : List Byte) (ch : Byte) : Bool := (s ++ [0]).contains ch

/-- Macro `ISDIGIT`. -/
def ISDIGIT (ch : Byte) : Bool := 48 ≤ ch.val && ch.val ≤ 57

/-- Macro `ISLOWER`. -/
def ISLOWER (ch : Byte) : Bool := 97 ≤ ch.val && ch.val ≤ 122

/-- Macro `ISUPPER`. -/
def ISUPPER (ch : Byte) : Bool := 65 ≤ ch.val && ch.val ≤ 90

/-- Macro `ISALNUM`. -/
def ISALNUM (ch : Byte) : Bool := ISLOWER ch || ISUPPER ch || ISDIGIT ch

/-- The digit character computed in `ultostr`: `(d < 10) ? d+'0' : d+'a'-10`. -/
def ultostr_digit (d : Nat) : Byte := Fin.ofNat (if d < 10 then d + 48 else d + 97 - 10)

/-- First loop of `ultostr`, `while(value || pb == buf)`: the digits stored in `buf`,
least significant first.  The budget is the capacity of `buf`. -/
def ultostr_fill : Nat → Nat → Nat → List Byte
  | 0, _, _ => []
  | n + 1, value, base =>
    ultostr_digit (value % base) ::
      (if value / base ≠ 0 then ultostr_fill n (value / base) base else [])

/-- Function `ultostr`: the string written to `str` (without its terminator), i.e. `buf`
copied in reverse order. `buf` holds 32 characters. -/
def ultostr (value : Nat) (base : Nat) : List Byte := (ultostr_fill 32 value base).reverse

/-- libc `isspace` in the "C" locale. -/
def isspace (b : Byte) : Bool := b.val = 32 || (9 ≤ b.val && b.val ≤ 13)

/-- Value of a digit character for `strtoul` (letters stand for 10..35). -/
def digit_val (b : Byte) : Option Nat :=
  if ISDIGIT b then some (b.val - 48)
  else if ISLOWER b then some (b.val - 97 + 10)
  else if ISUPPER b then some (b.val - 65 + 10)
  else none

/-- Digit loop of libc `strtoul`: accumulates digits below `base` and stops at the first
other byte.  The text handed to `render_entity` is not NUL-terminated; reaching the end
of the list means `strtoul` reads past the text, which gives `none`. -/
def strtoul_digits (base : Nat) : List Byte → Nat → Option Nat
  | [], _ => none
  | b :: t, acc =>
    match digit_val b with
    | some d => if d < base then strtoul_digits base t (acc * base + d) else some acc
    | none => some acc

/-- Skips the white space accepted by `strtoul` before the number. -/
def strtoul_skip_space : List Byte → List Byte
  | [] => []
  | b :: t => if isspace b then strtoul_skip_space t else b :: t

/-- Skips the `0x` / `0X` that `strtoul` accepts before the digits in base 16. -/
def strtoul_skip_0x (base : Nat) : List Byte → List Byte
  | z :: x :: t2 =>
    if base = 16 && z.val = 48 && (x.val = 120 || x.val = 88) then t2 else z :: x :: t2
  | s => s

/-- libc `strtoul(s, NULL, base)` for `base` 10 or 16: optional white space, optional
sign, for base 16 an optional `0x` / `0X`, then digits.  A value above `ulong_max`
gives `ulong_max`; a minus sign negates in `unsigned long`. -/
def strtoul (ulong_max : Nat) (s : List Byte) (base : Nat) : Option Nat :=
  match strtoul_skip_space s with
  | [] => none
  | c :: t =>
    let neg := c.val = 45
    let s2 := if c.val = 45 || c.val = 43 then t else c :: t
    match strtoul_digits base (strtoul_skip_0x base s2) 0 with
    | none => none
    | some acc =>
      if acc > ulong_max then some ulong_max
      else if neg then some ((ulong_max + 1 - acc) % (ulong_max + 1))
      else some acc

/-! ## Render context -/

/-- Struct `MD_RTF_LIST`. The three `const MD_CHAR*` fields hold the string pointed to. -/
structure MD_RTF_LIST where
  type : Nat
  count : Nat
  start : Nat
  cw_tx : List Byte
  cw_li : List Byte
  cw_sa : List Byte

/-- Constant `MD_RTF_LIST_TYPE_UL`. -/
def MD_RTF_LIST_TYPE_UL : Nat := 0

/-- Constant `MD_RTF_LIST_TYPE_OL`. -/
def MD_RTF_LIST_TYPE_OL : Nat := 1

/-- Table `g_cw_list_bullt`. -/
def g_cw_list_bullt : Fin 2 → List Byte
  | 0 => cstr "\\u8226 "
  | 1 => cstr "\\u9702 "

/-- Table `g_cw_list_delim`. -/
def g_cw_list_delim : Fin 2 → List Byte
  | 0 => cstr "."
  | 1 => cstr ")"

/-- Struct `MD_RTF`.  `out` stands for `process_output` and `userdata`: the bytes the
callback has received so far.  The fixed-size arrays are functions on their index
range; a control-word slot holds the character buffer's content. -/
structure MD_RTF where
  out : List Byte
  flags : Nat
  escape_map : Byte → Nat
  page_width : Nat
  page_height : Nat
  page_margin : Nat
  font_base : Nat
  list : Fin 8 → MD_RTF_LIST
  list_depth : Nat
  list_stop : Nat
  list_reset : Nat
  tabl_cols : Nat
  tabl_head : Nat
  no_p_end : Nat
  cw_fs : Fin 2 → List Byte
  cw_hf : Fin 6 → List Byte
  cw_sa : Fin 3 → List Byte
  cw_li : Fin 8 → List Byte
  cw_tr : Fin 2 → List Byte
  cw_fi : Fin 2 → List Byte
  cw_cx : Fin 2 → List Byte

/-- Constant `NEED_RTF_ESC_FLAG`. -/
def NEED_RTF_ESC_FLAG : Nat := 0x1

/-- Constant `NEED_URL_ESC_FLAG`. -/
def NEED_URL_ESC_FLAG : Nat := 0x2

/-- Constant `NEED_PRE_ESC_FLAG`. -/
def NEED_PRE_ESC_FLAG : Nat := 0x4

/-- Modelled from the spec: the renderer flag `MD_RTF_FLAG_DEBUG` is declared in
`md4c-rtf.h`, which is not among the sources; the spec enumerates the renderer flags as
a bit set (debug logging, verbatim entities, skip byte-order mark). -/
def MD_RTF_FLAG_DEBUG : Nat := 0x1

/-- Modelled from the spec: the renderer flag `MD_RTF_FLAG_VERBATIM_ENTITIES` is declared
in `md4c-rtf.h`, which is not among the sources ("treat all entities as verbatim"). -/
def MD_RTF_FLAG_VERBATIM_ENTITIES : Nat := 0x2

/-- Modelled from the spec: the renderer flag `MD_RTF_FLAG_SKIP_UTF8_BOM` is declared in
`md4c-rtf.h`, which is not among the sources ("suppress a leading byte-order mark"). -/
def MD_RTF_FLAG_SKIP_UTF8_BOM : Nat := 0x4

/-- The escape table filled by the loop `for(i = 0; i < 256; i++)` of `md_rtf`. -/
def md_rtf_escape_map (i : Byte) : Nat :=
  let m0 := 0
  let m1 :=
    if strchr (cstr "\\\x7b\x7d\n") i || i.val > 0x7F then
      m0 ||| (NEED_RTF_ESC_FLAG ||| NEED_PRE_ESC_FLAG)
    else m0
  if !ISALNUM i && !strchr (cstr "~-_.+!*(),%#@?=;:/,+$") i then m1 ||| NEED_URL_ESC_FLAG
  else m1

/-! ## Rendering helper functions -/

/-- Function `render_verbatim`: hands `text` to the output callback. -/
def render_verbatim (r : MD_RTF) (text : List Byte) : MD_RTF :=
  { r with out := r.out ++ text }

/-- Macro `RENDER_VERBATIM`: `render_verbatim` with size `strlen(verbatim)`. -/
def RENDER_VERBATIM (r : MD_RTF) (verbatim : List Byte) : MD_RTF :=
  render_verbatim r (c_str verbatim)

/-- The bytes `data + beg` of length `off - beg`. -/
def slice (data : List Byte) (beg off : Nat) : List Byte := (data.drop beg).take (off - beg)

/-- Table `hex_chars` of `render_url_escaped`. -/
def hex_chars : List Byte := cstr "0123456789ABCDEF"

/-- Macro `NEED_URL_ESC`. -/
def NEED_URL_ESC (r : MD_RTF) (ch : Byte) : Bool :=
  r.escape_map ch &&& NEED_URL_ESC_FLAG != 0

/-- Inner loop of `render_url_escaped`: `while(off < size && !NEED_URL_ESC(data[off])) off++`.
`data[off]?` is `some` exactly when `off < size`. -/
def url_skip (r : MD_RTF) (data : List Byte) : Nat → Nat → Option Nat
  | 0, _ => none
  | n + 1, off =>
    match data[off]? with
    | none => some off
    | some ch => if !NEED_URL_ESC r ch then url_skip r data n (off + 1) else some off

/-- Outer loop `while(1)` of `render_url_escaped`; returns the context and the final
offset. -/
def render_url_escaped_loop (data : List Byte) :
    Nat → MD_RTF → Nat → Nat → Option (MD_RTF × Nat)
  | 0, _, _, _ => none
  | n + 1, r, beg, off =>
    match url_skip r data (data.length + 1) off with
    | none => none
    | some off1 =>
      let r1 := if off1 > beg then render_verbatim r (slice data beg off1) else r
      match data[off1]? with
      | some ch =>
        let r2 :=
          if ch.val = 38 then RENDER_VERBATIM r1 (cstr "&amp;")
          else render_verbatim r1
            [37, hex_chars.getD ((ch.val >>> 4) &&& 0xf) 0, hex_chars.getD (ch.val &&& 0xf) 0]
        render_url_escaped_loop data n r2 (off1 + 1) (off1 + 1)
      | none => some (r1, off1)

/-- Function `render_url_escaped`. -/
def render_url_escaped (r : MD_RTF) (data : List Byte) : Option MD_RTF :=
  (render_url_escaped_loop data (data.length + 1) r 0 0).map Prod.fst

/-- Function `render_unicode`. -/
def render_unicode (r : MD_RTF) (u : Nat) : MD_RTF :=
  RENDER_VERBATIM (RENDER_VERBATIM r (cstr "\\u")) (ultostr u 10)

/-- Function `render_cp1252`. -/
def render_cp1252 (r : MD_RTF) (u : Nat) : MD_RTF :=
  RENDER_VERBATIM (RENDER_VERBATIM r (cstr "\\\x27")) (ultostr u 16)

/-- Function `render_entity`.  `ulong_max` is the platform's `ULONG_MAX`; the result of
`strtoul` is converted to `unsigned`. -/
def render_entity (ulong_max : Nat) (r : MD_RTF) (text : List Byte)
    (fn_append : MD_RTF → List Byte → Option MD_RTF) : Option MD_RTF :=
  if r.flags &&& MD_RTF_FLAG_VERBATIM_ENTITIES ≠ 0 then some (render_verbatim r text)
  else
    match (if text.length > 3 then text[1]? else none) with
    | some c1 =>
      if c1.val = 35 then
        match text[2]? with
        | none => none
        | some c2 =>
          match (if c2.val = 120 || c2.val = 88 then strtoul ulong_max (text.drop 3) 16
                 else strtoul ulong_max (text.drop 2) 10) with
          | none => none
          | some u => some (render_unicode r (u % 2 ^ 32))
      else fn_append r text
    | none => fn_append r text

/-- The part "validate and decode UTF-8" of `render_non_ascii`: the values of `u` and `b`
after the `if` chain, `s0` being `s[0]`. -/
def render_non_ascii_decode (s : List Byte) (s0 : Byte) : Option (Nat × Nat) :=
  if s0.val &&& 0xE0 = 0xC0 then
    if s.length > 1 then
      match s[1]? with
      | none => none
      | some s1 =>
        if s1.val &&& 0xC0 = 0x80 then
          some ((s0.val &&& 0x1F) <<< 6 ||| (s1.val &&& 0x3F), 2)
        else some (0, 0)
    else some (0, 0)
  else if s0.val &&& 0xF0 = 0xE0 then
    if s.length > 2 then
      match s[1]?, s[2]? with
      | some s1, some s2 =>
        if s1.val &&& 0xC0 = 0x80 && s2.val &&& 0xC0 = 0x80 then
          some ((s0.val &&& 0x0F) <<< 12 ||| (s1.val &&& 0x3F) <<< 6 ||| (s2.val &&& 0x3F), 3)
        else some (0, 0)
      | _, _ => none
    else some (0, 0)
  else if s0.val &&& 0xF8 = 0xF0 then
    if s.length > 3 then
      match s[1]?, s[2]?, s[3]? with
      | some s1, some s2, some s3 =>
        if s1.val &&& 0xC0 = 0x80 then
          some ((s0.val &&& 0x07) <<< 18 ||| (s1.val &&& 0x3F) <<< 12 |||
                (s2.val &&& 0x3F) <<< 6 ||| (s3.val &&& 0x3F), 4)
        else some (0, 0)
      | _, _, _ => none
    else some (0, 0)
  else some (0, 0)

/-- Function `render_non_ascii` on `s` with `size = s.length`; returns the context and
the number of bytes to skip. -/
def render_non_ascii (r : MD_RTF) (s : List Byte) : Option (MD_RTF × Nat) :=
  match s[0]? with
  | none => none
  | some s0 =>
    match render_non_ascii_decode s s0 with
    | none => none
    | some (u, b) =>
      if b > 0 then some (render_unicode r u, b)
      else some (render_cp1252 r s0.val, 1)

/-- Macro `NEED_RTF_ESC`. -/
def NEED_RTF_ESC (r : MD_RTF) (ch : Byte) : Bool :=
  r.escape_map ch &&& NEED_RTF_ESC_FLAG != 0

/-- Unrolled loop of `render_rtf_escaped`: `while(off + 3 < size && ...) off += 4`. -/
def rtf_skip4 (r : MD_RTF) (data : List Byte) : Nat → Nat → Option Nat
  | 0, _ => none
  | n + 1, off =>
    if off + 3 < data.length then
      match data[off]?, data[off + 1]?, data[off + 2]?, data[off + 3]? with
      | some a, some b, some c, some d =>
        if !NEED_RTF_ESC r a && !NEED_RTF_ESC r b && !NEED_RTF_ESC r c && !NEED_RTF_ESC r d then
          rtf_skip4 r data n (off + 4)
        else some off
      | _, _, _, _ => none
    else some off

/-- Loop `while((off < size) && !NEED_RTF_ESC(data[off])) off++` of `render_rtf_escaped`. -/
def rtf_skip1 (r : MD_RTF) (data : List Byte) : Nat → Nat → Option Nat
  | 0, _ => none
  | n + 1, off =>
    match data[off]? with
    | none => some off
    | some ch => if !NEED_RTF_ESC r ch then rtf_skip1 r data n (off + 1) else some off

/-- The `switch(data[off])` of `render_rtf_escaped` for a byte not above 0x7F. -/
def rtf_escape_reserved (r : MD_RTF) (ch : Byte) : MD_RTF :=
  if ch.val = 92 then RENDER_VERBATIM r (cstr "\\\\")
  else if ch.val = 123 then RENDER_VERBATIM r (cstr "\\\x7b")
  else if ch.val = 125 then RENDER_VERBATIM r (cstr "\\\x7d")
  else if ch.val = 10 then RENDER_VERBATIM r (cstr "\\line1")
  else r

/-- Outer loop `while(1)` of `render_rtf_escaped`; returns the context and the final
offset. -/
def render_rtf_escaped_loop (data : List Byte) :
    Nat → MD_RTF → Nat → Nat → Option (MD_RTF × Nat)
  | 0, _, _, _ => none
  | n + 1, r, beg, off =>
    match rtf_skip4 r data (data.length + 1) off with
    | none => none
    | some off1 =>
      match rtf_skip1 r data (data.length + 1) off1 with
      | none => none
      | some off2 =>
        let r1 := if off2 > beg then render_verbatim r (slice data beg off2) else r
        match data[off2]? with
        | some ch =>
          if ch.val > 0x7F then
            match render_non_ascii r1 (data.drop off2) with
            | none => none
            | some (r2, k) => render_rtf_escaped_loop data n r2 (off2 + k) (off2 + k)
          else
            render_rtf_escaped_loop data n (rtf_escape_reserved r1 ch) (off2 + 1) (off2 + 1)
        | none => some (r1, off2)

/-- Function `render_rtf_escaped`. -/
def render_rtf_escaped (r : MD_RTF) (data : List Byte) : Option MD_RTF :=
  (render_rtf_escaped_loop data (data.length + 1) r 0 0).map Prod.fst

/-! ## Platform parameters -/

/-- What the source leaves to the C platform.  `ulong_max` is `ULONG_MAX` (used by
`strtoul`).  The other fields are the results of the single-precision `float`
computations of the source, each converted to `unsigned`:
`fmul num den x` is `(unsigned)(c * x)` for the float constant `c` written `num/den`
in decimal (`0.9f` is `9/10`); `text_width w m` is
`(unsigned)(w - (2*m) - (0.2f*w))`; `cell_width w m n` is
`(unsigned)((float)(w - (2*m) - (0.2f*w)) / n)`. -/
structure Platform where
  ulong_max : Nat
  fmul : Nat → Nat → Nat → Nat
  text_width : Nat → Nat → Nat
  cell_width : Nat → Nat → Nat → Nat

/-! ## Single-precision arithmetic

The `float` computations of the source, for a C implementation whose `float` is IEEE 754
binary32 with round-to-nearest-even and which rounds every operation to `float` (no excess
precision, no fused multiply-add), as x86-64 does.  Every operand is an `unsigned`
(below `2 ^ 32`) or one of the decimal constants of the source, so every value is zero or
has a magnitude between `2 ^ -64` and `2 ^ 40`: the exponent range of binary32 is never
left, and subnormal numbers, infinities and NaN occur only for a zero divisor. -/

/-- A finite value of the C type `float`: the sign and the magnitude `num / den`. -/
structure F32 where
  neg : Bool
  num : Nat
  den : Nat
  deriving DecidableEq, Repr

/-- Scaling of the fraction `n / d` into the range of a 24-bit significand: `n` is doubled
while `n / d < 2 ^ 23` and `d` is doubled while `n / d ≥ 2 ^ 24`.  The result is
`(n1, d1, a, b)` with `n / d = (n1 / d1) * a / b` and `2 ^ 23 ≤ n1 / d1 < 2 ^ 24`, so
that `a / b` is the unit in the last place.  The first argument bounds the number of
steps. -/
def f32_scale : Nat → Nat → Nat → Nat → Nat → Nat × Nat × Nat × Nat
  | 0, n, d, a, b => (n, d, a, b)
  | fuel + 1, n, d, a, b =>
    if n < 2 ^ 23 * d then f32_scale fuel (2 * n) d a (2 * b)
    else if 2 ^ 24 * d ≤ n then f32_scale fuel n (2 * d) (2 * a) b
    else (n, d, a, b)

/-- Rounding of the fraction `n / d` to the nearest integer, a tie to the even one. -/
def round_half_even (n d : Nat) : Nat :=
  if d < 2 * (n % d) ∨ (2 * (n % d) = d ∧ n / d % 2 = 1) then n / d + 1 else n / d

/-- Rounding of the magnitude `n / d` to the nearest `float`: 24 significant bits, a tie
to the even significand.  A zero divisor gives zero. -/
def f32_round (neg : Bool) (n d : Nat) : F32 :=
  if n = 0 ∨ d = 0 then ⟨neg, 0, 1⟩
  else
    let s := f32_scale 512 n d 1 1
    ⟨neg, round_half_even s.1 s.2.1 * s.2.2.1, s.2.2.2⟩

/-- Conversion of an `unsigned` to `float`. -/
def f32_of_unsigned (x : Nat) : F32 := f32_round false (x % 2 ^ 32) 1

/-- A `float` constant written `num / den` in decimal: `0.2f` is `f32_const 2 10`. -/
def f32_const (num den : Nat) : F32 := f32_round false num den

/-- Product of two `float` values. -/
def f32_mul (a b : F32) : F32 := f32_round (a.neg != b.neg) (a.num * b.num) (a.den * b.den)

/-- Difference `a - b` of two `float` values. -/
def f32_sub (a b : F32) : F32 :=
  if a.neg = b.neg then
    if b.num * a.den ≤ a.num * b.den then
      f32_round a.neg (a.num * b.den - b.num * a.den) (a.den * b.den)
    else f32_round (!a.neg) (b.num * a.den - a.num * b.den) (a.den * b.den)
  else f32_round a.neg (a.num * b.den + b.num * a.den) (a.den * b.den)

/-- Quotient `a / b` of two `float` values. -/
def f32_div (a b : F32) : F32 := f32_round (a.neg != b.neg) (a.num * b.den) (a.den * b.num)

/-- Conversion of a `float` to `unsigned`: the fraction is discarded.  When the result is
negative or not below `2 ^ 32` the C standard leaves the behaviour undefined; the value
given is the one of x86-64 code, which converts to a 64-bit integer and keeps the low 32
bits (and gives 0 for an infinity or a NaN, here the quotient by zero). -/
def f32_to_unsigned (a : F32) : Nat :=
  if a.neg then (2 ^ 32 - a.num / a.den % 2 ^ 32) % 2 ^ 32 else a.num / a.den % 2 ^ 32

/-- The expression `(unsigned)(c * x)` of `md_rtf`, `c` being the `float` constant written
`num / den` and `x` an `unsigned`. -/
def f32_fmul (num den x : Nat) : Nat :=
  f32_to_unsigned (f32_mul (f32_const num den) (f32_of_unsigned x))

/-- The expression `page_width - (2*page_margin) - (0.2f*page_width)` of `md_rtf` and of
`render_enter_block_tr`, as the `float` it is: `page_width - (2*page_margin)` is computed
in `unsigned` (modulo `2 ^ 32`) and converted to `float`, then the `float` product is
subtracted. -/
def f32_tw (w m : Nat) : F32 :=
  f32_sub (f32_of_unsigned ((w % 2 ^ 32 + 2 ^ 32 - 2 * m % 2 ^ 32) % 2 ^ 32))
    (f32_mul (f32_const 2 10) (f32_of_unsigned w))

/-- The initialiser of `unsigned w` in `md_rtf`. -/
def f32_text_width (w m : Nat) : Nat := f32_to_unsigned (f32_tw w m)

/-- The value `unsigned cw = tw / r->tabl_cols` of `render_enter_block_tr`, `tw` being the
`float` of `f32_tw`. -/
def f32_cell_width (w m n : Nat) : Nat :=
  f32_to_unsigned (f32_div (f32_tw w m) (f32_of_unsigned n))

/-- The platform whose `float` is binary32, with `ULONG_MAX` as given. -/
def f32_platform (ulong_max : Nat) : Platform where
  ulong_max := ulong_max
  fmul := f32_fmul
  text_width := f32_text_width
  cell_width := f32_cell_width

/-! ## Events of the parsing engine -/

/-- Cell alignment `MD_ALIGN` of the parsing engine. -/
inductive MD_ALIGN
  | DEFAULT | LEFT | CENTER | RIGHT
  deriving DecidableEq, Repr

/-- Block kinds `MD_BLOCKTYPE` of the parsing engine, as dispatched by
`enter_block_callback` / `leave_block_callback`, each with the fields of its detail
structure that the renderer reads. -/
inductive MD_BLOCK
  | DOC
  | QUOTE
  | UL (is_tight : Bool)
  | OL (start : Nat) (is_tight : Bool) (mark_delimiter : Byte)
  | LI
  | HR
  | H (level : Nat)
  | CODE
  | HTML
  | P
  | TABLE (col_count : Nat)
  | THEAD
  | TBODY
  | TR
  | TH (align : MD_ALIGN)
  | TD (align : MD_ALIGN)
  deriving DecidableEq, Repr

/-- Span kinds `MD_SPANTYPE` of the parsing engine; a link carries its `href`. -/
inductive MD_SPAN
  | EM
  | STRONG
  | A (href : List Byte)
  | IMG
  | CODE
  | DEL
  | LATEXMATH
  | LATEXMATH_DISPLAY
  | WIKILINK
  | U
  deriving DecidableEq, Repr

/-- Text kinds `MD_TEXTTYPE` of the parsing engine. -/
inductive MD_TEXTTYPE
  | NORMAL | NULLCHAR | BR | SOFTBR | ENTITY | CODE | HTML | LATEXMATH
  deriving DecidableEq, Repr

/-- One callback invocation by the parsing engine. -/
inductive Event
  | enter_block (b : MD_BLOCK)
  | leave_block (b : MD_BLOCK)
  | enter_span (s : MD_SPAN)
  | leave_span (s : MD_SPAN)
  | text (type : MD_TEXTTYPE) (data : List Byte)
  deriving DecidableEq, Repr

/-! ## Block and span renderers -/

/-- Function `render_font_norm`. -/
def render_font_norm (r : MD_RTF) : MD_RTF :=
  RENDER_VERBATIM (RENDER_VERBATIM r (cstr "\\f0")) (r.cw_fs 0)

/-- Function `render_font_mono`. -/
def render_font_mono (r : MD_RTF) : MD_RTF :=
  RENDER_VERBATIM (RENDER_VERBATIM r (cstr "\\f1")) (r.cw_fs 1)

/-- Function `render_end_block`. -/
def render_end_block (r : MD_RTF) : MD_RTF :=
  let r := RENDER_VERBATIM r (cstr "\\pard\\f0\\fs0")
  let r := RENDER_VERBATIM r (r.cw_sa 2)
  RENDER_VERBATIM r (cstr "\\par\r\n")

/-- Read of `r->list[d]`; `none` when `d` is outside the eight entries. -/
def list_at (r : MD_RTF) (d : Nat) : Option MD_RTF_LIST :=
  if h : d < 8 then some (r.list ⟨d, h⟩) else none

/-- Write to `r->list[d]`; `none` when `d` is outside the eight entries. -/
def list_set (r : MD_RTF) (d : Nat) (f : MD_RTF_LIST → MD_RTF_LIST) : Option MD_RTF :=
  if h : d < 8 then some { r with list := Function.update r.list ⟨d, h⟩ (f (r.list ⟨d, h⟩)) }
  else none

/-- Function `render_list_start`. -/
def render_list_start (r : MD_RTF) : Option MD_RTF :=
  let d := r.list_depth
  match list_at r d with
  | none => none
  | some l =>
    let r := RENDER_VERBATIM r (cstr "\\pard")
    let r := RENDER_VERBATIM r (r.cw_fs 0)
    let r := RENDER_VERBATIM r (cstr "\x7b\\pntext\\f0 ")
    let r :=
      if l.type = MD_RTF_LIST_TYPE_OL then
        let str_num := ultostr ((l.count + l.start) % 2 ^ 32) 10
        let r := RENDER_VERBATIM r str_num
        let r := RENDER_VERBATIM r l.cw_tx
        let r := RENDER_VERBATIM r (cstr "\\tab\x7d\x7b\\*\\pn\\pnlvlbody\\pnf0\\pnstart")
        let r := RENDER_VERBATIM r str_num
        RENDER_VERBATIM r (cstr "\\pndec\x7b\\pntxta")
      else
        let r := RENDER_VERBATIM r l.cw_tx
        RENDER_VERBATIM r (cstr "\\tab\x7d\x7b\\*\\pn\\pnlvlblt\\pnf0\x7b\\pntxtb")
    let r := RENDER_VERBATIM r l.cw_tx
    let r := RENDER_VERBATIM r (cstr "\x7d\x7d")
    let r := RENDER_VERBATIM r l.cw_li
    let r := RENDER_VERBATIM r l.cw_sa
    let r :=
      if l.type = MD_RTF_LIST_TYPE_OL then RENDER_VERBATIM r (r.cw_fi 1)
      else RENDER_VERBATIM r (r.cw_fi 0)
    some { r with list_reset := 0 }

/-- Function `render_list_item`. -/
def render_list_item (r : MD_RTF) : Option MD_RTF :=
  let d := r.list_depth
  match list_at r d with
  | none => none
  | some l =>
    let r := RENDER_VERBATIM r (cstr "\x7b\\pntext\\f0 ")
    let r :=
      if l.type = MD_RTF_LIST_TYPE_OL then
        RENDER_VERBATIM r (ultostr ((l.count + l.start) % 2 ^ 32) 10)
      else r
    let r := RENDER_VERBATIM r l.cw_tx
    some (RENDER_VERBATIM r (cstr "\\tab\x7d"))

/-- The `%u` conversion of `sprintf` applied to an `unsigned` value. -/
def fmt_u (n : Nat) : List Byte := ultostr (n % 2 ^ 32) 10

/-- Function `render_enter_block_doc`. -/
def render_enter_block_doc (r : MD_RTF) : MD_RTF :=
  let r := RENDER_VERBATIM r (cstr "\x7b\\rtf1\\ansi\\ansicpg1252\\deff0\x7b\\fonttbl\x7b\\f0\\fswiss Calibri;\x7d\x7b\\f1\\fmodern Courier New;\x7d\x7b\\f2\\fnil Symbol;\x7d\x7d\x7b\\colortbl;\\red0\\green0\\blue0;\\red255\\green255\\blue255;\\red180\\green180\\blue180;\\red0\\green102\\blue204;\\red230\\green230\\blue230;\x7d\x7b\\*\\generator MD4C-RTF\x7d")
  let str_page :=
    cstr "\\paperw" ++ fmt_u r.page_width ++ cstr "\\paperh" ++ fmt_u r.page_height
      ++ cstr "\\margl" ++ fmt_u r.page_margin ++ cstr "\\margr" ++ fmt_u r.page_margin
      ++ cstr "\\margt" ++ fmt_u r.page_margin ++ cstr "\\margb" ++ fmt_u r.page_margin
  let r := RENDER_VERBATIM r str_page
  let r := RENDER_VERBATIM r (cstr "\\uc0\r\n\\pard")
  RENDER_VERBATIM r (r.cw_sa 2)

/-- Function `render_leave_block_doc`; the literal is `"}\0"`. -/
def render_leave_block_doc (r : MD_RTF) : MD_RTF :=
  RENDER_VERBATIM r (cstr "\x7d\x00")

/-- Function `render_enter_block_hr`. -/
def render_enter_block_hr (r : MD_RTF) : MD_RTF :=
  let r := RENDER_VERBATIM r (cstr "\\pard\\fs0\\trowd\\trrh0\\trautofit1\\clbrdrt\\brdrs\\brdrw20\\brdrcf2\\clbrdrb\\brdrs\\brdrw1\\brdrcf3\\clbrdrl\\brdrs\\brdrw1\\brdrcf2\\clbrdrr\\brdrs\\brdrw1\\brdrcf2")
  let r := RENDER_VERBATIM r (r.cw_cx 1)
  let r := RENDER_VERBATIM r (cstr "\\par\\cell\\row")
  render_end_block r

/-- Function `render_enter_block_h`; `h->level - 1` is computed in `unsigned`. -/
def render_enter_block_h (r : MD_RTF) (level : Nat) : Option MD_RTF :=
  let i := (level + 2 ^ 32 - 1) % 2 ^ 32
  if h : i < 6 then some (RENDER_VERBATIM r (r.cw_hf ⟨i, h⟩)) else none

/-- Function `render_leave_block_h`. -/
def render_leave_block_h (r : MD_RTF) (level : Nat) : MD_RTF :=
  if level > 3 then RENDER_VERBATIM r (cstr "\\b0\\i0 \\par\r\n")
  else RENDER_VERBATIM r (cstr "\\b0 \\par\r\n")

/-- Function `render_enter_block_quote`. -/
def render_enter_block_quote (r : MD_RTF) : MD_RTF :=
  let r := RENDER_VERBATIM r (cstr "\\pard\\f0")
  let r := RENDER_VERBATIM r (r.cw_fs 0)
  let r := RENDER_VERBATIM r (cstr "\\trowd")
  let r := RENDER_VERBATIM r (r.cw_tr 0)
  let r := RENDER_VERBATIM r (cstr "\\clbrdrt\\brdrs\\brdrw1\\brdrcf2\\clbrdrb\\brdrs\\brdrw1\\brdrcf2\\clbrdrl\\brdrs\\brdrw50\\brdrcf3\\clbrdrr\\brdrs\\brdrw1\\brdrcf2")
  let r := RENDER_VERBATIM r (r.cw_cx 0)
  { r with no_p_end := 1 }

/-- Function `render_leave_block_quote`. -/
def render_leave_block_quote (r : MD_RTF) : MD_RTF :=
  let r := RENDER_VERBATIM r (cstr "\\cell\\row")
  let r := render_end_block r
  { r with no_p_end := 0 }

/-- Function `render_enter_block_code`. -/
def render_enter_block_code (r : MD_RTF) : MD_RTF :=
  let r := RENDER_VERBATIM r (cstr "\\pard\\f1")
  let r := RENDER_VERBATIM r (r.cw_fs 1)
  let r := RENDER_VERBATIM r (cstr "\\trowd")
  let r := RENDER_VERBATIM r (r.cw_tr 0)
  let r := RENDER_VERBATIM r (cstr "\\clbrdrt\\brdrs\\brdrw1\\brdrcf2\\clbrdrb\\brdrs\\brdrw1\\brdrcf2\\clbrdrl\\brdrs\\brdrw1\\brdrcf2\\clbrdrr\\brdrs\\brdrw1\\brdrcf2")
  let r := RENDER_VERBATIM r (r.cw_cx 0)
  { r with no_p_end := 1 }

/-- Function `render_leave_block_code`. -/
def render_leave_block_code (r : MD_RTF) : MD_RTF :=
  let r := RENDER_VERBATIM r (cstr "\\cell\\row\\pard\\f0")
  let r := RENDER_VERBATIM r (r.cw_sa 2)
  { r with no_p_end := 0 }

/-- Function `render_enter_block_ul`; `++r->list_depth` wraps in `unsigned`. -/
def render_enter_block_ul (r : MD_RTF) (is_tight : Bool) : Option MD_RTF :=
  let d := (r.list_depth + 1) % 2 ^ 32
  let r := { r with list_depth := d }
  let r := if d > 0 then RENDER_VERBATIM r (cstr "\\par") else r
  if h : d > 7 then some r
  else
    match list_set r d (fun l =>
      { l with
        type := MD_RTF_LIST_TYPE_UL
        count := 0
        cw_tx := g_cw_list_bullt (Fin.ofNat (d % 2))
        cw_sa := if is_tight then r.cw_sa 0 else r.cw_sa 1
        cw_li := r.cw_li ⟨d, by omega⟩ }) with
    | none => none
    | some r => render_list_start r

/-- Function `render_leave_block_ul`; `r->list_depth--` wraps in `unsigned`. -/
def render_leave_block_ul (r : MD_RTF) : MD_RTF :=
  let r := if r.list_depth ≠ 0 then { r with list_reset := 1 } else render_end_block r
  { r with list_depth := (r.list_depth + 2 ^ 32 - 1) % 2 ^ 32 }

/-- Function `render_enter_block_ol`; `++r->list_depth` wraps in `unsigned`. -/
def render_enter_block_ol (r : MD_RTF) (start : Nat) (is_tight : Bool)
    (mark_delimiter : Byte) : Option MD_RTF :=
  let d := (r.list_depth + 1) % 2 ^ 32
  let r := { r with list_depth := d }
  let r := if d > 0 then RENDER_VERBATIM r (cstr "\\par") else r
  if h : d > 7 then some r
  else
    match list_set r d (fun l =>
      { l with
        type := MD_RTF_LIST_TYPE_OL
        count := 0
        start := start
        cw_tx := if mark_delimiter.val = 41 then g_cw_list_delim 1 else g_cw_list_delim 0
        cw_sa := if is_tight then r.cw_sa 0 else r.cw_sa 1
        cw_li := r.cw_li ⟨d, by omega⟩ }) with
    | none => none
    | some r => render_list_start r

/-- Function `render_leave_block_ol`; `r->list_depth--` wraps in `unsigned`. -/
def render_leave_block_ol (r : MD_RTF) : MD_RTF :=
  let r := if r.list_depth ≠ 0 then { r with list_reset := 1 } else render_end_block r
  { r with list_depth := (r.list_depth + 2 ^ 32 - 1) % 2 ^ 32 }

/-- Function `render_enter_block_li`. -/
def render_enter_block_li (r : MD_RTF) : Option MD_RTF :=
  match (if r.list_reset ≠ 0 then render_list_start r else some r) with
  | none => none
  | some r =>
    match list_at r r.list_depth with
    | none => none
    | some l =>
      match (if l.count > 0 then render_list_item r else some r) with
      | none => none
      | some r =>
        match list_set r r.list_depth (fun l => { l with count := (l.count + 1) % 2 ^ 32 }) with
        | none => none
        | some r => some { r with list_stop := 1 }

/-- Function `render_leave_block_li`. -/
def render_leave_block_li (r : MD_RTF) : MD_RTF :=
  if r.list_stop ≠ 0 then
    let r := RENDER_VERBATIM r (cstr "\\par")
    { r with list_stop := 0 }
  else r

/-- Function `render_enter_block_table`. -/
def render_enter_block_table (r : MD_RTF) (col_count : Nat) : MD_RTF :=
  let r := { r with tabl_cols := col_count }
  let r := RENDER_VERBATIM r (cstr "\\pard\\f0")
  RENDER_VERBATIM r (r.cw_fs 1)

/-- Function `render_leave_block_table`. -/
def render_leave_block_table (r : MD_RTF) : MD_RTF :=
  render_end_block { r with tabl_cols := 0 }

/-- Function `render_enter_block_thead`. -/
def render_enter_block_thead (r : MD_RTF) : MD_RTF := { r with tabl_head := 1 }

/-- Function `render_leave_block_thead`. -/
def render_leave_block_thead (r : MD_RTF) : MD_RTF := { r with tabl_head := 0 }

/-- Body of the `for` loop of `render_enter_block_tr` for cell index `i`;
`cw * (i + 1)` is computed in `unsigned`. -/
def render_tr_cell (cw : Nat) (r : MD_RTF) (i : Nat) : MD_RTF :=
  let r := RENDER_VERBATIM r (cstr "\\clvertalc\\clbrdrt\\brdrs\\brdrw20\\brdrcf3\\clbrdrb\\brdrs\\brdrw20\\brdrcf3\\clbrdrl\\brdrs\\brdrw20\\brdrcf3\\clbrdrr\\brdrs\\brdrw20\\brdrcf3")
  let r :=
    if r.tabl_head ≠ 0 then RENDER_VERBATIM r (cstr "\\clcbpat5\\cellx")
    else RENDER_VERBATIM r (cstr "\\cellx")
  RENDER_VERBATIM r (ultostr ((cw * (i + 1)) % 2 ^ 32) 10)

/-- Function `render_enter_block_tr`; the loop runs for `i = 0 .. tabl_cols - 1`. -/
def render_enter_block_tr (p : Platform) (r : MD_RTF) : MD_RTF :=
  let r := RENDER_VERBATIM r (cstr "\\trowd")
  let r := RENDER_VERBATIM r (r.cw_tr 1)
  let cw := p.cell_width r.page_width r.page_margin r.tabl_cols
  (List.range r.tabl_cols).foldl (render_tr_cell cw) r

/-- Function `render_leave_block_tr`. -/
def render_leave_block_tr (r : MD_RTF) : MD_RTF := RENDER_VERBATIM r (cstr "\\row\r\n")

/-- Function `render_enter_block_td`. -/
def render_enter_block_td (r : MD_RTF) (align : MD_ALIGN) : MD_RTF :=
  match align with
  | .CENTER => RENDER_VERBATIM r (cstr "\\qc ")
  | .RIGHT => RENDER_VERBATIM r (cstr "\\qr ")
  | _ => RENDER_VERBATIM r (cstr "\\ql ")

/-- Function `render_leave_block_td`. -/
def render_leave_block_td (r : MD_RTF) : MD_RTF := RENDER_VERBATIM r (cstr "\\intbl\\cell ")

/-- Function `render_enter_block_th`. -/
def render_enter_block_th (r : MD_RTF) (align : MD_ALIGN) : MD_RTF :=
  match align with
  | .CENTER => RENDER_VERBATIM r (cstr "\\qc\\b ")
  | .RIGHT => RENDER_VERBATIM r (cstr "\\qr\\b ")
  | _ => RENDER_VERBATIM r (cstr "\\ql\\b ")

/-- Function `render_leave_block_th`. -/
def render_leave_block_th (r : MD_RTF) : MD_RTF :=
  RENDER_VERBATIM r (cstr "\\b0\\intbl\\cell ")

/-- Function `render_enter_block_p`. -/
def render_enter_block_p (r : MD_RTF) : MD_RTF := render_font_norm r

/-- Function `render_leave_block_p`. -/
def render_leave_block_p (r : MD_RTF) : MD_RTF :=
  if r.no_p_end = 0 then RENDER_VERBATIM r (cstr "\\par\r\n") else r

/-- Function `render_enter_span_url`. -/
def render_enter_span_url (r : MD_RTF) (href : List Byte) : Option MD_RTF :=
  let r := RENDER_VERBATIM r (cstr "\\cf4\\ul \x7b\\field\x7b\\*\\fldinst HYPERLINK \"")
  match render_url_escaped r href with
  | none => none
  | some r => some (RENDER_VERBATIM r (cstr "\"\x7d\x7b\\fldrslt "))

/-- Function `render_leave_span_url`. -/
def render_leave_span_url (r : MD_RTF) : MD_RTF :=
  RENDER_VERBATIM r (cstr "\x7d\x7d\\ul0 \\cf0 ")

/-! ## Callbacks -/

/-- Function `enter_block_callback`: the new context and the returned status. -/
def enter_block_callback (p : Platform) (b : MD_BLOCK) (r : MD_RTF) : Option (MD_RTF × Int) :=
  let res : Option MD_RTF :=
    match b with
    | .DOC => some (render_enter_block_doc r)
    | .QUOTE => some (render_enter_block_quote r)
    | .UL is_tight => render_enter_block_ul r is_tight
    | .OL start is_tight mark_delimiter => render_enter_block_ol r start is_tight mark_delimiter
    | .LI => render_enter_block_li r
    | .HR => some (render_enter_block_hr r)
    | .H level => render_enter_block_h r level
    | .CODE => some (render_enter_block_code r)
    | .P => some (render_enter_block_p r)
    | .HTML => some r
    | .TABLE col_count => some (render_enter_block_table r col_count)
    | .THEAD => some (render_enter_block_thead r)
    | .TBODY => some r
    | .TR => some (render_enter_block_tr p r)
    | .TH align => some (render_enter_block_th r align)
    | .TD align => some (render_enter_block_td r align)
  res.map (fun r => (r, 0))

/-- Function `leave_block_callback`: the new context and the returned status. -/
def leave_block_callback (b : MD_BLOCK) (r : MD_RTF) : Option (MD_RTF × Int) :=
  let res : MD_RTF :=
    match b with
    | .DOC => render_leave_block_doc r
    | .QUOTE => render_leave_block_quote r
    | .UL _ => render_leave_block_ul r
    | .OL _ _ _ => render_leave_block_ol r
    | .LI => render_leave_block_li r
    | .HR => r
    | .H level => render_leave_block_h r level
    | .CODE => render_leave_block_code r
    | .P => render_leave_block_p r
    | .HTML => r
    | .TABLE _ => render_leave_block_table r
    | .THEAD => render_leave_block_thead r
    | .TBODY => r
    | .TR => render_leave_block_tr r
    | .TH _ => render_leave_block_th r
    | .TD _ => render_leave_block_td r
  some (res, 0)

/-- Function `enter_span_callback`: the new context and the returned status. -/
def enter_span_callback (s : MD_SPAN) (r : MD_RTF) : Option (MD_RTF × Int) :=
  let res : Option MD_RTF :=
    match s with
    | .EM => some (RENDER_VERBATIM r (cstr "\\i "))
    | .STRONG => some (RENDER_VERBATIM r (cstr "\\b "))
    | .U => some (RENDER_VERBATIM r (cstr "\\ul "))
    | .DEL => some (RENDER_VERBATIM r (cstr "\\strike "))
    | .A href => render_enter_span_url r href
    | .CODE => some (render_font_mono r)
    | _ => some r
  res.map (fun r => (r, 0))

/-- Function `leave_span_callback`: the new context and the returned status. -/
def leave_span_callback (s : MD_SPAN) (r : MD_RTF) : Option (MD_RTF × Int) :=
  let res : MD_RTF :=
    match s with
    | .EM => RENDER_VERBATIM r (cstr "\\i0 ")
    | .STRONG => RENDER_VERBATIM r (cstr "\\b0 ")
    | .U => RENDER_VERBATIM r (cstr "\\ul0 ")
    | .DEL => RENDER_VERBATIM r (cstr "\\strike0 ")
    | .A _ => render_leave_span_url r
    | .CODE => render_font_norm r
    | _ => r
  some (res, 0)

/-- Function `text_callback`: the new context and the returned status. -/
def text_callback (p : Platform) (type : MD_TEXTTYPE) (text : List Byte) (r : MD_RTF) :
    Option (MD_RTF × Int) :=
  let res : Option MD_RTF :=
    match type with
    | .NULLCHAR => some (RENDER_VERBATIM r (cstr "\x00"))
    | .BR => some (RENDER_VERBATIM r (cstr "\\line1"))
    | .SOFTBR => some (RENDER_VERBATIM r (cstr "\r\n"))
    | .HTML => render_rtf_escaped r text
    | .ENTITY => render_entity p.ulong_max r text render_rtf_escaped
    | _ => render_rtf_escaped r text
  res.map (fun r => (r, 0))

/-- Dispatch of one event to its callback. -/
def dispatch (p : Platform) (e : Event) (r : MD_RTF) : Option (MD_RTF × Int) :=
  match e with
  | .enter_block b => enter_block_callback p b r
  | .leave_block b => leave_block_callback b r
  | .enter_span s => enter_span_callback s r
  | .leave_span s => leave_span_callback s r
  | .text t d => text_callback p t d r

/-- The parsing engine's side of the contract: events are delivered in document
order, and a callback returning a nonzero status aborts the parse with that status.
Returns the final context and the status. -/
def run_events (p : Platform) : List Event → MD_RTF → Option (MD_RTF × Int)
  | [], r => some (r, 0)
  | e :: es, r =>
    match dispatch p e r with
    | none => none
    | some (r1, ret) => if ret ≠ 0 then some (r1, ret) else run_events p es r1

/-! ## Entry point `md_rtf` -/

/-- The `%i` conversion of `sprintf` applied to an `unsigned` value read as `int`. -/
def fmt_i (n : Nat) : List Byte :=
  if n % 2 ^ 32 < 2 ^ 31 then ultostr (n % 2 ^ 32) 10
  else cstr "-" ++ ultostr (2 ^ 32 - n % 2 ^ 32) 10

/-- `sprintf` into a character array of `cap` bytes: the string stored, or `none` when
the string and its terminator do not fit the array. -/
def sprintf_slot (cap : Nat) (s : List Byte) : Option (List Byte) :=
  if s.length + 1 ≤ cap then some s else none

/-- Writes of `md_rtf` to `cw_fs`. -/
def md_rtf_cw_fs (p : Platform) (font_base : Nat) : Fin 2 → List Byte
  | 0 => cstr "\\fs" ++ fmt_u font_base
  | 1 => cstr "\\fs" ++ fmt_u (p.fmul 9 10 font_base)

/-- Writes of `md_rtf` to `cw_hf`. -/
def md_rtf_cw_hf (p : Platform) (font_base : Nat) : Fin 6 → List Byte
  | 0 => cstr "\\fs" ++ fmt_u (p.fmul 22 10 font_base) ++ cstr "\\sa" ++ fmt_u (2 * font_base) ++ cstr "\\b "
  | 1 => cstr "\\fs" ++ fmt_u (p.fmul 17 10 font_base) ++ cstr "\\sa" ++ fmt_u (2 * font_base) ++ cstr "\\b "
  | 2 => cstr "\\fs" ++ fmt_u (p.fmul 14 10 font_base) ++ cstr "\\sa" ++ fmt_u (2 * font_base) ++ cstr "\\b "
  | 3 => cstr "\\fs" ++ fmt_u (p.fmul 12 10 font_base) ++ cstr "\\sa" ++ fmt_u (2 * font_base) ++ cstr "\\b\\i "
  | 4 => cstr "\\fs" ++ fmt_u (p.fmul 11 10 font_base) ++ cstr "\\sa" ++ fmt_u (2 * font_base) ++ cstr "\\b\\i "
  | 5 => cstr "\\fs" ++ fmt_u font_base ++ cstr "\\sa" ++ fmt_u (2 * font_base) ++ cstr "\\b\\i "

/-- Writes of `md_rtf` to `cw_sa`. -/
def md_rtf_cw_sa (font_base : Nat) : Fin 3 → List Byte
  | 0 => cstr "\\sa" ++ fmt_u (2 * font_base) ++ cstr " "
  | 1 => cstr "\\sa" ++ fmt_u (3 * font_base) ++ cstr " "
  | 2 => cstr "\\sa" ++ fmt_u (6 * font_base) ++ cstr " "

/-- Writes of `md_rtf` to `cw_li`: entry `i` is `\li` with `20 * (i + 1) * font_base`. -/
def md_rtf_cw_li (font_base : Nat) (i : Fin 8) : List Byte :=
  cstr "\\li" ++ fmt_u (20 * (i.val + 1) * font_base)

/-- Writes of `md_rtf` to `cw_tr`. -/
def md_rtf_cw_tr (font_base : Nat) : Fin 2 → List Byte
  | 0 => cstr "\\trgaph" ++ fmt_u (6 * font_base) ++ cstr "\\trleft" ++ fmt_u (12 * font_base)
  | 1 => cstr "\\trgaph" ++ fmt_u (3 * font_base) ++ cstr "\\trrh" ++ fmt_u (16 * font_base)
          ++ cstr "\\trleft" ++ fmt_u (12 * font_base)

/-- Writes of `md_rtf` to `cw_fi`; `-10*font_base` is computed in `unsigned`. -/
def md_rtf_cw_fi (font_base : Nat) : Fin 2 → List Byte
  | 0 => cstr "\\fi" ++ fmt_i ((2 ^ 32 - 10) * font_base)
  | 1 => cstr "\\fi" ++ fmt_i ((2 ^ 32 - 12) * font_base)

/-- Writes of `md_rtf` to `cw_cx`. -/
def md_rtf_cw_cx (p : Platform) (page_width page_margin : Nat) : Fin 2 → List Byte
  | 0 => cstr "\\cellx" ++ fmt_u (p.text_width page_width page_margin) ++ cstr " "
  | 1 => cstr "\\cellx" ++ fmt_u (page_width * 2) ++ cstr " "

/-- Whether every `sprintf` of `md_rtf` stays inside its slot of the `MD_RTF` struct:
`cw_fs[2][8]`, `cw_hf[6][16]`, `cw_sa[3][16]`, `cw_li[8][16]`, `cw_tr[2][32]`,
`cw_fi[2][16]`, `cw_cx[2][16]`. -/
def md_rtf_cw_fits (p : Platform) (font_base page_width page_margin : Nat) : Bool :=
  (List.finRange 2).all (fun i => (sprintf_slot 8 (md_rtf_cw_fs p font_base i)).isSome)
  && (List.finRange 6).all (fun i => (sprintf_slot 16 (md_rtf_cw_hf p font_base i)).isSome)
  && (List.finRange 3).all (fun i => (sprintf_slot 16 (md_rtf_cw_sa font_base i)).isSome)
  && (List.finRange 8).all (fun i => (sprintf_slot 16 (md_rtf_cw_li font_base i)).isSome)
  && (List.finRange 2).all (fun i => (sprintf_slot 32 (md_rtf_cw_tr font_base i)).isSome)
  && (List.finRange 2).all (fun i => (sprintf_slot 16 (md_rtf_cw_fi font_base i)).isSome)
  && (List.finRange 2).all (fun i =>
        (sprintf_slot 16 (md_rtf_cw_cx p page_width page_margin i)).isSome)

/-- The part of `md_rtf` that comes before the call of `md_parse`, except the
byte-order-mark test.  `render` is the local variable as it is found on the stack: the
fields `md_rtf` does not assign (`list`, `tabl_cols`, `tabl_head`) keep their
indeterminate content, and `render.out` is what the sink already holds.  The result is
`none` when a `sprintf` writes past its slot. -/
def md_rtf_setup (p : Platform) (render : MD_RTF) (renderer_flags font_size doc_width : Nat) :
    Option MD_RTF :=
  let font_base0 := (2 * font_size) % 2 ^ 32
  let page_width := p.fmul 56689 1000 doc_width
  let page_height := p.fmul 141428 100000 page_width
  let page_margin := 400
  let font_base := if font_base0 > 98 then 98 else font_base0
  if md_rtf_cw_fits p font_base page_width page_margin then
    some { render with
      flags := renderer_flags
      font_base := font_base
      page_width := page_width
      page_height := page_height
      page_margin := page_margin
      list_depth := 2 ^ 32 - 1
      list_stop := 0
      list_reset := 0
      no_p_end := 0
      escape_map := md_rtf_escape_map
      cw_fs := md_rtf_cw_fs p font_base
      cw_hf := md_rtf_cw_hf p font_base
      cw_sa := md_rtf_cw_sa font_base
      cw_li := md_rtf_cw_li font_base
      cw_tr := md_rtf_cw_tr font_base
      cw_fi := md_rtf_cw_fi font_base
      cw_cx := md_rtf_cw_cx p page_width page_margin }
  else none

/-- The byte-order-mark test of `md_rtf`: the input handed to `md_parse`. -/
def md_rtf_skip_bom (renderer_flags : Nat) (input : List Byte) : List Byte :=
  if renderer_flags &&& MD_RTF_FLAG_SKIP_UTF8_BOM ≠ 0 then
    if input.length ≥ 3 && input.take 3 == [0xef, 0xbb, 0xbf] then input.drop 3 else input
  else input

/-- Function `md_rtf`.  `md_parse` stands for the parsing engine: from the input and
the parser flags it yields the events it delivers and the status it reports when no
callback aborts.  Returns the final context (whose `out` is the sink) and the returned
status. -/
def md_rtf (p : Platform) (md_parse : List Byte → Nat → List Event × Int) (render : MD_RTF)
    (input : List Byte) (parser_flags renderer_flags font_size doc_width : Nat) :
    Option (MD_RTF × Int) :=
  match md_rtf_setup p render renderer_flags font_size doc_width with
  | none => none
  | some r =>
    let parsed := md_parse (md_rtf_skip_bom renderer_flags input) parser_flags
    match run_events p parsed.1 r with
    | none => none
    | some (r1, ret) => some (r1, if ret ≠ 0 then ret else parsed.2)

/-- Escape sequence written by `render_url_escaped` for a byte that needs escaping. -/
def url_escape_seq (ch : Byte) : List Byte :=
  if ch.val = 38 then c_str (cstr "&amp;")
  else [37, hex_chars.getD ((ch.val >>> 4) &&& 0xf) 0, hex_chars.getD (ch.val &&& 0xf) 0]

/-- Bytes written by `render_url_escaped` for one input byte under escape table `m`. -/
def url_escaped_byte (m : Byte → Nat) (ch : Byte) : List Byte :=
  if m ch &&& NEED_URL_ESC_FLAG != 0 then url_escape_seq ch else [ch]

/-- Bytes written by the `switch` of `render_rtf_escaped` for a reserved byte. -/
def rtf_reserved_seq (ch : Byte) : List Byte :=
  if ch.val = 92 then c_str (cstr "\\\\")
  else if ch.val = 123 then c_str (cstr "\\\x7b")
  else if ch.val = 125 then c_str (cstr "\\\x7d")
  else if ch.val = 10 then c_str (cstr "\\line1")
  else []

/-- Bytes written and number of bytes consumed by `render_non_ascii` on `s`, whose
first byte is `s0`. -/
def non_ascii_seq (s : List Byte) (s0 : Byte) : List Byte × Nat :=
  match render_non_ascii_decode s s0 with
  | some (u, b) =>
    if b > 0 then (c_str (cstr "\\u") ++ c_str (ultostr u 10), b)
    else (c_str (cstr "\\\x27") ++ c_str (ultostr s0.val 16), 1)
  | none => ([], 1)

/-- Bytes written by `render_rtf_escaped` under escape table `m`, by recursion on the
remaining input; the first argument bounds the number of steps. -/
def rtf_escaped_aux (m : Byte → Nat) : Nat → List Byte → List Byte
  | 0, _ => []
  | _ + 1, [] => []
  | n + 1, ch :: rest =>
    if m ch &&& NEED_RTF_ESC_FLAG != 0 then
      if ch.val > 0x7F then
        (non_ascii_seq (ch :: rest) ch).1
          ++ rtf_escaped_aux m n (rest.drop ((non_ascii_seq (ch :: rest) ch).2 - 1))
      else rtf_reserved_seq ch ++ rtf_escaped_aux m n rest
    else ch :: rtf_escaped_aux m n rest

/-- Bytes written by `render_rtf_escaped` for `data` under escape table `m`. -/
def rtf_escaped_bytes (m : Byte → Nat) (data : List Byte) : List Byte :=
  rtf_escaped_aux m data.length data

/-- The decimal numeral of `n` as bytes, by the standard library's `Nat.toDigits`. -/
def decimal (n : Nat) : List Byte := (Nat.toDigits 10 n).map (fun c => Fin.ofNat c.toNat)

/-- The platform of the concrete evaluations: 64-bit `unsigned long` and binary32
`float`, as on x86-64 Linux. -/
def sample_platform : Platform := f32_platform (2 ^ 64 - 1)

/-- Some content of the local variable `render` of `md_rtf` before it is assigned. -/
def sample_render : MD_RTF where
  out := []
  flags := 0
  escape_map := fun _ => 0
  page_width := 0
  page_height := 0
  page_margin := 0
  font_base := 0
  list := fun _ => ⟨0, 0, 0, [], [], []⟩
  list_depth := 0
  list_stop := 0
  list_reset := 0
  tabl_cols := 0
  tabl_head := 0
  no_p_end := 0
  cw_fs := fun _ => []
  cw_hf := fun _ => []
  cw_sa := fun _ => []
  cw_li := fun _ => []
  cw_tr := fun _ => []
  cw_fi := fun _ => []
  cw_cx := fun _ => []

/-- The context `md_rtf` builds for font size 12 and document width 210 (the values
used by `main.c`) with no renderer flag, on the sample platform. -/
def sample_context : MD_RTF :=
  (md_rtf_setup sample_platform sample_render 0 12 210).getD sample_render

/-- A decimal digit character `0`..`9`. -/
def is_dec_digit (b : Byte) : Prop := 48 ≤ b.val ∧ b.val ≤ 57

/-- A hexadecimal digit character `0`..`9`, `a`..`f`, `A`..`F`. -/
def is_hex_digit (b : Byte) : Prop :=
  (48 ≤ b.val ∧ b.val ≤ 57) ∨ (97 ≤ b.val ∧ b.val ≤ 102) ∨ (65 ≤ b.val ∧ b.val ≤ 70)

/-- The value of a digit character (decimal or hexadecimal). -/
def digit_value (b : Byte) : Nat :=
  if b.val ≤ 57 then b.val - 48 else if 97 ≤ b.val then b.val - 87 else b.val - 55

/-- The number written by the digit characters `ds` in base `base`, most significant
digit first. -/
def numeral_value (base : Nat) (ds : List Byte) : Nat :=
  ds.foldl (fun acc d => acc * base + digit_value d) 0

/-- The bytes written by `render_enter_block_doc`: the document header. -/
def doc_header (r : MD_RTF) : List Byte :=
  c_str (cstr "\x7b\\rtf1\\ansi\\ansicpg1252\\deff0\x7b\\fonttbl\x7b\\f0\\fswiss Calibri;\x7d\x7b\\f1\\fmodern Courier New;\x7d\x7b\\f2\\fnil Symbol;\x7d\x7d\x7b\\colortbl;\\red0\\green0\\blue0;\\red255\\green255\\blue255;\\red180\\green180\\blue180;\\red0\\green102\\blue204;\\red230\\green230\\blue230;\x7d\x7b\\*\\generator MD4C-RTF\x7d")
    ++ c_str (cstr "\\paperw" ++ fmt_u r.page_width ++ cstr "\\paperh" ++ fmt_u r.page_height
      ++ cstr "\\margl" ++ fmt_u r.page_margin ++ cstr "\\margr" ++ fmt_u r.page_margin
      ++ cstr "\\margt" ++ fmt_u r.page_margin ++ cstr "\\margb" ++ fmt_u r.page_margin)
    ++ c_str (cstr "\\uc0\r\n\\pard")
    ++ c_str (r.cw_sa 2)

/-- The event stream of the document `# Title`, blank line, `Hello *world*.`. -/
def title_hello_events : List Event :=
  [.enter_block .DOC,
   .enter_block (.H 1), .text .NORMAL (cstr "Title"), .leave_block (.H 1),
   .enter_block .P, .text .NORMAL (cstr "Hello "),
   .enter_span .EM, .text .NORMAL (cstr "world"), .leave_span .EM,
   .text .NORMAL (cstr "."), .leave_block .P,
   .leave_block .DOC]

/-! ## Group balance of an RTF byte stream -/

/-- Number of unescaped occurrences of the byte `c` in `s`, scanning left to right with
a backslash consuming the byte after it; `esc` tells whether the byte before `s` was
such a backslash. -/
def count_unescaped (c : Byte) : Bool → List Byte → Nat
  | _, [] => 0
  | true, _ :: t => count_unescaped c false t
  | false, b :: t =>
    if b.val = 92 then count_unescaped c true t
    else (if b = c then 1 else 0) + count_unescaped c false t

/-- Number of unescaped opening braces of `s`. -/
def group_opens (s : List Byte) : Nat := count_unescaped 123 false s

/-- Number of unescaped closing braces of `s`. -/
def group_closes (s : List Byte) : Nat := count_unescaped 125 false s

/-- One step of the group scanner on state (escape pending, depth); `none` when a group
is closed at depth 0. -/
def scan_step (st : Bool × Nat) (b : Byte) : Option (Bool × Nat) :=
  if st.1 then some (false, st.2)
  else if b.val = 92 then some (true, st.2)
  else if b.val = 123 then some (false, st.2 + 1)
  else if b.val = 125 then (if st.2 = 0 then none else some (false, st.2 - 1))
  else some (false, st.2)

/-- The group scanner: the state after `s`, or `none` when some prefix closes more groups
than it opened. -/
def scan : List Byte → Bool × Nat → Option (Bool × Nat)
  | [], st => some st
  | b :: t, st =>
    match scan_step st b with
    | none => none
    | some st1 => scan t st1

/-- Bookkeeping of a chunk of output on state (escape pending, need, level): `need`
counts the groups the chunk closes below its starting level. -/
def track (st : Bool × Nat × Nat) (b : Byte) : Bool × Nat × Nat :=
  if st.1 then (false, st.2.1, st.2.2)
  else if b.val = 92 then (true, st.2.1, st.2.2)
  else if b.val = 123 then (false, st.2.1, st.2.2 + 1)
  else if b.val = 125 then
    (if st.2.2 = 0 then (false, st.2.1 + 1, 0) else (false, st.2.1, st.2.2 - 1))
  else (false, st.2.1, st.2.2)

/-- The chunk `s`, started outside an escape at level `k` or above, never goes below
`k` levels under its start, ends outside an escape, and moves the level from `k` to `m`. -/
def Lvl (k m : Nat) (s : List Byte) : Prop :=
  ∀ need cur, s.foldl track (false, need, cur + k) = (false, need, cur + m)

/-- Executable test for `Lvl k m s`. -/
def lvlb (k m : Nat) (s : List Byte) : Bool := s.foldl track (false, 0, k) == (false, 0, m)

/-- The precomputed control-word strings of a context are neutral for group balance:
each, read as a C string, opens and closes no group and ends outside an escape. -/
structure CwOk (r : MD_RTF) : Prop where
  fs : ∀ i, Lvl 0 0 (c_str (r.cw_fs i))
  hf : ∀ i, Lvl 0 0 (c_str (r.cw_hf i))
  sa : ∀ i, Lvl 0 0 (c_str (r.cw_sa i))
  li : ∀ i, Lvl 0 0 (c_str (r.cw_li i))
  tr : ∀ i, Lvl 0 0 (c_str (r.cw_tr i))
  fi : ∀ i, Lvl 0 0 (c_str (r.cw_fi i))
  cx : ∀ i, Lvl 0 0 (c_str (r.cw_cx i))

/-- A string without NUL that is neutral for group balance. -/
def CwStr (s : List Byte) : Prop := (∀ b ∈ s, b ≠ 0) ∧ Lvl 0 0 s

/-- Executable test for `CwStr`. -/
def cwstrb (s : List Byte) : Bool := s.all (fun b => b != 0) && lvlb 0 0 s

/-! ## Well-nested event sequences -/

/-- An open block or span. -/
inductive Frame
  | block (b : MD_BLOCK)
  | span (s : MD_SPAN)
  deriving DecidableEq, Repr

/-- Number of open lists among the open frames. -/
def open_lists : List Frame → Nat
  | [] => 0
  | .block (.UL _) :: t => open_lists t + 1
  | .block (.OL _ _ _) :: t => open_lists t + 1
  | _ :: t => open_lists t

/-- Number of RTF groups the open frames keep open: one for the document, two for
each link. -/
def group_depth : List Frame → Nat
  | [] => 0
  | .block .DOC :: t => group_depth t + 1
  | .span (.A _) :: t => group_depth t + 2
  | _ :: t => group_depth t

/-- What the parsing engine guarantees of an event delivered while the frames `stk` are
open: a list is opened only while fewer than 8 lists are open, a list item occurs
inside a list, a heading level is in 1..6, and an entity text ends with `;`. -/
def event_ok (stk : List Frame) : Event → Bool
  | .enter_block (.UL _) => open_lists stk < 8
  | .enter_block (.OL _ _ _) => open_lists stk < 8
  | .enter_block .LI => 0 < open_lists stk
  | .enter_block (.H level) => 1 ≤ level && level ≤ 6
  | .text .ENTITY data => data.getLast? == some 59
  | _ => true

/-- The open frames after an event: an enter event opens a frame, a leave event closes
the innermost frame and must match it, a text event changes nothing. -/
def next_stack (stk : List Frame) : Event → Option (List Frame)
  | .enter_block b => some (.block b :: stk)
  | .enter_span s => some (.span s :: stk)
  | .leave_block b =>
    match stk with
    | f :: t => if f = .block b then some t else none
    | [] => none
  | .leave_span s =>
    match stk with
    | f :: t => if f = .span s then some t else none
    | [] => none
  | .text _ _ => some stk

/-- The events `es`, delivered while the frames `stk` are open, are well nested and
leave no frame open. -/
def well_nested_from : List Frame → List Event → Bool
  | stk, [] => stk.isEmpty
  | stk, e :: es =>
    event_ok stk e &&
      match next_stack stk e with
      | some stk1 => well_nested_from stk1 es
      | none => false

/-- A well-nested event sequence. -/
def well_nested (es : List Event) : Bool := well_nested_from [] es

/-- The marker and spacing strings of a list level are neutral for group balance. -/
structure ListOk (l : MD_RTF_LIST) : Prop where
  tx : Lvl 0 0 (c_str l.cw_tx)
  li : Lvl 0 0 (c_str l.cw_li)
  sa : Lvl 0 0 (c_str l.cw_sa)

/-- What holds of the context while the frames `stk` are open. -/
structure Inv (stk : List Frame) (r : MD_RTF) : Prop where
  map : r.escape_map = md_rtf_escape_map
  flag : r.flags &&& MD_RTF_FLAG_VERBATIM_ENTITIES = 0
  cw : CwOk r
  depth : r.list_depth = (open_lists stk + 2 ^ 32 - 1) % 2 ^ 32
  nlists : open_lists stk ≤ 8
  lists : ∀ i : Fin 8, i.val < open_lists stk → ListOk (r.list i)
  scan : scan r.out (false, 0) = some (false, group_depth stk)

/-- The context `r1` comes from `r` by writing a chunk that moves the group level from
`k` to `m`, with the escape table, the flags, the control words and the list state
unchanged. -/
structure Step (k m : Nat) (r r1 : MD_RTF) : Prop where
  pre : r.out <+: r1.out
  lvl : Lvl k m (r1.out.drop r.out.length)
  map : r1.escape_map = r.escape_map
  flags : r1.flags = r.flags
  cw_fs : r1.cw_fs = r.cw_fs
  cw_hf : r1.cw_hf = r.cw_hf
  cw_sa : r1.cw_sa = r.cw_sa
  cw_li : r1.cw_li = r.cw_li
  cw_tr : r1.cw_tr = r.cw_tr
  cw_fi : r1.cw_fi = r.cw_fi
  cw_cx : r1.cw_cx = r.cw_cx
  list : r1.list = r.list
  list_depth : r1.list_depth = r.list_depth

/-- The context `r1` comes from `r` by writing a chunk that moves the group level from
`k` to `m`, with the escape table, the flags and the control words unchanged (the list
state may differ). -/
structure StepW (k m : Nat) (r r1 : MD_RTF) : Prop where
  pre : r.out <+: r1.out
  lvl : Lvl k m (r1.out.drop r.out.length)
  map : r1.escape_map = r.escape_map
  flags : r1.flags = r.flags
  cw_fs : r1.cw_fs = r.cw_fs
  cw_hf : r1.cw_hf = r.cw_hf
  cw_sa : r1.cw_sa = r.cw_sa
  cw_li : r1.cw_li = r.cw_li
  cw_tr : r1.cw_tr = r.cw_tr
  cw_fi : r1.cw_fi = r.cw_fi
  cw_cx : r1.cw_cx = r.cw_cx

/-- The value of `list_depth` after the handler of an event, from its value `d` before:
list enter is `++r->list_depth`, list leave is `r->list_depth--`, both in `unsigned`. -/
def list_depth_after (d : Nat) : Event → Nat
  | .enter_block (.UL _) => (d + 1) % 2 ^ 32
  | .enter_block (.OL _ _ _) => (d + 1) % 2 ^ 32
  | .leave_block (.UL _) => (d + 2 ^ 32 - 1) % 2 ^ 32
  | .leave_block (.OL _ _ _) => (d + 2 ^ 32 - 1) % 2 ^ 32
  | _ => d

/-- Whether the handler of the event, run in context `r`, stays inside the arrays it
indexes and inside its text: a list item needs `list_depth` below 8, a heading its level
in 1..6, an entity text its closing `;`. -/
def handler_defined (r : MD_RTF) : Event → Bool
  | .enter_block .LI => r.list_depth < 8
  | .enter_block (.H level) => 1 ≤ level && level ≤ 6
  | .text .ENTITY data => data.getLast? == some 59
  | _ => true

/-- The open frames after the events `es`, delivered while the frames `stk` are open;
`none` when a leave event does not match the innermost open frame. -/
def stack_after : List Frame → List Event → Option (List Frame)
  | stk, [] => some stk
  | stk, e :: es =>
    match next_stack stk e with
    | some stk1 => stack_after stk1 es
    | none => none

/-- Document enter, then eight times list enter and list-item enter, then a ninth list
enter: nine lists nested in one another, the first eight with an open item. -/
def nine_lists : List Event :=
  .enter_block .DOC ::
    ((List.replicate 8 [Event.enter_block (.UL true), .enter_block .LI]).flatten
      ++ [.enter_block (.UL true)])

/-- The bytes `render_list_start` writes for the level record `l`, `fs` being `cw_fs[0]`
and `fi` being `cw_fi`: the
paragraph reset, the normal font size, the marker group (for an ordered list the number
`count + start` and the delimiter, for an unordered list the bullet, then a tab), the
numbering description, the indent, the space-after and the first-line indent. -/
def list_start_bytes (fs : List Byte) (fi : Fin 2 → List Byte) (l : MD_RTF_LIST) : List Byte :=
  cstr "\\pard" ++ c_str fs ++ cstr "\x7b\\pntext\\f0 "
    ++ (if l.type = MD_RTF_LIST_TYPE_OL then
          ultostr ((l.count + l.start) % 2 ^ 32) 10 ++ c_str l.cw_tx
            ++ cstr "\\tab\x7d\x7b\\*\\pn\\pnlvlbody\\pnf0\\pnstart"
            ++ ultostr ((l.count + l.start) % 2 ^ 32) 10 ++ cstr "\\pndec\x7b\\pntxta"
        else c_str l.cw_tx ++ cstr "\\tab\x7d\x7b\\*\\pn\\pnlvlblt\\pnf0\x7b\\pntxtb")
    ++ c_str l.cw_tx ++ cstr "\x7d\x7d" ++ c_str l.cw_li ++ c_str l.cw_sa
    ++ (if l.type = MD_RTF_LIST_TYPE_OL then c_str (fi 1) else c_str (fi 0))

/-- The bytes `render_list_item` writes for the level record `l`: the marker group with,
for an ordered list, the number `count + start`, then the delimiter or bullet and a tab. -/
def list_item_bytes (l : MD_RTF_LIST) : List Byte :=
  cstr "\x7b\\pntext\\f0 "
    ++ (if l.type = MD_RTF_LIST_TYPE_OL then ultostr ((l.count + l.start) % 2 ^ 32) 10 else [])
    ++ c_str l.cw_tx ++ cstr "\\tab\x7d"

/-- The entry `n` of the list stack `ls`, for `n` inside the stack. -/
def level_at (ls : Fin 8 → MD_RTF_LIST) (n : Nat) : MD_RTF_LIST := ls (Fin.ofNat n)

/-- The list stack `ls` with its entry `n` replaced by `l`, for `n` inside the stack. -/
def level_set (ls : Fin 8 → MD_RTF_LIST) (n : Nat) (l : MD_RTF_LIST) : Fin 8 → MD_RTF_LIST :=
  Function.update ls (Fin.ofNat n) l

/-- The level record `render_enter_block_ul` stores at depth `d` over the record `old`,
`cw_sa` and `cw_li` being the control-word tables of the context. -/
def ul_level (cw_sa : Fin 3 → List Byte) (cw_li : Fin 8 → List Byte) (old : MD_RTF_LIST)
    (d : Nat) (is_tight : Bool) : MD_RTF_LIST :=
  { old with
    type := MD_RTF_LIST_TYPE_UL
    count := 0
    cw_tx := g_cw_list_bullt (Fin.ofNat (d % 2))
    cw_sa := if is_tight then cw_sa 0 else cw_sa 1
    cw_li := cw_li (Fin.ofNat d) }

/-- The level record `render_enter_block_ol` stores at depth `d` over the record `old`,
`cw_sa` and `cw_li` being the control-word tables of the context. -/
def ol_level (cw_sa : Fin 3 → List Byte) (cw_li : Fin 8 → List Byte) (old : MD_RTF_LIST)
    (d : Nat) (start : Nat) (is_tight : Bool) (mark_delimiter : Byte) : MD_RTF_LIST :=
  { old with
    type := MD_RTF_LIST_TYPE_OL
    count := 0
    start := start
    cw_tx := if mark_delimiter.val = 41 then g_cw_list_delim 1 else g_cw_list_delim 0
    cw_sa := if is_tight then cw_sa 0 else cw_sa 1
    cw_li := cw_li (Fin.ofNat d) }

/-- The bytes `render_end_block` writes, `sa` being `cw_sa[2]`. -/
def end_block_bytes (sa : List Byte) : List Byte :=
  cstr "\\pard\\f0\\fs0" ++ c_str sa ++ cstr "\\par\r\n"

/-- The context `r` with its sink and its list state replaced: the sink holds `out`, the
list stack is `ls`, and `d`, `stop`, `reset` are `list_depth`, `list_stop`, `list_reset`. -/
def list_ctx (r : MD_RTF) (out : List Byte) (ls : Fin 8 → MD_RTF_LIST) (d stop reset : Nat) :
    MD_RTF :=
  { r with out := out, list := ls, list_depth := d, list_stop := stop, list_reset := reset }

/-- The events of an unordered list whose first item holds the text `t0` and a nested
ordered list of two items (texts `t1`, `t2`), and whose second item holds the text `t3`. -/
def nested_list_events (is_tight : Bool) (start : Nat) (ol_tight : Bool) (mark_delimiter : Byte)
    (t0 t1 t2 t3 : List Byte) : List Event :=
  [.enter_block (.UL is_tight), .enter_block .LI, .text .NORMAL t0,
   .enter_block (.OL start ol_tight mark_delimiter),
   .enter_block .LI, .text .NORMAL t1, .leave_block .LI,
   .enter_block .LI, .text .NORMAL t2, .leave_block .LI,
   .leave_block (.OL start ol_tight mark_delimiter),
   .leave_block .LI,
   .enter_block .LI, .text .NORMAL t3, .leave_block .LI,
   .leave_block (.UL is_tight)]

/-- Modelled from the spec: the marker token of the item number `k` (counted from 0) of an
ordered list that starts at `s` with the delimiter `c`, followed by one tab. -/
def ol_marker (s k : Nat) (c : Byte) : List Byte := decimal (s + k) ++ [c] ++ cstr "\\tab"

/-- Whether the event is inline content: a span or text. -/
def inline_event : Event → Bool
  | .enter_span _ => true
  | .leave_span _ => true
  | .text _ _ => true
  | _ => false

/-- The bytes the callbacks append to the sink for the events `es` in the context `r`:
the sink after the events are run from `r` with an empty sink. -/
def inline_bytes (p : Platform) (r : MD_RTF) (es : List Event) : List Byte :=
  ((run_events p es { r with out := [] }).map (fun x => x.1.out)).getD []

/-- The events of one list item that holds the events `es`. -/
def item_events (es : List Event) : List Event :=
  .enter_block .LI :: (es ++ [.leave_block .LI])

/-- The events of an ordered list whose items hold the events `items`. -/
def ol_list_events (start : Nat) (is_tight : Bool) (mark_delimiter : Byte)
    (items : List (List Event)) : List Event :=
  .enter_block (.OL start is_tight mark_delimiter)
    :: ((items.map item_events).flatten ++ [.leave_block (.OL start is_tight mark_delimiter)])

/-- Modelled from the spec: what the items from number `k` on write, `w` giving the bytes
of the content of an item: for each item the marker group of the list-item routine, the
content of the item and one paragraph break. -/
def ol_item_list_bytes (w : List Event → List Byte) (s : Nat) (c : Byte) :
    Nat → List (List Event) → List Byte
  | _, [] => []
  | k, es :: rest =>
    cstr "\x7b\\pntext\\f0 " ++ ol_marker s k c ++ cstr "\x7d" ++ w es ++ cstr "\\par"
      ++ ol_item_list_bytes w s c (k + 1) rest

/-- The events of a loose ordered list with start 3 and delimiter `)`: two items, each
holding one paragraph, with the texts `a` and `b`. -/
def loose_ol_events : List Event :=
  [.enter_block (.OL 3 false 41),
   .enter_block .LI, .enter_block .P, .text .NORMAL (cstr "a"), .leave_block .P, .leave_block .LI,
   .enter_block .LI, .enter_block .P, .text .NORMAL (cstr "b"), .leave_block .P, .leave_block .LI,
   .leave_block (.OL 3 false 41)]

/-- Modelled from the spec: `(W - 2M - 0.2W) / n` truncated to an integer, in exact
arithmetic, for `0.8 W ≥ 2 M`: the quotient is `(4 W - 10 M) / (5 n)`. -/
def cw_exact (W M n : Nat) : Nat := (4 * W - 10 * M) / (5 * n)

/-- The events up to the first row of the head of a table with one column. -/
def one_column_row_events : List Event :=
  [.enter_block (.TABLE 1), .enter_block .THEAD, .enter_block .TR]

/-- The bytes one iteration of the loop of `render_enter_block_tr` writes for a cell whose
right boundary is `b`, `head` being the value of `tabl_head`: the cell properties, the
background `\clcbpat5` in a table head only, and `\cellx` with the boundary. -/
def tr_cell_bytes (head : Nat) (b : Nat) : List Byte :=
  cstr "\\clvertalc\\clbrdrt\\brdrs\\brdrw20\\brdrcf3\\clbrdrb\\brdrs\\brdrw20\\brdrcf3\\clbrdrl\\brdrs\\brdrw20\\brdrcf3\\clbrdrr\\brdrs\\brdrw20\\brdrcf3"
    ++ (if head ≠ 0 then cstr "\\clcbpat5" else []) ++ cstr "\\cellx" ++ decimal b

/-- Whether the event can occur between the enter and the leave of a table: the section,
row and cell blocks, spans and text. -/
def table_inner_event : Event → Bool
  | .enter_block .THEAD => true
  | .enter_block .TBODY => true
  | .enter_block .TR => true
  | .enter_block (.TH _) => true
  | .enter_block (.TD _) => true
  | .enter_block _ => false
  | .leave_block .THEAD => true
  | .leave_block .TBODY => true
  | .leave_block .TR => true
  | .leave_block (.TH _) => true
  | .leave_block (.TD _) => true
  | .leave_block _ => false
  | _ => true

/-- The context `r1` has the page geometry, the column count and the row control words of
the context `r`. -/
def TableFrame (r r1 : MD_RTF) : Prop :=
  r1.page_width = r.page_width ∧ r1.page_margin = r.page_margin ∧
    r1.tabl_cols = r.tabl_cols ∧ r1.cw_tr = r.cw_tr

/-- The events of the document `> > a`, `>`, `> b` up to the leave of the inner quote: a
quote holding a quote that holds the paragraph `a`; the outer quote is still open. -/
def nested_quote_events : List Event :=
  [.enter_block .DOC, .enter_block .QUOTE, .enter_block .QUOTE,
   .enter_block .P, .text .NORMAL (cstr "a"), .leave_block .P,
   .leave_block .QUOTE]

/-- The value of `no_p_end` after the handler of an event, from its value `v` before: the
enter of a quote or code block stores 1, the leave of one stores 0. -/
def no_p_end_after (v : Nat) : Event → Nat
  | .enter_block .QUOTE => 1
  | .enter_block .CODE => 1
  | .leave_block .QUOTE => 0
  | .leave_block .CODE => 0
  | _ => v

/-- The value of `list_stop` after the handler of an event, from its value `v` before: the
enter of a list item stores 1, the leave of one stores 0 (when it is not 0 already). -/
def list_stop_after (v : Nat) : Event → Nat
  | .enter_block .LI => 1
  | .leave_block .LI => 0
  | _ => v

/-- The value of `tabl_cols` after the handler of an event, from its value `v` before: the
enter of a table stores its column count, the leave of a table stores 0. -/
def tabl_cols_after (v : Nat) : Event → Nat
  | .enter_block (.TABLE col_count) => col_count
  | .leave_block (.TABLE _) => 0
  | _ => v

/-- Whether the event is the leave of a list item or the leave of a list. -/
def li_close_event : Event → Bool
  | .leave_block .LI => true
  | .leave_block (.UL _) => true
  | .leave_block (.OL _ _ _) => true
  | _ => false

/-- Number of list-leave events among the events. -/
def list_leaves : List Event → Nat
  | [] => 0
  | .leave_block (.UL _) :: es => list_leaves es + 1
  | .leave_block (.OL _ _ _) :: es => list_leaves es + 1
  | _ :: es => list_leaves es

/-- Whether the event is the enter or the leave of a table. -/
def is_table_event : Event → Bool
  | .enter_block (.TABLE _) => true
  | .leave_block (.TABLE _) => true
  | _ => false

/-- Whether every brace of `s` is the byte after an unescaped backslash and `s` does not
end in a pending backslash, scanning left to right with a backslash consuming the byte after
it; `esc` tells whether the byte before `s` was such a backslash. -/
def no_raw_brace : Bool → List Byte → Bool
  | esc, [] => !esc
  | true, _ :: t => no_raw_brace false t
  | false, b :: t =>
    if b.val = 92 then no_raw_brace true t
    else b.val != 123 && b.val != 125 && no_raw_brace false t

/-- A chunk of seven-bit bytes without a raw newline in which every brace is escaped. -/
def RtfText (s : List Byte) : Prop :=
  (∀ b ∈ s, b.val < 128 ∧ b.val ≠ 10) ∧ no_raw_brace false s = true

/-- Executable test for `RtfText`. -/
def rtf_textb (s : List Byte) : Bool :=
  s.all (fun b => decide (b.val < 128) && b.val != 10) && no_raw_brace false s

/-- Whether the byte is a printable seven-bit character other than the space, the double
quote, the backslash and the braces. -/
def url_out_ok (b : Byte) : Bool :=
  decide (32 < b.val) && decide (b.val < 127) && b.val != 34 && b.val != 92 && b.val != 123
    && b.val != 125

/-! ## The output sink of `main.c` -/

/-- Struct `MD2RTF_CTX`.  `buf` is the content of the allocated block, all `cap` bytes of
it (also those not written yet); `cap`, `len` and `brd` are the fields of that name. -/
structure MD2RTF_CTX where
  buf : List Byte
  cap : Nat
  len : Nat
  brd : Nat
  deriving DecidableEq

/-- The loop `while(mdrtf->cap < need) mdrtf->cap *= 2;` of `md2rtf_write_cb`, in `size_t`
arithmetic modulo `2 ^ bits`: the value of `cap` when the loop ends within `fuel` tests of
its condition, `none` when it does not. -/
def md2rtf_grow (bits : Nat) : Nat → Nat → Nat → Option Nat
  | 0, _, _ => none
  | fuel + 1, cap, need =>
    if cap < need then md2rtf_grow bits fuel (cap * 2 % 2 ^ bits) need else some cap

/-- A successful `realloc(buf, n)`: the block of `n` bytes that keeps the first bytes of
`buf`; the bytes past the old block are what the allocator leaves there, `fresh i` at
index `i`. -/
def realloc_ok (fresh : Nat → Byte) (buf : List Byte) (n : Nat) : List Byte :=
  buf.take n ++ (List.range (n - buf.length)).map (fun i => fresh (buf.length + i))

/-- The call `memcpy(buf + off, data, size)` on the block `buf`, `size` being the length of
`data`: `none` when it writes past the end of the block. -/
def memcpy_at (buf : List Byte) (off : Nat) (data : List Byte) : Option (List Byte) :=
  if off + data.length ≤ buf.length then
    some (buf.take off ++ data ++ buf.drop (off + data.length))
  else none

/-- Function `md2rtf_write_cb` of `main.c`, called with the bytes `data` and their number as
`size`; `size_t` has `bits` bits, `realloc` succeeds, and `fuel` bounds the number of tests
of the loop condition.  `none` stands for a loop that does not end within `fuel` or a
`memcpy` past the block. -/
def md2rtf_write_cb (bits : Nat) (fresh : Nat → Byte) (fuel : Nat) (data : List Byte)
    (mdrtf : MD2RTF_CTX) : Option MD2RTF_CTX :=
  let size := data.length
  if (mdrtf.len + size) % 2 ^ bits > mdrtf.cap then
    if mdrtf.cap > 0 then
      let need := (mdrtf.len + size) % 2 ^ bits
      match md2rtf_grow bits fuel mdrtf.cap need with
      | none => none
      | some cap1 =>
        match memcpy_at (realloc_ok fresh mdrtf.buf cap1) mdrtf.len data with
        | none => none
        | some buf1 =>
          some { mdrtf with buf := buf1, cap := cap1, len := (mdrtf.len + size) % 2 ^ bits }
    else some mdrtf
  else
    match memcpy_at mdrtf.buf mdrtf.len data with
    | none => none
    | some buf1 => some { mdrtf with buf := buf1, len := (mdrtf.len + size) % 2 ^ bits }

/-- Function `md2rtf_ctx_init` of `main.c`, on a block of 4096 bytes with the content
`fresh`. -/
def md2rtf_ctx_init (fresh : Nat → Byte) : MD2RTF_CTX :=
  { buf := (List.range 4096).map fresh, cap := 4096, len := 0, brd := 0 }

/-! ## Theorems -/

theorem render_verbatim_nil (r : MD_RTF) : render_verbatim r [] = r := by
  simp [render_verbatim]

theorem takeWhile_length_le_take {α} (p : α → Bool) (s : List α) :
    s.take (s.takeWhile p).length = s.takeWhile p := by
  induction s with
  | nil => simp
  | cons a t ih =>
    by_cases h : p a <;> simp [List.takeWhile_cons, h, ih]

theorem drop_takeWhile_length {α} (p : α → Bool) (s : List α) :
    s.drop (s.takeWhile p).length = s.dropWhile p := by
  induction s with
  | nil => simp
  | cons a t ih =>
    by_cases h : p a <;> simp [List.takeWhile_cons, List.dropWhile_cons, h, ih]

theorem url_skip_eq (r : MD_RTF) (data : List Byte) :
    ∀ (n off : Nat), data.length + 1 ≤ n + off → off ≤ data.length →
      url_skip r data n off
        = some (off + ((data.drop off).takeWhile (fun ch => !NEED_URL_ESC r ch)).length) := by
  intro n
  induction n with
  | zero => intro off h h2; omega
  | succ n ih =>
    intro off h h2
    unfold url_skip
    by_cases hlt : off < data.length
    · have hd : data.drop off = data[off] :: data.drop (off + 1) := List.drop_eq_getElem_cons hlt
      rw [List.getElem?_eq_getElem hlt, hd]
      by_cases hne : NEED_URL_ESC r data[off]
      · simp [hne, List.takeWhile_cons]
      · simp only [hne, List.takeWhile_cons]
        simp
        rw [ih (off + 1) (by omega) (by omega)]
        simp; omega
    · have : data.drop off = [] := List.drop_eq_nil_of_le (by omega)
      rw [List.getElem?_eq_none (by omega)]
      simp [this]

theorem flatMap_url_takeWhile (m : Byte → Nat) (s : List Byte) :
    (s.takeWhile (fun ch => !(m ch &&& NEED_URL_ESC_FLAG != 0))).flatMap (url_escaped_byte m)
      = s.takeWhile (fun ch => !(m ch &&& NEED_URL_ESC_FLAG != 0)) := by
  induction s with
  | nil => simp
  | cons a t ih =>
    by_cases h : (m a &&& NEED_URL_ESC_FLAG != 0) = true
    · simp [List.takeWhile_cons, h]
    · simp only [List.takeWhile_cons, h, Bool.not_false, if_true, List.flatMap_cons] at ih ⊢
      simp only [Bool.not_eq_true] at h
      rw [ih]
      simp [url_escaped_byte, h]

theorem render_url_escaped_loop_eq (data : List Byte) :
    ∀ (n : Nat) (r : MD_RTF) (off : Nat), data.length + 1 ≤ n + off → off ≤ data.length →
      render_url_escaped_loop data n r off off
        = some ({ r with out := r.out ++ (data.drop off).flatMap (url_escaped_byte r.escape_map) },
                data.length) := by
  intro n
  induction n with
  | zero => intro r off h h2; omega
  | succ n ih =>
    intro r off h h2
    unfold render_url_escaped_loop
    rw [url_skip_eq r data _ off (by omega) h2]
    simp only
    set s := data.drop off with hs
    set p : Byte → Bool := (fun ch => !NEED_URL_ESC r ch) with hp
    have hsplit : s.takeWhile p ++ s.dropWhile p = s := List.takeWhile_append_dropWhile p s
    have hslice : slice data off (off + (s.takeWhile p).length) = s.takeWhile p := by
      simp only [slice, Nat.add_sub_cancel_left]
      exact takeWhile_length_le_take p s
    have hr1 : (if off + (s.takeWhile p).length > off
        then render_verbatim r (slice data off (off + (s.takeWhile p).length)) else r)
        = render_verbatim r (s.takeWhile p) := by
      by_cases hz : (s.takeWhile p).length = 0
      · have : s.takeWhile p = [] := List.length_eq_zero.mp hz
        simp [this, render_verbatim_nil]
      · rw [if_pos (by omega), hslice]
    rw [hr1]
    have hdrop : data.drop (off + (s.takeWhile p).length) = s.dropWhile p := by
      rw [← drop_takeWhile_length p s, hs, List.drop_drop]
    have hget : data[off + (s.takeWhile p).length]? = (s.dropWhile p).head? := by
      rw [← hdrop, List.head?_drop]
    rw [hget]
    have hrun : (s.takeWhile p).flatMap (url_escaped_byte r.escape_map) = s.takeWhile p :=
      flatMap_url_takeWhile r.escape_map s
    cases hdw : s.dropWhile p with
    | nil =>
      have hlen : off + (s.takeWhile p).length = data.length := by
        have h1 : s.takeWhile p = s := by rw [hdw, List.append_nil] at hsplit; exact hsplit
        rw [h1, hs, List.length_drop]; omega
      have h1 : s.takeWhile p = s := by rw [hdw, List.append_nil] at hsplit; exact hsplit
      simp only [List.head?_nil]
      rw [hlen, ← h1, hrun]
      simp [render_verbatim, h1]
    | cons ch rest =>
      have hlt : off + (s.takeWhile p).length < data.length := by
        have : (data.drop (off + (s.takeWhile p).length)).length ≠ 0 := by
          rw [hdrop, hdw]; simp
        rw [List.length_drop] at this; omega
      have hrest : data.drop (off + (s.takeWhile p).length + 1) = rest := by
        have := List.drop_drop 1 (off + (s.takeWhile p).length) data
        rw [hdrop, hdw] at this
        simpa using this.symm
      have hch : NEED_URL_ESC r ch = true := by
        have := List.head_dropWhile_not p s (by rw [hdw]; simp)
        simp only [hdw, List.head_cons, hp] at this
        simpa using this
      simp only [List.head?_cons]
      have hsem : ∀ r1 : MD_RTF, r1.escape_map = r.escape_map →
          (if ch.val = 38 then RENDER_VERBATIM r1 (cstr "&amp;")
            else render_verbatim r1
              [37, hex_chars.getD ((ch.val >>> 4) &&& 0xf) 0, hex_chars.getD (ch.val &&& 0xf) 0])
          = render_verbatim r1 (url_escaped_byte r.escape_map ch) := by
        intro r1 _
        have : (r.escape_map ch &&& NEED_URL_ESC_FLAG != 0) = true := hch
        simp only [url_escaped_byte, this, if_true, url_escape_seq, RENDER_VERBATIM]
        split <;> rfl
      rw [hsem (render_verbatim r (s.takeWhile p)) rfl, ih _ _ (by omega) (by omega), hrest]
      congr 1
      have : s.flatMap (url_escaped_byte r.escape_map)
          = s.takeWhile p ++ (url_escaped_byte r.escape_map ch
              ++ rest.flatMap (url_escaped_byte r.escape_map)) := by
        conv_lhs => rw [← hsplit, List.flatMap_append, hrun, hdw, List.flatMap_cons]
      rw [this]
      simp [render_verbatim, List.append_assoc]

theorem render_url_escaped_eq (r : MD_RTF) (data : List Byte) :
    render_url_escaped r data
      = some { r with out := r.out ++ data.flatMap (url_escaped_byte r.escape_map) } := by
  unfold render_url_escaped
  rw [render_url_escaped_loop_eq data _ r 0 (by omega) (by omega)]
  simp

theorem render_non_ascii_decode_total (s0 : Byte) (rest : List Byte) :
    ∃ u b, render_non_ascii_decode (s0 :: rest) s0 = some (u, b) ∧ b ≤ rest.length + 1 := by
  unfold render_non_ascii_decode
  rcases rest with _ | ⟨s1, _ | ⟨s2, _ | ⟨s3, r3⟩⟩⟩ <;>
    simp only [List.length_cons, List.length_nil, List.getElem?_cons_succ,
      List.getElem?_cons_zero] <;>
    (repeat' split) <;>
    first
      | exact ⟨_, _, rfl, by omega⟩
      | (exfalso; omega)

theorem non_ascii_seq_bounds (s0 : Byte) (rest : List Byte) :
    1 ≤ (non_ascii_seq (s0 :: rest) s0).2 ∧ (non_ascii_seq (s0 :: rest) s0).2 ≤ rest.length + 1 := by
  obtain ⟨u, b, h, hb⟩ := render_non_ascii_decode_total s0 rest
  unfold non_ascii_seq
  rw [h]
  by_cases hb0 : b > 0
  · simp [hb0]; omega
  · simp [hb0]

theorem render_non_ascii_eq (r : MD_RTF) (s0 : Byte) (rest : List Byte) :
    render_non_ascii r (s0 :: rest)
      = some ({ r with out := r.out ++ (non_ascii_seq (s0 :: rest) s0).1 },
              (non_ascii_seq (s0 :: rest) s0).2) := by
  obtain ⟨u, b, h, hb⟩ := render_non_ascii_decode_total s0 rest
  unfold render_non_ascii non_ascii_seq
  simp only [List.getElem?_cons_zero, h]
  by_cases hb0 : b > 0
  · simp [hb0, render_unicode, RENDER_VERBATIM, render_verbatim]
  · simp [hb0, render_cp1252, RENDER_VERBATIM, render_verbatim]

theorem rtf_escaped_aux_fuel (m : Byte → Nat) :
    ∀ (n : Nat) (s : List Byte), s.length ≤ n →
      rtf_escaped_aux m n s = rtf_escaped_aux m s.length s := by
  intro n
  induction n using Nat.strong_induction_on with
  | _ n ih =>
    intro s hs
    cases s with
    | nil => cases n <;> simp [rtf_escaped_aux]
    | cons ch rest =>
      cases n with
      | zero => simp at hs
      | succ n =>
        simp only [List.length_cons] at hs ⊢
        unfold rtf_escaped_aux
        have h1 : rtf_escaped_aux m n rest = rtf_escaped_aux m rest.length rest :=
          ih n (by omega) rest (by omega)
        have h2 : ∀ k, rtf_escaped_aux m n (rest.drop k)
            = rtf_escaped_aux m rest.length (rest.drop k) := by
          intro k
          have hl : (rest.drop k).length ≤ rest.length := by simp
          rw [ih n (by omega) (rest.drop k) (by omega),
              ih rest.length (by omega) (rest.drop k) hl]
        rw [h1, h2]

theorem rtf_escaped_bytes_nil (m : Byte → Nat) : rtf_escaped_bytes m [] = [] := by
  simp [rtf_escaped_bytes, rtf_escaped_aux]

theorem rtf_escaped_bytes_cons (m : Byte → Nat) (ch : Byte) (rest : List Byte) :
    rtf_escaped_bytes m (ch :: rest) =
      if m ch &&& NEED_RTF_ESC_FLAG != 0 then
        if ch.val > 0x7F then
          (non_ascii_seq (ch :: rest) ch).1
            ++ rtf_escaped_bytes m (rest.drop ((non_ascii_seq (ch :: rest) ch).2 - 1))
        else rtf_reserved_seq ch ++ rtf_escaped_bytes m rest
      else ch :: rtf_escaped_bytes m rest := by
  simp only [rtf_escaped_bytes, List.length_cons]
  conv_lhs => unfold rtf_escaped_aux
  rw [rtf_escaped_aux_fuel m rest.length (rest.drop _) (by simp)]

theorem rtf_escaped_bytes_run (m : Byte → Nat) (run t : List Byte)
    (h : ∀ b ∈ run, (m b &&& NEED_RTF_ESC_FLAG != 0) = false) :
    rtf_escaped_bytes m (run ++ t) = run ++ rtf_escaped_bytes m t := by
  induction run with
  | nil => simp
  | cons a run ih =>
    have ha := h a (by simp)
    rw [List.cons_append, rtf_escaped_bytes_cons, ha]
    simp only [Bool.false_eq_true, if_false, List.cons_append]
    rw [ih (fun b hb => h b (by simp [hb]))]

theorem rtf_skip1_eq (r : MD_RTF) (data : List Byte) :
    ∀ (n off : Nat), data.length + 1 ≤ n + off → off ≤ data.length →
      rtf_skip1 r data n off
        = some (off + ((data.drop off).takeWhile (fun ch => !NEED_RTF_ESC r ch)).length) := by
  intro n
  induction n with
  | zero => intro off h h2; omega
  | succ n ih =>
    intro off h h2
    unfold rtf_skip1
    by_cases hlt : off < data.length
    · have hd : data.drop off = data[off] :: data.drop (off + 1) := List.drop_eq_getElem_cons hlt
      rw [List.getElem?_eq_getElem hlt, hd]
      by_cases hne : NEED_RTF_ESC r data[off]
      · simp [hne, List.takeWhile_cons]
      · simp only [hne, List.takeWhile_cons]
        simp
        rw [ih (off + 1) (by omega) (by omega)]
        simp; omega
    · have : data.drop off = [] := List.drop_eq_nil_of_le (by omega)
      rw [List.getElem?_eq_none (by omega)]
      simp [this]

theorem rtf_skip4_spec (r : MD_RTF) (data : List Byte) :
    ∀ (n off : Nat), data.length + 1 ≤ n + off → off ≤ data.length →
      ∃ j, rtf_skip4 r data n off = some (off + j) ∧
        j ≤ ((data.drop off).takeWhile (fun ch => !NEED_RTF_ESC r ch)).length := by
  intro n
  induction n with
  | zero => intro off h h2; omega
  | succ n ih =>
    intro off h h2
    unfold rtf_skip4
    by_cases hlt : off + 3 < data.length
    · rw [if_pos hlt]
      have h0 : off < data.length := by omega
      have h1 : off + 1 < data.length := by omega
      have h2' : off + 2 < data.length := by omega
      rw [List.getElem?_eq_getElem h0, List.getElem?_eq_getElem h1,
        List.getElem?_eq_getElem h2', List.getElem?_eq_getElem hlt]
      simp only
      by_cases hall : (!NEED_RTF_ESC r data[off] && !NEED_RTF_ESC r data[off + 1]
          && !NEED_RTF_ESC r data[off + 2] && !NEED_RTF_ESC r data[off + 3]) = true
      · rw [if_pos hall]
        obtain ⟨j, hj, hjl⟩ := ih (off + 4) (by omega) (by omega)
        refine ⟨j + 4, ?_, ?_⟩
        · rw [hj]; congr 1; omega
        · have hd : data.drop off = data[off] :: data[off + 1] :: data[off + 2] :: data[off + 3]
              :: data.drop (off + 4) := by
            rw [List.drop_eq_getElem_cons h0, List.drop_eq_getElem_cons h1,
              List.drop_eq_getElem_cons h2', List.drop_eq_getElem_cons hlt]
          simp only [Bool.and_eq_true, Bool.not_eq_true'] at hall
          obtain ⟨⟨⟨ha, hb⟩, hc⟩, hd'⟩ := hall
          rw [hd]
          simp only [List.takeWhile_cons, ha, hb, hc, hd', Bool.not_false, if_true,
            List.length_cons]
          omega
      · rw [if_neg hall]
        exact ⟨0, rfl, Nat.zero_le _⟩
    · rw [if_neg hlt]
      exact ⟨0, rfl, Nat.zero_le _⟩

theorem takeWhile_drop_of_le {α} (p : α → Bool) (s : List α) (j : Nat)
    (hj : j ≤ (s.takeWhile p).length) :
    (s.drop j).takeWhile p = (s.takeWhile p).drop j := by
  induction s generalizing j with
  | nil => simp
  | cons a t ih =>
    cases j with
    | zero => simp
    | succ j =>
      by_cases h : p a
      · simp only [List.takeWhile_cons, h, if_true, List.length_cons] at hj ⊢
        simp only [List.drop_succ_cons]
        exact ih j (by omega)
      · simp [List.takeWhile_cons, h] at hj

theorem rtf_skip_both (r : MD_RTF) (data : List Byte) (n off : Nat)
    (h : data.length + 1 ≤ n + off) (h2 : off ≤ data.length) :
    ∃ off1, rtf_skip4 r data n off = some off1 ∧
      rtf_skip1 r data n off1
        = some (off + ((data.drop off).takeWhile (fun ch => !NEED_RTF_ESC r ch)).length) := by
  obtain ⟨j, hj, hjl⟩ := rtf_skip4_spec r data n off h h2
  refine ⟨off + j, hj, ?_⟩
  have hlen : ((data.drop off).takeWhile (fun ch => !NEED_RTF_ESC r ch)).length
      ≤ data.length - off := by
    have := (List.takeWhile_sublist (fun ch => !NEED_RTF_ESC r ch) (l := data.drop off)).length_le
    simpa using this
  rw [rtf_skip1_eq r data n (off + j) (by omega) (by omega)]
  have : data.drop (off + j) = (data.drop off).drop j := by rw [List.drop_drop]
  rw [this, takeWhile_drop_of_le _ _ j hjl, List.length_drop]
  congr 1; omega

theorem rtf_escape_reserved_eq (r : MD_RTF) (ch : Byte) :
    rtf_escape_reserved r ch = { r with out := r.out ++ rtf_reserved_seq ch } := by
  unfold rtf_escape_reserved rtf_reserved_seq
  split
  · rfl
  · split
    · rfl
    · split
      · rfl
      · split
        · rfl
        · simp

theorem render_rtf_escaped_loop_eq (data : List Byte) :
    ∀ (n : Nat) (r : MD_RTF) (off : Nat), data.length + 1 ≤ n + off → off ≤ data.length →
      render_rtf_escaped_loop data n r off off
        = some ({ r with out := r.out ++ rtf_escaped_bytes r.escape_map (data.drop off) },
                data.length) := by
  intro n
  induction n with
  | zero => intro r off h h2; omega
  | succ n ih =>
    intro r off h h2
    unfold render_rtf_escaped_loop
    obtain ⟨off1, h4, h1⟩ := rtf_skip_both r data (data.length + 1) off (by omega) h2
    rw [h4]
    simp only
    rw [h1]
    simp only
    set s := data.drop off with hs
    set p : Byte → Bool := (fun ch => !NEED_RTF_ESC r ch) with hp
    have hsplit : s.takeWhile p ++ s.dropWhile p = s := List.takeWhile_append_dropWhile p s
    have hslice : slice data off (off + (s.takeWhile p).length) = s.takeWhile p := by
      simp only [slice, Nat.add_sub_cancel_left]
      exact takeWhile_length_le_take p s
    have hr1 : (if off + (s.takeWhile p).length > off
        then render_verbatim r (slice data off (off + (s.takeWhile p).length)) else r)
        = render_verbatim r (s.takeWhile p) := by
      by_cases hz : (s.takeWhile p).length = 0
      · have : s.takeWhile p = [] := List.length_eq_zero.mp hz
        simp [this, render_verbatim_nil]
      · rw [if_pos (by omega), hslice]
    rw [hr1]
    have hdrop : data.drop (off + (s.takeWhile p).length) = s.dropWhile p := by
      rw [← drop_takeWhile_length p s, hs, List.drop_drop]
    have hget : data[off + (s.takeWhile p).length]? = (s.dropWhile p).head? := by
      rw [← hdrop, List.head?_drop]
    rw [hget]
    have hrunok : ∀ b ∈ s.takeWhile p, (r.escape_map b &&& NEED_RTF_ESC_FLAG != 0) = false := by
      intro b hb
      have := List.mem_takeWhile_imp hb
      simpa [hp, NEED_RTF_ESC] using this
    have hspec : rtf_escaped_bytes r.escape_map s
        = s.takeWhile p ++ rtf_escaped_bytes r.escape_map (s.dropWhile p) := by
      conv_lhs => rw [← hsplit]
      exact rtf_escaped_bytes_run r.escape_map _ _ hrunok
    rw [hspec]
    cases hdw : s.dropWhile p with
    | nil =>
      have h1 : s.takeWhile p = s := by rw [hdw, List.append_nil] at hsplit; exact hsplit
      have hlen : off + (s.takeWhile p).length = data.length := by
        rw [h1, hs, List.length_drop]; omega
      simp only [List.head?_nil, rtf_escaped_bytes_nil, List.append_nil]
      rw [hlen]
      rfl
    | cons ch rest =>
      have hlt : off + (s.takeWhile p).length < data.length := by
        have : (data.drop (off + (s.takeWhile p).length)).length ≠ 0 := by
          rw [hdrop, hdw]; simp
        rw [List.length_drop] at this; omega
      have hch : (r.escape_map ch &&& NEED_RTF_ESC_FLAG != 0) = true := by
        have := List.head_dropWhile_not p s (by rw [hdw]; simp)
        simp only [hdw, List.head_cons, hp] at this
        simpa [NEED_RTF_ESC] using this
      simp only [List.head?_cons]
      rw [rtf_escaped_bytes_cons, hch]
      simp only [if_true]
      by_cases hhi : ch.val > 0x7F
      · rw [if_pos hhi, if_pos hhi, hdrop, hdw, render_non_ascii_eq]
        simp only
        obtain ⟨hk1, hk2⟩ := non_ascii_seq_bounds ch rest
        have hlen' : (ch :: rest).length = data.length - (off + (s.takeWhile p).length) := by
          rw [← hdw, ← hdrop, List.length_drop]
        simp only [List.length_cons] at hlen'
        rw [ih _ _ (by omega) (by omega)]
        have hd2 : data.drop (off + (s.takeWhile p).length + (non_ascii_seq (ch :: rest) ch).2)
            = rest.drop ((non_ascii_seq (ch :: rest) ch).2 - 1) := by
          rw [← List.drop_drop, hdrop, hdw]
          obtain ⟨k, hk⟩ : ∃ k, (non_ascii_seq (ch :: rest) ch).2 = k + 1 := ⟨_, (Nat.sub_add_cancel hk1).symm⟩
          rw [hk]; simp
        rw [hd2]
        simp [render_verbatim, List.append_assoc]
      · rw [if_neg hhi, if_neg hhi, rtf_escape_reserved_eq]
        have hrest : data.drop (off + (s.takeWhile p).length + 1) = rest := by
          have := List.drop_drop 1 (off + (s.takeWhile p).length) data
          rw [hdrop, hdw] at this
          simpa using this.symm
        rw [ih _ _ (by omega) (by omega), hrest]
        simp [render_verbatim, List.append_assoc]

theorem render_rtf_escaped_eq (r : MD_RTF) (data : List Byte) :
    render_rtf_escaped r data
      = some { r with out := r.out ++ rtf_escaped_bytes r.escape_map data } := by
  unfold render_rtf_escaped
  rw [render_rtf_escaped_loop_eq data _ r 0 (by omega) (by omega)]
  simp

theorem ultostr_digit_eq_digitChar (d : Nat) (h : d < 16) :
    ultostr_digit d = Fin.ofNat (Nat.digitChar d).toNat := by
  have : d = 0 ∨ d = 1 ∨ d = 2 ∨ d = 3 ∨ d = 4 ∨ d = 5 ∨ d = 6 ∨ d = 7 ∨ d = 8 ∨ d = 9
      ∨ d = 10 ∨ d = 11 ∨ d = 12 ∨ d = 13 ∨ d = 14 ∨ d = 15 := by omega
  rcases this with h | h | h | h | h | h | h | h | h | h | h | h | h | h | h | h <;>
    subst h <;> decide

theorem toDigitsCore_eq_fill (base : Nat) (hb : base ≤ 16) (hb0 : 0 < base) :
    ∀ (fuel n : Nat) (ds : List Char),
      (Nat.toDigitsCore base fuel n ds).map (fun c => (Fin.ofNat c.toNat : Byte))
        = (ultostr_fill fuel n base).reverse ++ ds.map (fun c => (Fin.ofNat c.toNat : Byte)) := by
  intro fuel
  induction fuel with
  | zero => intro n ds; simp [Nat.toDigitsCore, ultostr_fill]
  | succ k ih =>
    intro n ds
    have hd : ultostr_digit (n % base) = Fin.ofNat (Nat.digitChar (n % base)).toNat :=
      ultostr_digit_eq_digitChar _ (by have := Nat.mod_lt n hb0; omega)
    simp only [Nat.toDigitsCore, ultostr_fill]
    by_cases h0 : n / base = 0
    · simp [h0, hd]
    · simp only [h0, if_false, ne_eq, not_false_eq_true, if_true, List.reverse_cons]
      rw [ih]
      simp [hd]

theorem ultostr_fill_fuel (base : Nat) :
    ∀ (k n : Nat), n < base ^ (k + 1) → ∀ j, k + 1 ≤ j →
      ultostr_fill j n base = ultostr_fill (k + 1) n base := by
  intro k
  induction k with
  | zero =>
    intro n hn j hj
    simp at hn
    have h0 : n / base = 0 := Nat.div_eq_of_lt hn
    cases j with
    | zero => omega
    | succ j => simp [ultostr_fill, h0]
  | succ k ih =>
    intro n hn j hj
    cases j with
    | zero => omega
    | succ j =>
      simp only [ultostr_fill]
      by_cases h0 : n / base = 0
      · simp [h0]
      · simp only [ne_eq, h0, not_false_eq_true, if_true]
        have : n / base < base ^ (k + 1) := by
          apply Nat.div_lt_of_lt_mul
          rw [Nat.pow_succ, Nat.mul_comm] at hn
          exact hn
        rw [ih (n / base) this j (by omega)]
        simp only [ultostr_fill]

theorem ultostr_eq_decimal (n : Nat) (h : n < 2 ^ 64) : ultostr n 10 = decimal n := by
  unfold ultostr decimal Nat.toDigits
  rw [toDigitsCore_eq_fill 10 (by omega) (by omega)]
  simp only [List.map_nil, List.append_nil]
  congr 1
  have h32 : n < 10 ^ 32 := by
    have : (2 : Nat) ^ 64 < 10 ^ 32 := by norm_num
    omega
  by_cases hc : 32 ≤ n + 1
  · exact (ultostr_fill_fuel 10 31 n h32 (n + 1) hc).symm
  · have hlt : n < 10 ^ (n + 1) := by
      have := Nat.lt_pow_self (show 1 < 10 by omega) n
      calc n < 10 ^ n := this
        _ ≤ 10 ^ (n + 1) := Nat.pow_le_pow_right (by omega) (by omega)
    exact ultostr_fill_fuel 10 n n hlt 32 (by omega)

theorem md_rtf_setup_some (p : Platform) (render r : MD_RTF)
    (renderer_flags font_size doc_width : Nat)
    (h : md_rtf_setup p render renderer_flags font_size doc_width = some r) :
    ∃ font_base page_width, font_base ≤ 98 ∧
      r = { render with
        flags := renderer_flags
        font_base := font_base
        page_width := page_width
        page_height := p.fmul 141428 100000 page_width
        page_margin := 400
        list_depth := 2 ^ 32 - 1
        list_stop := 0
        list_reset := 0
        no_p_end := 0
        escape_map := md_rtf_escape_map
        cw_fs := md_rtf_cw_fs p font_base
        cw_hf := md_rtf_cw_hf p font_base
        cw_sa := md_rtf_cw_sa font_base
        cw_li := md_rtf_cw_li font_base
        cw_tr := md_rtf_cw_tr font_base
        cw_fi := md_rtf_cw_fi font_base
        cw_cx := md_rtf_cw_cx p page_width 400 } := by
  simp only [md_rtf_setup] at h
  refine ⟨if 2 * font_size % 2 ^ 32 > 98 then 98 else 2 * font_size % 2 ^ 32,
    p.fmul 56689 1000 doc_width, by split <;> omega, ?_⟩
  by_cases hfit : md_rtf_cw_fits p (if 2 * font_size % 2 ^ 32 > 98 then 98
      else 2 * font_size % 2 ^ 32) (p.fmul 56689 1000 doc_width) 400 = true
  · rw [if_pos hfit] at h
    exact (Option.some.inj h).symm
  · rw [if_neg hfit] at h
    cases h

theorem md_rtf_setup_escape_map (p : Platform) (render r : MD_RTF)
    (renderer_flags font_size doc_width : Nat)
    (h : md_rtf_setup p render renderer_flags font_size doc_width = some r) :
    r.escape_map = md_rtf_escape_map := by
  obtain ⟨fb, pw, _, hr⟩ := md_rtf_setup_some p render r renderer_flags font_size doc_width h
  rw [hr]

set_option maxRecDepth 100000 in
theorem sample_context_setup :
    md_rtf_setup sample_platform sample_render 0 12 210 = some sample_context := by
  have h : (md_rtf_setup sample_platform sample_render 0 12 210).isSome = true := by decide
  unfold sample_context
  cases hs : md_rtf_setup sample_platform sample_render 0 12 210 with
  | none => rw [hs] at h; cases h
  | some r => rfl

theorem sample_context_escape_map : sample_context.escape_map = md_rtf_escape_map :=
  md_rtf_setup_escape_map _ _ _ _ _ _ sample_context_setup

set_option maxRecDepth 100000 in
theorem rtf_escaped_bytes_printable :
    ∀ b : Byte, 0x20 ≤ b.val → b.val ≤ 0x7E → b.val ≠ 92 → b.val ≠ 123 → b.val ≠ 125 →
      rtf_escaped_bytes md_rtf_escape_map [b] = [b] := by
  decide

/-- C3: RTF escaping of a one-byte input maps a backslash to two backslashes, an opening
brace to backslash + brace, a closing brace to backslash + brace and a newline to the
control word `\line1`; every printable ASCII byte (0x20..0x7E) other than backslash and
the two braces is output unchanged. -/
theorem render_rtf_escaped_single_byte (r : MD_RTF) (hmap : r.escape_map = md_rtf_escape_map) :
    render_rtf_escaped r [92] = some { r with out := r.out ++ cstr "\\\\" } ∧
    render_rtf_escaped r [123] = some { r with out := r.out ++ cstr "\\\x7b" } ∧
    render_rtf_escaped r [125] = some { r with out := r.out ++ cstr "\\\x7d" } ∧
    render_rtf_escaped r [10] = some { r with out := r.out ++ cstr "\\line1" } ∧
    ∀ b : Byte, 0x20 ≤ b.val → b.val ≤ 0x7E → b.val ≠ 92 → b.val ≠ 123 → b.val ≠ 125 →
      render_rtf_escaped r [b] = some { r with out := r.out ++ [b] } := by
  refine ⟨?_, ?_, ?_, ?_, ?_⟩
  · rw [render_rtf_escaped_eq, hmap]
    have : rtf_escaped_bytes md_rtf_escape_map [92] = cstr "\\\\" := by decide
    rw [this]
  · rw [render_rtf_escaped_eq, hmap]
    have : rtf_escaped_bytes md_rtf_escape_map [123] = cstr "\\\x7b" := by decide
    rw [this]
  · rw [render_rtf_escaped_eq, hmap]
    have : rtf_escaped_bytes md_rtf_escape_map [125] = cstr "\\\x7d" := by decide
    rw [this]
  · rw [render_rtf_escaped_eq, hmap]
    have : rtf_escaped_bytes md_rtf_escape_map [10] = cstr "\\line1" := by decide
    rw [this]
  · intro b h1 h2 h3 h4 h5
    rw [render_rtf_escaped_eq, hmap, rtf_escaped_bytes_printable b h1 h2 h3 h4 h5]

/-- Witness of `render_rtf_escaped_single_byte`: the sample context and the byte `A`. -/
theorem render_rtf_escaped_single_byte_witness :
    sample_context.escape_map = md_rtf_escape_map ∧
    render_rtf_escaped sample_context [92]
      = some { sample_context with out := sample_context.out ++ cstr "\\\\" } ∧
    render_rtf_escaped sample_context [65]
      = some { sample_context with out := sample_context.out ++ [65] } :=
  ⟨sample_context_escape_map,
   (render_rtf_escaped_single_byte sample_context sample_context_escape_map).1,
   (render_rtf_escaped_single_byte sample_context sample_context_escape_map).2.2.2.2 65
     (by decide) (by decide) (by decide) (by decide) (by decide)⟩

set_option maxRecDepth 100000 in
theorem byte_lead2 : ∀ b : Byte, (b.val &&& 0xE0 = 0xC0 ↔ b.val / 32 = 6) ∧ b.val &&& 0x1F = b.val % 32 := by
  decide

set_option maxRecDepth 100000 in
theorem byte_lead3 : ∀ b : Byte, (b.val &&& 0xF0 = 0xE0 ↔ b.val / 16 = 14) ∧ b.val &&& 0x0F = b.val % 16 := by
  decide

set_option maxRecDepth 100000 in
theorem byte_lead4 : ∀ b : Byte, (b.val &&& 0xF8 = 0xF0 ↔ b.val / 8 = 30) ∧ b.val &&& 0x07 = b.val % 8 := by
  decide

set_option maxRecDepth 100000 in
theorem byte_cont : ∀ b : Byte, (b.val &&& 0xC0 = 0x80 ↔ b.val / 64 = 2) ∧ b.val &&& 0x3F = b.val % 64 := by
  decide

theorem shl_or_eq (a b i : Nat) (hb : b < 2 ^ i) : a <<< i ||| b = a * 2 ^ i + b := by
  rw [Nat.shiftLeft_eq, Nat.mul_comm, ← Nat.mul_add_lt_is_or hb]

theorem decode2_eq (b0 b1 : Byte) :
    (b0.val &&& 0x1F) <<< 6 ||| (b1.val &&& 0x3F) = b0.val % 32 * 64 + b1.val % 64 := by
  rw [(byte_lead2 b0).2, (byte_cont b1).2,
    shl_or_eq _ _ 6 (by have := Nat.mod_lt b1.val (show 64 > 0 by omega); omega)]
  omega

theorem decode3_eq (b0 b1 b2 : Byte) :
    (b0.val &&& 0x0F) <<< 12 ||| (b1.val &&& 0x3F) <<< 6 ||| (b2.val &&& 0x3F)
      = b0.val % 16 * 4096 + b1.val % 64 * 64 + b2.val % 64 := by
  rw [(byte_lead3 b0).2, (byte_cont b1).2, (byte_cont b2).2]
  have h1 := Nat.mod_lt b1.val (show 64 > 0 by omega)
  have h2 := Nat.mod_lt b2.val (show 64 > 0 by omega)
  have e1 : (b1.val % 64) <<< 6 = b1.val % 64 * 64 := by rw [Nat.shiftLeft_eq]
  rw [e1, shl_or_eq _ _ 12 (by omega)]
  have e2 : b0.val % 16 * 2 ^ 12 + b1.val % 64 * 64 = (b0.val % 16 * 64 + b1.val % 64) <<< 6 := by
    rw [Nat.shiftLeft_eq]; omega
  rw [e2, shl_or_eq _ _ 6 (by omega)]
  omega

theorem decode4_eq (b0 b1 b2 b3 : Byte) :
    (b0.val &&& 0x07) <<< 18 ||| (b1.val &&& 0x3F) <<< 12 ||| (b2.val &&& 0x3F) <<< 6
        ||| (b3.val &&& 0x3F)
      = b0.val % 8 * 262144 + b1.val % 64 * 4096 + b2.val % 64 * 64 + b3.val % 64 := by
  rw [(byte_lead4 b0).2, (byte_cont b1).2, (byte_cont b2).2, (byte_cont b3).2]
  have h1 := Nat.mod_lt b1.val (show 64 > 0 by omega)
  have h2 := Nat.mod_lt b2.val (show 64 > 0 by omega)
  have h3 := Nat.mod_lt b3.val (show 64 > 0 by omega)
  have e1 : (b1.val % 64) <<< 12 = b1.val % 64 * 4096 := by rw [Nat.shiftLeft_eq]
  have e2 : (b2.val % 64) <<< 6 = b2.val % 64 * 64 := by rw [Nat.shiftLeft_eq]
  rw [e1, e2, shl_or_eq _ _ 18 (by omega)]
  have e3 : b0.val % 8 * 2 ^ 18 + b1.val % 64 * 4096
      = (b0.val % 8 * 64 + b1.val % 64) <<< 12 := by
    rw [Nat.shiftLeft_eq]; omega
  rw [e3, shl_or_eq _ _ 12 (by omega)]
  have e4 : (b0.val % 8 * 64 + b1.val % 64) * 2 ^ 12 + b2.val % 64 * 64
      = ((b0.val % 8 * 64 + b1.val % 64) * 64 + b2.val % 64) <<< 6 := by
    rw [Nat.shiftLeft_eq]; omega
  rw [e4, shl_or_eq _ _ 6 (by omega)]
  omega

theorem c_str_eq_self (s : List Byte) (h : ∀ b ∈ s, b ≠ 0) : c_str s = s := by
  unfold c_str
  rw [List.takeWhile_eq_self_iff]
  intro b hb
  simpa using h b hb

theorem ultostr_digit_alnum (d : Nat) (h : d < 16) : ISALNUM (ultostr_digit d) = true := by
  have : d = 0 ∨ d = 1 ∨ d = 2 ∨ d = 3 ∨ d = 4 ∨ d = 5 ∨ d = 6 ∨ d = 7 ∨ d = 8 ∨ d = 9
      ∨ d = 10 ∨ d = 11 ∨ d = 12 ∨ d = 13 ∨ d = 14 ∨ d = 15 := by omega
  rcases this with h | h | h | h | h | h | h | h | h | h | h | h | h | h | h | h <;>
    subst h <;> decide

theorem ultostr_fill_alnum (base : Nat) (hb : base ≤ 16) (hb0 : 0 < base) :
    ∀ (k n : Nat), ∀ b ∈ ultostr_fill k n base, ISALNUM b = true := by
  intro k
  induction k with
  | zero => intro n b hb; simp [ultostr_fill] at hb
  | succ k ih =>
    intro n b hmem
    simp only [ultostr_fill, List.mem_cons] at hmem
    rcases hmem with h | h
    · rw [h]
      exact ultostr_digit_alnum _ (by have := Nat.mod_lt n hb0; omega)
    · split at h
      · exact ih _ b h
      · simp at h

theorem ultostr_alnum (n base : Nat) (hb : base ≤ 16) (hb0 : 0 < base) :
    ∀ b ∈ ultostr n base, ISALNUM b = true := by
  intro b hmem
  unfold ultostr at hmem
  rw [List.mem_reverse] at hmem
  exact ultostr_fill_alnum base hb hb0 32 n b hmem

theorem alnum_ne_zero (b : Byte) (h : ISALNUM b = true) : b ≠ 0 := by
  intro h0
  subst h0
  revert h
  decide

theorem c_str_ultostr (n base : Nat) (hb : base ≤ 16) (hb0 : 0 < base) :
    c_str (ultostr n base) = ultostr n base :=
  c_str_eq_self _ (fun b hmem => alnum_ne_zero b (ultostr_alnum n base hb hb0 b hmem))

theorem render_unicode_eq (r : MD_RTF) (u : Nat) :
    render_unicode r u = { r with out := r.out ++ (cstr "\\u" ++ ultostr u 10) } := by
  have h1 : c_str (cstr "\\u") = cstr "\\u" := by decide
  simp [render_unicode, RENDER_VERBATIM, render_verbatim, h1,
    c_str_ultostr u 10 (by omega) (by omega)]

/-- On an input that begins with a structurally well-formed 2-, 3- or 4-byte UTF-8
sequence (lead byte `110xxxxx`, `1110xxxx` or `11110xxx` followed by the required number
of `10xxxxxx` bytes), `render_non_ascii` succeeds without reading outside the input,
writes exactly `\u` followed by the decimal numeral of the encoded code point, and
returns the length of the sequence (2, 3 or 4). -/
theorem render_non_ascii_valid (r : MD_RTF) (rest : List Byte) :
    (∀ b0 b1 : Byte, b0.val / 32 = 6 → b1.val / 64 = 2 →
      render_non_ascii r (b0 :: b1 :: rest)
        = some ({ r with out := r.out ++ (cstr "\\u"
                    ++ decimal (b0.val % 32 * 64 + b1.val % 64)) }, 2)) ∧
    (∀ b0 b1 b2 : Byte, b0.val / 16 = 14 → b1.val / 64 = 2 → b2.val / 64 = 2 →
      render_non_ascii r (b0 :: b1 :: b2 :: rest)
        = some ({ r with out := r.out ++ (cstr "\\u"
                    ++ decimal (b0.val % 16 * 4096 + b1.val % 64 * 64 + b2.val % 64)) }, 3)) ∧
    (∀ b0 b1 b2 b3 : Byte, b0.val / 8 = 30 → b1.val / 64 = 2 → b2.val / 64 = 2 →
        b3.val / 64 = 2 →
      render_non_ascii r (b0 :: b1 :: b2 :: b3 :: rest)
        = some ({ r with out := r.out ++ (cstr "\\u"
                    ++ decimal (b0.val % 8 * 262144 + b1.val % 64 * 4096 + b2.val % 64 * 64
                        + b3.val % 64)) }, 4)) := by
  refine ⟨?_, ?_, ?_⟩
  · intro b0 b1 h0 h1
    have l0 := (byte_lead2 b0).1.mpr h0
    have c1 := (byte_cont b1).1.mpr h1
    have hu : b0.val % 32 * 64 + b1.val % 64 < 2 ^ 64 := by omega
    simp only [render_non_ascii, List.getElem?_cons_zero, render_non_ascii_decode, l0, if_true,
      List.length_cons, List.getElem?_cons_succ, c1, decode2_eq]
    simp [render_unicode_eq, ultostr_eq_decimal _ hu]
  · intro b0 b1 b2 h0 h1 h2
    have l0 := (byte_lead3 b0).1.mpr h0
    have n0 : ¬ (b0.val &&& 0xE0 = 0xC0) := by
      rw [(byte_lead2 b0).1]; omega
    have c1 := (byte_cont b1).1.mpr h1
    have c2 := (byte_cont b2).1.mpr h2
    have hu : b0.val % 16 * 4096 + b1.val % 64 * 64 + b2.val % 64 < 2 ^ 64 := by omega
    simp only [render_non_ascii, List.getElem?_cons_zero, render_non_ascii_decode, l0, n0,
      if_true, if_false, List.length_cons, List.getElem?_cons_succ, c1, c2, decode3_eq]
    simp [render_unicode_eq, ultostr_eq_decimal _ hu]
  · intro b0 b1 b2 b3 h0 h1 h2 h3
    have l0 := (byte_lead4 b0).1.mpr h0
    have n0 : ¬ (b0.val &&& 0xE0 = 0xC0) := by
      rw [(byte_lead2 b0).1]; omega
    have n1 : ¬ (b0.val &&& 0xF0 = 0xE0) := by
      rw [(byte_lead3 b0).1]; omega
    have c1 := (byte_cont b1).1.mpr h1
    have hu : b0.val % 8 * 262144 + b1.val % 64 * 4096 + b2.val % 64 * 64 + b3.val % 64
        < 2 ^ 64 := by omega
    simp only [render_non_ascii, List.getElem?_cons_zero, render_non_ascii_decode, l0, n0, n1,
      if_true, if_false, List.length_cons, List.getElem?_cons_succ, c1, decode4_eq]
    simp [render_unicode_eq, ultostr_eq_decimal _ hu]

set_option maxRecDepth 100000 in
theorem escape_map_high : ∀ b : Byte, b.val > 0x7F →
    (md_rtf_escape_map b &&& NEED_RTF_ESC_FLAG != 0) = true := by
  decide

theorem render_rtf_escaped_resume (r : MD_RTF) (hmap : r.escape_map = md_rtf_escape_map)
    (s0 : Byte) (rest c : List Byte) (k : Nat) (hhi : s0.val > 0x7F)
    (h : render_non_ascii r (s0 :: rest) = some ({ r with out := r.out ++ c }, k + 1)) :
    render_rtf_escaped r (s0 :: rest)
      = render_rtf_escaped { r with out := r.out ++ c } (rest.drop k) := by
  rw [render_non_ascii_eq] at h
  have h1 := (Prod.mk.inj (Option.some.inj h)).1
  have h2 := (Prod.mk.inj (Option.some.inj h)).2
  have hc : (non_ascii_seq (s0 :: rest) s0).1 = c := by
    have := congrArg MD_RTF.out h1
    exact List.append_cancel_left this
  rw [render_rtf_escaped_eq, render_rtf_escaped_eq, rtf_escaped_bytes_cons, hmap,
    escape_map_high s0 hhi]
  simp only [if_true, if_pos hhi, hc, h2, Nat.add_sub_cancel, List.append_assoc]

/-- C4: on an input that begins with a structurally well-formed 2-, 3- or 4-byte UTF-8
sequence (lead byte `110xxxxx`, `1110xxxx` or `11110xxx` followed by the required number
of `10xxxxxx` bytes), `render_non_ascii` succeeds without reading outside the input,
writes exactly `\u` followed by the decimal numeral of the encoded code point and
returns the length of the sequence (2, 3 or 4); `render_rtf_escaped`, run with the
escape table of `md_rtf`, writes the same and continues with the first byte after the
sequence. -/
theorem render_non_ascii_valid_utf8 (r : MD_RTF) (hmap : r.escape_map = md_rtf_escape_map)
    (rest : List Byte) :
    (∀ b0 b1 : Byte, b0.val / 32 = 6 → b1.val / 64 = 2 →
      render_non_ascii r (b0 :: b1 :: rest)
        = some ({ r with out := r.out ++ (cstr "\\u"
                    ++ decimal (b0.val % 32 * 64 + b1.val % 64)) }, 2) ∧
      render_rtf_escaped r (b0 :: b1 :: rest)
        = render_rtf_escaped { r with out := r.out ++ (cstr "\\u"
                    ++ decimal (b0.val % 32 * 64 + b1.val % 64)) } rest) ∧
    (∀ b0 b1 b2 : Byte, b0.val / 16 = 14 → b1.val / 64 = 2 → b2.val / 64 = 2 →
      render_non_ascii r (b0 :: b1 :: b2 :: rest)
        = some ({ r with out := r.out ++ (cstr "\\u"
                    ++ decimal (b0.val % 16 * 4096 + b1.val % 64 * 64 + b2.val % 64)) }, 3) ∧
      render_rtf_escaped r (b0 :: b1 :: b2 :: rest)
        = render_rtf_escaped { r with out := r.out ++ (cstr "\\u"
                    ++ decimal (b0.val % 16 * 4096 + b1.val % 64 * 64 + b2.val % 64)) } rest) ∧
    (∀ b0 b1 b2 b3 : Byte, b0.val / 8 = 30 → b1.val / 64 = 2 → b2.val / 64 = 2 →
        b3.val / 64 = 2 →
      render_non_ascii r (b0 :: b1 :: b2 :: b3 :: rest)
        = some ({ r with out := r.out ++ (cstr "\\u"
                    ++ decimal (b0.val % 8 * 262144 + b1.val % 64 * 4096 + b2.val % 64 * 64
                        + b3.val % 64)) }, 4) ∧
      render_rtf_escaped r (b0 :: b1 :: b2 :: b3 :: rest)
        = render_rtf_escaped { r with out := r.out ++ (cstr "\\u"
                    ++ decimal (b0.val % 8 * 262144 + b1.val % 64 * 4096 + b2.val % 64 * 64
                        + b3.val % 64)) } rest) := by
  refine ⟨?_, ?_, ?_⟩
  · intro b0 b1 h0 h1
    have h := (render_non_ascii_valid r rest).1 b0 b1 h0 h1
    exact ⟨h, render_rtf_escaped_resume r hmap b0 (b1 :: rest) _ 1 (by omega) h⟩
  · intro b0 b1 b2 h0 h1 h2
    have h := (render_non_ascii_valid r rest).2.1 b0 b1 b2 h0 h1 h2
    exact ⟨h, render_rtf_escaped_resume r hmap b0 (b1 :: b2 :: rest) _ 2 (by omega) h⟩
  · intro b0 b1 b2 b3 h0 h1 h2 h3
    have h := (render_non_ascii_valid r rest).2.2 b0 b1 b2 b3 h0 h1 h2 h3
    exact ⟨h, render_rtf_escaped_resume r hmap b0 (b1 :: b2 :: b3 :: rest) _ 3 (by omega) h⟩

/-- Witness of `render_non_ascii_valid_utf8`: the two bytes C3 A9 encode code point 233. -/
theorem render_non_ascii_valid_utf8_witness :
    sample_context.escape_map = md_rtf_escape_map ∧
    (195 : Byte).val / 32 = 6 ∧ (169 : Byte).val / 64 = 2 ∧
    render_non_ascii sample_context [195, 169]
      = some ({ sample_context with out := sample_context.out ++ (cstr "\\u"
                  ++ decimal ((195 : Byte).val % 32 * 64 + (169 : Byte).val % 64)) }, 2) :=
  ⟨sample_context_escape_map, by decide, by decide,
   ((render_non_ascii_valid_utf8 sample_context sample_context_escape_map []).1 195 169
      (by decide) (by decide)).1⟩

/-- C5 (the code departs from the claim): the four bytes F0 9F 41 42 start with a
4-byte lead whose second following byte is not of the form `10xxxxxx`, yet
`render_non_ascii` does not fall back to `\'f0` with result 1: it decodes the four bytes
as one code point, writes `\u127042` and returns 4, consuming the two ASCII letters. -/
theorem render_non_ascii_four_byte_unchecked (r : MD_RTF) :
    render_non_ascii r [0xF0, 0x9F, 0x41, 0x42]
      = some ({ r with out := r.out ++ cstr "\\u127042" }, 4) ∧
    render_non_ascii r [0xF0, 0x9F, 0x41, 0x42]
      ≠ some ({ r with out := r.out ++ cstr "\\\x27f0" }, 1) := by
  have h : non_ascii_seq [0xF0, 0x9F, 0x41, 0x42] 0xF0 = (cstr "\\u127042", 4) := by decide
  have e : render_non_ascii r [0xF0, 0x9F, 0x41, 0x42]
      = some ({ r with out := r.out ++ cstr "\\u127042" }, 4) := by
    rw [render_non_ascii_eq, h]
  refine ⟨e, ?_⟩
  rw [e]
  intro hc
  have := (Prod.mk.inj (Option.some.inj hc)).2
  omega

/-- C6: `render_rtf_escaped` terminates on every byte string.  Every call of
`render_non_ascii` on a non-empty remaining input returns a skip `k` with
`1 ≤ k ≤ size` and reads no byte outside the input (a read outside gives `none`); the
loop of `render_rtf_escaped`, run with a budget of `size + 1` iterations or more, ends
with the offset equal to the size, and `render_rtf_escaped` returns a result. -/
theorem render_rtf_escaped_terminates (r : MD_RTF) (data : List Byte) :
    (∀ (r1 : MD_RTF) (s0 : Byte) (rest : List Byte), ∃ r2 k,
        render_non_ascii r1 (s0 :: rest) = some (r2, k) ∧ 1 ≤ k ∧ k ≤ (s0 :: rest).length) ∧
    (∀ extra : Nat, ∃ r2,
        render_rtf_escaped_loop data (data.length + 1 + extra) r 0 0 = some (r2, data.length)) ∧
    (∃ r2, render_rtf_escaped r data = some r2) := by
  refine ⟨?_, ?_, ?_⟩
  · intro r1 s0 rest
    obtain ⟨h1, h2⟩ := non_ascii_seq_bounds s0 rest
    exact ⟨_, _, render_non_ascii_eq r1 s0 rest, h1, by simpa using h2⟩
  · intro extra
    exact ⟨_, render_rtf_escaped_loop_eq data _ r 0 (by omega) (by omega)⟩
  · exact ⟨_, render_rtf_escaped_eq r data⟩

/-- C8 (the code departs from the claim): in the escape table built by `md_rtf` the
entry of the byte 0 has the RTF-escape flag set and the URL-escape flag clear, because
`strchr` finds the terminator of the literal; the claim wants the RTF flag clear
(0 is none of backslash, braces, newline, and is below 0x80) and the URL flag set. -/
theorem md_rtf_escape_map_nul :
    md_rtf_escape_map 0 &&& NEED_RTF_ESC_FLAG ≠ 0 ∧
    md_rtf_escape_map 0 &&& NEED_URL_ESC_FLAG = 0 := by
  decide

set_option maxRecDepth 100000 in
theorem md_rtf_escape_map_nonzero : ∀ b : Byte, b ≠ 0 →
    ((md_rtf_escape_map b &&& NEED_RTF_ESC_FLAG ≠ 0) ↔
      (b.val = 92 ∨ b.val = 123 ∨ b.val = 125 ∨ b.val = 10 ∨ b.val ≥ 0x80)) ∧
    ((md_rtf_escape_map b &&& NEED_URL_ESC_FLAG ≠ 0) ↔
      (ISALNUM b = false ∧ b ∉ cstr "~-_.+!*(),%#@?=;:/$")) := by
  decide

/-- C7 (the code departs from the claim): on the one-byte input 0, URL escaping with the
escape table of `md_rtf` writes the byte 0 itself, not `%00`, although 0 is neither
alphanumeric nor in the safe set. -/
theorem render_url_escaped_nul (r : MD_RTF) (hmap : r.escape_map = md_rtf_escape_map) :
    render_url_escaped r [0] = some { r with out := r.out ++ [0] } ∧
    render_url_escaped r [0] ≠ some { r with out := r.out ++ cstr "%00" } := by
  have h : [(0 : Byte)].flatMap (url_escaped_byte md_rtf_escape_map) = [0] := by decide
  have e : render_url_escaped r [0] = some { r with out := r.out ++ [0] } := by
    rw [render_url_escaped_eq, hmap, h]
  refine ⟨e, ?_⟩
  rw [e]
  intro hc
  have h1 := congrArg MD_RTF.out (Option.some.inj hc)
  have h2 := List.append_cancel_left h1
  revert h2
  decide

/-- Witness of `render_url_escaped_nul`: the sample context. -/
theorem render_url_escaped_nul_witness :
    sample_context.escape_map = md_rtf_escape_map ∧
    render_url_escaped sample_context [0]
      = some { sample_context with out := sample_context.out ++ [0] } :=
  ⟨sample_context_escape_map,
   (render_url_escaped_nul sample_context sample_context_escape_map).1⟩

instance (b : Byte) : Decidable (is_dec_digit b) := by unfold is_dec_digit; infer_instance

instance (b : Byte) : Decidable (is_hex_digit b) := by unfold is_hex_digit; infer_instance

set_option maxRecDepth 100000 in
theorem digit_val_of_dec : ∀ b : Byte, is_dec_digit b →
    digit_val b = some (digit_value b) ∧ digit_value b < 10 ∧ isspace b = false
      ∧ b.val ≠ 45 ∧ b.val ≠ 43 ∧ b.val ≠ 120 ∧ b.val ≠ 88 := by
  decide

set_option maxRecDepth 100000 in
theorem digit_val_of_hex : ∀ b : Byte, is_hex_digit b →
    digit_val b = some (digit_value b) ∧ digit_value b < 16 ∧ isspace b = false
      ∧ b.val ≠ 45 ∧ b.val ≠ 43 ∧ b.val ≠ 120 ∧ b.val ≠ 88 := by
  decide

theorem strtoul_digits_numeral (base : Nat) (ds : List Byte)
    (hd : ∀ d ∈ ds, digit_val d = some (digit_value d) ∧ digit_value d < base) :
    ∀ acc, strtoul_digits base (ds ++ [59]) acc
      = some (ds.foldl (fun acc d => acc * base + digit_value d) acc) := by
  induction ds with
  | nil =>
    intro acc
    have : digit_val 59 = none := by decide
    simp [strtoul_digits, this]
  | cons d t ih =>
    intro acc
    obtain ⟨h1, h2⟩ := hd d (by simp)
    simp only [List.cons_append, strtoul_digits, h1, h2, if_true, List.foldl_cons]
    exact ih (fun x hx => hd x (by simp [hx])) _

theorem strtoul_skip_0x_digits (base : Nat) (d : Byte) (t : List Byte)
    (hd : ∀ x ∈ t, x.val ≠ 120 ∧ x.val ≠ 88) :
    strtoul_skip_0x base (d :: (t ++ [59])) = d :: (t ++ [59]) := by
  cases t with
  | nil =>
    simp only [strtoul_skip_0x, List.nil_append]
    rw [if_neg]
    simp only [Bool.and_eq_true, Bool.or_eq_true, decide_eq_true_eq, not_and, not_or]
    intro _
    decide
  | cons x t2 =>
    obtain ⟨h6, h7⟩ := hd x (by simp)
    simp [strtoul_skip_0x, h6, h7]

theorem strtoul_numeral (ulong_max base : Nat) (ds : List Byte) (hne : ds ≠ [])
    (hd : ∀ d ∈ ds, digit_val d = some (digit_value d) ∧ digit_value d < base ∧ isspace d = false
      ∧ d.val ≠ 45 ∧ d.val ≠ 43 ∧ d.val ≠ 120 ∧ d.val ≠ 88)
    (hv : numeral_value base ds ≤ ulong_max) :
    strtoul ulong_max (ds ++ [59]) base = some (numeral_value base ds) := by
  cases ds with
  | nil => exact absurd rfl hne
  | cons d t =>
    obtain ⟨h1, h2, h3, h4, h5, h6, h7⟩ := hd d (by simp)
    have hs3 := strtoul_skip_0x_digits base d t
      (fun x hx => ⟨(hd x (by simp [hx])).2.2.2.2.2.1, (hd x (by simp [hx])).2.2.2.2.2.2⟩)
    have hdig := strtoul_digits_numeral base (d :: t)
      (fun x hx => ⟨(hd x hx).1, (hd x hx).2.1⟩) 0
    simp only [List.cons_append] at hdig
    have h45 : decide (d.val = 45) = false := by simpa using h4
    have h43 : decide (d.val = 43) = false := by simpa using h5
    have hsp : strtoul_skip_space (d :: (t ++ [59])) = d :: (t ++ [59]) := by
      simp [strtoul_skip_space, h3]
    unfold strtoul
    rw [List.cons_append, hsp]
    simp only [h45, h43, Bool.or_self, Bool.false_eq_true, if_false, hs3, hdig]
    have hv' : ¬ (List.foldl (fun acc d => acc * base + digit_value d) 0 (d :: t) > ulong_max) := by
      simp only [numeral_value] at hv
      omega
    simp only [hv', if_false, numeral_value, h4]

/-- C9: with the verbatim-entities flag clear, `render_entity` writes, for a numeric
character reference `&#` digits `;` with at least one decimal digit and value below
2^32, exactly `\u` followed by the value in decimal, and for `&#x` digits `;` or
`&#X` digits `;` with at least one hexadecimal digit and value below 2^32, exactly
`\u` followed by the value in decimal.  (`ULONG_MAX` is at least 2^32 - 1.) -/
theorem render_entity_numeric (ulong_max : Nat) (r : MD_RTF)
    (fn_append : MD_RTF → List Byte → Option MD_RTF) (ds : List Byte)
    (hflag : r.flags &&& MD_RTF_FLAG_VERBATIM_ENTITIES = 0)
    (hul : 2 ^ 32 - 1 ≤ ulong_max) (hne : ds ≠ []) :
    ((∀ d ∈ ds, is_dec_digit d) → numeral_value 10 ds < 2 ^ 32 →
      render_entity ulong_max r (cstr "&#" ++ ds ++ cstr ";") fn_append
        = some { r with out := r.out ++ (cstr "\\u" ++ decimal (numeral_value 10 ds)) }) ∧
    ((∀ d ∈ ds, is_hex_digit d) → numeral_value 16 ds < 2 ^ 32 →
      ∀ x : Byte, x.val = 120 ∨ x.val = 88 →
      render_entity ulong_max r (cstr "&#" ++ x :: ds ++ cstr ";") fn_append
        = some { r with out := r.out ++ (cstr "\\u" ++ decimal (numeral_value 16 ds)) }) := by
  have e1 : cstr "&#" = [38, 35] := by decide
  have e2 : cstr ";" = [59] := by decide
  obtain ⟨d0, t, hds⟩ : ∃ d0 t, ds = d0 :: t := by
    cases ds with
    | nil => exact absurd rfl hne
    | cons d0 t => exact ⟨d0, t, rfl⟩
  refine ⟨?_, ?_⟩
  · intro hd hv
    have hst := strtoul_numeral ulong_max 10 ds hne (fun d hm => digit_val_of_dec d (hd d hm))
      (by omega)
    have hx : ¬ (d0.val = 120 ∨ d0.val = 88) := by
      have := digit_val_of_dec d0 (hd d0 (by simp [hds]))
      omega
    have hlen : (38 :: 35 :: (ds ++ [59])).length > 3 := by
      rw [hds]; simp
    have hdrop : List.drop 2 (38 :: 35 :: (ds ++ [59])) = ds ++ [59] := rfl
    simp only [render_entity, hflag, ne_eq, not_true_eq_false, if_false, e1, e2,
      List.cons_append, List.nil_append, hlen, if_true, List.getElem?_cons_succ,
      List.getElem?_cons_zero, hdrop, hst]
    rw [hds]
    simp only [List.cons_append, List.getElem?_cons_zero, Fin.isValue]
    have : (decide (d0.val = 120) || decide (d0.val = 88)) = false := by simpa using hx
    rw [hds] at hst
    simp only [this, Bool.false_eq_true, if_false, List.cons_append] at hst ⊢
    rw [if_pos (show ((35 : Byte).val = 35) from rfl), ← hds, Nat.mod_eq_of_lt hv,
      render_unicode_eq, ultostr_eq_decimal _ (by omega)]
  · intro hd hv x hx
    have hst := strtoul_numeral ulong_max 16 ds hne (fun d hm => digit_val_of_hex d (hd d hm))
      (by omega)
    have hlen : (38 :: 35 :: x :: (ds ++ [59])).length > 3 := by
      rw [hds]; simp
    have hxb : (decide (x.val = 120) || decide (x.val = 88)) = true := by simpa using hx
    simp only [render_entity, hflag, ne_eq, not_true_eq_false, if_false, e1, e2,
      List.cons_append, List.nil_append, hlen, if_true, List.getElem?_cons_succ,
      List.getElem?_cons_zero, hxb]
    rw [show List.drop 3 (38 :: 35 :: x :: (ds ++ [59])) = ds ++ [59] from rfl, hst]
    simp only
    rw [Nat.mod_eq_of_lt hv, render_unicode_eq, ultostr_eq_decimal _ (by omega)]
    exact if_pos rfl

theorem sample_context_flags :
    sample_context.flags &&& MD_RTF_FLAG_VERBATIM_ENTITIES = 0 := by
  obtain ⟨fb, pw, _, hr⟩ := md_rtf_setup_some _ _ _ _ _ _ sample_context_setup
  rw [hr]
  exact Nat.zero_and _

set_option maxRecDepth 100000 in
/-- Witness of `render_entity_numeric`: `&#233;` and `&#xE9;` in the sample context. -/
theorem render_entity_numeric_witness :
    sample_context.flags &&& MD_RTF_FLAG_VERBATIM_ENTITIES = 0 ∧
    (render_entity (2 ^ 64 - 1) sample_context (cstr "&#" ++ cstr "233" ++ cstr ";")
        render_rtf_escaped
      = some { sample_context with out := sample_context.out
                ++ (cstr "\\u" ++ decimal (numeral_value 10 (cstr "233"))) }) ∧
    (render_entity (2 ^ 64 - 1) sample_context (cstr "&#" ++ 120 :: cstr "E9" ++ cstr ";")
        render_rtf_escaped
      = some { sample_context with out := sample_context.out
                ++ (cstr "\\u" ++ decimal (numeral_value 16 (cstr "E9"))) }) ∧
    decimal (numeral_value 10 (cstr "233")) = cstr "233" ∧
    decimal (numeral_value 16 (cstr "E9")) = cstr "233" :=
  ⟨sample_context_flags,
   (render_entity_numeric (2 ^ 64 - 1) sample_context render_rtf_escaped (cstr "233")
      sample_context_flags (by norm_num) (by decide)).1 (by decide) (by decide),
   (render_entity_numeric (2 ^ 64 - 1) sample_context render_rtf_escaped (cstr "E9")
      sample_context_flags (by norm_num) (by decide)).2 (by decide) (by decide) 120 (Or.inl rfl),
   by decide, by decide⟩

set_option maxRecDepth 100000 in
theorem escape_map_entity_plain : ∀ b : Byte, (ISALNUM b = true ∨ b.val = 38 ∨ b.val = 59) →
    (md_rtf_escape_map b &&& NEED_RTF_ESC_FLAG != 0) = false ∧ b.val ≠ 35 := by
  decide

/-- C10: `render_entity` writes the entity text unchanged (a) for every text when the
verbatim-entities flag is set, and (b) when the flag is clear, for every named reference
`&` name `;` whose name consists of ASCII letters and digits (the text then goes through
`render_rtf_escaped` with the escape table of `md_rtf`). -/
theorem render_entity_unchanged (ulong_max : Nat) (r : MD_RTF) :
    (∀ (text : List Byte) (fn_append : MD_RTF → List Byte → Option MD_RTF),
      r.flags &&& MD_RTF_FLAG_VERBATIM_ENTITIES ≠ 0 →
      render_entity ulong_max r text fn_append = some { r with out := r.out ++ text }) ∧
    (∀ name : List Byte, r.flags &&& MD_RTF_FLAG_VERBATIM_ENTITIES = 0 →
      r.escape_map = md_rtf_escape_map → (∀ b ∈ name, ISALNUM b = true) →
      render_entity ulong_max r (cstr "&" ++ name ++ cstr ";") render_rtf_escaped
        = some { r with out := r.out ++ (cstr "&" ++ name ++ cstr ";") }) := by
  refine ⟨?_, ?_⟩
  · intro text fn_append hflag
    simp [render_entity, hflag, render_verbatim]
  · intro name hflag hmap hname
    have e1 : cstr "&" = [38] := by decide
    have e2 : cstr ";" = [59] := by decide
    have hplain : ∀ b ∈ 38 :: (name ++ [59]),
        (md_rtf_escape_map b &&& NEED_RTF_ESC_FLAG != 0) = false ∧ b.val ≠ 35 := by
      intro b hb
      simp only [List.mem_cons, List.mem_append, List.mem_singleton, List.not_mem_nil,
        or_false] at hb
      apply escape_map_entity_plain
      rcases hb with h | h | h
      · right; left; rw [h]; rfl
      · left; exact hname b h
      · right; right; rw [h]; rfl
    have hesc : render_rtf_escaped r (38 :: (name ++ [59]))
        = some { r with out := r.out ++ 38 :: (name ++ [59]) } := by
      rw [render_rtf_escaped_eq, hmap]
      have := rtf_escaped_bytes_run md_rtf_escape_map (38 :: (name ++ [59])) []
        (fun b hb => (hplain b hb).1)
      rw [List.append_nil] at this
      rw [this, rtf_escaped_bytes_nil, List.append_nil]
    simp only [render_entity, hflag, ne_eq, not_true_eq_false, if_false, e1, e2,
      List.cons_append, List.nil_append]
    cases hc : (if (38 :: (name ++ [59])).length > 3 then (38 :: (name ++ [59]))[1]? else none) with
    | none => exact hesc
    | some c1 =>
      have hmem : c1 ∈ 38 :: (name ++ [59]) := by
        split at hc
        · exact List.getElem?_mem hc
        · cases hc
      simp only [if_neg (hplain c1 hmem).2]
      exact hesc

set_option maxRecDepth 100000 in
/-- Witness of `render_entity_unchanged`: `&amp;` in the sample context, flag clear. -/
theorem render_entity_unchanged_witness :
    sample_context.flags &&& MD_RTF_FLAG_VERBATIM_ENTITIES = 0 ∧
    sample_context.escape_map = md_rtf_escape_map ∧
    (∀ b ∈ cstr "amp", ISALNUM b = true) ∧
    render_entity (2 ^ 64 - 1) sample_context (cstr "&" ++ cstr "amp" ++ cstr ";")
        render_rtf_escaped
      = some { sample_context with out := sample_context.out
                ++ (cstr "&" ++ cstr "amp" ++ cstr ";") } :=
  ⟨sample_context_flags, sample_context_escape_map, by decide,
   (render_entity_unchanged (2 ^ 64 - 1) sample_context).2 (cstr "amp") sample_context_flags
     sample_context_escape_map (by decide)⟩

theorem render_enter_block_doc_eq (r : MD_RTF) :
    render_enter_block_doc r = { r with out := r.out ++ doc_header r } := by
  simp [render_enter_block_doc, doc_header, RENDER_VERBATIM, render_verbatim, List.append_assoc]

theorem sample_context_no_p_end : sample_context.no_p_end = 0 := by
  obtain ⟨fb, pw, _, hr⟩ := md_rtf_setup_some _ _ _ _ _ _ sample_context_setup
  rw [hr]

/-- C2: for the event stream of `# Title`, blank line, `Hello *world*.` the output is
exactly the document header, the level-1 heading style string, `Title`,
`\b0 \par` CR LF, `\f0` and the normal font-size word, `Hello `, `\i `, `world`,
`\i0 `, `.`, `\par` CR LF and the closing brace; every callback returns 0.  The context
is any one with the escape table of `md_rtf` and `no_p_end` clear, as `md_rtf` sets
them. -/
theorem run_events_title_hello (p : Platform) (r : MD_RTF)
    (hmap : r.escape_map = md_rtf_escape_map) (hnp : r.no_p_end = 0) :
    run_events p title_hello_events r
      = some ({ r with out := (r.out ++ doc_header r ++ c_str (r.cw_hf 0) ++ cstr "Title"
        ++ cstr "\\b0 \\par\r\n" ++ cstr "\\f0" ++ c_str (r.cw_fs 0) ++ cstr "Hello "
        ++ cstr "\\i " ++ cstr "world" ++ cstr "\\i0 " ++ cstr "." ++ cstr "\\par\r\n"
        ++ cstr "\x7d") }, 0) := by
  have t1 : rtf_escaped_bytes md_rtf_escape_map (cstr "Title") = cstr "Title" := by decide
  have t2 : rtf_escaped_bytes md_rtf_escape_map (cstr "Hello ") = cstr "Hello " := by decide
  have t3 : rtf_escaped_bytes md_rtf_escape_map (cstr "world") = cstr "world" := by decide
  have t4 : rtf_escaped_bytes md_rtf_escape_map (cstr ".") = cstr "." := by decide
  have l1 : c_str (cstr "\\b0 \\par\r\n") = cstr "\\b0 \\par\r\n" := by decide
  have l2 : c_str (cstr "\\f0") = cstr "\\f0" := by decide
  have l3 : c_str (cstr "\\i ") = cstr "\\i " := by decide
  have l4 : c_str (cstr "\\i0 ") = cstr "\\i0 " := by decide
  have l5 : c_str (cstr "\\par\r\n") = cstr "\\par\r\n" := by decide
  have l6 : c_str (cstr "\x7d\x00") = cstr "\x7d" := by decide
  have hlev : (1 + 2 ^ 32 - 1) % 2 ^ 32 = 0 := by norm_num
  simp only [title_hello_events, run_events, dispatch, enter_block_callback,
      leave_block_callback, enter_span_callback, leave_span_callback, text_callback,
      render_enter_block_doc_eq, render_enter_block_h, render_leave_block_h,
      render_enter_block_p, render_leave_block_p, render_leave_block_doc, render_font_norm,
      RENDER_VERBATIM, render_verbatim, render_rtf_escaped_eq, hmap, hnp, hlev, t1, t2, t3, t4,
      l1, l2, l3, l4, l5, l6, Option.map_some', ne_eq, not_true_eq_false, if_false, if_true,
      Nat.lt_irrefl, gt_iff_lt, Nat.zero_lt_succ, dite_true, Nat.reduceLT, Nat.ofNat_pos,
      reduceCtorEq, List.append_assoc]
  rfl

/-- Witness of `run_events_title_hello`: the sample platform and context. -/
theorem run_events_title_hello_witness :
    sample_context.escape_map = md_rtf_escape_map ∧ sample_context.no_p_end = 0 ∧
    run_events sample_platform title_hello_events sample_context
      = some ({ sample_context with out := (sample_context.out ++ doc_header sample_context
        ++ c_str (sample_context.cw_hf 0) ++ cstr "Title"
        ++ cstr "\\b0 \\par\r\n" ++ cstr "\\f0" ++ c_str (sample_context.cw_fs 0)
        ++ cstr "Hello " ++ cstr "\\i " ++ cstr "world" ++ cstr "\\i0 " ++ cstr "."
        ++ cstr "\\par\r\n" ++ cstr "\x7d") }, 0) :=
  ⟨sample_context_escape_map, sample_context_no_p_end,
   run_events_title_hello sample_platform sample_context sample_context_escape_map
     sample_context_no_p_end⟩

theorem track_need_mono (s : List Byte) : ∀ st : Bool × Nat × Nat,
    st.2.1 ≤ (s.foldl track st).2.1 := by
  induction s with
  | nil => intro st; exact Nat.le_refl _
  | cons b t ih =>
    intro st
    simp only [List.foldl_cons]
    refine Nat.le_trans ?_ (ih _)
    unfold track
    (repeat' split) <;> simp

theorem triple_eta (x : Bool × Nat × Nat) (h : x.2.1 = 0) : (x.1, 0, x.2.2) = x := by
  obtain ⟨a, b, c⟩ := x
  simp only at h
  subst h
  rfl

theorem track_shift (s : List Byte) : ∀ (e : Bool) (cur : Nat),
    (s.foldl track (e, 0, cur)).2.1 = 0 →
    ∀ need k, s.foldl track (e, need, cur + k)
      = ((s.foldl track (e, 0, cur)).1, need, (s.foldl track (e, 0, cur)).2.2 + k) := by
  induction s with
  | nil => intro e cur _ need k; rfl
  | cons b t ih =>
    intro e cur h need k
    simp only [List.foldl_cons] at h ⊢
    have hmono := track_need_mono t (track (e, 0, cur) b)
    rw [h] at hmono
    have h0 : (track (e, 0, cur) b).2.1 = 0 := Nat.le_zero.mp hmono
    have hstep : track (e, need, cur + k) b
        = ((track (e, 0, cur) b).1, need, (track (e, 0, cur) b).2.2 + k) := by
      unfold track at h0 ⊢
      by_cases he : e = true
      · simp [he]
      · by_cases h1 : b.val = 92
        · simp [he, h1]
        · by_cases h2 : b.val = 123
          · simp [he, h1, h2]; omega
          · by_cases h3 : b.val = 125
            · by_cases h4 : cur = 0
              · simp [he, h1, h2, h3, h4] at h0
              · have h5 : ¬ (cur + k = 0) := by omega
                simp [he, h1, h2, h3, h4, h5]; omega
            · simp [he, h1, h2, h3]
    rw [hstep]
    have e3 := triple_eta _ h0
    have := ih (track (e, 0, cur) b).1 (track (e, 0, cur) b).2.2 (by rw [e3]; exact h) need k
    rw [e3] at this
    exact this

theorem lvl_of_lvlb (k m : Nat) (s : List Byte) (h : lvlb k m s = true) : Lvl k m s := by
  intro need cur
  unfold lvlb at h
  have h' : s.foldl track (false, 0, k) = (false, 0, m) := by simpa using h
  have := track_shift s false k (by rw [h']) need cur
  rw [h'] at this
  simp only at this
  rw [Nat.add_comm cur k, this, Nat.add_comm]

theorem Lvl.append {k m n : Nat} {a b : List Byte} (ha : Lvl k m a) (hb : Lvl m n b) :
    Lvl k n (a ++ b) := by
  intro need cur
  rw [List.foldl_append, ha, hb]

theorem Lvl.nil (k : Nat) : Lvl k k [] := by
  intro need cur; rfl

theorem Lvl.lift {k m : Nat} {s : List Byte} (j : Nat) (h : Lvl k m s) : Lvl (k + j) (m + j) s := by
  intro need cur
  have := h need (cur + j)
  rw [show cur + (k + j) = cur + j + k by omega, this]
  congr 2; omega

theorem Lvl.scan {k m : Nat} {s : List Byte} (h : Lvl k m s) (d : Nat) (hd : k ≤ d) :
    scan s (false, d) = some (false, d - k + m) := by
  have key : ∀ (t : List Byte) (e : Bool) (cur : Nat), (t.foldl track (e, 0, cur)).2.1 = 0 →
      Md4cRtf.scan t (e, cur)
        = some ((t.foldl track (e, 0, cur)).1, (t.foldl track (e, 0, cur)).2.2) := by
    intro t
    induction t with
    | nil => intro e cur _; rfl
    | cons b t ih =>
      intro e cur h0
      simp only [List.foldl_cons] at h0 ⊢
      have hmono := track_need_mono t (track (e, 0, cur) b)
      rw [h0] at hmono
      have hb0 : (track (e, 0, cur) b).2.1 = 0 := Nat.le_zero.mp hmono
      have hstep : scan_step (e, cur) b
          = some ((track (e, 0, cur) b).1, (track (e, 0, cur) b).2.2) := by
        unfold track at hb0 ⊢
        unfold scan_step
        by_cases he : e = true
        · simp [he]
        · by_cases h1 : b.val = 92
          · simp [he, h1]
          · by_cases h2 : b.val = 123
            · simp [he, h1, h2]
            · by_cases h3 : b.val = 125
              · by_cases h4 : cur = 0
                · simp [he, h1, h2, h3, h4] at hb0
                · simp [he, h1, h2, h3, h4]
              · simp [he, h1, h2, h3]
      have e3 := triple_eta _ hb0
      unfold Md4cRtf.scan
      rw [hstep]
      simp only
      have := ih (track (e, 0, cur) b).1 (track (e, 0, cur) b).2.2 (by rw [e3]; exact h0)
      rw [e3] at this
      exact this
  have h1 := h 0 (d - k)
  have h2 := key s false d (by rw [show d = d - k + k by omega, h1])
  rw [h2, show d = d - k + k by omega, h1]
  simp

theorem scan_append (a b : List Byte) : ∀ st, scan (a ++ b) st
    = match scan a st with
      | none => none
      | some st1 => scan b st1 := by
  induction a with
  | nil => intro st; rfl
  | cons x t ih =>
    intro st
    simp only [List.cons_append, scan]
    cases scan_step st x with
    | none => rfl
    | some st1 => exact ih st1

theorem scan_counts (s : List Byte) : ∀ (e : Bool) (d : Nat) (st : Bool × Nat),
    scan s (e, d) = some st →
    d + count_unescaped 123 e s = st.2 + count_unescaped 125 e s := by
  induction s with
  | nil =>
    intro e d st h
    simp only [scan, Option.some.injEq] at h
    subst h
    cases e <;> simp [count_unescaped]
  | cons b t ih =>
    intro e d st h
    unfold scan at h
    cases e with
    | true =>
      simp only [scan_step, if_true] at h
      have := ih false d st h
      simpa [count_unescaped] using this
    | false =>
      by_cases h1 : b.val = 92
      · simp only [scan_step, Bool.false_eq_true, if_false, h1, if_true] at h
        have := ih true d st h
        simpa [count_unescaped, h1] using this
      · have hc : ∀ c : Byte, count_unescaped c false (b :: t)
            = (if b = c then 1 else 0) + count_unescaped c false t := by
          intro c; simp [count_unescaped, h1]
        by_cases h2 : b.val = 123
        · simp only [scan_step, Bool.false_eq_true, if_false, h1, h2, if_true] at h
          have := ih false (d + 1) st h
          have hb : b = 123 := Fin.ext h2
          have hb' : ¬ (b = 125) := by rw [hb]; decide
          rw [hc, hc, if_pos hb, if_neg hb']
          omega
        · by_cases h3 : b.val = 125
          · have hb : b = 125 := Fin.ext h3
            have hb' : ¬ (b = 123) := by rw [hb]; decide
            by_cases h4 : d = 0
            · simp [scan_step, h1, h2, h3, h4] at h
            · simp only [scan_step, Bool.false_eq_true, if_false, h1, h2, h3, h4, if_true] at h
              have := ih false (d - 1) st h
              rw [hc, hc, if_pos hb, if_neg hb']
              omega
          · simp only [scan_step, Bool.false_eq_true, if_false, h1, h2, h3] at h
            have := ih false d st h
            have hb1 : ¬ (b = 123) := fun hh => h2 (by rw [hh]; rfl)
            have hb2 : ¬ (b = 125) := fun hh => h3 (by rw [hh]; rfl)
            rw [hc, hc, if_neg hb1, if_neg hb2]
            omega

/-- A byte stream on which the scanner ends at depth 0 is group-balanced. -/
theorem balanced_of_scan (s : List Byte) (e : Bool) (h : scan s (false, 0) = some (e, 0)) :
    group_opens s = group_closes s ∧ ∀ p, p <+: s → group_closes p ≤ group_opens p := by
  refine ⟨?_, ?_⟩
  · have := scan_counts s false 0 _ h
    simpa [group_opens, group_closes] using this
  · intro p hp
    obtain ⟨q, hq⟩ := hp
    rw [← hq, scan_append] at h
    cases hs : scan p (false, 0) with
    | none => rw [hs] at h; cases h
    | some st =>
      have := scan_counts p false 0 st hs
      simp only [group_opens, group_closes]
      omega

theorem lvl_plain (k : Nat) (s : List Byte)
    (h : ∀ b ∈ s, b.val ≠ 92 ∧ b.val ≠ 123 ∧ b.val ≠ 125) : Lvl k k s := by
  intro need cur
  induction s with
  | nil => rfl
  | cons b t ih =>
    obtain ⟨h1, h2, h3⟩ := h b (by simp)
    simp only [List.foldl_cons]
    have : track (false, need, cur + k) b = (false, need, cur + k) := by
      simp [track, h1, h2, h3]
    rw [this]
    exact ih (fun x hx => h x (by simp [hx]))

set_option maxRecDepth 100000 in
theorem alnum_plain : ∀ b : Byte, ISALNUM b = true →
    b.val ≠ 92 ∧ b.val ≠ 123 ∧ b.val ≠ 125 := by
  decide

theorem lvl_ultostr (k n base : Nat) (hb : base ≤ 16) (hb0 : 0 < base) :
    Lvl k k (c_str (ultostr n base)) := by
  rw [c_str_ultostr n base hb hb0]
  exact lvl_plain k _ (fun b hm => alnum_plain b (ultostr_alnum n base hb hb0 b hm))

theorem Lvl.zero_lift {s : List Byte} (k : Nat) (h : Lvl 0 0 s) : Lvl k k s := by
  have := Lvl.lift k h
  simpa using this

set_option maxRecDepth 100000 in
theorem escape_map_plain : ∀ b : Byte,
    (md_rtf_escape_map b &&& NEED_RTF_ESC_FLAG != 0) = false →
    b.val ≠ 92 ∧ b.val ≠ 123 ∧ b.val ≠ 125 := by
  decide

set_option maxRecDepth 100000 in
theorem rtf_reserved_seq_lvl : ∀ b : Byte, lvlb 0 0 (rtf_reserved_seq b) = true := by
  decide

theorem non_ascii_seq_lvl (s : List Byte) (s0 : Byte) : Lvl 0 0 (non_ascii_seq s s0).1 := by
  unfold non_ascii_seq
  split
  · split
    · exact Lvl.append (lvl_of_lvlb 0 0 _ (by decide)) (lvl_ultostr 0 _ 10 (by omega) (by omega))
    · exact Lvl.append (lvl_of_lvlb 0 0 _ (by decide)) (lvl_ultostr 0 _ 16 (by omega) (by omega))
  · exact Lvl.nil 0

theorem rtf_escaped_bytes_lvl : ∀ (n : Nat) (data : List Byte), data.length ≤ n →
    Lvl 0 0 (rtf_escaped_bytes md_rtf_escape_map data) := by
  intro n
  induction n with
  | zero =>
    intro data h
    have : data = [] := List.length_eq_zero.mp (Nat.le_zero.mp h)
    rw [this, rtf_escaped_bytes_nil]
    exact Lvl.nil 0
  | succ n ih =>
    intro data h
    cases data with
    | nil => rw [rtf_escaped_bytes_nil]; exact Lvl.nil 0
    | cons ch rest =>
      simp only [List.length_cons] at h
      rw [rtf_escaped_bytes_cons]
      by_cases hf : (md_rtf_escape_map ch &&& NEED_RTF_ESC_FLAG != 0) = true
      · rw [if_pos hf]
        by_cases hhi : ch.val > 0x7F
        · rw [if_pos hhi]
          refine Lvl.append (non_ascii_seq_lvl _ _) (ih _ ?_)
          simp only [List.length_drop]; omega
        · rw [if_neg hhi]
          exact Lvl.append (lvl_of_lvlb 0 0 _ (rtf_reserved_seq_lvl ch)) (ih _ (by omega))
      · rw [if_neg hf]
        have hp := escape_map_plain ch (by simpa using hf)
        have h1 : Lvl 0 0 [ch] := lvl_plain 0 [ch] (by
          intro b hb
          simp only [List.mem_singleton] at hb
          rw [hb]; exact hp)
        exact Lvl.append (a := [ch]) h1 (ih _ (by omega))

set_option maxRecDepth 100000 in
theorem url_escaped_byte_lvl : ∀ b : Byte,
    lvlb 0 0 (url_escaped_byte md_rtf_escape_map b) = true := by
  decide

theorem url_escaped_lvl (data : List Byte) :
    Lvl 0 0 (data.flatMap (url_escaped_byte md_rtf_escape_map)) := by
  induction data with
  | nil => exact Lvl.nil 0
  | cons b t ih =>
    rw [List.flatMap_cons]
    exact Lvl.append (lvl_of_lvlb 0 0 _ (url_escaped_byte_lvl b)) ih

theorem cwstr_append {a b : List Byte} (ha : CwStr a) (hb : CwStr b) : CwStr (a ++ b) := by
  refine ⟨?_, Lvl.append ha.2 hb.2⟩
  intro x hx
  rcases List.mem_append.mp hx with h | h
  · exact ha.1 x h
  · exact hb.1 x h

theorem cwstr_of_cwstrb (s : List Byte) (h : cwstrb s = true) : CwStr s := by
  unfold cwstrb at h
  rw [Bool.and_eq_true] at h
  refine ⟨?_, lvl_of_lvlb 0 0 s h.2⟩
  intro b hb
  have := List.all_eq_true.mp h.1 b hb
  simpa using this

theorem cwstr_ultostr (n : Nat) : CwStr (ultostr n 10) := by
  refine ⟨fun b hm => alnum_ne_zero b (ultostr_alnum n 10 (by omega) (by omega) b hm), ?_⟩
  exact lvl_plain 0 _ (fun b hm => alnum_plain b (ultostr_alnum n 10 (by omega) (by omega) b hm))

theorem cwstr_fmt_u (n : Nat) : CwStr (fmt_u n) := cwstr_ultostr _

theorem cwstr_fmt_i (n : Nat) : CwStr (fmt_i n) := by
  unfold fmt_i
  split
  · exact cwstr_ultostr _
  · exact cwstr_append (cwstr_of_cwstrb _ (by decide)) (cwstr_ultostr _)

theorem CwStr.lvl {s : List Byte} (h : CwStr s) : Lvl 0 0 (c_str s) := by
  rw [c_str_eq_self s h.1]
  exact h.2

theorem md_rtf_setup_cwok (p : Platform) (render r : MD_RTF)
    (renderer_flags font_size doc_width : Nat)
    (h : md_rtf_setup p render renderer_flags font_size doc_width = some r) : CwOk r := by
  obtain ⟨fb, pw, _, hr⟩ := md_rtf_setup_some p render r renderer_flags font_size doc_width h
  have L : ∀ s : String, cwstrb (cstr s) = true → CwStr (cstr s) := fun s hs => cwstr_of_cwstrb _ hs
  rw [hr]
  constructor
  · intro i
    apply CwStr.lvl
    simp only
    fin_cases i <;> simp only [md_rtf_cw_fs] <;>
      exact cwstr_append (L _ (by decide)) (cwstr_fmt_u _)
  · intro i
    apply CwStr.lvl
    simp only
    fin_cases i <;> simp only [md_rtf_cw_hf] <;>
      exact cwstr_append (cwstr_append (cwstr_append (cwstr_append (L _ (by decide))
        (cwstr_fmt_u _)) (L _ (by decide))) (cwstr_fmt_u _)) (L _ (by decide))
  · intro i
    apply CwStr.lvl
    simp only
    fin_cases i <;> simp only [md_rtf_cw_sa] <;>
      exact cwstr_append (cwstr_append (L _ (by decide)) (cwstr_fmt_u _)) (L _ (by decide))
  · intro i
    apply CwStr.lvl
    simp only [md_rtf_cw_li]
    exact cwstr_append (L _ (by decide)) (cwstr_fmt_u _)
  · intro i
    apply CwStr.lvl
    simp only
    fin_cases i <;> simp only [md_rtf_cw_tr]
    · exact cwstr_append (cwstr_append (cwstr_append (L _ (by decide)) (cwstr_fmt_u _))
        (L _ (by decide))) (cwstr_fmt_u _)
    · exact cwstr_append (cwstr_append (cwstr_append (cwstr_append (cwstr_append
        (L _ (by decide)) (cwstr_fmt_u _)) (L _ (by decide))) (cwstr_fmt_u _))
        (L _ (by decide))) (cwstr_fmt_u _)
  · intro i
    apply CwStr.lvl
    simp only
    fin_cases i <;> simp only [md_rtf_cw_fi] <;>
      exact cwstr_append (L _ (by decide)) (cwstr_fmt_i _)
  · intro i
    apply CwStr.lvl
    simp only
    fin_cases i <;> simp only [md_rtf_cw_cx] <;>
      exact cwstr_append (cwstr_append (L _ (by decide)) (cwstr_fmt_u _)) (L _ (by decide))

theorem Step.refl (k : Nat) (r : MD_RTF) : Step k k r r := by
  refine ⟨List.prefix_rfl, ?_, rfl, rfl, rfl, rfl, rfl, rfl, rfl, rfl, rfl, rfl, rfl⟩
  rw [List.drop_length]
  exact Lvl.nil k

theorem Step.trans {k m n : Nat} {r r1 r2 : MD_RTF} (h1 : Step k m r r1) (h2 : Step m n r1 r2) :
    Step k n r r2 := by
  obtain ⟨c1, hc1⟩ := h1.pre
  obtain ⟨c2, hc2⟩ := h2.pre
  have l1 := h1.lvl
  have l2 := h2.lvl
  rw [← hc1, List.drop_left] at l1
  rw [← hc2, List.drop_left] at l2
  refine ⟨?_, ?_, h2.map.trans h1.map, h2.flags.trans h1.flags, h2.cw_fs.trans h1.cw_fs,
    h2.cw_hf.trans h1.cw_hf, h2.cw_sa.trans h1.cw_sa, h2.cw_li.trans h1.cw_li,
    h2.cw_tr.trans h1.cw_tr, h2.cw_fi.trans h1.cw_fi, h2.cw_cx.trans h1.cw_cx,
    h2.list.trans h1.list, h2.list_depth.trans h1.list_depth⟩
  · exact ⟨c1 ++ c2, by rw [← hc2, ← hc1, List.append_assoc]⟩
  · rw [← hc2, ← hc1, List.append_assoc, List.drop_left]
    exact Lvl.append l1 l2

theorem cwok_of_step {k m : Nat} {r r1 : MD_RTF} (h : CwOk r) (hs : Step k m r r1) : CwOk r1 := by
  constructor
  · rw [hs.cw_fs]; exact h.fs
  · rw [hs.cw_hf]; exact h.hf
  · rw [hs.cw_sa]; exact h.sa
  · rw [hs.cw_li]; exact h.li
  · rw [hs.cw_tr]; exact h.tr
  · rw [hs.cw_fi]; exact h.fi
  · rw [hs.cw_cx]; exact h.cx

set_option maxRecDepth 100000 in
theorem step_basic (r : MD_RTF) (h : CwOk r) :
    Step 0 0 r (render_enter_block_quote r) ∧ Step 0 0 r (render_leave_block_quote r) ∧
    Step 0 0 r (render_enter_block_code r) ∧ Step 0 0 r (render_leave_block_code r) ∧
    Step 0 0 r (render_enter_block_hr r) ∧
    (∀ n, Step 0 0 r (render_enter_block_table r n)) ∧
    Step 0 0 r (render_leave_block_table r) ∧
    Step 0 0 r (render_enter_block_thead r) ∧ Step 0 0 r (render_leave_block_thead r) ∧
    Step 0 0 r (render_leave_block_tr r) ∧ Step 0 0 r (render_leave_block_td r) ∧
    Step 0 0 r (render_leave_block_th r) ∧ Step 0 0 r (render_enter_block_p r) ∧
    Step 0 0 r (render_font_mono r) ∧ Step 0 0 r (render_font_norm r) ∧
    Step 0 0 r (render_end_block r) := by
  refine ⟨?_, ?_, ?_, ?_, ?_, fun n => ?_, ?_, ?_, ?_, ?_, ?_, ?_, ?_, ?_, ?_, ?_⟩
  all_goals refine ⟨?_, ?_, rfl, rfl, rfl, rfl, rfl, rfl, rfl, rfl, rfl, rfl, rfl⟩
  all_goals simp only [render_enter_block_quote, render_leave_block_quote,
    render_enter_block_code, render_leave_block_code, render_enter_block_hr,
    render_enter_block_table, render_leave_block_table, render_leave_block_tr,
    render_leave_block_td, render_leave_block_th, render_enter_block_p, render_font_mono,
    render_font_norm, render_end_block, render_enter_block_thead, render_leave_block_thead,
    RENDER_VERBATIM, render_verbatim, List.append_assoc, List.prefix_append, List.prefix_rfl,
    List.drop_left, List.drop_length]
  all_goals repeat' (first
    | exact Lvl.nil _
    | (with_reducible exact h.fs _) | (with_reducible exact h.hf _)
    | (with_reducible exact h.sa _) | (with_reducible exact h.li _)
    | (with_reducible exact h.tr _) | (with_reducible exact h.fi _)
    | (with_reducible exact h.cx _)
    | exact lvl_of_lvlb 0 0 _ (by decide)
    | (with_reducible refine Lvl.append (m := 0) ?_ ?_))

set_option maxRecDepth 100000 in
theorem step_literal (r : MD_RTF) (s : List Byte) (k m : Nat) (hs : lvlb k m (c_str s) = true) :
    Step k m r (RENDER_VERBATIM r s) := by
  refine ⟨?_, ?_, rfl, rfl, rfl, rfl, rfl, rfl, rfl, rfl, rfl, rfl, rfl⟩
  · simp only [RENDER_VERBATIM, render_verbatim, List.prefix_append]
  · simp only [RENDER_VERBATIM, render_verbatim, List.drop_left]
    exact lvl_of_lvlb k m _ hs

set_option maxRecDepth 100000 in
theorem step_leave_block_p (r : MD_RTF) : Step 0 0 r (render_leave_block_p r) := by
  unfold render_leave_block_p
  split
  · exact step_literal r _ 0 0 (by decide)
  · exact Step.refl 0 r

set_option maxRecDepth 100000 in
theorem step_leave_block_li (r : MD_RTF) : Step 0 0 r (render_leave_block_li r) := by
  unfold render_leave_block_li
  split
  · have := step_literal r (cstr "\\par") 0 0 (by decide)
    exact ⟨this.pre, this.lvl, rfl, rfl, rfl, rfl, rfl, rfl, rfl, rfl, rfl, rfl, rfl⟩
  · exact Step.refl 0 r

set_option maxRecDepth 100000 in
theorem step_leave_block_h (r : MD_RTF) (level : Nat) :
    Step 0 0 r (render_leave_block_h r level) := by
  unfold render_leave_block_h
  split
  · exact step_literal r _ 0 0 (by decide)
  · exact step_literal r _ 0 0 (by decide)

set_option maxRecDepth 100000 in
theorem step_enter_block_td (r : MD_RTF) (align : MD_ALIGN) :
    Step 0 0 r (render_enter_block_td r align) := by
  cases align <;> exact step_literal r _ 0 0 (by decide)

set_option maxRecDepth 100000 in
theorem step_enter_block_th (r : MD_RTF) (align : MD_ALIGN) :
    Step 0 0 r (render_enter_block_th r align) := by
  cases align <;> exact step_literal r _ 0 0 (by decide)

theorem step_verbatim_neutral (r : MD_RTF) (s : List Byte) (k : Nat) (hs : Lvl 0 0 (c_str s)) :
    Step k k r (RENDER_VERBATIM r s) := by
  refine ⟨?_, ?_, rfl, rfl, rfl, rfl, rfl, rfl, rfl, rfl, rfl, rfl, rfl⟩
  · simp only [RENDER_VERBATIM, render_verbatim, List.prefix_append]
  · simp only [RENDER_VERBATIM, render_verbatim, List.drop_left]
    exact Lvl.zero_lift k hs

theorem step_enter_block_h (r : MD_RTF) (h : CwOk r) (level : Nat) (h1 : 1 ≤ level)
    (h6 : level ≤ 6) :
    ∃ r1, render_enter_block_h r level = some r1 ∧ Step 0 0 r r1 := by
  unfold render_enter_block_h
  have hi : (level + 2 ^ 32 - 1) % 2 ^ 32 = level - 1 := by omega
  simp only [hi]
  rw [dif_pos (by omega)]
  exact ⟨_, rfl, step_verbatim_neutral r _ 0 (h.hf _)⟩

set_option maxRecDepth 100000 in
theorem step_tr_cell (cw : Nat) (r : MD_RTF) (i : Nat) : Step 0 0 r (render_tr_cell cw r i) := by
  unfold render_tr_cell
  simp only
  refine Step.trans ?_ (step_verbatim_neutral _ _ 0 (lvl_ultostr 0 _ 10 (by omega) (by omega)))
  split
  · refine Step.trans ?_ (step_literal _ _ 0 0 (by decide))
    exact step_literal _ _ 0 0 (by decide)
  · refine Step.trans ?_ (step_literal _ _ 0 0 (by decide))
    exact step_literal _ _ 0 0 (by decide)

theorem step_tr_cells (cw : Nat) (l : List Nat) : ∀ r : MD_RTF,
    Step 0 0 r (l.foldl (render_tr_cell cw) r) := by
  induction l with
  | nil => intro r; exact Step.refl 0 r
  | cons i t ih =>
    intro r
    simp only [List.foldl_cons]
    exact Step.trans (step_tr_cell cw r i) (ih _)

set_option maxRecDepth 100000 in
theorem step_enter_block_tr (p : Platform) (r : MD_RTF) (h : CwOk r) :
    Step 0 0 r (render_enter_block_tr p r) := by
  unfold render_enter_block_tr
  simp only
  refine Step.trans ?_ (step_tr_cells _ _ _)
  refine Step.trans ?_ (step_verbatim_neutral _ _ 0 (h.tr 1))
  exact step_literal _ _ 0 0 (by decide)

theorem strtoul_digits_total (base : Nat) : ∀ (s : List Byte) (acc : Nat),
    s.getLast? = some 59 → ∃ v, strtoul_digits base s acc = some v := by
  intro s
  induction s with
  | nil => intro acc h; simp at h
  | cons b t ih =>
    intro acc h
    unfold strtoul_digits
    cases hd : digit_val b with
    | none => exact ⟨_, rfl⟩
    | some d =>
      simp only
      split
      · cases t with
        | nil =>
          simp only [List.getLast?_singleton, Option.some.injEq] at h
          have h59 : digit_val 59 = none := by decide
          rw [h, h59] at hd
          cases hd
        | cons x t2 =>
          rw [List.getLast?_cons_cons] at h
          exact ih _ h
      · exact ⟨_, rfl⟩

theorem strtoul_skip_space_last : ∀ s : List Byte, s.getLast? = some 59 →
    ∃ c t, strtoul_skip_space s = c :: t ∧ (c :: t).getLast? = some 59 := by
  intro s
  induction s with
  | nil => intro h; simp at h
  | cons b t ih =>
    intro h
    unfold strtoul_skip_space
    by_cases hsp : isspace b = true
    · rw [if_pos hsp]
      cases t with
      | nil =>
        simp only [List.getLast?_singleton, Option.some.injEq] at h
        have h59 : isspace 59 = false := by decide
        rw [h, h59] at hsp
        cases hsp
      | cons x t2 =>
        rw [List.getLast?_cons_cons] at h
        exact ih h
    · rw [if_neg hsp]
      exact ⟨b, t, rfl, h⟩

theorem strtoul_skip_0x_last (base : Nat) : ∀ s : List Byte, s.getLast? = some 59 →
    (strtoul_skip_0x base s).getLast? = some 59 := by
  intro s h
  rcases s with _ | ⟨z, _ | ⟨x, t2⟩⟩
  · exact h
  · exact h
  · simp only [strtoul_skip_0x]
    by_cases hc : (decide (base = 16) && decide (z.val = 48)
        && (decide (x.val = 120) || decide (x.val = 88))) = true
    · rw [if_pos hc]
      cases t2 with
      | nil =>
        simp only [List.getLast?_cons_cons, List.getLast?_singleton, Option.some.injEq] at h
        rw [h] at hc
        simp only [Bool.and_eq_true, Bool.or_eq_true, decide_eq_true_eq] at hc
        rcases hc.2 with h1 | h1 <;> exact absurd h1 (by decide)
      | cons y t3 =>
        rw [List.getLast?_cons_cons, List.getLast?_cons_cons] at h
        exact h
    · rw [if_neg hc]
      exact h

theorem strtoul_total (ulong_max base : Nat) (s : List Byte) (h : s.getLast? = some 59) :
    ∃ v, strtoul ulong_max s base = some v := by
  obtain ⟨c, t, hs, hl⟩ := strtoul_skip_space_last s h
  unfold strtoul
  rw [hs]
  simp only
  have h2 : (if (decide (c.val = 45) || decide (c.val = 43)) = true then t else c :: t).getLast?
      = some 59 := by
    split
    · rename_i hc
      cases t with
      | nil =>
        simp only [List.getLast?_singleton, Option.some.injEq] at hl
        rw [hl] at hc
        exact absurd hc (by decide)
      | cons x t2 =>
        rw [List.getLast?_cons_cons] at hl
        exact hl
    · exact hl
  obtain ⟨v, hv⟩ := strtoul_digits_total base _ 0 (strtoul_skip_0x_last base _ h2)
  rw [hv]
  simp only
  split
  · exact ⟨_, rfl⟩
  · split
    · exact ⟨_, rfl⟩
    · exact ⟨_, rfl⟩

theorem step_rtf_escaped (r : MD_RTF) (hmap : r.escape_map = md_rtf_escape_map) (k : Nat)
    (data : List Byte) : ∃ r1, render_rtf_escaped r data = some r1 ∧ Step k k r r1 := by
  refine ⟨_, render_rtf_escaped_eq r data, ?_⟩
  refine ⟨?_, ?_, rfl, rfl, rfl, rfl, rfl, rfl, rfl, rfl, rfl, rfl, rfl⟩
  · simp only [List.prefix_append]
  · simp only [List.drop_left, hmap]
    exact Lvl.zero_lift k (rtf_escaped_bytes_lvl _ data (Nat.le_refl _))

theorem step_url_escaped (r : MD_RTF) (hmap : r.escape_map = md_rtf_escape_map) (k : Nat)
    (data : List Byte) : ∃ r1, render_url_escaped r data = some r1 ∧ Step k k r r1 := by
  refine ⟨_, render_url_escaped_eq r data, ?_⟩
  refine ⟨?_, ?_, rfl, rfl, rfl, rfl, rfl, rfl, rfl, rfl, rfl, rfl, rfl⟩
  · simp only [List.prefix_append]
  · simp only [List.drop_left, hmap]
    exact Lvl.zero_lift k (url_escaped_lvl data)

theorem step_unicode (r : MD_RTF) (u : Nat) : Step 0 0 r (render_unicode r u) := by
  rw [render_unicode_eq]
  refine ⟨?_, ?_, rfl, rfl, rfl, rfl, rfl, rfl, rfl, rfl, rfl, rfl, rfl⟩
  · simp only [List.prefix_append]
  · simp only [List.drop_left]
    have := lvl_ultostr 0 u 10 (by omega) (by omega)
    rw [c_str_ultostr u 10 (by omega) (by omega)] at this
    exact Lvl.append (lvl_of_lvlb 0 0 _ (by decide)) this

theorem step_entity (ulong_max : Nat) (r : MD_RTF) (hmap : r.escape_map = md_rtf_escape_map)
    (hflag : r.flags &&& MD_RTF_FLAG_VERBATIM_ENTITIES = 0) (text : List Byte)
    (hlast : text.getLast? = some 59) :
    ∃ r1, render_entity ulong_max r text render_rtf_escaped = some r1 ∧ Step 0 0 r r1 := by
  unfold render_entity
  rw [if_neg (by simp [hflag])]
  cases hc : (if text.length > 3 then text[1]? else none) with
  | none => exact step_rtf_escaped r hmap 0 text
  | some c1 =>
    simp only
    have hlen : text.length > 3 := by
      by_contra hn
      rw [if_neg hn] at hc
      cases hc
    split
    · have h2 : ∃ c2, text[2]? = some c2 := ⟨text[2], List.getElem?_eq_getElem (by omega)⟩
      obtain ⟨c2, hc2⟩ := h2
      rw [hc2]
      simp only
      have hd3 : (text.drop 3).getLast? = some 59 := by
        rw [List.getLast?_drop, if_neg (by omega)]; exact hlast
      have hd2 : (text.drop 2).getLast? = some 59 := by
        rw [List.getLast?_drop, if_neg (by omega)]; exact hlast
      by_cases hx : (decide (c2.val = 120) || decide (c2.val = 88)) = true
      · obtain ⟨v, hv⟩ := strtoul_total ulong_max 16 _ hd3
        rw [if_pos hx, hv]
        exact ⟨_, rfl, step_unicode r _⟩
      · obtain ⟨v, hv⟩ := strtoul_total ulong_max 10 _ hd2
        rw [if_neg hx, hv]
        exact ⟨_, rfl, step_unicode r _⟩
    · exact step_rtf_escaped r hmap 0 text

set_option maxRecDepth 100000 in
theorem step_text (p : Platform) (r : MD_RTF) (hmap : r.escape_map = md_rtf_escape_map)
    (hflag : r.flags &&& MD_RTF_FLAG_VERBATIM_ENTITIES = 0) (type : MD_TEXTTYPE)
    (text : List Byte) (hlast : type = .ENTITY → text.getLast? = some 59) :
    ∃ r1, text_callback p type text r = some (r1, 0) ∧ Step 0 0 r r1 := by
  unfold text_callback
  cases type
  case ENTITY =>
    obtain ⟨r1, h1, h2⟩ := step_entity p.ulong_max r hmap hflag text (hlast rfl)
    exact ⟨r1, by simp only [h1, Option.map_some'], h2⟩
  case NULLCHAR => exact ⟨_, rfl, step_literal r _ 0 0 (by decide)⟩
  case BR => exact ⟨_, rfl, step_literal r _ 0 0 (by decide)⟩
  case SOFTBR => exact ⟨_, rfl, step_literal r _ 0 0 (by decide)⟩
  all_goals
    obtain ⟨r1, h1, h2⟩ := step_rtf_escaped r hmap 0 text
    exact ⟨r1, by simp only [h1, Option.map_some'], h2⟩

set_option maxRecDepth 100000 in
theorem step_enter_span (r : MD_RTF) (h : CwOk r) (hmap : r.escape_map = md_rtf_escape_map)
    (s : MD_SPAN) :
    ∃ r1, enter_span_callback s r = some (r1, 0) ∧
      Step 0 (match s with | .A _ => 2 | _ => 0) r r1 := by
  unfold enter_span_callback
  cases s
  case A href =>
    simp only [render_enter_span_url]
    have s1 := step_literal r (cstr "\\cf4\\ul \x7b\\field\x7b\\*\\fldinst HYPERLINK \"") 0 2
      (by decide)
    obtain ⟨r2, h2, s2⟩ := step_url_escaped _ (s1.map.trans hmap) 2 href
    rw [h2]
    exact ⟨_, rfl, Step.trans (Step.trans s1 s2) (step_literal _ _ 2 2 (by decide))⟩
  case CODE => exact ⟨_, rfl, (step_basic r h).2.2.2.2.2.2.2.2.2.2.2.2.2.1⟩
  case EM => exact ⟨_, rfl, step_literal r _ 0 0 (by decide)⟩
  case STRONG => exact ⟨_, rfl, step_literal r _ 0 0 (by decide)⟩
  case U => exact ⟨_, rfl, step_literal r _ 0 0 (by decide)⟩
  case DEL => exact ⟨_, rfl, step_literal r _ 0 0 (by decide)⟩
  all_goals exact ⟨_, rfl, Step.refl 0 r⟩

set_option maxRecDepth 100000 in
theorem step_leave_span (r : MD_RTF) (h : CwOk r) (s : MD_SPAN) :
    ∃ r1, leave_span_callback s r = some (r1, 0) ∧
      Step (match s with | .A _ => 2 | _ => 0) 0 r r1 := by
  unfold leave_span_callback
  cases s
  case A href => exact ⟨_, rfl, step_literal r _ 2 0 (by decide)⟩
  case CODE => exact ⟨_, rfl, (step_basic r h).2.2.2.2.2.2.2.2.2.2.2.2.2.2.1⟩
  case EM => exact ⟨_, rfl, step_literal r _ 0 0 (by decide)⟩
  case STRONG => exact ⟨_, rfl, step_literal r _ 0 0 (by decide)⟩
  case U => exact ⟨_, rfl, step_literal r _ 0 0 (by decide)⟩
  case DEL => exact ⟨_, rfl, step_literal r _ 0 0 (by decide)⟩
  all_goals exact ⟨_, rfl, Step.refl 0 r⟩

theorem Step.weak {k m : Nat} {r r1 : MD_RTF} (h : Step k m r r1) : StepW k m r r1 :=
  ⟨h.pre, h.lvl, h.map, h.flags, h.cw_fs, h.cw_hf, h.cw_sa, h.cw_li, h.cw_tr, h.cw_fi, h.cw_cx⟩

theorem stepw_refl (k : Nat) (r : MD_RTF) : StepW k k r r := (Step.refl k r).weak

theorem stepw_trans {k m n : Nat} {r r1 r2 : MD_RTF} (h1 : StepW k m r r1)
    (h2 : StepW m n r1 r2) : StepW k n r r2 := by
  obtain ⟨c1, hc1⟩ := h1.pre
  obtain ⟨c2, hc2⟩ := h2.pre
  have l1 := h1.lvl
  have l2 := h2.lvl
  rw [← hc1, List.drop_left] at l1
  rw [← hc2, List.drop_left] at l2
  refine ⟨?_, ?_, h2.map.trans h1.map, h2.flags.trans h1.flags, h2.cw_fs.trans h1.cw_fs,
    h2.cw_hf.trans h1.cw_hf, h2.cw_sa.trans h1.cw_sa, h2.cw_li.trans h1.cw_li,
    h2.cw_tr.trans h1.cw_tr, h2.cw_fi.trans h1.cw_fi, h2.cw_cx.trans h1.cw_cx⟩
  · exact ⟨c1 ++ c2, by rw [← hc2, ← hc1, List.append_assoc]⟩
  · rw [← hc2, ← hc1, List.append_assoc, List.drop_left]
    exact Lvl.append l1 l2

theorem CwOk.of_stepw {k m : Nat} {r r1 : MD_RTF} (h : CwOk r) (hs : StepW k m r r1) :
    CwOk r1 := by
  constructor
  · rw [hs.cw_fs]; exact h.fs
  · rw [hs.cw_hf]; exact h.hf
  · rw [hs.cw_sa]; exact h.sa
  · rw [hs.cw_li]; exact h.li
  · rw [hs.cw_tr]; exact h.tr
  · rw [hs.cw_fi]; exact h.fi
  · rw [hs.cw_cx]; exact h.cx

theorem Inv.transfer {stk stk1 : List Frame} {r r1 : MD_RTF} {k m : Nat} (hi : Inv stk r)
    (hw : StepW k m r r1) (hk : k ≤ group_depth stk)
    (hg : group_depth stk1 = group_depth stk - k + m) (hn : open_lists stk1 ≤ 8)
    (hd : r1.list_depth = (open_lists stk1 + 2 ^ 32 - 1) % 2 ^ 32)
    (hl : ∀ i : Fin 8, i.val < open_lists stk1 → ListOk (r1.list i)) : Inv stk1 r1 := by
  refine ⟨hw.map.trans hi.map, by rw [hw.flags]; exact hi.flag, hi.cw.of_stepw hw, hd, hn, hl, ?_⟩
  obtain ⟨c, hc⟩ := hw.pre
  have l := hw.lvl
  rw [← hc, List.drop_left] at l
  rw [← hc, scan_append, hi.scan]
  simp only
  rw [l.scan _ hk, hg]

theorem Inv.of_step {stk stk1 : List Frame} {r r1 : MD_RTF} {k m : Nat} (hi : Inv stk r)
    (hs : Step k m r r1) (hk : k ≤ group_depth stk)
    (hg : group_depth stk1 = group_depth stk - k + m)
    (hn : open_lists stk1 = open_lists stk) : Inv stk1 r1 := by
  refine hi.transfer hs.weak hk hg (by rw [hn]; exact hi.nlists) ?_ ?_
  · rw [hs.list_depth, hn]; exact hi.depth
  · intro i h
    rw [hs.list, ]
    exact hi.lists i (by rw [← hn]; exact h)

set_option maxRecDepth 100000 in
theorem step_list_start (r : MD_RTF) (h : CwOk r) (l : MD_RTF_LIST)
    (hl : list_at r r.list_depth = some l) (hok : ListOk l) :
    ∃ r1, render_list_start r = some r1 ∧ Step 0 0 r r1 := by
  unfold render_list_start
  simp only [hl]
  refine ⟨_, rfl, ?_⟩
  have hfin : ∀ r0 r2 : MD_RTF, Step 0 0 r0 r2 → Step 0 0 r0 { r2 with list_reset := 0 } :=
    fun r0 r2 s => ⟨s.pre, s.lvl, s.map, s.flags, s.cw_fs, s.cw_hf, s.cw_sa, s.cw_li, s.cw_tr,
      s.cw_fi, s.cw_cx, s.list, s.list_depth⟩
  apply hfin
  have hnum : ∀ n, Lvl 0 0 (c_str (ultostr n 10)) := fun n => lvl_ultostr 0 n 10 (by omega) (by omega)
  have hfi : ∀ r0 : MD_RTF, Step 0 0 r r0 →
      Step 0 0 r (if l.type = MD_RTF_LIST_TYPE_OL then RENDER_VERBATIM r0 (r0.cw_fi 1)
        else RENDER_VERBATIM r0 (r0.cw_fi 0)) := by
    intro r0 h0
    split
    · exact Step.trans h0 (step_verbatim_neutral _ _ 0 (by rw [h0.cw_fi]; exact h.fi 1))
    · exact Step.trans h0 (step_verbatim_neutral _ _ 0 (by rw [h0.cw_fi]; exact h.fi 0))
  apply hfi
  refine Step.trans ?_ (step_verbatim_neutral _ _ 0 hok.sa)
  refine Step.trans ?_ (step_verbatim_neutral _ _ 0 hok.li)
  refine Step.trans (m := 2) ?_ (step_literal _ _ 2 0 (by decide))
  refine Step.trans ?_ (step_verbatim_neutral _ _ 2 hok.tx)
  split
  · refine Step.trans (m := 1) ?_ (step_literal _ _ 1 2 (by decide))
    refine Step.trans ?_ (step_verbatim_neutral _ _ 1 (hnum _))
    refine Step.trans ?_ (step_literal _ _ 1 1 (by decide))
    refine Step.trans ?_ (step_verbatim_neutral _ _ 1 hok.tx)
    refine Step.trans ?_ (step_verbatim_neutral _ _ 1 (hnum _))
    refine Step.trans (m := 0) ?_ (step_literal _ _ 0 1 (by decide))
    refine Step.trans ?_ (step_verbatim_neutral _ _ 0 (h.fs 0))
    exact step_literal _ _ 0 0 (by decide)
  · refine Step.trans (m := 1) ?_ (step_literal _ _ 1 2 (by decide))
    refine Step.trans ?_ (step_verbatim_neutral _ _ 1 hok.tx)
    refine Step.trans (m := 0) ?_ (step_literal _ _ 0 1 (by decide))
    refine Step.trans ?_ (step_verbatim_neutral _ _ 0 (h.fs 0))
    exact step_literal _ _ 0 0 (by decide)

set_option maxRecDepth 100000 in
theorem step_list_item (r : MD_RTF) (l : MD_RTF_LIST)
    (hl : list_at r r.list_depth = some l) (hok : ListOk l) :
    ∃ r1, render_list_item r = some r1 ∧ Step 0 0 r r1 := by
  unfold render_list_item
  simp only [hl]
  refine ⟨_, rfl, ?_⟩
  refine Step.trans (m := 1) ?_ (step_literal _ _ 1 0 (by decide))
  refine Step.trans ?_ (step_verbatim_neutral _ _ 1 hok.tx)
  split
  · refine Step.trans (m := 1) ?_
      (step_verbatim_neutral _ _ 1 (lvl_ultostr 0 _ 10 (by omega) (by omega)))
    exact step_literal _ _ 0 1 (by decide)
  · exact step_literal _ _ 0 1 (by decide)

set_option maxRecDepth 100000 in
theorem stepw_list_par (r : MD_RTF) (n : Nat) :
    ∀ rb, rb = (if n > 0 then RENDER_VERBATIM { r with list_depth := n } (cstr "\\par")
        else { r with list_depth := n }) →
      StepW 0 0 r rb ∧ rb.list = r.list ∧ rb.list_depth = n := by
  intro rb hrb
  subst hrb
  split
  · have s := step_literal { r with list_depth := n } (cstr "\\par") 0 0 (by decide)
    exact ⟨⟨s.pre, s.lvl, rfl, rfl, rfl, rfl, rfl, rfl, rfl, rfl, rfl⟩, rfl, rfl⟩
  · have s := stepw_refl 0 r
    exact ⟨⟨s.pre, s.lvl, rfl, rfl, rfl, rfl, rfl, rfl, rfl, rfl, rfl⟩, rfl, rfl⟩

theorem inv_list_enter (stk stk1 : List Frame) (r rb : MD_RTF) (hi : Inv stk r)
    (hlt : open_lists stk < 8) (hs : open_lists stk1 = open_lists stk + 1)
    (hg : group_depth stk1 = group_depth stk)
    (hw : StepW 0 0 r rb) (hbl : rb.list = r.list) (hbd : rb.list_depth = open_lists stk)
    (f : MD_RTF_LIST → MD_RTF_LIST) (hf : ∀ l, ListOk (f l)) :
    ∃ r1, (match list_set rb (open_lists stk) f with
        | none => none
        | some r => render_list_start r) = some r1 ∧ Inv stk1 r1 ∧ r.out <+: r1.out := by
  unfold list_set
  rw [dif_pos hlt]
  simp only
  have hcw : CwOk rb := hi.cw.of_stepw hw
  obtain ⟨r1, h1, s1⟩ := step_list_start
    { rb with list := (Function.update rb.list ⟨open_lists stk, hlt⟩
        (f (rb.list ⟨open_lists stk, hlt⟩))) }
    ⟨hcw.fs, hcw.hf, hcw.sa, hcw.li, hcw.tr, hcw.fi, hcw.cx⟩
    (f (rb.list ⟨open_lists stk, hlt⟩))
    (by
      unfold list_at
      simp only
      rw [dif_pos (show rb.list_depth < 8 by rw [hbd]; exact hlt)]
      have e : (⟨rb.list_depth, by rw [hbd]; exact hlt⟩ : Fin 8) = ⟨open_lists stk, hlt⟩ :=
        Fin.ext hbd
      rw [e, Function.update_same])
    (hf _)
  refine ⟨r1, h1, ?_, ?_⟩
  · have hw2 : StepW 0 0 r r1 := by
      refine stepw_trans hw ?_
      exact ⟨s1.pre, s1.lvl, s1.map, s1.flags, s1.cw_fs, s1.cw_hf, s1.cw_sa, s1.cw_li,
        s1.cw_tr, s1.cw_fi, s1.cw_cx⟩
    refine hi.transfer hw2 (Nat.zero_le _) (by rw [hg]; omega) (by omega) ?_ ?_
    · rw [s1.list_depth]
      simp only [hbd, hs]
      omega
    · intro i hi2
      rw [s1.list]
      simp only
      by_cases heq : i = ⟨open_lists stk, hlt⟩
      · rw [heq, Function.update_same]
        exact hf _
      · rw [Function.update_noteq heq, hbl]
        apply hi.lists
        have : i.val ≠ open_lists stk := fun hh => heq (Fin.ext hh)
        omega
  · exact List.IsPrefix.trans hw.pre s1.pre

theorem list_depth_enter (stk : List Frame) (r : MD_RTF) (hi : Inv stk r)
    (hlt : open_lists stk < 8) : (r.list_depth + 1) % 2 ^ 32 = open_lists stk := by
  rw [hi.depth]
  omega

set_option maxRecDepth 100000 in
theorem inv_enter_ul (stk : List Frame) (r : MD_RTF) (is_tight : Bool) (hi : Inv stk r)
    (hlt : open_lists stk < 8) :
    ∃ r1, render_enter_block_ul r is_tight = some r1 ∧
      Inv (.block (.UL is_tight) :: stk) r1 ∧ r.out <+: r1.out := by
  unfold render_enter_block_ul
  simp only [list_depth_enter stk r hi hlt]
  rw [dif_neg (by omega)]
  obtain ⟨hw, hbl, hbd⟩ := stepw_list_par r (open_lists stk) _ rfl
  refine inv_list_enter stk (.block (.UL is_tight) :: stk) r _ hi hlt rfl rfl hw hbl hbd _ ?_
  intro l
  refine ⟨?_, ?_, ?_⟩
  · simp only
    have : ∀ i : Fin 2, Lvl 0 0 (c_str (g_cw_list_bullt i)) := by
      intro i
      fin_cases i <;> exact lvl_of_lvlb 0 0 _ (by decide)
    exact this _
  · simp only
    rw [hw.cw_li]
    exact hi.cw.li _
  · simp only
    rw [hw.cw_sa]
    split
    · exact hi.cw.sa 0
    · exact hi.cw.sa 1

set_option maxRecDepth 100000 in
theorem inv_enter_ol (stk : List Frame) (r : MD_RTF) (start : Nat) (is_tight : Bool)
    (mark_delimiter : Byte) (hi : Inv stk r) (hlt : open_lists stk < 8) :
    ∃ r1, render_enter_block_ol r start is_tight mark_delimiter = some r1 ∧
      Inv (.block (.OL start is_tight mark_delimiter) :: stk) r1 ∧ r.out <+: r1.out := by
  unfold render_enter_block_ol
  simp only [list_depth_enter stk r hi hlt]
  rw [dif_neg (by omega)]
  obtain ⟨hw, hbl, hbd⟩ := stepw_list_par r (open_lists stk) _ rfl
  refine inv_list_enter stk (.block (.OL start is_tight mark_delimiter) :: stk) r _ hi hlt
    rfl rfl hw hbl hbd _ ?_
  intro l
  refine ⟨?_, ?_, ?_⟩
  · simp only
    split <;> exact lvl_of_lvlb 0 0 _ (by decide)
  · simp only
    rw [hw.cw_li]
    exact hi.cw.li _
  · simp only
    rw [hw.cw_sa]
    split
    · exact hi.cw.sa 0
    · exact hi.cw.sa 1

theorem inv_leave_list (stk : List Frame) (f : Frame) (r : MD_RTF) (hi : Inv (f :: stk) r)
    (hs : open_lists (f :: stk) = open_lists stk + 1)
    (hg : group_depth (f :: stk) = group_depth stk) :
    Inv stk (render_leave_block_ul r) ∧ r.out <+: (render_leave_block_ul r).out := by
  have hn := hi.nlists
  have hd := hi.depth
  rw [hs] at hn hd
  have hw : StepW 0 0 r (render_leave_block_ul r) := by
    unfold render_leave_block_ul
    simp only
    split
    · have s := stepw_refl 0 r
      exact ⟨s.pre, s.lvl, rfl, rfl, rfl, rfl, rfl, rfl, rfl, rfl, rfl⟩
    · have s := (step_basic r hi.cw).2.2.2.2.2.2.2.2.2.2.2.2.2.2.2
      exact ⟨s.pre, s.lvl, rfl, rfl, rfl, rfl, rfl, rfl, rfl, rfl, rfl⟩
  have hlist : (render_leave_block_ul r).list = r.list := by
    unfold render_leave_block_ul
    simp only
    split <;> rfl
  have hdepth : (render_leave_block_ul r).list_depth = (r.list_depth + 2 ^ 32 - 1) % 2 ^ 32 := by
    unfold render_leave_block_ul
    simp only
    split <;> rfl
  refine ⟨hi.transfer hw (Nat.zero_le _) (by rw [hg]; omega) (by omega) ?_ ?_, hw.pre⟩
  · rw [hdepth, hd]
    omega
  · intro i h
    rw [hlist]
    exact hi.lists i (by rw [hs]; omega)

theorem render_leave_block_ol_eq (r : MD_RTF) :
    render_leave_block_ol r = render_leave_block_ul r := rfl

theorem inv_enter_li (stk : List Frame) (r : MD_RTF) (hi : Inv stk r)
    (hpos : 0 < open_lists stk) :
    ∃ r1, render_enter_block_li r = some r1 ∧ Inv (.block .LI :: stk) r1 ∧ r.out <+: r1.out := by
  have hn := hi.nlists
  have hd : r.list_depth = open_lists stk - 1 := by rw [hi.depth]; omega
  have hlt : r.list_depth < 8 := by omega
  have hla : ∀ r0 : MD_RTF, r0.list = r.list → r0.list_depth = r.list_depth →
      list_at r0 r0.list_depth = some (r.list ⟨r.list_depth, hlt⟩) := by
    intro r0 h1 h2
    unfold list_at
    rw [dif_pos (by rw [h2]; exact hlt)]
    simp only [h1, h2]
  have hok : ListOk (r.list ⟨r.list_depth, hlt⟩) := hi.lists _ (by simp only; omega)
  unfold render_enter_block_li
  obtain ⟨ra, ha, sa⟩ : ∃ ra, (if r.list_reset ≠ 0 then render_list_start r else some r) = some ra
      ∧ Step 0 0 r ra := by
    split
    · exact step_list_start r hi.cw _ (hla r rfl rfl) hok
    · exact ⟨r, rfl, Step.refl 0 r⟩
  rw [ha]
  simp only
  rw [hla ra sa.list sa.list_depth]
  simp only
  obtain ⟨rb, hb, sb⟩ : ∃ rb, (if (r.list ⟨r.list_depth, hlt⟩).count > 0 then render_list_item ra
      else some ra) = some rb ∧ Step 0 0 ra rb := by
    split
    · exact step_list_item ra _ (hla ra sa.list sa.list_depth) hok
    · exact ⟨ra, rfl, Step.refl 0 ra⟩
  rw [hb]
  simp only
  have sab := Step.trans sa sb
  unfold list_set
  rw [dif_pos (by rw [sab.list_depth]; exact hlt)]
  simp only
  refine ⟨_, rfl, ?_, sab.pre⟩
  have hw : StepW 0 0 r { rb with
      list := (Function.update rb.list ⟨rb.list_depth, by rw [sab.list_depth]; exact hlt⟩
        { rb.list ⟨rb.list_depth, by rw [sab.list_depth]; exact hlt⟩ with
          count := (((rb.list ⟨rb.list_depth, by rw [sab.list_depth]; exact hlt⟩).count + 1)
            % 2 ^ 32) })
      list_stop := 1 } :=
    ⟨sab.pre, sab.lvl, sab.map, sab.flags, sab.cw_fs, sab.cw_hf, sab.cw_sa, sab.cw_li,
      sab.cw_tr, sab.cw_fi, sab.cw_cx⟩
  refine hi.transfer hw (Nat.zero_le _) rfl hn ?_ ?_
  · simp only
    rw [sab.list_depth]
    exact hi.depth
  · intro i h
    simp only
    by_cases heq : i = ⟨rb.list_depth, by rw [sab.list_depth]; exact hlt⟩
    · rw [heq, Function.update_same]
      have hold : ListOk (rb.list ⟨rb.list_depth, by rw [sab.list_depth]; exact hlt⟩) := by
        rw [sab.list]
        exact hi.lists _ (by simp only [sab.list_depth]; omega)
      exact ⟨hold.tx, hold.li, hold.sa⟩
    · rw [Function.update_noteq heq, sab.list]
      exact hi.lists i h

set_option maxRecDepth 100000 in
theorem step_enter_block_doc (r : MD_RTF) (h : CwOk r) :
    Step 0 1 r (render_enter_block_doc r) := by
  rw [render_enter_block_doc_eq]
  refine ⟨?_, ?_, rfl, rfl, rfl, rfl, rfl, rfl, rfl, rfl, rfl, rfl, rfl⟩
  · simp only [List.prefix_append]
  · simp only [List.drop_left, doc_header]
    have L : ∀ s : String, cwstrb (cstr s) = true → CwStr (cstr s) :=
      fun s hs => cwstr_of_cwstrb _ hs
    have hpage : CwStr (cstr "\\paperw" ++ fmt_u r.page_width ++ cstr "\\paperh"
        ++ fmt_u r.page_height ++ cstr "\\margl" ++ fmt_u r.page_margin ++ cstr "\\margr"
        ++ fmt_u r.page_margin ++ cstr "\\margt" ++ fmt_u r.page_margin ++ cstr "\\margb"
        ++ fmt_u r.page_margin) := by
      repeat' (first
        | exact cwstr_fmt_u _
        | exact L _ (by decide)
        | (with_reducible refine cwstr_append ?_ ?_))
    refine Lvl.append (m := 1) (Lvl.append (m := 1) (Lvl.append (m := 1)
      (lvl_of_lvlb 0 1 _ (by decide)) (Lvl.zero_lift 1 hpage.lvl))
      (lvl_of_lvlb 1 1 _ (by decide))) (Lvl.zero_lift 1 (h.sa 2))

set_option maxRecDepth 100000 in
theorem doc_header_starts (r : MD_RTF) : cstr "\x7b\\rtf1" <+: doc_header r := by
  unfold doc_header
  have : cstr "\x7b\\rtf1" <+: c_str (cstr "\x7b\\rtf1\\ansi\\ansicpg1252\\deff0\x7b\\fonttbl\x7b\\f0\\fswiss Calibri;\x7d\x7b\\f1\\fmodern Courier New;\x7d\x7b\\f2\\fnil Symbol;\x7d\x7d\x7b\\colortbl;\\red0\\green0\\blue0;\\red255\\green255\\blue255;\\red180\\green180\\blue180;\\red0\\green102\\blue204;\\red230\\green230\\blue230;\x7d\x7b\\*\\generator MD4C-RTF\x7d") := by
    decide
  simp only [List.append_assoc]
  exact List.IsPrefix.trans this (List.prefix_append _ _)

theorem inv_of_step {stk stk1 : List Frame} {r r1 : MD_RTF} {k m : Nat} (hi : Inv stk r)
    (hs : Step k m r r1) (hk : k ≤ group_depth stk)
    (hg : group_depth stk1 = group_depth stk - k + m)
    (hn : open_lists stk1 = open_lists stk) : Inv stk1 r1 ∧ r.out <+: r1.out :=
  ⟨hi.of_step hs hk hg hn, hs.pre⟩

set_option maxRecDepth 100000 in
theorem enter_block_inv (p : Platform) (stk : List Frame) (b : MD_BLOCK) (r : MD_RTF)
    (hi : Inv stk r) (hok : event_ok stk (.enter_block b) = true) :
    ∃ r1, enter_block_callback p b r = some (r1, 0) ∧ Inv (.block b :: stk) r1
      ∧ r.out <+: r1.out := by
  have hb := step_basic r hi.cw
  cases b
  case DOC =>
    exact ⟨_, rfl, inv_of_step hi (step_enter_block_doc r hi.cw) (Nat.zero_le _) rfl rfl⟩
  case QUOTE => exact ⟨_, rfl, inv_of_step hi hb.1 (Nat.zero_le _) rfl rfl⟩
  case UL is_tight =>
    obtain ⟨r1, h1, h2, h3⟩ := inv_enter_ul stk r is_tight hi (by simpa [event_ok] using hok)
    exact ⟨r1, by simp only [enter_block_callback, h1, Option.map_some'], h2, h3⟩
  case OL start is_tight mark_delimiter =>
    obtain ⟨r1, h1, h2, h3⟩ := inv_enter_ol stk r start is_tight mark_delimiter hi
      (by simpa [event_ok] using hok)
    exact ⟨r1, by simp only [enter_block_callback, h1, Option.map_some'], h2, h3⟩
  case LI =>
    obtain ⟨r1, h1, h2, h3⟩ := inv_enter_li stk r hi (by simpa [event_ok] using hok)
    exact ⟨r1, by simp only [enter_block_callback, h1, Option.map_some'], h2, h3⟩
  case HR => exact ⟨_, rfl, inv_of_step hi hb.2.2.2.2.1 (Nat.zero_le _) rfl rfl⟩
  case H level =>
    have hl : 1 ≤ level ∧ level ≤ 6 := by simpa [event_ok] using hok
    obtain ⟨r1, h1, h2⟩ := step_enter_block_h r hi.cw level hl.1 hl.2
    exact ⟨r1, by simp only [enter_block_callback, h1, Option.map_some'],
      inv_of_step hi h2 (Nat.zero_le _) rfl rfl⟩
  case CODE => exact ⟨_, rfl, inv_of_step hi hb.2.2.1 (Nat.zero_le _) rfl rfl⟩
  case HTML => exact ⟨_, rfl, inv_of_step hi (Step.refl 0 r) (Nat.zero_le _) rfl rfl⟩
  case P => exact ⟨_, rfl, inv_of_step hi hb.2.2.2.2.2.2.2.2.2.2.2.2.1 (Nat.zero_le _) rfl rfl⟩
  case TABLE n => exact ⟨_, rfl, inv_of_step hi (hb.2.2.2.2.2.1 n) (Nat.zero_le _) rfl rfl⟩
  case THEAD => exact ⟨_, rfl, inv_of_step hi hb.2.2.2.2.2.2.2.1 (Nat.zero_le _) rfl rfl⟩
  case TBODY => exact ⟨_, rfl, inv_of_step hi (Step.refl 0 r) (Nat.zero_le _) rfl rfl⟩
  case TR => exact ⟨_, rfl, inv_of_step hi (step_enter_block_tr p r hi.cw) (Nat.zero_le _) rfl rfl⟩
  case TH a => exact ⟨_, rfl, inv_of_step hi (step_enter_block_th r a) (Nat.zero_le _) rfl rfl⟩
  case TD a => exact ⟨_, rfl, inv_of_step hi (step_enter_block_td r a) (Nat.zero_le _) rfl rfl⟩

set_option maxRecDepth 100000 in
theorem leave_block_inv (stk : List Frame) (b : MD_BLOCK) (r : MD_RTF)
    (hi : Inv (.block b :: stk) r) :
    ∃ r1, leave_block_callback b r = some (r1, 0) ∧ Inv stk r1 ∧ r.out <+: r1.out := by
  have hb := step_basic r hi.cw
  cases b
  case DOC =>
    exact ⟨_, rfl, inv_of_step hi (step_literal r _ 1 0 (by decide))
      (by simp [group_depth]) (by simp [group_depth]) rfl⟩
  case QUOTE => exact ⟨_, rfl, inv_of_step hi hb.2.1 (Nat.zero_le _) rfl rfl⟩
  case UL is_tight => exact ⟨_, rfl, inv_leave_list stk _ r hi rfl rfl⟩
  case OL start is_tight mark_delimiter => exact ⟨_, rfl, inv_leave_list stk _ r hi rfl rfl⟩
  case LI => exact ⟨_, rfl, inv_of_step hi (step_leave_block_li r) (Nat.zero_le _) rfl rfl⟩
  case HR => exact ⟨_, rfl, inv_of_step hi (Step.refl 0 r) (Nat.zero_le _) rfl rfl⟩
  case H level =>
    exact ⟨_, rfl, inv_of_step hi (step_leave_block_h r level) (Nat.zero_le _) rfl rfl⟩
  case CODE => exact ⟨_, rfl, inv_of_step hi hb.2.2.2.1 (Nat.zero_le _) rfl rfl⟩
  case HTML => exact ⟨_, rfl, inv_of_step hi (Step.refl 0 r) (Nat.zero_le _) rfl rfl⟩
  case P => exact ⟨_, rfl, inv_of_step hi (step_leave_block_p r) (Nat.zero_le _) rfl rfl⟩
  case TABLE n => exact ⟨_, rfl, inv_of_step hi hb.2.2.2.2.2.2.1 (Nat.zero_le _) rfl rfl⟩
  case THEAD => exact ⟨_, rfl, inv_of_step hi hb.2.2.2.2.2.2.2.2.1 (Nat.zero_le _) rfl rfl⟩
  case TBODY => exact ⟨_, rfl, inv_of_step hi (Step.refl 0 r) (Nat.zero_le _) rfl rfl⟩
  case TR => exact ⟨_, rfl, inv_of_step hi hb.2.2.2.2.2.2.2.2.2.1 (Nat.zero_le _) rfl rfl⟩
  case TH a => exact ⟨_, rfl, inv_of_step hi hb.2.2.2.2.2.2.2.2.2.2.2.1 (Nat.zero_le _) rfl rfl⟩
  case TD a => exact ⟨_, rfl, inv_of_step hi hb.2.2.2.2.2.2.2.2.2.2.1 (Nat.zero_le _) rfl rfl⟩

theorem dispatch_inv (p : Platform) (stk stk1 : List Frame) (e : Event) (r : MD_RTF)
    (hi : Inv stk r) (hok : event_ok stk e = true) (hn : next_stack stk e = some stk1) :
    ∃ r1, dispatch p e r = some (r1, 0) ∧ Inv stk1 r1 ∧ r.out <+: r1.out := by
  cases e with
  | enter_block b =>
    simp only [next_stack, Option.some.injEq] at hn
    subst hn
    exact enter_block_inv p stk b r hi hok
  | leave_block b =>
    cases stk with
    | nil => simp [next_stack] at hn
    | cons f t =>
      simp only [next_stack] at hn
      split at hn
      · rename_i hf
        simp only [Option.some.injEq] at hn
        subst hn hf
        exact leave_block_inv t b r hi
      · cases hn
  | enter_span s =>
    simp only [next_stack, Option.some.injEq] at hn
    subst hn
    obtain ⟨r1, h1, h2⟩ := step_enter_span r hi.cw hi.map s
    cases s <;> exact ⟨r1, h1, inv_of_step hi h2 (Nat.zero_le _) rfl rfl⟩
  | leave_span s =>
    cases stk with
    | nil => simp [next_stack] at hn
    | cons f t =>
      simp only [next_stack] at hn
      split at hn
      · rename_i hf
        simp only [Option.some.injEq] at hn
        subst hn hf
        obtain ⟨r1, h1, h2⟩ := step_leave_span r hi.cw s
        cases s <;>
          exact ⟨r1, h1, inv_of_step hi h2 (by simp [group_depth]) (by simp [group_depth]) rfl⟩
      · cases hn
  | text type data =>
    simp only [next_stack, Option.some.injEq] at hn
    subst hn
    obtain ⟨r1, h1, h2⟩ := step_text p r hi.map hi.flag type data (by
      intro ht
      subst ht
      simpa [event_ok] using hok)
    exact ⟨r1, h1, inv_of_step hi h2 (Nat.zero_le _) rfl rfl⟩

theorem run_events_inv (p : Platform) : ∀ (es : List Event) (stk : List Frame) (r : MD_RTF),
    Inv stk r → well_nested_from stk es = true →
    ∃ r1, run_events p es r = some (r1, 0) ∧ Inv [] r1 ∧ r.out <+: r1.out ∧
      (es.getLast? = some (.leave_block .DOC) → ∃ body, r1.out = body ++ cstr "\x7d") := by
  intro es
  induction es with
  | nil =>
    intro stk r hi hwn
    simp only [well_nested_from, List.isEmpty_iff] at hwn
    subst hwn
    exact ⟨r, rfl, hi, List.prefix_rfl, by simp⟩
  | cons e es ih =>
    intro stk r hi hwn
    simp only [well_nested_from, Bool.and_eq_true] at hwn
    obtain ⟨hok, hrest⟩ := hwn
    cases hns : next_stack stk e with
    | none => rw [hns] at hrest; cases hrest
    | some stk1 =>
      rw [hns] at hrest
      simp only at hrest
      obtain ⟨r1, h1, hi1, hp1⟩ := dispatch_inv p stk stk1 e r hi hok hns
      obtain ⟨r2, h2, hi2, hp2, hl2⟩ := ih stk1 r1 hi1 hrest
      refine ⟨r2, ?_, hi2, List.IsPrefix.trans hp1 hp2, ?_⟩
      · simp only [run_events, h1, ne_eq, not_true_eq_false, if_false, h2]
      · intro hlast
        cases es with
        | nil =>
          simp only [List.getLast?_singleton, Option.some.injEq] at hlast
          subst hlast
          simp only [run_events, Option.some.injEq, Prod.mk.injEq, and_true] at h2
          subst h2
          have hd : dispatch p (.leave_block .DOC) r = some (render_leave_block_doc r, 0) := rfl
          rw [hd] at h1
          simp only [Option.some.injEq, Prod.mk.injEq, and_true] at h1
          subst h1
          have hc : c_str (cstr "\x7d\x00") = cstr "\x7d" := by decide
          exact ⟨r.out, by simp only [render_leave_block_doc, RENDER_VERBATIM, render_verbatim, hc]⟩
        | cons e2 es2 =>
          rw [List.getLast?_cons_cons] at hlast
          exact hl2 hlast

theorem inv_of_setup (p : Platform) (render r : MD_RTF)
    (renderer_flags font_size doc_width : Nat)
    (hsetup : md_rtf_setup p render renderer_flags font_size doc_width = some r)
    (hsink : render.out = [])
    (hflag : renderer_flags &&& MD_RTF_FLAG_VERBATIM_ENTITIES = 0) : Inv [] r ∧ r.out = [] := by
  have hcw := md_rtf_setup_cwok p render r renderer_flags font_size doc_width hsetup
  obtain ⟨fb, pw, _, hr⟩ := md_rtf_setup_some p render r renderer_flags font_size doc_width hsetup
  have hout : r.out = [] := by rw [hr]; exact hsink
  refine ⟨⟨by rw [hr], by rw [hr]; exact hflag, hcw, by rw [hr]; rfl, Nat.zero_le _, ?_, ?_⟩, hout⟩
  · intro i h
    exact absurd h (Nat.not_lt_zero _)
  · rw [hout]
    rfl

/-- C1: the output for a well-nested event sequence is group-balanced RTF.  The context
is the one `md_rtf` builds (any font size and width for which every control word fits
its slot) with an empty sink and the verbatim-entities flag clear.  The events start
with document-enter, end with document-leave and are well nested: enter and leave
events match like brackets, at most 8 lists are open at a time, a list item occurs
inside a list, heading levels are 1..6 and an entity text ends with `;`; text bytes and
link targets are arbitrary.  Then every callback returns 0 and, scanning the output
with a backslash consuming the byte after it, the unescaped opening and closing braces
are equal in number, no prefix closes more groups than it opened, the output starts with
the opening brace and `\rtf1` and ends with the closing brace of document-leave. -/
theorem md_rtf_output_group_balanced (p : Platform) (render r : MD_RTF)
    (renderer_flags font_size doc_width : Nat) (es : List Event)
    (hsetup : md_rtf_setup p render renderer_flags font_size doc_width = some r)
    (hsink : render.out = [])
    (hflag : renderer_flags &&& MD_RTF_FLAG_VERBATIM_ENTITIES = 0)
    (hwn : well_nested es = true)
    (hfirst : es.head? = some (.enter_block .DOC))
    (hlast : es.getLast? = some (.leave_block .DOC)) :
    ∃ r1, run_events p es r = some (r1, 0) ∧
      group_opens r1.out = group_closes r1.out ∧
      (∀ pre, pre <+: r1.out → group_closes pre ≤ group_opens pre) ∧
      cstr "\x7b\\rtf1" <+: r1.out ∧
      ∃ body, r1.out = body ++ cstr "\x7d" := by
  obtain ⟨hi, hout⟩ := inv_of_setup p render r renderer_flags font_size doc_width hsetup hsink
    hflag
  obtain ⟨r1, h1, hi1, _, hl1⟩ := run_events_inv p es [] r hi hwn
  obtain ⟨hbal, hpre⟩ := balanced_of_scan r1.out false hi1.scan
  refine ⟨r1, h1, hbal, hpre, ?_, hl1 hlast⟩
  cases es with
  | nil => simp at hfirst
  | cons e es2 =>
    simp only [List.head?_cons, Option.some.injEq] at hfirst
    subst hfirst
    simp only [well_nested, well_nested_from, Bool.and_eq_true] at hwn
    have hd : dispatch p (.enter_block .DOC) r = some (render_enter_block_doc r, 0) := rfl
    have hi2 : Inv [.block .DOC] (render_enter_block_doc r) :=
      (@inv_of_step [] [.block .DOC] r _ 0 1 hi (step_enter_block_doc r hi.cw) (Nat.zero_le _)
        rfl rfl).1
    obtain ⟨r2, h2, _, hp2, _⟩ := run_events_inv p es2 [.block .DOC] _ hi2 hwn.2
    have e12 : r1 = r2 := by
      simp only [run_events, hd, ne_eq, not_true_eq_false, if_false, h2, Option.some.injEq,
        Prod.mk.injEq, and_true] at h1
      exact h1.symm
    rw [e12]
    refine List.IsPrefix.trans ?_ hp2
    rw [render_enter_block_doc_eq]
    simp only [hout, List.nil_append]
    exact doc_header_starts r

set_option maxRecDepth 100000 in
/-- Witness of `md_rtf_output_group_balanced`: the events of `# Title`, `Hello *world*.`
with the context of font size 12 and width 210. -/
theorem md_rtf_output_group_balanced_witness :
    md_rtf_setup sample_platform sample_render 0 12 210 = some sample_context ∧
    sample_render.out = [] ∧
    0 &&& MD_RTF_FLAG_VERBATIM_ENTITIES = 0 ∧
    well_nested title_hello_events = true ∧
    title_hello_events.head? = some (.enter_block .DOC) ∧
    title_hello_events.getLast? = some (.leave_block .DOC) ∧
    ∃ r1, run_events sample_platform title_hello_events sample_context = some (r1, 0) ∧
      group_opens r1.out = group_closes r1.out ∧
      (∀ pre, pre <+: r1.out → group_closes pre ≤ group_opens pre) ∧
      cstr "\x7b\\rtf1" <+: r1.out ∧
      ∃ body, r1.out = body ++ cstr "\x7d" :=
  ⟨sample_context_setup, rfl, by decide, by decide, by decide, by decide,
   md_rtf_output_group_balanced sample_platform sample_render sample_context 0 12 210
     title_hello_events sample_context_setup rfl (by decide) (by decide) (by decide)
     (by decide)⟩

/-- C18: the input `md_rtf` hands to the parsing engine is the source without its first
three bytes (length reduced by 3) if and only if the skip-BOM flag is set, the source has
at least 3 bytes and starts with EF BB BF; otherwise the source is handed on unchanged.
That input is `md_rtf_skip_bom renderer_flags input`: whenever the set-up of `md_rtf`
succeeds, `md_rtf` runs the callbacks on the events the engine yields for that input and
returns the status the engine reports for it; in particular an engine that delivers no
event and reports the length of the input it receives makes `md_rtf` return that
length. -/
theorem md_rtf_skip_bom_iff (renderer_flags : Nat) (input : List Byte) :
    ((md_rtf_skip_bom renderer_flags input = input.drop 3
        ∧ (md_rtf_skip_bom renderer_flags input).length + 3 = input.length)
      ↔ (renderer_flags &&& MD_RTF_FLAG_SKIP_UTF8_BOM ≠ 0 ∧ 3 ≤ input.length
          ∧ input.take 3 = [0xef, 0xbb, 0xbf])) ∧
    (¬ (renderer_flags &&& MD_RTF_FLAG_SKIP_UTF8_BOM ≠ 0 ∧ 3 ≤ input.length
          ∧ input.take 3 = [0xef, 0xbb, 0xbf]) →
      md_rtf_skip_bom renderer_flags input = input) ∧
    (∀ (p : Platform) (md_parse : List Byte → Nat → List Event × Int) (render r : MD_RTF)
        (parser_flags font_size doc_width : Nat),
      md_rtf_setup p render renderer_flags font_size doc_width = some r →
      md_rtf p md_parse render input parser_flags renderer_flags font_size doc_width
        = (run_events p (md_parse (md_rtf_skip_bom renderer_flags input) parser_flags).1 r).map
            (fun x => (x.1, if x.2 ≠ 0 then x.2
              else (md_parse (md_rtf_skip_bom renderer_flags input) parser_flags).2))) ∧
    (∀ (p : Platform) (render r : MD_RTF) (parser_flags font_size doc_width : Nat),
      md_rtf_setup p render renderer_flags font_size doc_width = some r →
      md_rtf p (fun inp _ => ([], (inp.length : Int))) render input parser_flags renderer_flags
          font_size doc_width
        = some (r, ((md_rtf_skip_bom renderer_flags input).length : Int))) := by
  refine ⟨?_, ?_, ?_, ?_⟩
  · constructor
    · rintro ⟨_, hlen⟩
      by_contra hc
      have : md_rtf_skip_bom renderer_flags input = input := by
        unfold md_rtf_skip_bom
        by_cases hf : renderer_flags &&& MD_RTF_FLAG_SKIP_UTF8_BOM ≠ 0
        · rw [if_pos hf]
          by_cases hl : 3 ≤ input.length
          · have ht : ¬ input.take 3 = [0xef, 0xbb, 0xbf] := fun h => hc ⟨hf, hl, h⟩
            simp [ht]
          · simp [hl]
        · rw [if_neg hf]
      rw [this] at hlen
      omega
    · rintro ⟨hf, hl, ht⟩
      have : md_rtf_skip_bom renderer_flags input = input.drop 3 := by
        unfold md_rtf_skip_bom
        rw [if_pos hf]
        simp [hl, ht]
      rw [this, List.length_drop]
      exact ⟨rfl, by omega⟩
  · intro hc
    unfold md_rtf_skip_bom
    by_cases hf : renderer_flags &&& MD_RTF_FLAG_SKIP_UTF8_BOM ≠ 0
    · rw [if_pos hf]
      by_cases hl : 3 ≤ input.length
      · have ht : ¬ input.take 3 = [0xef, 0xbb, 0xbf] := fun h => hc ⟨hf, hl, h⟩
        simp [ht]
      · simp [hl]
    · rw [if_neg hf]
  · intro p md_parse render r parser_flags font_size doc_width hs
    unfold md_rtf
    rw [hs]
    simp only
    cases hr : run_events p (md_parse (md_rtf_skip_bom renderer_flags input) parser_flags).1 r with
    | none => simp only [Option.map_none']
    | some x => simp only [Option.map_some']
  · intro p render r parser_flags font_size doc_width hs
    unfold md_rtf
    rw [hs]
    simp only [run_events, ne_eq, not_true_eq_false, if_false]

/-- C18 at a concrete input, for font size 12 and document width 210: with the skip-BOM
flag (value 4) the source EF BB BF 41 reaches the engine as the single byte 41, and the
engine that reports the length of its input makes `md_rtf` return 1; without the flag the
same engine makes it return 4; with the flag, a source whose third byte is not that of the
mark is handed on unchanged. -/
theorem md_rtf_skip_bom_iff_witness :
    (md_rtf_skip_bom 4 [0xef, 0xbb, 0xbf, 0x41] = [0x41]
      ∧ (md_rtf_skip_bom 4 [0xef, 0xbb, 0xbf, 0x41]).length + 3 = 4) ∧
    md_rtf_skip_bom 4 [0xef, 0xbb, 0x41] = [0xef, 0xbb, 0x41] ∧
    (∃ r, md_rtf_setup sample_platform sample_render 4 12 210 = some r ∧
      md_rtf sample_platform (fun inp _ => ([], (inp.length : Int))) sample_render
        [0xef, 0xbb, 0xbf, 0x41] 0 4 12 210 = some (r, 1)) ∧
    md_rtf sample_platform (fun inp _ => ([], (inp.length : Int))) sample_render
        [0xef, 0xbb, 0xbf, 0x41] 0 0 12 210 = some (sample_context, 4) := by
  refine ⟨(md_rtf_skip_bom_iff 4 [0xef, 0xbb, 0xbf, 0x41]).1.mpr
      ⟨by decide, by decide, by decide⟩,
    (md_rtf_skip_bom_iff 4 [0xef, 0xbb, 0x41]).2.1 (by decide), ?_,
    (md_rtf_skip_bom_iff 0 [0xef, 0xbb, 0xbf, 0x41]).2.2.2 sample_platform sample_render
      sample_context 0 12 210 sample_context_setup⟩
  have h : (md_rtf_setup sample_platform sample_render 4 12 210).isSome = true := by decide
  cases hs : md_rtf_setup sample_platform sample_render 4 12 210 with
  | none => rw [hs] at h; cases h
  | some r =>
    exact ⟨r, rfl, (md_rtf_skip_bom_iff 4 [0xef, 0xbb, 0xbf, 0x41]).2.2.2 sample_platform
      sample_render r 0 12 210 hs⟩

/-- C19: what `render_enter_block_hr` writes.  The row has height zero (`\trrh0`); its top
border is declared with width 20 and colour index 2 (white, the background), its bottom
border with width 1 and colour index 3 (gray), its left and right borders with width 1
and colour index 2. -/
theorem render_enter_block_hr_borders (r : MD_RTF) :
    (render_enter_block_hr r).out
      = r.out ++ (cstr "\\pard\\fs0\\trowd\\trrh0\\trautofit1"
          ++ cstr "\\clbrdrt\\brdrs\\brdrw20\\brdrcf2"
          ++ cstr "\\clbrdrb\\brdrs\\brdrw1\\brdrcf3"
          ++ cstr "\\clbrdrl\\brdrs\\brdrw1\\brdrcf2"
          ++ cstr "\\clbrdrr\\brdrs\\brdrw1\\brdrcf2")
        ++ c_str (r.cw_cx 1) ++ cstr "\\par\\cell\\row"
        ++ cstr "\\pard\\f0\\fs0" ++ c_str (r.cw_sa 2) ++ cstr "\\par\r\n" := by
  have h1 : c_str (cstr "\\pard\\fs0\\trowd\\trrh0\\trautofit1\\clbrdrt\\brdrs\\brdrw20\\brdrcf2\\clbrdrb\\brdrs\\brdrw1\\brdrcf3\\clbrdrl\\brdrs\\brdrw1\\brdrcf2\\clbrdrr\\brdrs\\brdrw1\\brdrcf2")
      = cstr "\\pard\\fs0\\trowd\\trrh0\\trautofit1"
          ++ cstr "\\clbrdrt\\brdrs\\brdrw20\\brdrcf2"
          ++ cstr "\\clbrdrb\\brdrs\\brdrw1\\brdrcf3"
          ++ cstr "\\clbrdrl\\brdrs\\brdrw1\\brdrcf2"
          ++ cstr "\\clbrdrr\\brdrs\\brdrw1\\brdrcf2" := by decide
  have h2 : c_str (cstr "\\par\\cell\\row") = cstr "\\par\\cell\\row" := by decide
  have h3 : c_str (cstr "\\pard\\f0\\fs0") = cstr "\\pard\\f0\\fs0" := by decide
  have h4 : c_str (cstr "\\par\r\n") = cstr "\\par\r\n" := by decide
  simp only [render_enter_block_hr, render_end_block, RENDER_VERBATIM, render_verbatim,
    h1, h2, h3, h4, List.append_assoc]

theorem md_rtf_cw_hf_nonzero (p : Platform) (fb : Nat) (i : Fin 6) :
    ∀ b ∈ md_rtf_cw_hf p fb i, b ≠ 0 := by
  have L : ∀ s : String, cwstrb (cstr s) = true → CwStr (cstr s) := fun s hs => cwstr_of_cwstrb _ hs
  have h : CwStr (md_rtf_cw_hf p fb i) := by
    fin_cases i <;> simp only [md_rtf_cw_hf] <;>
      exact cwstr_append (cwstr_append (cwstr_append (cwstr_append (L _ (by decide))
        (cwstr_fmt_u _)) (L _ (by decide))) (cwstr_fmt_u _)) (L _ (by decide))
  exact h.1

/-- C20: in a context built by `md_rtf`, for every heading level L in 1..6 heading-enter
writes the L-th precomputed style string, which is a font size, a space-after value, bold
on, and italic on exactly when L > 3; heading-leave writes bold off, italic off exactly
when L > 3, and a paragraph break. -/
theorem render_block_h_attributes (p : Platform) (render r : MD_RTF)
    (renderer_flags font_size doc_width : Nat) (L : Nat)
    (hsetup : md_rtf_setup p render renderer_flags font_size doc_width = some r)
    (h1 : 1 ≤ L) (h6 : L ≤ 6) :
    ∃ (hL : L - 1 < 6) (fsz : Nat),
      render_enter_block_h r L = some { r with out := r.out ++ r.cw_hf ⟨L - 1, hL⟩ } ∧
      r.cw_hf ⟨L - 1, hL⟩
        = cstr "\\fs" ++ fmt_u fsz ++ cstr "\\sa" ++ fmt_u (2 * r.font_base) ++ cstr "\\b"
            ++ (if L > 3 then cstr "\\i" else []) ++ cstr " " ∧
      render_leave_block_h r L
        = { r with out := r.out ++ (cstr "\\b0" ++ (if L > 3 then cstr "\\i0" else [])
              ++ cstr " \\par\r\n") } := by
  obtain ⟨fb, pw, _, hr⟩ := md_rtf_setup_some p render r renderer_flags font_size doc_width hsetup
  have hhf : r.cw_hf = md_rtf_cw_hf p fb := by rw [hr]
  have hfb : r.font_base = fb := by rw [hr]
  have hidx : (L + 2 ^ 32 - 1) % 2 ^ 32 = L - 1 := by omega
  have hL : L - 1 < 6 := by omega
  have henter : render_enter_block_h r L = some { r with out := r.out ++ r.cw_hf ⟨L - 1, hL⟩ } := by
    unfold render_enter_block_h
    simp only [hidx, hL, dite_true, RENDER_VERBATIM, render_verbatim]
    rw [c_str_eq_self _ (by rw [hhf]; exact md_rtf_cw_hf_nonzero p fb _)]
  have hleave : render_leave_block_h r L
      = { r with out := r.out ++ (cstr "\\b0" ++ (if L > 3 then cstr "\\i0" else [])
            ++ cstr " \\par\r\n") } := by
    have e1 : c_str (cstr "\\b0\\i0 \\par\r\n") = cstr "\\b0" ++ cstr "\\i0" ++ cstr " \\par\r\n" := by
      decide
    have e2 : c_str (cstr "\\b0 \\par\r\n") = cstr "\\b0" ++ [] ++ cstr " \\par\r\n" := by decide
    unfold render_leave_block_h
    by_cases h3 : L > 3
    · simp only [h3, if_true, RENDER_VERBATIM, render_verbatim, e1]
    · simp only [h3, if_false, RENDER_VERBATIM, render_verbatim, e2]
  have hstyle : ∃ fsz, r.cw_hf ⟨L - 1, hL⟩
      = cstr "\\fs" ++ fmt_u fsz ++ cstr "\\sa" ++ fmt_u (2 * r.font_base) ++ cstr "\\b"
          ++ (if L > 3 then cstr "\\i" else []) ++ cstr " " := by
    rw [hhf, hfb]
    have e1 : cstr "\\b " = cstr "\\b" ++ [] ++ cstr " " := by decide
    have e2 : cstr "\\b\\i " = cstr "\\b" ++ cstr "\\i" ++ cstr " " := by decide
    obtain rfl | rfl | rfl | rfl | rfl | rfl : L = 1 ∨ L = 2 ∨ L = 3 ∨ L = 4 ∨ L = 5 ∨ L = 6 := by
      omega
    · exact ⟨p.fmul 22 10 fb, by
        show md_rtf_cw_hf p fb 0 = _
        simp only [md_rtf_cw_hf, e1, List.append_assoc]; rfl⟩
    · exact ⟨p.fmul 17 10 fb, by
        show md_rtf_cw_hf p fb 1 = _
        simp only [md_rtf_cw_hf, e1, List.append_assoc]; rfl⟩
    · exact ⟨p.fmul 14 10 fb, by
        show md_rtf_cw_hf p fb 2 = _
        simp only [md_rtf_cw_hf, e1, List.append_assoc]; rfl⟩
    · exact ⟨p.fmul 12 10 fb, by
        show md_rtf_cw_hf p fb 3 = _
        simp only [md_rtf_cw_hf, e2, List.append_assoc]; rfl⟩
    · exact ⟨p.fmul 11 10 fb, by
        show md_rtf_cw_hf p fb 4 = _
        simp only [md_rtf_cw_hf, e2, List.append_assoc]; rfl⟩
    · exact ⟨fb, by
        show md_rtf_cw_hf p fb 5 = _
        simp only [md_rtf_cw_hf, e2, List.append_assoc]; rfl⟩
  obtain ⟨fsz, hs⟩ := hstyle
  exact ⟨hL, fsz, henter, hs, hleave⟩

/-- C20 at a concrete input: level 4 in the context built for font size 12 and document
width 210. -/
theorem render_block_h_attributes_witness :
    md_rtf_setup sample_platform sample_render 0 12 210 = some sample_context ∧
    ∃ (hL : 4 - 1 < 6) (fsz : Nat),
      render_enter_block_h sample_context 4
        = some { sample_context with
            out := sample_context.out ++ sample_context.cw_hf ⟨4 - 1, hL⟩ } ∧
      sample_context.cw_hf ⟨4 - 1, hL⟩
        = cstr "\\fs" ++ fmt_u fsz ++ cstr "\\sa" ++ fmt_u (2 * sample_context.font_base)
            ++ cstr "\\b" ++ (if 4 > 3 then cstr "\\i" else []) ++ cstr " " ∧
      render_leave_block_h sample_context 4
        = { sample_context with
            out := sample_context.out ++ (cstr "\\b0" ++ (if 4 > 3 then cstr "\\i0" else [])
              ++ cstr " \\par\r\n") } :=
  ⟨sample_context_setup,
   render_block_h_attributes sample_platform sample_render sample_context 0 12 210 4
     sample_context_setup (by decide) (by decide)⟩

/-- C16: the font base is clamped to 98, but for every font size whose base is 50 or
more (font size 25 and above) the sixth heading style string, with its terminator, needs
more than the 16 bytes of its slot, so the initialisation writes past the slot: the model
of the initialisation has no result. -/
theorem md_rtf_setup_heading_overflow (p : Platform) (render : MD_RTF)
    (renderer_flags font_size doc_width : Nat) (h : 50 ≤ 2 * font_size % 2 ^ 32) :
    ∃ font_base, font_base = (if 2 * font_size % 2 ^ 32 > 98 then 98 else 2 * font_size % 2 ^ 32) ∧
      font_base ≤ 98 ∧
      16 < (md_rtf_cw_hf p font_base 5).length + 1 ∧
      sprintf_slot 16 (md_rtf_cw_hf p font_base 5) = none ∧
      md_rtf_setup p render renderer_flags font_size doc_width = none := by
  refine ⟨_, rfl, by split <;> omega, ?_⟩
  generalize hfb : (if 2 * font_size % 2 ^ 32 > 98 then 98 else 2 * font_size % 2 ^ 32) = fb
  have hlo : 50 ≤ fb := by rw [← hfb]; split <;> omega
  have hhi : fb ≤ 98 := by rw [← hfb]; split <;> omega
  have hlen : 16 < (md_rtf_cw_hf p fb 5).length + 1 := by
    have e : md_rtf_cw_hf p fb 5
        = cstr "\\fs" ++ fmt_u fb ++ cstr "\\sa" ++ fmt_u (2 * fb) ++ cstr "\\b\\i " := rfl
    rw [e]
    interval_cases fb <;> decide
  have hslot : sprintf_slot 16 (md_rtf_cw_hf p fb 5) = none := by
    unfold sprintf_slot
    rw [if_neg (by omega)]
  refine ⟨hlen, hslot, ?_⟩
  have hB : (List.finRange 6).all (fun i => (sprintf_slot 16 (md_rtf_cw_hf p fb i)).isSome)
      = false := by
    rw [List.all_eq_false]
    exact ⟨5, List.mem_finRange 5, by rw [hslot]; simp⟩
  unfold md_rtf_setup
  simp only [hfb]
  have hfit : md_rtf_cw_fits p fb (p.fmul 56689 1000 doc_width) 400 = false := by
    unfold md_rtf_cw_fits
    rw [hB]
    simp
  rw [hfit]
  simp

/-- C16 at font size 25: the font base is 50 and the sixth heading style string
`\fs50\sa100\b\i ` takes 17 bytes with its terminator. -/
theorem md_rtf_setup_heading_overflow_witness :
    50 ≤ 2 * 25 % 2 ^ 32 ∧
    ∃ font_base, font_base = (if 2 * 25 % 2 ^ 32 > 98 then 98 else 2 * 25 % 2 ^ 32) ∧
      font_base ≤ 98 ∧
      16 < (md_rtf_cw_hf sample_platform font_base 5).length + 1 ∧
      sprintf_slot 16 (md_rtf_cw_hf sample_platform font_base 5) = none ∧
      md_rtf_setup sample_platform sample_render 0 25 210 = none :=
  ⟨by decide, md_rtf_setup_heading_overflow sample_platform sample_render 0 25 210 (by decide)⟩

set_option maxRecDepth 100000 in
theorem md_rtf_cw_fixed_slots_fit (fb : Nat) (h : fb ≤ 98) :
    (sprintf_slot 8 (cstr "\\fs" ++ fmt_u fb)).isSome = true ∧
    (∀ i, (sprintf_slot 16 (md_rtf_cw_sa fb i)).isSome = true) ∧
    (∀ i, (sprintf_slot 16 (md_rtf_cw_li fb i)).isSome = true) ∧
    (∀ i, (sprintf_slot 32 (md_rtf_cw_tr fb i)).isSome = true) ∧
    (∀ i, (sprintf_slot 16 (md_rtf_cw_fi fb i)).isSome = true) := by
  interval_cases fb <;> decide

theorem render_list_start_spec (r : MD_RTF) :
    (r.list_depth < 8 → ∃ r1, render_list_start r = some r1) ∧
    (8 ≤ r.list_depth → render_list_start r = none) ∧
    (∀ r1, render_list_start r = some r1 → r1.list_depth = r.list_depth ∧ r1.list = r.list) := by
  unfold render_list_start list_at
  refine ⟨?_, ?_, ?_⟩
  · intro h
    simp only [dif_pos h]
    exact ⟨_, rfl⟩
  · intro h
    simp only [dif_neg (show ¬ r.list_depth < 8 by omega)]
  · intro r1 h
    by_cases hd : r.list_depth < 8
    · simp only [dif_pos hd, Option.some.injEq] at h
      subst h
      simp only [RENDER_VERBATIM, render_verbatim]
      constructor <;> (repeat' split) <;> rfl
    · simp only [dif_neg hd] at h
      cases h

theorem render_list_item_spec (r : MD_RTF) :
    (r.list_depth < 8 → ∃ r1, render_list_item r = some r1) ∧
    (∀ r1, render_list_item r = some r1 → r1.list_depth = r.list_depth ∧ r1.list = r.list) := by
  unfold render_list_item list_at
  refine ⟨?_, ?_⟩
  · intro h
    simp only [dif_pos h]
    exact ⟨_, rfl⟩
  · intro r1 h
    by_cases hd : r.list_depth < 8
    · simp only [dif_pos hd, Option.some.injEq] at h
      subst h
      simp only [RENDER_VERBATIM, render_verbatim]
      constructor <;> (repeat' split) <;> rfl
    · simp only [dif_neg hd] at h
      cases h

theorem render_enter_block_li_spec (r : MD_RTF) :
    (r.list_depth < 8 → ∃ r1, render_enter_block_li r = some r1) ∧
    (8 ≤ r.list_depth → render_enter_block_li r = none) ∧
    (∀ r1, render_enter_block_li r = some r1 → r1.list_depth = r.list_depth) := by
  refine ⟨?_, ?_, ?_⟩
  · intro h
    unfold render_enter_block_li
    obtain ⟨ra, ha, hda⟩ : ∃ ra, (if r.list_reset ≠ 0 then render_list_start r else some r)
        = some ra ∧ ra.list_depth = r.list_depth := by
      split
      · obtain ⟨ra, ha⟩ := (render_list_start_spec r).1 h
        exact ⟨ra, ha, ((render_list_start_spec r).2.2 ra ha).1⟩
      · exact ⟨r, rfl, rfl⟩
    rw [ha]
    simp only
    have hla : list_at ra ra.list_depth = some (ra.list ⟨ra.list_depth, by omega⟩) := by
      unfold list_at
      rw [dif_pos (by omega)]
    rw [hla]
    simp only
    obtain ⟨rb, hb, hdb⟩ : ∃ rb, (if (ra.list ⟨ra.list_depth, by omega⟩).count > 0
        then render_list_item ra else some ra) = some rb ∧ rb.list_depth = ra.list_depth := by
      split
      · obtain ⟨rb, hb⟩ := (render_list_item_spec ra).1 (by omega)
        exact ⟨rb, hb, ((render_list_item_spec ra).2 rb hb).1⟩
      · exact ⟨ra, rfl, rfl⟩
    rw [hb]
    simp only
    unfold list_set
    rw [dif_pos (by omega)]
    exact ⟨_, rfl⟩
  · intro h
    unfold render_enter_block_li
    by_cases hr : r.list_reset ≠ 0
    · rw [if_pos hr, (render_list_start_spec r).2.1 h]
    · rw [if_neg hr]
      simp only
      unfold list_at
      rw [dif_neg (by omega)]
  · intro r1 h
    unfold render_enter_block_li at h
    cases ha : (if r.list_reset ≠ 0 then render_list_start r else some r) with
    | none => rw [ha] at h; cases h
    | some ra =>
      have hda : ra.list_depth = r.list_depth := by
        by_cases hr : r.list_reset ≠ 0
        · rw [if_pos hr] at ha
          exact ((render_list_start_spec r).2.2 ra ha).1
        · rw [if_neg hr] at ha
          cases ha
          rfl
      rw [ha] at h
      simp only at h
      cases hl : list_at ra ra.list_depth with
      | none => rw [hl] at h; cases h
      | some l =>
        rw [hl] at h
        simp only at h
        cases hb : (if l.count > 0 then render_list_item ra else some ra) with
        | none => rw [hb] at h; cases h
        | some rb =>
          have hdb : rb.list_depth = ra.list_depth := by
            by_cases hc : l.count > 0
            · rw [if_pos hc] at hb
              exact ((render_list_item_spec ra).2 rb hb).1
            · rw [if_neg hc] at hb
              cases hb
              rfl
          rw [hb] at h
          simp only at h
          unfold list_set at h
          by_cases hd : rb.list_depth < 8
          · rw [dif_pos hd] at h
            simp only [Option.some.injEq] at h
            subst h
            simp only
            rw [hdb, hda]
          · rw [dif_neg hd] at h
            cases h

theorem render_enter_block_list_spec (r : MD_RTF) (f : MD_RTF → MD_RTF_LIST → MD_RTF_LIST) :
    let d := (r.list_depth + 1) % 2 ^ 32
    let rb := if d > 0 then RENDER_VERBATIM { r with list_depth := d } (cstr "\\par")
      else { r with list_depth := d }
    ∀ res : Option MD_RTF,
      res = (if d > 7 then some rb
        else match list_set rb d (f rb) with
          | none => none
          | some r => render_list_start r) →
      (∃ r1, res = some r1) ∧ (∀ r1, res = some r1 → r1.list_depth = d) := by
  intro d rb res hres
  have hrb : rb.list_depth = d := by
    show (if d > 0 then RENDER_VERBATIM { r with list_depth := d } (cstr "\\par")
      else { r with list_depth := d }).list_depth = d
    split <;> rfl
  by_cases hd : d > 7
  · rw [if_pos hd] at hres
    subst hres
    exact ⟨⟨rb, rfl⟩, fun r1 h => by cases h; exact hrb⟩
  · rw [if_neg hd] at hres
    have hlt : d < 8 := by omega
    unfold list_set at hres
    rw [dif_pos hlt] at hres
    simp only at hres
    have hdep : ({ rb with list := Function.update rb.list ⟨d, hlt⟩ (f rb (rb.list ⟨d, hlt⟩)) }
        : MD_RTF).list_depth = d := hrb
    subst hres
    refine ⟨(render_list_start_spec _).1 (by rw [hdep]; exact hlt), ?_⟩
    intro r1 h
    rw [((render_list_start_spec _).2.2 r1 h).1, hdep]

theorem render_enter_block_ul_spec (r : MD_RTF) (is_tight : Bool) :
    (∃ r1, render_enter_block_ul r is_tight = some r1) ∧
    (∀ r1, render_enter_block_ul r is_tight = some r1 →
      r1.list_depth = (r.list_depth + 1) % 2 ^ 32) := by
  refine render_enter_block_list_spec r
    (fun rb l => { l with
        type := MD_RTF_LIST_TYPE_UL
        count := 0
        cw_tx := g_cw_list_bullt (Fin.ofNat (((r.list_depth + 1) % 2 ^ 32) % 2))
        cw_sa := if is_tight then rb.cw_sa 0 else rb.cw_sa 1
        cw_li := rb.cw_li (Fin.ofNat ((r.list_depth + 1) % 2 ^ 32)) }) _ ?_
  unfold render_enter_block_ul
  simp only
  split
  · rfl
  · rename_i h
    simp only [list_set]
    have hlt : (r.list_depth + 1) % 2 ^ 32 < 8 := by omega
    simp only [dif_pos hlt]
    have e : (Fin.ofNat ((r.list_depth + 1) % 2 ^ 32) : Fin 8)
        = ⟨(r.list_depth + 1) % 2 ^ 32, hlt⟩ := by
      apply Fin.ext
      exact Nat.mod_eq_of_lt hlt
    rw [e]

theorem render_enter_block_ol_spec (r : MD_RTF) (start : Nat) (is_tight : Bool)
    (mark_delimiter : Byte) :
    (∃ r1, render_enter_block_ol r start is_tight mark_delimiter = some r1) ∧
    (∀ r1, render_enter_block_ol r start is_tight mark_delimiter = some r1 →
      r1.list_depth = (r.list_depth + 1) % 2 ^ 32) := by
  refine render_enter_block_list_spec r
    (fun rb l => { l with
        type := MD_RTF_LIST_TYPE_OL
        count := 0
        start := start
        cw_tx := if mark_delimiter.val = 41 then g_cw_list_delim 1 else g_cw_list_delim 0
        cw_sa := if is_tight then rb.cw_sa 0 else rb.cw_sa 1
        cw_li := rb.cw_li (Fin.ofNat ((r.list_depth + 1) % 2 ^ 32)) }) _ ?_
  unfold render_enter_block_ol
  simp only
  split
  · rfl
  · rename_i h
    simp only [list_set]
    have hlt : (r.list_depth + 1) % 2 ^ 32 < 8 := by omega
    simp only [dif_pos hlt]
    have e : (Fin.ofNat ((r.list_depth + 1) % 2 ^ 32) : Fin 8)
        = ⟨(r.list_depth + 1) % 2 ^ 32, hlt⟩ := by
      apply Fin.ext
      exact Nat.mod_eq_of_lt hlt
    rw [e]

theorem render_entity_spec (ulong_max : Nat) (r : MD_RTF) (text : List Byte) :
    (text.getLast? = some 59 → ∃ r1, render_entity ulong_max r text render_rtf_escaped = some r1) ∧
    (∀ r1, render_entity ulong_max r text render_rtf_escaped = some r1 →
      r1.list_depth = r.list_depth) := by
  have hesc : ∀ r1, render_rtf_escaped r text = some r1 → r1.list_depth = r.list_depth := by
    intro r1 h
    rw [render_rtf_escaped_eq] at h
    cases h
    rfl
  refine ⟨?_, ?_⟩
  · intro hlast
    unfold render_entity
    split
    · exact ⟨_, rfl⟩
    · cases hc : (if text.length > 3 then text[1]? else none) with
      | none => exact ⟨_, render_rtf_escaped_eq r text⟩
      | some c1 =>
        simp only
        have hlen : text.length > 3 := by
          by_contra hn
          rw [if_neg hn] at hc
          cases hc
        split
        · have h2 : ∃ c2, text[2]? = some c2 := ⟨text[2], List.getElem?_eq_getElem (by omega)⟩
          obtain ⟨c2, hc2⟩ := h2
          rw [hc2]
          simp only
          have hd3 : (text.drop 3).getLast? = some 59 := by
            rw [List.getLast?_drop, if_neg (by omega)]; exact hlast
          have hd2 : (text.drop 2).getLast? = some 59 := by
            rw [List.getLast?_drop, if_neg (by omega)]; exact hlast
          by_cases hx : (decide (c2.val = 120) || decide (c2.val = 88)) = true
          · obtain ⟨v, hv⟩ := strtoul_total ulong_max 16 _ hd3
            rw [if_pos hx, hv]
            exact ⟨_, rfl⟩
          · obtain ⟨v, hv⟩ := strtoul_total ulong_max 10 _ hd2
            rw [if_neg hx, hv]
            exact ⟨_, rfl⟩
        · exact ⟨_, render_rtf_escaped_eq r text⟩
  · intro r1 h
    unfold render_entity at h
    split at h
    · cases h
      rfl
    · cases hc : (if text.length > 3 then text[1]? else none) with
      | none =>
        rw [hc] at h
        exact hesc r1 h
      | some c1 =>
        rw [hc] at h
        simp only at h
        split at h
        · cases hc2 : text[2]? with
          | none => rw [hc2] at h; cases h
          | some c2 =>
            rw [hc2] at h
            simp only at h
            cases hv : (if (decide (c2.val = 120) || decide (c2.val = 88)) = true
                then strtoul ulong_max (List.drop 3 text) 16
                else strtoul ulong_max (List.drop 2 text) 10) with
            | none => rw [hv] at h; cases h
            | some v =>
              rw [hv] at h
              cases h
              rfl
        · exact hesc r1 h

set_option maxRecDepth 100000 in
theorem dispatch_depth (p : Platform) (e : Event) (r r1 : MD_RTF) (ret : Int)
    (h : dispatch p e r = some (r1, ret)) :
    ret = 0 ∧ r1.list_depth = list_depth_after r.list_depth e := by
  cases e with
  | enter_block b =>
    simp only [dispatch, enter_block_callback, Option.map_eq_some', Prod.mk.injEq] at h
    obtain ⟨r2, h2, rfl, rfl⟩ := h
    refine ⟨rfl, ?_⟩
    cases b
    case UL is_tight => exact (render_enter_block_ul_spec r is_tight).2 _ h2
    case OL s t m => exact (render_enter_block_ol_spec r s t m).2 _ h2
    case LI => exact (render_enter_block_li_spec r).2.2 _ h2
    case H level =>
      simp only [render_enter_block_h] at h2
      split at h2
      · cases h2; rfl
      · cases h2
    case TR =>
      cases h2
      simp only [render_enter_block_tr]
      rw [(step_tr_cells _ _ _).list_depth]
      rfl
    case TH align =>
      cases h2
      cases align <;> rfl
    case TD align =>
      cases h2
      cases align <;> rfl
    all_goals
      cases h2
      rfl
  | leave_block b =>
    simp only [dispatch, leave_block_callback, Option.some.injEq, Prod.mk.injEq] at h
    obtain ⟨rfl, rfl⟩ := h
    refine ⟨rfl, ?_⟩
    cases b
    case UL is_tight =>
      simp only [render_leave_block_ul, list_depth_after]
      split <;> rfl
    case OL s t m =>
      simp only [render_leave_block_ol, list_depth_after]
      split <;> rfl
    case LI =>
      simp only [render_leave_block_li, list_depth_after]
      split <;> rfl
    case H level =>
      simp only [render_leave_block_h, list_depth_after]
      split <;> rfl
    case P =>
      simp only [render_leave_block_p, list_depth_after]
      split <;> rfl
    all_goals rfl
  | enter_span s =>
    simp only [dispatch, enter_span_callback, Option.map_eq_some', Prod.mk.injEq] at h
    obtain ⟨r2, h2, rfl, rfl⟩ := h
    refine ⟨rfl, ?_⟩
    cases s
    case A href =>
      simp only [render_enter_span_url, render_url_escaped_eq, Option.some.injEq] at h2
      cases h2
      rfl
    all_goals
      cases h2
      rfl
  | leave_span s =>
    simp only [dispatch, leave_span_callback, Option.some.injEq, Prod.mk.injEq] at h
    obtain ⟨rfl, rfl⟩ := h
    refine ⟨rfl, ?_⟩
    cases s <;> rfl
  | text t d =>
    simp only [dispatch, text_callback, Option.map_eq_some', Prod.mk.injEq] at h
    obtain ⟨r2, h2, rfl, rfl⟩ := h
    refine ⟨rfl, ?_⟩
    cases t
    case ENTITY => exact (render_entity_spec p.ulong_max r d).2 _ h2
    case NULLCHAR => cases h2; rfl
    case BR => cases h2; rfl
    case SOFTBR => cases h2; rfl
    all_goals
      simp only [render_rtf_escaped_eq, Option.some.injEq] at h2
      cases h2
      rfl

set_option maxRecDepth 100000 in
theorem dispatch_total (p : Platform) (e : Event) (r : MD_RTF)
    (h : handler_defined r e = true) : ∃ r1, dispatch p e r = some (r1, 0) := by
  cases e with
  | enter_block b =>
    simp only [dispatch, enter_block_callback]
    cases b
    case UL is_tight =>
      obtain ⟨r1, h1⟩ := (render_enter_block_ul_spec r is_tight).1
      exact ⟨r1, by simp only [h1, Option.map_some']⟩
    case OL s t m =>
      obtain ⟨r1, h1⟩ := (render_enter_block_ol_spec r s t m).1
      exact ⟨r1, by simp only [h1, Option.map_some']⟩
    case LI =>
      simp only [handler_defined, decide_eq_true_eq] at h
      obtain ⟨r1, h1⟩ := (render_enter_block_li_spec r).1 h
      exact ⟨r1, by simp only [h1, Option.map_some']⟩
    case H level =>
      simp only [handler_defined, Bool.and_eq_true, decide_eq_true_eq] at h
      simp only [render_enter_block_h]
      rw [dif_pos (by omega)]
      exact ⟨_, rfl⟩
    all_goals exact ⟨_, rfl⟩
  | leave_block b => exact ⟨_, rfl⟩
  | enter_span s =>
    simp only [dispatch, enter_span_callback]
    cases s
    case A href =>
      simp only [render_enter_span_url, render_url_escaped_eq]
      exact ⟨_, rfl⟩
    all_goals exact ⟨_, rfl⟩
  | leave_span s => exact ⟨_, rfl⟩
  | text t d =>
    simp only [dispatch, text_callback]
    cases t
    case ENTITY =>
      simp only [handler_defined, beq_iff_eq] at h
      obtain ⟨r1, h1⟩ := (render_entity_spec p.ulong_max r d).1 h
      exact ⟨r1, by simp only [h1, Option.map_some']⟩
    case NULLCHAR => exact ⟨_, rfl⟩
    case BR => exact ⟨_, rfl⟩
    case SOFTBR => exact ⟨_, rfl⟩
    all_goals
      simp only [render_rtf_escaped_eq]
      exact ⟨_, rfl⟩

theorem run_events_status (p : Platform) : ∀ (es : List Event) (r r1 : MD_RTF) (ret : Int),
    run_events p es r = some (r1, ret) →
      ret = 0 ∧ r1.list_depth = es.foldl list_depth_after r.list_depth := by
  intro es
  induction es with
  | nil =>
    intro r r1 ret h
    simp only [run_events, Option.some.injEq, Prod.mk.injEq] at h
    exact ⟨h.2.symm, by rw [← h.1]; rfl⟩
  | cons e t ih =>
    intro r r1 ret h
    simp only [run_events] at h
    cases hd : dispatch p e r with
    | none => rw [hd] at h; cases h
    | some x =>
      obtain ⟨r2, ret2⟩ := x
      obtain ⟨h0, hdep⟩ := dispatch_depth p e r r2 ret2 hd
      rw [hd] at h
      simp only [h0, ne_eq, not_true_eq_false, if_false] at h
      obtain ⟨hr, hl⟩ := ih r2 r1 ret h
      exact ⟨hr, by rw [hl, hdep]; rfl⟩

theorem list_depth_after_stack (stk stk1 : List Frame) (e : Event) (d : Nat)
    (hd : d = (open_lists stk + 2 ^ 32 - 1) % 2 ^ 32) (hn : next_stack stk e = some stk1) :
    list_depth_after d e = (open_lists stk1 + 2 ^ 32 - 1) % 2 ^ 32 := by
  cases e with
  | enter_block b =>
    simp only [next_stack, Option.some.injEq] at hn
    subst hn
    cases b <;> simp only [list_depth_after, open_lists] <;> omega
  | enter_span s =>
    simp only [next_stack, Option.some.injEq] at hn
    subst hn
    cases s <;> simp only [list_depth_after, open_lists] <;> omega
  | text t data =>
    simp only [next_stack, Option.some.injEq] at hn
    subst hn
    simp only [list_depth_after]
    exact hd
  | leave_block b =>
    cases stk with
    | nil => simp only [next_stack] at hn; cases hn
    | cons f t =>
      simp only [next_stack] at hn
      by_cases hf : f = .block b
      · rw [if_pos hf, Option.some.injEq] at hn
        subst hn hf
        cases b <;> simp only [list_depth_after, open_lists] at hd ⊢ <;> omega
      · rw [if_neg hf] at hn
        cases hn
  | leave_span s =>
    cases stk with
    | nil => simp only [next_stack] at hn; cases hn
    | cons f t =>
      simp only [next_stack] at hn
      by_cases hf : f = .span s
      · rw [if_pos hf, Option.some.injEq] at hn
        subst hn hf
        cases s <;> simp only [list_depth_after, open_lists] at hd ⊢ <;> omega
      · rw [if_neg hf] at hn
        cases hn

theorem foldl_list_depth_after (es : List Event) : ∀ (stk stk1 : List Frame) (d : Nat),
    d = (open_lists stk + 2 ^ 32 - 1) % 2 ^ 32 → stack_after stk es = some stk1 →
    es.foldl list_depth_after d = (open_lists stk1 + 2 ^ 32 - 1) % 2 ^ 32 := by
  induction es with
  | nil =>
    intro stk stk1 d hd hs
    simp only [stack_after, Option.some.injEq] at hs
    subst hs
    exact hd
  | cons e t ih =>
    intro stk stk1 d hd hs
    simp only [stack_after] at hs
    cases hn : next_stack stk e with
    | none => rw [hn] at hs; cases hs
    | some stk2 =>
      rw [hn] at hs
      simp only [List.foldl_cons]
      exact ih stk2 stk1 _ (list_depth_after_stack stk stk2 e d hd hn) hs

theorem open_lists_next (stk stk1 : List Frame) (e : Event) (hle : open_lists stk ≤ 8)
    (hok : event_ok stk e = true) (hn : next_stack stk e = some stk1) :
    open_lists stk1 ≤ 8 := by
  cases e with
  | enter_block b =>
    simp only [next_stack, Option.some.injEq] at hn
    subst hn
    cases b <;> simp only [event_ok, decide_eq_true_eq] at hok <;> simp only [open_lists] <;> omega
  | enter_span s =>
    simp only [next_stack, Option.some.injEq] at hn
    subst hn
    cases s <;> simp only [open_lists] <;> omega
  | text t data =>
    simp only [next_stack, Option.some.injEq] at hn
    subst hn
    exact hle
  | leave_block b =>
    cases stk with
    | nil => simp only [next_stack] at hn; cases hn
    | cons f t =>
      simp only [next_stack] at hn
      by_cases hf : f = .block b
      · rw [if_pos hf, Option.some.injEq] at hn
        subst hn hf
        cases b <;> simp only [open_lists] at hle ⊢ <;> omega
      · rw [if_neg hf] at hn
        cases hn
  | leave_span s =>
    cases stk with
    | nil => simp only [next_stack] at hn; cases hn
    | cons f t =>
      simp only [next_stack] at hn
      by_cases hf : f = .span s
      · rw [if_pos hf, Option.some.injEq] at hn
        subst hn hf
        cases s <;> simp only [open_lists] at hle ⊢ <;> omega
      · rw [if_neg hf] at hn
        cases hn

theorem handler_defined_of_event_ok (stk : List Frame) (e : Event) (r : MD_RTF)
    (hd : r.list_depth = (open_lists stk + 2 ^ 32 - 1) % 2 ^ 32) (hle : open_lists stk ≤ 8)
    (hok : event_ok stk e = true) : handler_defined r e = true := by
  cases e with
  | enter_block b =>
    cases b <;> simp only [handler_defined, event_ok, decide_eq_true_eq] at hok ⊢
    · omega
    · exact hok
  | text t data =>
    cases t <;> simp only [handler_defined, event_ok] at hok ⊢
    exact hok
  | leave_block b => rfl
  | enter_span s => rfl
  | leave_span s => rfl

theorem run_events_total (p : Platform) : ∀ (es : List Event) (stk : List Frame) (r : MD_RTF),
    r.list_depth = (open_lists stk + 2 ^ 32 - 1) % 2 ^ 32 → open_lists stk ≤ 8 →
    well_nested_from stk es = true → ∃ r1, run_events p es r = some (r1, 0) := by
  intro es
  induction es with
  | nil => intro stk r _ _ _; exact ⟨r, rfl⟩
  | cons e t ih =>
    intro stk r hd hle hwn
    simp only [well_nested_from, Bool.and_eq_true] at hwn
    obtain ⟨hok, hrest⟩ := hwn
    cases hn : next_stack stk e with
    | none => rw [hn] at hrest; cases hrest
    | some stk1 =>
      rw [hn] at hrest
      obtain ⟨r1, h1⟩ := dispatch_total p e r (handler_defined_of_event_ok stk e r hd hle hok)
      have hd1 := (dispatch_depth p e r r1 0 h1).2
      rw [list_depth_after_stack stk stk1 e _ hd hn] at hd1
      obtain ⟨r2, h2⟩ := ih stk1 r1 hd1 (open_lists_next stk stk1 e hle hok hn) hrest
      refine ⟨r2, ?_⟩
      simp only [run_events, h1, ne_eq, not_true_eq_false, if_false]
      exact h2

/-- C17: the renderer has no error channel of its own.  Each of the five handlers
(`dispatch` runs the one the event belongs to) returns 0 whenever it returns, and it
returns for every event and context in which it stays inside the list stack, the heading
styles and the entity text; `md_rtf` returns the status of the parsing engine whenever it
returns, and it returns for every well-nested event stream once its initialisation has
stayed inside the control-word slots. -/
theorem renderer_has_no_error_channel (p : Platform) :
    (∀ (e : Event) (r : MD_RTF) (x : MD_RTF × Int), dispatch p e r = some x → x.2 = 0) ∧
    (∀ (e : Event) (r : MD_RTF), handler_defined r e = true →
      ∃ r1, dispatch p e r = some (r1, 0)) ∧
    (∀ (md_parse : List Byte → Nat → List Event × Int) (render : MD_RTF) (input : List Byte)
        (parser_flags renderer_flags font_size doc_width : Nat) (x : MD_RTF × Int),
      md_rtf p md_parse render input parser_flags renderer_flags font_size doc_width = some x →
        x.2 = (md_parse (md_rtf_skip_bom renderer_flags input) parser_flags).2) ∧
    (∀ (md_parse : List Byte → Nat → List Event × Int) (render r : MD_RTF) (input : List Byte)
        (parser_flags renderer_flags font_size doc_width : Nat),
      md_rtf_setup p render renderer_flags font_size doc_width = some r →
      well_nested (md_parse (md_rtf_skip_bom renderer_flags input) parser_flags).1 = true →
      ∃ r1, md_rtf p md_parse render input parser_flags renderer_flags font_size doc_width
        = some (r1, (md_parse (md_rtf_skip_bom renderer_flags input) parser_flags).2)) := by
  refine ⟨?_, ?_, ?_, ?_⟩
  · intro e r x h
    obtain ⟨r1, ret⟩ := x
    exact (dispatch_depth p e r r1 ret h).1
  · intro e r h
    exact dispatch_total p e r h
  · intro md_parse render input parser_flags renderer_flags font_size doc_width x h
    unfold md_rtf at h
    cases hs : md_rtf_setup p render renderer_flags font_size doc_width with
    | none => rw [hs] at h; cases h
    | some r =>
      rw [hs] at h
      simp only at h
      cases hr : run_events p (md_parse (md_rtf_skip_bom renderer_flags input) parser_flags).1 r with
      | none => rw [hr] at h; cases h
      | some y =>
        obtain ⟨r1, ret⟩ := y
        rw [hr] at h
        have h0 := (run_events_status p _ r r1 ret hr).1
        simp only [h0, ne_eq, not_true_eq_false, if_false, Option.some.injEq] at h
        rw [← h]
  · intro md_parse render r input parser_flags renderer_flags font_size doc_width hs hwn
    obtain ⟨fb, pw, _, hr⟩ := md_rtf_setup_some p render r renderer_flags font_size doc_width hs
    have hd : r.list_depth = (open_lists [] + 2 ^ 32 - 1) % 2 ^ 32 := by rw [hr]; rfl
    obtain ⟨r1, h1⟩ := run_events_total p _ [] r hd (by simp [open_lists]) hwn
    refine ⟨r1, ?_⟩
    unfold md_rtf
    rw [hs]
    simp only [h1, ne_eq, not_true_eq_false, if_false]

/-- C17 at a concrete input: the first heading event in the sample context returns 0,
and `md_rtf` on an engine that delivers the events of `# Title` ... with status 7 returns
7. -/
theorem renderer_has_no_error_channel_witness :
    (∃ r1, dispatch sample_platform (.enter_block (.H 1)) sample_context = some (r1, 0)) ∧
    (∃ r1, md_rtf sample_platform (fun _ _ => (title_hello_events, 7)) sample_render [] 0 0 12 210
      = some (r1, 7)) :=
  ⟨(renderer_has_no_error_channel sample_platform).2.1 (.enter_block (.H 1)) sample_context
      (by decide),
   (renderer_has_no_error_channel sample_platform).2.2.2 (fun _ _ => (title_hello_events, 7))
      sample_render sample_context [] 0 0 12 210 sample_context_setup (by decide)⟩

/-- C14, counterexample: from the context `md_rtf` builds, the events `nine_lists` (every
leave still to come) all return 0 and leave `list_depth` at 8, outside -1..7, with nine
lists open. -/
theorem list_depth_reaches_eight :
    (run_events sample_platform nine_lists sample_context).map (fun x => (x.1.list_depth, x.2))
      = some (8, 0) ∧
    (stack_after [] nine_lists).map open_lists = some 9 := by
  constructor <;> decide

/-- C14, amended: in every state reached from the context `md_rtf` builds by events whose
leaves match the innermost open frame, `list_depth` is the number of open lists minus one
in `unsigned` arithmetic: it is the sentinel 2^32 - 1 or in 0..7 while at most 8 lists are
open, and 8 or more as soon as more than 8 are open. -/
theorem list_depth_counts_open_lists (p : Platform) (render r r1 : MD_RTF)
    (renderer_flags font_size doc_width : Nat) (es : List Event) (stk : List Frame) (ret : Int)
    (hsetup : md_rtf_setup p render renderer_flags font_size doc_width = some r)
    (hstk : stack_after [] es = some stk)
    (hrun : run_events p es r = some (r1, ret)) :
    r1.list_depth = (open_lists stk + 2 ^ 32 - 1) % 2 ^ 32 ∧
    (open_lists stk ≤ 8 → r1.list_depth = 2 ^ 32 - 1 ∨ r1.list_depth ≤ 7) ∧
    (8 < open_lists stk → open_lists stk < 2 ^ 32 →
      8 ≤ r1.list_depth ∧ r1.list_depth < 2 ^ 32 - 1) := by
  obtain ⟨fb, pw, _, hr⟩ := md_rtf_setup_some p render r renderer_flags font_size doc_width hsetup
  have hd : r.list_depth = (open_lists [] + 2 ^ 32 - 1) % 2 ^ 32 := by rw [hr]; rfl
  have h1 := (run_events_status p es r r1 ret hrun).2
  rw [foldl_list_depth_after es [] stk _ hd hstk] at h1
  refine ⟨h1, ?_, ?_⟩
  · intro hle
    omega
  · intro hlo hhi
    omega

/-- C14, amended, at a concrete input: after `nine_lists` from the sample context nine
lists are open and `list_depth` is 8. -/
theorem list_depth_counts_open_lists_witness :
    ∃ r1 ret stk, md_rtf_setup sample_platform sample_render 0 12 210 = some sample_context ∧
      stack_after [] nine_lists = some stk ∧
      run_events sample_platform nine_lists sample_context = some (r1, ret) ∧
      r1.list_depth = (open_lists stk + 2 ^ 32 - 1) % 2 ^ 32 ∧ open_lists stk = 9 := by
  have h : (run_events sample_platform nine_lists sample_context).isSome = true := by decide
  obtain ⟨⟨r1, ret⟩, hx⟩ := Option.isSome_iff_exists.mp h
  have hs : (stack_after [] nine_lists).isSome = true := by decide
  obtain ⟨stk, hstk⟩ := Option.isSome_iff_exists.mp hs
  have h9 : (stack_after [] nine_lists).map open_lists = some 9 := by decide
  rw [hstk] at h9
  exact ⟨r1, ret, stk, sample_context_setup, hstk, hx,
    (list_depth_counts_open_lists sample_platform sample_render sample_context r1 0 12 210
      nine_lists stk ret sample_context_setup hstk hx).1,
    by simpa using h9⟩

/-- C15: after `nine_lists` the context has `list_depth` 8, the list stack has no entry
at that index, and the handler of the next list-item enter indexes it there: the model of
`render_enter_block_li` has no result (the access is outside the eight entries), whereas
`render_enter_block_ul` returned at the same depth without touching the stack. -/
theorem render_enter_block_li_out_of_bounds :
    (∃ r, run_events sample_platform nine_lists sample_context = some (r, 0) ∧
      r.list_depth = 8 ∧ list_at r r.list_depth = none ∧ render_enter_block_li r = none) ∧
    run_events sample_platform (nine_lists ++ [.enter_block .LI]) sample_context = none := by
  constructor
  · have h : (run_events sample_platform nine_lists sample_context).map
        (fun x => (x.1.list_depth, x.2)) = some (8, 0) := by decide
    cases hx : run_events sample_platform nine_lists sample_context with
    | none => rw [hx] at h; cases h
    | some x =>
      obtain ⟨r, ret⟩ := x
      rw [hx] at h
      simp only [Option.map_some', Option.some.injEq, Prod.mk.injEq] at h
      obtain ⟨hd, rfl⟩ := h
      refine ⟨r, rfl, hd, ?_, (render_enter_block_li_spec r).2.1 (by omega)⟩
      unfold list_at
      rw [dif_neg (by omega)]
  · have h : (run_events sample_platform (nine_lists ++ [.enter_block .LI]) sample_context).isNone
        = true := by decide
    exact Option.isNone_iff_eq_none.mp h

theorem list_at_eq (r : MD_RTF) (n : Nat) (d : Fin 8) (hn : n = d.val) :
    list_at r n = some (r.list d) := by
  subst hn
  unfold list_at
  rw [dif_pos d.isLt]

theorem list_set_eq (r : MD_RTF) (d : Fin 8) (f : MD_RTF_LIST → MD_RTF_LIST) :
    list_set r d.val f = some { r with list := Function.update r.list d (f (r.list d)) } := by
  unfold list_set
  rw [dif_pos d.isLt]

theorem render_end_block_eq (r : MD_RTF) :
    render_end_block r = { r with out := r.out ++ end_block_bytes (r.cw_sa 2) } := by
  have h1 : c_str (cstr "\\pard\\f0\\fs0") = cstr "\\pard\\f0\\fs0" := by decide
  have h2 : c_str (cstr "\\par\r\n") = cstr "\\par\r\n" := by decide
  simp only [render_end_block, end_block_bytes, RENDER_VERBATIM, render_verbatim, h1, h2,
    List.append_assoc]

theorem fin_ofNat_eq (n : Nat) (h : n < 8) : (Fin.ofNat n : Fin 8) = ⟨n, h⟩ :=
  Fin.ext (Nat.mod_eq_of_lt h)

theorem level_at_set_same (ls : Fin 8 → MD_RTF_LIST) (n : Nat) (l : MD_RTF_LIST) :
    level_at (level_set ls n l) n = l := by
  simp only [level_at, level_set, Function.update_same]

theorem level_at_set_other (ls : Fin 8 → MD_RTF_LIST) (n m : Nat) (l : MD_RTF_LIST)
    (hn : n < 8) (hm : m < 8) (hne : m ≠ n) :
    level_at (level_set ls n l) m = level_at ls m := by
  simp only [level_at, level_set]
  rw [Function.update_noteq]
  rw [fin_ofNat_eq _ hn, fin_ofNat_eq _ hm]
  intro h
  exact hne (Fin.mk.inj h)

theorem list_at_level (r : MD_RTF) (n : Nat) (h : n < 8) :
    list_at r n = some (level_at r.list n) := by
  unfold level_at
  rw [fin_ofNat_eq _ h]
  exact list_at_eq r n ⟨n, h⟩ rfl

theorem list_set_level (r : MD_RTF) (n : Nat) (h : n < 8) (f : MD_RTF_LIST → MD_RTF_LIST) :
    list_set r n f = some { r with list := level_set r.list n (f (level_at r.list n)) } := by
  unfold level_at level_set
  rw [fin_ofNat_eq _ h]
  exact list_set_eq r ⟨n, h⟩ f

theorem render_list_start_eq (r : MD_RTF) :
    render_list_start r
      = if r.list_depth < 8 then
          some { r with
            out := r.out ++ list_start_bytes (r.cw_fs 0) r.cw_fi (level_at r.list r.list_depth)
            list_reset := 0 }
        else none := by
  have h1 : c_str (cstr "\\pard") = cstr "\\pard" := by decide
  have h2 : c_str (cstr "\x7b\\pntext\\f0 ") = cstr "\x7b\\pntext\\f0 " := by decide
  have h3 : c_str (cstr "\\tab\x7d\x7b\\*\\pn\\pnlvlbody\\pnf0\\pnstart")
      = cstr "\\tab\x7d\x7b\\*\\pn\\pnlvlbody\\pnf0\\pnstart" := by decide
  have h4 : c_str (cstr "\\pndec\x7b\\pntxta") = cstr "\\pndec\x7b\\pntxta" := by decide
  have h5 : c_str (cstr "\\tab\x7d\x7b\\*\\pn\\pnlvlblt\\pnf0\x7b\\pntxtb")
      = cstr "\\tab\x7d\x7b\\*\\pn\\pnlvlblt\\pnf0\x7b\\pntxtb" := by decide
  have h6 : c_str (cstr "\x7d\x7d") = cstr "\x7d\x7d" := by decide
  have hn : ∀ n, c_str (ultostr n 10) = ultostr n 10 :=
    fun n => c_str_ultostr n 10 (by omega) (by omega)
  unfold render_list_start
  by_cases hd : r.list_depth < 8
  · rw [if_pos hd]
    simp only [list_at_level r _ hd]
    by_cases ht : (level_at r.list r.list_depth).type = MD_RTF_LIST_TYPE_OL
    · simp only [ht, if_true, list_start_bytes, RENDER_VERBATIM, render_verbatim, h1, h2, h3,
        h4, h6, hn, List.append_assoc]
    · simp only [ht, if_false, list_start_bytes, RENDER_VERBATIM, render_verbatim, h1, h2, h5,
        h6, List.append_assoc]
  · rw [if_neg hd]
    simp only [list_at, dif_neg hd]

theorem render_list_item_eq (r : MD_RTF) :
    render_list_item r
      = if r.list_depth < 8 then
          some { r with out := r.out ++ list_item_bytes (level_at r.list r.list_depth) }
        else none := by
  have h2 : c_str (cstr "\x7b\\pntext\\f0 ") = cstr "\x7b\\pntext\\f0 " := by decide
  have h3 : c_str (cstr "\\tab\x7d") = cstr "\\tab\x7d" := by decide
  have hn : ∀ n, c_str (ultostr n 10) = ultostr n 10 :=
    fun n => c_str_ultostr n 10 (by omega) (by omega)
  unfold render_list_item
  by_cases hd : r.list_depth < 8
  · rw [if_pos hd]
    simp only [list_at_level r _ hd]
    by_cases ht : (level_at r.list r.list_depth).type = MD_RTF_LIST_TYPE_OL
    · simp only [ht, if_true, list_item_bytes, RENDER_VERBATIM, render_verbatim, h2, h3, hn,
        List.append_assoc]
    · simp only [ht, if_false, list_item_bytes, RENDER_VERBATIM, render_verbatim, h2, h3,
        List.append_nil, List.append_assoc]
  · rw [if_neg hd]
    simp only [list_at, dif_neg hd]

/-- What `render_enter_block_li` does: inside the list stack it writes the list-start
bytes when a nested list has just been left, then the item marker unless the item is the
first of its list, counts the item and sets `list_stop`. -/
theorem render_enter_block_li_eq (r : MD_RTF) :
    render_enter_block_li r
      = if r.list_depth < 8 then
          some { r with
            out := (r.out
              ++ (if r.list_reset ≠ 0
                  then list_start_bytes (r.cw_fs 0) r.cw_fi (level_at r.list r.list_depth)
                  else [])
              ++ (if (level_at r.list r.list_depth).count > 0
                  then list_item_bytes (level_at r.list r.list_depth) else []))
            list_reset := 0
            list := (level_set r.list r.list_depth
              { level_at r.list r.list_depth with
                count := ((level_at r.list r.list_depth).count + 1) % 2 ^ 32 })
            list_stop := 1 }
        else none := by
  by_cases hd : r.list_depth < 8
  · rw [if_pos hd]
    have hset : ∀ (r0 : MD_RTF) (f : MD_RTF_LIST → MD_RTF_LIST),
        list_set r0 r.list_depth f = some { r0 with
          list := level_set r0.list r.list_depth (f (level_at r0.list r.list_depth)) } :=
      fun r0 f => list_set_level r0 _ hd f
    have hat : ∀ (r0 : MD_RTF), list_at r0 r.list_depth = some (level_at r0.list r.list_depth) :=
      fun r0 => list_at_level r0 _ hd
    unfold render_enter_block_li
    by_cases hr : r.list_reset ≠ 0
    · rw [if_pos hr, render_list_start_eq r, if_pos hd]
      simp only
      rw [hat]
      simp only
      by_cases hc : (level_at r.list r.list_depth).count > 0
      · rw [if_pos hc, render_list_item_eq, if_pos hd]
        simp only
        rw [hset]
        simp only [if_pos hr, if_pos hc, List.append_assoc]
      · rw [if_neg hc]
        simp only
        rw [hset]
        simp only [if_pos hr, if_neg hc, List.append_nil]
    · rw [if_neg hr]
      have hr0 : r.list_reset = 0 := by
        by_contra h
        exact hr h
      simp only
      rw [hat]
      simp only
      by_cases hc : (level_at r.list r.list_depth).count > 0
      · rw [if_pos hc, render_list_item_eq, if_pos hd]
        simp only
        rw [hset]
        simp only [if_pos hc, List.append_nil, hr0, ne_eq, not_true_eq_false, if_false]
      · rw [if_neg hc]
        simp only
        rw [hset]
        simp only [if_neg hc, List.append_nil, hr0, ne_eq, not_true_eq_false, if_false]
  · rw [if_neg hd]
    exact (render_enter_block_li_spec r).2.1 (by omega)

theorem render_enter_block_list_eq (r : MD_RTF) (l : MD_RTF_LIST) (d : Nat)
    (f : MD_RTF → MD_RTF_LIST → MD_RTF_LIST)
    (hf : ∀ rb : MD_RTF, rb.list = r.list → rb.cw_sa = r.cw_sa → rb.cw_li = r.cw_li →
      f rb (level_at r.list d) = l) :
    (let rb := if d > 0 then RENDER_VERBATIM { r with list_depth := d } (cstr "\\par")
        else { r with list_depth := d }
     if d > 7 then some rb
     else match list_set rb d (f rb) with
        | none => none
        | some r => render_list_start r)
      = if d > 7 then some { r with list_depth := d, out := r.out ++ cstr "\\par" }
        else some { r with
          list_depth := d
          out := (r.out ++ (if d > 0 then cstr "\\par" else [])
            ++ list_start_bytes (r.cw_fs 0) r.cw_fi l)
          list := level_set r.list d l
          list_reset := 0 } := by
  have hpar : c_str (cstr "\\par") = cstr "\\par" := by decide
  simp only
  by_cases h0 : d > 0
  · simp only [if_pos h0, RENDER_VERBATIM, render_verbatim, hpar]
    by_cases h7 : d > 7
    · rw [if_pos h7, if_pos h7]
    · rw [if_neg h7, if_neg h7, list_set_level _ _ (by omega)]
      simp only
      rw [render_list_start_eq]
      simp only [if_pos (show d < 8 by omega), level_at_set_same, hf, List.append_assoc]
  · simp only [if_neg h0]
    rw [if_neg (by omega), if_neg (by omega), list_set_level _ _ (by omega)]
    simp only
    rw [render_list_start_eq]
    simp only [if_pos (show d < 8 by omega), level_at_set_same, hf, List.append_nil]

/-- What `render_enter_block_ul` does; the depth in it is the incremented one. -/
theorem render_enter_block_ul_eq (r : MD_RTF) (is_tight : Bool) :
    render_enter_block_ul r is_tight
      = if (r.list_depth + 1) % 2 ^ 32 > 7 then
          some { r with
            list_depth := (r.list_depth + 1) % 2 ^ 32
            out := r.out ++ cstr "\\par" }
        else some { r with
          list_depth := (r.list_depth + 1) % 2 ^ 32
          out := (r.out ++ (if (r.list_depth + 1) % 2 ^ 32 > 0 then cstr "\\par" else [])
            ++ list_start_bytes (r.cw_fs 0) r.cw_fi
                (ul_level r.cw_sa r.cw_li (level_at r.list ((r.list_depth + 1) % 2 ^ 32))
                  ((r.list_depth + 1) % 2 ^ 32) is_tight))
          list := (level_set r.list ((r.list_depth + 1) % 2 ^ 32)
            (ul_level r.cw_sa r.cw_li (level_at r.list ((r.list_depth + 1) % 2 ^ 32))
              ((r.list_depth + 1) % 2 ^ 32) is_tight))
          list_reset := 0 } := by
  rw [← render_enter_block_list_eq r
    (ul_level r.cw_sa r.cw_li (level_at r.list ((r.list_depth + 1) % 2 ^ 32))
      ((r.list_depth + 1) % 2 ^ 32) is_tight)
    ((r.list_depth + 1) % 2 ^ 32)
    (fun rb l => { l with
        type := MD_RTF_LIST_TYPE_UL
        count := 0
        cw_tx := g_cw_list_bullt (Fin.ofNat (((r.list_depth + 1) % 2 ^ 32) % 2))
        cw_sa := if is_tight then rb.cw_sa 0 else rb.cw_sa 1
        cw_li := rb.cw_li (Fin.ofNat ((r.list_depth + 1) % 2 ^ 32)) })
    (by
      intro rb h1 h2 h3
      simp only [ul_level, h2, h3])]
  unfold render_enter_block_ul
  simp only
  split
  · rfl
  · rename_i h
    have hlt : (r.list_depth + 1) % 2 ^ 32 < 8 := by omega
    simp only [list_set, dif_pos hlt, fin_ofNat_eq _ hlt]

/-- What `render_enter_block_ol` does; the depth in it is the incremented one. -/
theorem render_enter_block_ol_eq (r : MD_RTF) (start : Nat) (is_tight : Bool)
    (mark_delimiter : Byte) :
    render_enter_block_ol r start is_tight mark_delimiter
      = if (r.list_depth + 1) % 2 ^ 32 > 7 then
          some { r with
            list_depth := (r.list_depth + 1) % 2 ^ 32
            out := r.out ++ cstr "\\par" }
        else some { r with
          list_depth := (r.list_depth + 1) % 2 ^ 32
          out := (r.out ++ (if (r.list_depth + 1) % 2 ^ 32 > 0 then cstr "\\par" else [])
            ++ list_start_bytes (r.cw_fs 0) r.cw_fi
                (ol_level r.cw_sa r.cw_li (level_at r.list ((r.list_depth + 1) % 2 ^ 32))
                  ((r.list_depth + 1) % 2 ^ 32) start is_tight mark_delimiter))
          list := (level_set r.list ((r.list_depth + 1) % 2 ^ 32)
            (ol_level r.cw_sa r.cw_li (level_at r.list ((r.list_depth + 1) % 2 ^ 32))
              ((r.list_depth + 1) % 2 ^ 32) start is_tight mark_delimiter))
          list_reset := 0 } := by
  rw [← render_enter_block_list_eq r
    (ol_level r.cw_sa r.cw_li (level_at r.list ((r.list_depth + 1) % 2 ^ 32))
      ((r.list_depth + 1) % 2 ^ 32) start is_tight mark_delimiter)
    ((r.list_depth + 1) % 2 ^ 32)
    (fun rb l => { l with
        type := MD_RTF_LIST_TYPE_OL
        count := 0
        start := start
        cw_tx := if mark_delimiter.val = 41 then g_cw_list_delim 1 else g_cw_list_delim 0
        cw_sa := if is_tight then rb.cw_sa 0 else rb.cw_sa 1
        cw_li := rb.cw_li (Fin.ofNat ((r.list_depth + 1) % 2 ^ 32)) })
    (by
      intro rb h1 h2 h3
      simp only [ol_level, h2, h3])]
  unfold render_enter_block_ol
  simp only
  split
  · rfl
  · rename_i h
    have hlt : (r.list_depth + 1) % 2 ^ 32 < 8 := by omega
    simp only [list_set, dif_pos hlt, fin_ofNat_eq _ hlt]

/-- What `render_leave_block_ul` does (and `render_leave_block_ol`, which has the same
body). -/
theorem render_leave_block_ul_eq (r : MD_RTF) :
    render_leave_block_ul r
      = if r.list_depth ≠ 0 then
          { r with list_reset := 1, list_depth := (r.list_depth + 2 ^ 32 - 1) % 2 ^ 32 }
        else
          { r with
            out := r.out ++ end_block_bytes (r.cw_sa 2)
            list_depth := (r.list_depth + 2 ^ 32 - 1) % 2 ^ 32 } := by
  unfold render_leave_block_ul
  by_cases h : r.list_depth ≠ 0
  · simp only [if_pos h]
  · simp only [if_neg h, render_end_block_eq]

theorem list_ctx_self (r : MD_RTF) :
    list_ctx r r.out r.list r.list_depth r.list_stop r.list_reset = r := by
  cases r
  rfl

theorem run_events_cons_some (p : Platform) (e : Event) (es : List Event) (r r1 : MD_RTF)
    (h : dispatch p e r = some (r1, 0)) : run_events p (e :: es) r = run_events p es r1 := by
  simp only [run_events, h, ne_eq, not_true_eq_false, if_false]

theorem dispatch_enter_ul_ctx (p : Platform) (r : MD_RTF) (o : List Byte)
    (ls : Fin 8 → MD_RTF_LIST) (d st rs : Nat) (is_tight : Bool) (d1 : Nat)
    (hd : (d + 1) % 2 ^ 32 = d1) (h7 : d1 ≤ 7) :
    dispatch p (.enter_block (.UL is_tight)) (list_ctx r o ls d st rs)
      = some (list_ctx r
          (o ++ (if d1 > 0 then cstr "\\par" else [])
            ++ list_start_bytes (r.cw_fs 0) r.cw_fi
                (ul_level r.cw_sa r.cw_li (level_at ls d1) d1 is_tight))
          (level_set ls d1 (ul_level r.cw_sa r.cw_li (level_at ls d1) d1 is_tight)) d1 st 0,
        0) := by
  subst hd
  simp only [dispatch, enter_block_callback, render_enter_block_ul_eq, list_ctx]
  rw [if_neg (by omega)]
  rfl

theorem dispatch_enter_ol_ctx (p : Platform) (r : MD_RTF) (o : List Byte)
    (ls : Fin 8 → MD_RTF_LIST) (d st rs : Nat) (start : Nat) (is_tight : Bool)
    (mark_delimiter : Byte) (d1 : Nat) (hd : (d + 1) % 2 ^ 32 = d1) (h7 : d1 ≤ 7) :
    dispatch p (.enter_block (.OL start is_tight mark_delimiter)) (list_ctx r o ls d st rs)
      = some (list_ctx r
          (o ++ (if d1 > 0 then cstr "\\par" else [])
            ++ list_start_bytes (r.cw_fs 0) r.cw_fi
                (ol_level r.cw_sa r.cw_li (level_at ls d1) d1 start is_tight mark_delimiter))
          (level_set ls d1
            (ol_level r.cw_sa r.cw_li (level_at ls d1) d1 start is_tight mark_delimiter))
          d1 st 0,
        0) := by
  subst hd
  simp only [dispatch, enter_block_callback, render_enter_block_ol_eq, list_ctx]
  rw [if_neg (by omega)]
  rfl

theorem dispatch_enter_li_ctx (p : Platform) (r : MD_RTF) (o : List Byte)
    (ls : Fin 8 → MD_RTF_LIST) (d st rs : Nat) (h7 : d < 8) :
    dispatch p (.enter_block .LI) (list_ctx r o ls d st rs)
      = some (list_ctx r
          (o ++ (if rs ≠ 0 then list_start_bytes (r.cw_fs 0) r.cw_fi (level_at ls d) else [])
            ++ (if (level_at ls d).count > 0 then list_item_bytes (level_at ls d) else []))
          (level_set ls d { level_at ls d with count := ((level_at ls d).count + 1) % 2 ^ 32 })
          d 1 0,
        0) := by
  simp only [dispatch, enter_block_callback, render_enter_block_li_eq, list_ctx]
  rw [if_pos h7]
  rfl

theorem dispatch_leave_li_ctx (p : Platform) (r : MD_RTF) (o : List Byte)
    (ls : Fin 8 → MD_RTF_LIST) (d st rs : Nat) :
    dispatch p (.leave_block .LI) (list_ctx r o ls d st rs)
      = some (list_ctx r (o ++ (if st ≠ 0 then cstr "\\par" else [])) ls d 0 rs, 0) := by
  have hpar : c_str (cstr "\\par") = cstr "\\par" := by decide
  simp only [dispatch, leave_block_callback, render_leave_block_li, list_ctx, RENDER_VERBATIM,
    render_verbatim, hpar]
  by_cases h : st ≠ 0
  · simp only [if_pos h]
  · have h0 : st = 0 := by
      by_contra hc
      exact h hc
    subst h0
    simp only [ne_eq, not_true_eq_false, if_false, List.append_nil]

theorem dispatch_leave_ul_ctx (p : Platform) (r : MD_RTF) (o : List Byte)
    (ls : Fin 8 → MD_RTF_LIST) (d st rs : Nat) (is_tight : Bool) (d1 : Nat)
    (hd : (d + 2 ^ 32 - 1) % 2 ^ 32 = d1) :
    dispatch p (.leave_block (.UL is_tight)) (list_ctx r o ls d st rs)
      = some (list_ctx r (o ++ (if d ≠ 0 then [] else end_block_bytes (r.cw_sa 2))) ls d1 st
          (if d ≠ 0 then 1 else rs), 0) := by
  subst hd
  simp only [dispatch, leave_block_callback, render_leave_block_ul_eq, list_ctx]
  by_cases h : d ≠ 0
  · simp only [if_pos h, List.append_nil]
  · simp only [if_neg h]

theorem dispatch_leave_ol_ctx (p : Platform) (r : MD_RTF) (o : List Byte)
    (ls : Fin 8 → MD_RTF_LIST) (d st rs : Nat) (start : Nat) (is_tight : Bool)
    (mark_delimiter : Byte) (d1 : Nat) (hd : (d + 2 ^ 32 - 1) % 2 ^ 32 = d1) :
    dispatch p (.leave_block (.OL start is_tight mark_delimiter)) (list_ctx r o ls d st rs)
      = some (list_ctx r (o ++ (if d ≠ 0 then [] else end_block_bytes (r.cw_sa 2))) ls d1 st
          (if d ≠ 0 then 1 else rs), 0) :=
  dispatch_leave_ul_ctx p r o ls d st rs true d1 hd

theorem dispatch_text_normal_ctx (p : Platform) (r : MD_RTF) (o : List Byte)
    (ls : Fin 8 → MD_RTF_LIST) (d st rs : Nat) (t : List Byte) :
    dispatch p (.text .NORMAL t) (list_ctx r o ls d st rs)
      = some (list_ctx r (o ++ rtf_escaped_bytes r.escape_map t) ls d st rs, 0) := by
  simp only [dispatch, text_callback, render_rtf_escaped_eq, list_ctx, Option.map_some']

theorem nested_list_closing_ctx (p : Platform) (r : MD_RTF) (o : List Byte)
    (ls : Fin 8 → MD_RTF_LIST) (st rs : Nat) (is_tight : Bool) (start : Nat)
    (ol_tight : Bool) (mark_delimiter : Byte) (t0 t1 t2 t3 : List Byte) :
    (run_events p (nested_list_events is_tight start ol_tight mark_delimiter t0 t1 t2 t3)
        (list_ctx r o ls (2 ^ 32 - 1) st rs)).map (fun x => (x.1.out, x.2))
      = some (o ++ list_start_bytes (r.cw_fs 0) r.cw_fi
            (ul_level r.cw_sa r.cw_li (level_at ls 0) 0 is_tight)
        ++ rtf_escaped_bytes r.escape_map t0
        ++ cstr "\\par"
        ++ list_start_bytes (r.cw_fs 0) r.cw_fi
            (ol_level r.cw_sa r.cw_li (level_at ls 1) 1 start ol_tight mark_delimiter)
        ++ rtf_escaped_bytes r.escape_map t1 ++ cstr "\\par"
        ++ list_item_bytes
            { ol_level r.cw_sa r.cw_li (level_at ls 1) 1 start ol_tight mark_delimiter with
              count := 1 }
        ++ rtf_escaped_bytes r.escape_map t2 ++ cstr "\\par"
        ++ list_start_bytes (r.cw_fs 0) r.cw_fi
            { ul_level r.cw_sa r.cw_li (level_at ls 0) 0 is_tight with count := 1 }
        ++ list_item_bytes { ul_level r.cw_sa r.cw_li (level_at ls 0) 0 is_tight with count := 1 }
        ++ rtf_escaped_bytes r.escape_map t3 ++ cstr "\\par"
        ++ end_block_bytes (r.cw_sa 2), 0) := by
  unfold nested_list_events
  rw [run_events_cons_some p _ _ _ _
    (dispatch_enter_ul_ctx p r _ _ _ _ _ is_tight 0 (by norm_num) (by norm_num))]
  rw [run_events_cons_some p _ _ _ _ (dispatch_enter_li_ctx p r _ _ _ _ _ (by norm_num))]
  rw [run_events_cons_some p _ _ _ _ (dispatch_text_normal_ctx p r _ _ _ _ _ t0)]
  rw [run_events_cons_some p _ _ _ _
    (dispatch_enter_ol_ctx p r _ _ _ _ _ start ol_tight mark_delimiter 1 (by norm_num)
      (by norm_num))]
  rw [run_events_cons_some p _ _ _ _ (dispatch_enter_li_ctx p r _ _ _ _ _ (by norm_num))]
  rw [run_events_cons_some p _ _ _ _ (dispatch_text_normal_ctx p r _ _ _ _ _ t1)]
  rw [run_events_cons_some p _ _ _ _ (dispatch_leave_li_ctx p r _ _ _ _ _)]
  rw [run_events_cons_some p _ _ _ _ (dispatch_enter_li_ctx p r _ _ _ _ _ (by norm_num))]
  rw [run_events_cons_some p _ _ _ _ (dispatch_text_normal_ctx p r _ _ _ _ _ t2)]
  rw [run_events_cons_some p _ _ _ _ (dispatch_leave_li_ctx p r _ _ _ _ _)]
  rw [run_events_cons_some p _ _ _ _
    (dispatch_leave_ol_ctx p r _ _ _ _ _ start ol_tight mark_delimiter 0 (by norm_num))]
  rw [run_events_cons_some p _ _ _ _ (dispatch_leave_li_ctx p r _ _ _ _ _)]
  rw [run_events_cons_some p _ _ _ _ (dispatch_enter_li_ctx p r _ _ _ _ _ (by norm_num))]
  rw [run_events_cons_some p _ _ _ _ (dispatch_text_normal_ctx p r _ _ _ _ _ t3)]
  rw [run_events_cons_some p _ _ _ _ (dispatch_leave_li_ctx p r _ _ _ _ _)]
  rw [run_events_cons_some p _ _ _ _
    (dispatch_leave_ul_ctx p r _ _ _ _ _ is_tight (2 ^ 32 - 1) (by norm_num))]
  have h01 : ∀ (ls : Fin 8 → MD_RTF_LIST) l, level_at (level_set ls 1 l) 0 = level_at ls 0 :=
    fun ls l => level_at_set_other ls 1 0 l (by norm_num) (by norm_num) (by norm_num)
  have h10 : ∀ (ls : Fin 8 → MD_RTF_LIST) l, level_at (level_set ls 0 l) 1 = level_at ls 1 :=
    fun ls l => level_at_set_other ls 0 1 l (by norm_num) (by norm_num) (by norm_num)
  have hu : ∀ old d t, (ul_level r.cw_sa r.cw_li old d t).count = 0 := fun _ _ _ => rfl
  have ho : ∀ old d s t c, (ol_level r.cw_sa r.cw_li old d s t c).count = 0 :=
    fun _ _ _ _ _ => rfl
  have e1 : (0 + 1) % 2 ^ 32 = 1 := by norm_num
  have e2 : (1 + 1) % 2 ^ 32 = 2 := by norm_num
  simp only [run_events, Option.map, list_ctx, level_at_set_same, h01, h10, hu, ho, e1, e2,
    gt_iff_lt, lt_self_iff_false, if_false, ne_eq, not_true_eq_false, one_ne_zero,
    not_false_eq_true, if_true, zero_lt_one, List.append_nil, List.append_assoc]

/-- C12: on a context whose list depth is the initial one, the events of an unordered list
whose first item holds a nested ordered list of two items and which then gets one more
item write: the outer preamble, the first text, a paragraph break, the nested preamble, the
two nested items each ended by one paragraph break, then directly (nothing written by the
nested list's leave nor by the leave of the outer first item) the full list-start preamble
of depth 0 followed by the item marker, the text, one paragraph break and the block end.
The re-emitted preamble is `\pard`, the font size, the bullet marker group and the bullet
definition group, the depth-0 indent, the space-after and the first-line indent. -/
theorem nested_list_closing (p : Platform) (r : MD_RTF) (is_tight : Bool) (start : Nat)
    (ol_tight : Bool) (mark_delimiter : Byte) (t0 t1 t2 t3 : List Byte)
    (hdepth : r.list_depth = 2 ^ 32 - 1) :
    (run_events p (nested_list_events is_tight start ol_tight mark_delimiter t0 t1 t2 t3)
        r).map (fun x => (x.1.out, x.2))
      = some (r.out ++ list_start_bytes (r.cw_fs 0) r.cw_fi
            (ul_level r.cw_sa r.cw_li (level_at r.list 0) 0 is_tight)
        ++ rtf_escaped_bytes r.escape_map t0
        ++ cstr "\\par"
        ++ list_start_bytes (r.cw_fs 0) r.cw_fi
            (ol_level r.cw_sa r.cw_li (level_at r.list 1) 1 start ol_tight mark_delimiter)
        ++ rtf_escaped_bytes r.escape_map t1 ++ cstr "\\par"
        ++ list_item_bytes
            { ol_level r.cw_sa r.cw_li (level_at r.list 1) 1 start ol_tight mark_delimiter with
              count := 1 }
        ++ rtf_escaped_bytes r.escape_map t2 ++ cstr "\\par"
        ++ list_start_bytes (r.cw_fs 0) r.cw_fi
            { ul_level r.cw_sa r.cw_li (level_at r.list 0) 0 is_tight with count := 1 }
        ++ list_item_bytes
            { ul_level r.cw_sa r.cw_li (level_at r.list 0) 0 is_tight with count := 1 }
        ++ rtf_escaped_bytes r.escape_map t3 ++ cstr "\\par"
        ++ end_block_bytes (r.cw_sa 2), 0) ∧
    list_start_bytes (r.cw_fs 0) r.cw_fi
        { ul_level r.cw_sa r.cw_li (level_at r.list 0) 0 is_tight with count := 1 }
      = cstr "\\pard" ++ c_str (r.cw_fs 0) ++ cstr "\x7b\\pntext\\f0 "
        ++ cstr "\\u8226 " ++ cstr "\\tab\x7d\x7b\\*\\pn\\pnlvlblt\\pnf0\x7b\\pntxtb"
        ++ cstr "\\u8226 " ++ cstr "\x7d\x7d" ++ c_str (r.cw_li 0)
        ++ c_str (if is_tight then r.cw_sa 0 else r.cw_sa 1) ++ c_str (r.cw_fi 0) ∧
    list_item_bytes { ul_level r.cw_sa r.cw_li (level_at r.list 0) 0 is_tight with count := 1 }
      = cstr "\x7b\\pntext\\f0 " ++ cstr "\\u8226 " ++ cstr "\\tab\x7d" := by
  have e : list_ctx r r.out r.list (2 ^ 32 - 1) r.list_stop r.list_reset = r := by
    rw [← hdepth]
    exact list_ctx_self r
  have h := nested_list_closing_ctx p r r.out r.list r.list_stop r.list_reset is_tight start
    ol_tight mark_delimiter t0 t1 t2 t3
  rw [e] at h
  have eb : c_str (g_cw_list_bullt (Fin.ofNat (0 % 2))) = cstr "\\u8226 " := by decide
  have et : ¬ MD_RTF_LIST_TYPE_UL = MD_RTF_LIST_TYPE_OL := by decide
  refine ⟨h, ?_, ?_⟩
  · simp only [list_start_bytes, ul_level, eb, et, if_false, List.append_assoc]
    rfl
  · simp only [list_item_bytes, ul_level, eb, et, if_false, List.append_assoc, List.nil_append]

/-- C12 at a concrete input: the context built for font size 12 and document width 210,
a tight bullet list, a nested ordered list starting at 1 with delimiter `.`, and the texts
`a`, `b`, `c`, `d`. -/
theorem nested_list_closing_witness :
    sample_context.list_depth = 2 ^ 32 - 1 ∧
    (run_events sample_platform (nested_list_events true 1 true 46 [97] [98] [99] [100])
        sample_context).map (fun x => (x.1.out, x.2))
      = some (sample_context.out ++ list_start_bytes (sample_context.cw_fs 0) sample_context.cw_fi
            (ul_level sample_context.cw_sa sample_context.cw_li (level_at sample_context.list 0)
              0 true)
        ++ rtf_escaped_bytes sample_context.escape_map [97]
        ++ cstr "\\par"
        ++ list_start_bytes (sample_context.cw_fs 0) sample_context.cw_fi
            (ol_level sample_context.cw_sa sample_context.cw_li (level_at sample_context.list 1)
              1 1 true 46)
        ++ rtf_escaped_bytes sample_context.escape_map [98] ++ cstr "\\par"
        ++ list_item_bytes
            { ol_level sample_context.cw_sa sample_context.cw_li
                (level_at sample_context.list 1) 1 1 true 46 with count := 1 }
        ++ rtf_escaped_bytes sample_context.escape_map [99] ++ cstr "\\par"
        ++ list_start_bytes (sample_context.cw_fs 0) sample_context.cw_fi
            { ul_level sample_context.cw_sa sample_context.cw_li
                (level_at sample_context.list 0) 0 true with count := 1 }
        ++ list_item_bytes
            { ul_level sample_context.cw_sa sample_context.cw_li
                (level_at sample_context.list 0) 0 true with count := 1 }
        ++ rtf_escaped_bytes sample_context.escape_map [100] ++ cstr "\\par"
        ++ end_block_bytes (sample_context.cw_sa 2), 0) :=
  ⟨by decide, (nested_list_closing sample_platform sample_context true 1 true 46 [97] [98] [99]
    [100] (by decide)).1⟩

theorem ol_level_delim (cw_sa : Fin 3 → List Byte) (cw_li : Fin 8 → List Byte)
    (old : MD_RTF_LIST) (d s : Nat) (is_tight : Bool) (c : Byte)
    (hc : c.val = 46 ∨ c.val = 41) :
    c_str (ol_level cw_sa cw_li old d s is_tight c).cw_tx = [c] := by
  have h46 : c_str (g_cw_list_delim 0) = [46] := by decide
  have h41 : c_str (g_cw_list_delim 1) = [41] := by decide
  rcases hc with h | h
  · have e : c = 46 := Fin.ext h
    subst e
    exact h46
  · have e : c = 41 := Fin.ext h
    subst e
    exact h41

theorem ol_item_bytes_eq (cw_sa : Fin 3 → List Byte) (cw_li : Fin 8 → List Byte)
    (old : MD_RTF_LIST) (d s k : Nat) (is_tight : Bool) (c : Byte)
    (hc : c.val = 46 ∨ c.val = 41) (hk : s + k < 2 ^ 32) :
    list_item_bytes { ol_level cw_sa cw_li old d s is_tight c with count := k }
      = cstr "\x7b\\pntext\\f0 " ++ ol_marker s k c ++ cstr "\x7d" := by
  have hd := ol_level_delim cw_sa cw_li old d s is_tight c hc
  have hn : ultostr ((k + s) % 2 ^ 32) 10 = decimal (s + k) := by
    rw [Nat.add_comm k s, Nat.mod_eq_of_lt hk]
    exact ultostr_eq_decimal _ (by omega)
  have et : cstr "\\tab\x7d" = cstr "\\tab" ++ cstr "\x7d" := by decide
  have ht : (ol_level cw_sa cw_li old d s is_tight c).type = MD_RTF_LIST_TYPE_OL := rfl
  have hs : (ol_level cw_sa cw_li old d s is_tight c).start = s := rfl
  unfold list_item_bytes ol_marker
  simp only [ht, hs, if_true, hn, et, List.append_assoc]
  rw [show c_str (ol_level cw_sa cw_li old d s is_tight c).cw_tx = [c] from hd]

theorem render_entity_ctx (ulong_max : Nat) (r : MD_RTF) (text : List Byte)
    (hlast : text.getLast? = some 59) :
    ∃ w, ∀ (o : List Byte) (ls : Fin 8 → MD_RTF_LIST) (d st rs : Nat),
      render_entity ulong_max (list_ctx r o ls d st rs) text render_rtf_escaped
        = some (list_ctx r (o ++ w) ls d st rs) := by
  have hflags : ∀ (o : List Byte) (ls : Fin 8 → MD_RTF_LIST) (d st rs : Nat),
      (list_ctx r o ls d st rs).flags = r.flags := fun _ _ _ _ _ => rfl
  have hesc : ∀ (o : List Byte) (ls : Fin 8 → MD_RTF_LIST) (d st rs : Nat),
      render_rtf_escaped (list_ctx r o ls d st rs) text
        = some (list_ctx r (o ++ rtf_escaped_bytes r.escape_map text) ls d st rs) := by
    intro o ls d st rs
    rw [render_rtf_escaped_eq]
    rfl
  by_cases hf : r.flags &&& MD_RTF_FLAG_VERBATIM_ENTITIES ≠ 0
  · refine ⟨text, fun o ls d st rs => ?_⟩
    unfold render_entity
    rw [hflags, if_pos hf]
    rfl
  · cases hc : (if text.length > 3 then text[1]? else none) with
    | none =>
      refine ⟨rtf_escaped_bytes r.escape_map text, fun o ls d st rs => ?_⟩
      unfold render_entity
      rw [hflags, if_neg hf, hc]
      exact hesc o ls d st rs
    | some c1 =>
      have hlen : text.length > 3 := by
        by_contra hn
        rw [if_neg hn] at hc
        cases hc
      by_cases h35 : c1.val = 35
      · obtain ⟨c2, hc2⟩ : ∃ c2, text[2]? = some c2 :=
          ⟨text[2], List.getElem?_eq_getElem (by omega)⟩
        have hd3 : (text.drop 3).getLast? = some 59 := by
          rw [List.getLast?_drop, if_neg (by omega)]; exact hlast
        have hd2 : (text.drop 2).getLast? = some 59 := by
          rw [List.getLast?_drop, if_neg (by omega)]; exact hlast
        by_cases hx : (decide (c2.val = 120) || decide (c2.val = 88)) = true
        · obtain ⟨v, hv⟩ := strtoul_total ulong_max 16 _ hd3
          refine ⟨cstr "\\u" ++ ultostr (v % 2 ^ 32) 10, fun o ls d st rs => ?_⟩
          unfold render_entity
          rw [hflags, if_neg hf, hc]
          simp only [h35, if_true, hc2, hx, hv]
          rw [render_unicode_eq]
          rfl
        · obtain ⟨v, hv⟩ := strtoul_total ulong_max 10 _ hd2
          refine ⟨cstr "\\u" ++ ultostr (v % 2 ^ 32) 10, fun o ls d st rs => ?_⟩
          unfold render_entity
          rw [hflags, if_neg hf, hc]
          simp only [h35, if_true, hc2, hx, hv, Bool.false_eq_true, if_false]
          rw [render_unicode_eq]
          rfl
      · refine ⟨rtf_escaped_bytes r.escape_map text, fun o ls d st rs => ?_⟩
        unfold render_entity
        rw [hflags, if_neg hf, hc]
        simp only [h35, if_false]
        exact hesc o ls d st rs

theorem dispatch_inline_ctx (p : Platform) (r : MD_RTF) (e : Event)
    (he : inline_event e = true) (hd : handler_defined r e = true) :
    ∃ w, ∀ (o : List Byte) (ls : Fin 8 → MD_RTF_LIST) (d st rs : Nat),
      dispatch p e (list_ctx r o ls d st rs) = some (list_ctx r (o ++ w) ls d st rs, 0) := by
  cases e with
  | enter_block b => cases he
  | leave_block b => cases he
  | enter_span s =>
    cases s
    case A href =>
      refine ⟨c_str (cstr "\\cf4\\ul \x7b\\field\x7b\\*\\fldinst HYPERLINK \"")
        ++ (href.flatMap (url_escaped_byte r.escape_map) ++ c_str (cstr "\"\x7d\x7b\\fldrslt ")),
        fun o ls d st rs => ?_⟩
      simp only [dispatch, enter_span_callback, render_enter_span_url, render_url_escaped_eq,
        Option.map_some', RENDER_VERBATIM, render_verbatim, list_ctx, List.append_assoc]
    case CODE =>
      exact ⟨c_str (cstr "\\f1") ++ c_str (r.cw_fs 1), fun o ls d st rs => by
        simp only [dispatch, enter_span_callback, render_font_mono, Option.map_some',
          RENDER_VERBATIM, render_verbatim, list_ctx, List.append_assoc]⟩
    case EM => exact ⟨_, fun o ls d st rs => rfl⟩
    case STRONG => exact ⟨_, fun o ls d st rs => rfl⟩
    case U => exact ⟨_, fun o ls d st rs => rfl⟩
    case DEL => exact ⟨_, fun o ls d st rs => rfl⟩
    all_goals
      exact ⟨[], fun o ls d st rs => by
        simp only [dispatch, enter_span_callback, Option.map_some', list_ctx, List.append_nil]⟩
  | leave_span s =>
    cases s
    case A href => exact ⟨_, fun o ls d st rs => rfl⟩
    case CODE =>
      exact ⟨c_str (cstr "\\f0") ++ c_str (r.cw_fs 0), fun o ls d st rs => by
        simp only [dispatch, leave_span_callback, render_font_norm,
          RENDER_VERBATIM, render_verbatim, list_ctx, List.append_assoc]⟩
    case EM => exact ⟨_, fun o ls d st rs => rfl⟩
    case STRONG => exact ⟨_, fun o ls d st rs => rfl⟩
    case U => exact ⟨_, fun o ls d st rs => rfl⟩
    case DEL => exact ⟨_, fun o ls d st rs => rfl⟩
    all_goals
      exact ⟨[], fun o ls d st rs => by
        simp only [dispatch, leave_span_callback, list_ctx, List.append_nil]⟩
  | text t data =>
    have hesc : ∀ (o : List Byte) (ls : Fin 8 → MD_RTF_LIST) (d st rs : Nat),
        render_rtf_escaped (list_ctx r o ls d st rs) data
          = some (list_ctx r (o ++ rtf_escaped_bytes r.escape_map data) ls d st rs) := by
      intro o ls d st rs
      rw [render_rtf_escaped_eq]
      rfl
    cases t
    case ENTITY =>
      simp only [handler_defined, beq_iff_eq] at hd
      obtain ⟨w, hw⟩ := render_entity_ctx p.ulong_max r data hd
      exact ⟨w, fun o ls d st rs => by
        simp only [dispatch, text_callback, hw, Option.map_some']⟩
    case NULLCHAR => exact ⟨_, fun o ls d st rs => rfl⟩
    case BR => exact ⟨_, fun o ls d st rs => rfl⟩
    case SOFTBR => exact ⟨_, fun o ls d st rs => rfl⟩
    all_goals
      exact ⟨rtf_escaped_bytes r.escape_map data, fun o ls d st rs => by
        simp only [dispatch, text_callback, hesc, Option.map_some']⟩

theorem run_inline_ctx (p : Platform) (r : MD_RTF) :
    ∀ (es : List Event),
      (∀ e ∈ es, inline_event e = true ∧ handler_defined r e = true) →
      ∃ w, ∀ (rest : List Event) (o : List Byte) (ls : Fin 8 → MD_RTF_LIST) (d st rs : Nat),
        run_events p (es ++ rest) (list_ctx r o ls d st rs)
          = run_events p rest (list_ctx r (o ++ w) ls d st rs) := by
  intro es
  induction es with
  | nil =>
    intro _
    exact ⟨[], fun rest o ls d st rs => by simp only [List.nil_append, List.append_nil]⟩
  | cons e es ih =>
    intro h
    obtain ⟨w1, h1⟩ := dispatch_inline_ctx p r e (h e (List.mem_cons_self _ _)).1
      (h e (List.mem_cons_self _ _)).2
    obtain ⟨w2, h2⟩ := ih (fun e1 he1 => h e1 (List.mem_cons_of_mem _ he1))
    refine ⟨w1 ++ w2, fun rest o ls d st rs => ?_⟩
    rw [List.cons_append, run_events_cons_some p _ _ _ _ (h1 o ls d st rs), h2,
      List.append_assoc]

theorem run_inline_bytes (p : Platform) (r : MD_RTF) (es : List Event)
    (h : ∀ e ∈ es, inline_event e = true ∧ handler_defined r e = true)
    (rest : List Event) (o : List Byte) (ls : Fin 8 → MD_RTF_LIST) (d st rs : Nat) :
    run_events p (es ++ rest) (list_ctx r o ls d st rs)
      = run_events p rest (list_ctx r (o ++ inline_bytes p r es) ls d st rs) := by
  obtain ⟨w, hw⟩ := run_inline_ctx p r es h
  have e0 : ({ r with out := [] } : MD_RTF)
      = list_ctx r [] r.list r.list_depth r.list_stop r.list_reset := rfl
  have hb : inline_bytes p r es = w := by
    unfold inline_bytes
    have h0 := hw [] [] r.list r.list_depth r.list_stop r.list_reset
    rw [List.append_nil] at h0
    rw [e0, h0]
    simp only [run_events, Option.map_some', Option.getD_some, list_ctx, List.nil_append]
  rw [hb]
  exact hw rest o ls d st rs

theorem inline_bytes_text (p : Platform) (r : MD_RTF) (t : List Byte) :
    inline_bytes p r [.text .NORMAL t] = rtf_escaped_bytes r.escape_map t := by
  unfold inline_bytes
  simp only [run_events, dispatch, text_callback, render_rtf_escaped_eq, Option.map_some',
    ne_eq, not_true_eq_false, if_false, Option.getD_some, List.nil_append]

theorem run_ol_item_list_ctx (p : Platform) (r : MD_RTF) (L : MD_RTF_LIST) (s : Nat) (c : Byte)
    (es : List Event)
    (hitem : ∀ k, s + k < 2 ^ 32 →
      list_item_bytes { L with count := k } = cstr "\x7b\\pntext\\f0 " ++ ol_marker s k c ++ cstr "\x7d") :
    ∀ (its : List (List Event)) (k : Nat) (o : List Byte) (ls : Fin 8 → MD_RTF_LIST) (st : Nat),
      (∀ it ∈ its, ∀ e ∈ it, inline_event e = true ∧ handler_defined r e = true) →
      0 < k → s + k + its.length < 2 ^ 32 → level_at ls 0 = { L with count := k } →
      ∃ ls1 st1, run_events p ((its.map item_events).flatten ++ es) (list_ctx r o ls 0 st 0)
        = run_events p es
            (list_ctx r (o ++ ol_item_list_bytes (inline_bytes p r) s c k its) ls1 0 st1 0) := by
  intro its
  induction its with
  | nil =>
    intro k o ls st _ _ _ _
    exact ⟨ls, st, by simp only [List.map_nil, List.flatten_nil, List.nil_append,
      ol_item_list_bytes, List.append_nil]⟩
  | cons it its ih =>
    intro k o ls st hin hk hlen hl
    simp only [List.length_cons] at hlen
    simp only [List.map_cons, List.flatten_cons, item_events, List.cons_append,
      List.append_assoc, List.nil_append]
    rw [run_events_cons_some p _ _ _ _ (dispatch_enter_li_ctx p r _ _ _ _ _ (by norm_num))]
    rw [run_inline_bytes p r it (hin it (List.mem_cons_self _ _))]
    rw [run_events_cons_some p _ _ _ _ (dispatch_leave_li_ctx p r _ _ _ _ _)]
    have hcnt : ({ L with count := k } : MD_RTF_LIST).count = k := rfl
    have hmod : (k + 1) % 2 ^ 32 = k + 1 := Nat.mod_eq_of_lt (by omega)
    have hl1 : level_at (level_set ls 0
        { level_at ls 0 with count := ((level_at ls 0).count + 1) % 2 ^ 32 }) 0
        = { L with count := k + 1 } := by
      rw [level_at_set_same, hl, hcnt, hmod]
    obtain ⟨ls1, st1, h⟩ := ih (k + 1) _ _ 0
      (fun it1 h1 => hin it1 (List.mem_cons_of_mem _ h1)) (by omega) (by omega) hl1
    refine ⟨ls1, st1, ?_⟩
    rw [h, hl, hcnt, hitem k (by omega)]
    simp only [ol_item_list_bytes, ne_eq, not_true_eq_false, if_false, one_ne_zero,
      not_false_eq_true, if_true, gt_iff_lt, hk, List.append_nil, List.append_assoc]

theorem ordered_list_inline_ctx (p : Platform) (r : MD_RTF) (o : List Byte)
    (ls : Fin 8 → MD_RTF_LIST) (st rs : Nat) (s : Nat) (is_tight : Bool) (c : Byte)
    (it0 : List Event) (its : List (List Event))
    (hc : c.val = 46 ∨ c.val = 41) (hs : s + (its.length + 1) < 2 ^ 32)
    (hin : ∀ it ∈ it0 :: its, ∀ e ∈ it, inline_event e = true ∧ handler_defined r e = true) :
    (run_events p (ol_list_events s is_tight c (it0 :: its))
        (list_ctx r o ls (2 ^ 32 - 1) st rs)).map (fun x => (x.1.out, x.2))
      = some (o ++ list_start_bytes (r.cw_fs 0) r.cw_fi
            (ol_level r.cw_sa r.cw_li (level_at ls 0) 0 s is_tight c)
        ++ inline_bytes p r it0 ++ cstr "\\par"
        ++ ol_item_list_bytes (inline_bytes p r) s c 1 its
        ++ end_block_bytes (r.cw_sa 2), 0) := by
  unfold ol_list_events
  simp only [List.map_cons, List.flatten_cons, item_events, List.cons_append,
    List.append_assoc, List.nil_append]
  rw [run_events_cons_some p _ _ _ _
    (dispatch_enter_ol_ctx p r _ _ _ _ _ s is_tight c 0 (by norm_num) (by norm_num))]
  rw [run_events_cons_some p _ _ _ _ (dispatch_enter_li_ctx p r _ _ _ _ _ (by norm_num))]
  rw [run_inline_bytes p r it0 (hin it0 (List.mem_cons_self _ _))]
  rw [run_events_cons_some p _ _ _ _ (dispatch_leave_li_ctx p r _ _ _ _ _)]
  have hcnt : (ol_level r.cw_sa r.cw_li (level_at ls 0) 0 s is_tight c).count = 0 := rfl
  have hl1 : level_at (level_set (level_set ls 0
        (ol_level r.cw_sa r.cw_li (level_at ls 0) 0 s is_tight c)) 0
        { level_at (level_set ls 0 (ol_level r.cw_sa r.cw_li (level_at ls 0) 0 s is_tight c)) 0
          with count := ((level_at (level_set ls 0
            (ol_level r.cw_sa r.cw_li (level_at ls 0) 0 s is_tight c)) 0).count + 1)
              % 2 ^ 32 }) 0
      = { ol_level r.cw_sa r.cw_li (level_at ls 0) 0 s is_tight c with count := 1 } := by
    rw [level_at_set_same, level_at_set_same, hcnt]
    rfl
  obtain ⟨ls1, st1, h⟩ := run_ol_item_list_ctx p r
    (ol_level r.cw_sa r.cw_li (level_at ls 0) 0 s is_tight c) s c
    [.leave_block (.OL s is_tight c)]
    (fun k hk => ol_item_bytes_eq r.cw_sa r.cw_li (level_at ls 0) 0 s k is_tight c hc hk)
    its 1 _ _ 0 (fun it1 h1 => hin it1 (List.mem_cons_of_mem _ h1)) (by norm_num) (by omega) hl1
  rw [h]
  rw [run_events_cons_some p _ _ _ _
    (dispatch_leave_ol_ctx p r _ _ _ _ _ s is_tight c (2 ^ 32 - 1) (by norm_num))]
  simp only [run_events, Option.map, list_ctx, level_at_set_same, hcnt,
    gt_iff_lt, lt_self_iff_false, if_false, ne_eq, not_true_eq_false, one_ne_zero,
    not_false_eq_true, if_true, List.append_nil, List.append_assoc]

set_option maxRecDepth 100000 in
/-- C11, counterexample (a loose list): in the context built for font size 12 and
document width 210, the ordered list with start 3, delimiter `)` and two items that hold
one paragraph each writes, between the text of the first item and the marker of the second,
the paragraph break `\par` CR LF of the paragraph and the paragraph break `\par` of the
item: two paragraph breaks, not one. -/
theorem loose_ordered_list_two_breaks :
    (run_events sample_platform loose_ol_events sample_context).map (fun x => (x.1.out, x.2))
      = some (sample_context.out
        ++ cstr "\\pard\\fs24\x7b\\pntext\\f0 3)\\tab\x7d\x7b\\*\\pn\\pnlvlbody\\pnf0\\pnstart3\\pndec\x7b\\pntxta)\x7d\x7d\\li480\\sa72 \\fi-288"
        ++ cstr "\\f0\\fs24" ++ cstr "a"
        ++ cstr "\\par\r\n" ++ cstr "\\par"
        ++ cstr "\x7b\\pntext\\f0 4)\\tab\x7d"
        ++ cstr "\\f0\\fs24" ++ cstr "b"
        ++ cstr "\\par\r\n" ++ cstr "\\par"
        ++ cstr "\\pard\\f0\\fs0\\sa144 \\par\r\n", 0) := by
  decide!

/-- C11, amended: on a context whose list depth is the initial one, the events of an
ordered list with start value `s`, delimiter `c` (`.` or `)`) and `n = its.length + 1`
items that hold inline content only (spans and text, each handler within its text), with
`s + n < 2 ^ 32`, write: the list-start preamble, in which the marker `decimal s`, `c` is
followed by one tab; the content of the first item and one paragraph break; then for each
later item `k` the marker group of the list-item routine with the marker `decimal (s + k)`,
`c` and one tab, the content of the item and one paragraph break; then the block end.  The
content of an item is what its events write on their own; for one run of normal text it is
the escaped text. -/
theorem ordered_list_markers (p : Platform) (r : MD_RTF) (s : Nat) (is_tight : Bool) (c : Byte)
    (it0 : List Event) (its : List (List Event))
    (hdepth : r.list_depth = 2 ^ 32 - 1)
    (hc : c.val = 46 ∨ c.val = 41) (hs : s + (its.length + 1) < 2 ^ 32)
    (hin : ∀ it ∈ it0 :: its, ∀ e ∈ it, inline_event e = true ∧ handler_defined r e = true) :
    (run_events p (ol_list_events s is_tight c (it0 :: its)) r).map (fun x => (x.1.out, x.2))
      = some (r.out ++ cstr "\\pard" ++ c_str (r.cw_fs 0)
        ++ cstr "\x7b\\pntext\\f0 " ++ ol_marker s 0 c ++ cstr "\x7d"
        ++ cstr "\x7b\\*\\pn\\pnlvlbody\\pnf0\\pnstart" ++ decimal s
        ++ cstr "\\pndec\x7b\\pntxta" ++ [c] ++ cstr "\x7d\x7d"
        ++ c_str (r.cw_li 0) ++ c_str (if is_tight then r.cw_sa 0 else r.cw_sa 1)
        ++ c_str (r.cw_fi 1)
        ++ inline_bytes p r it0 ++ cstr "\\par"
        ++ ol_item_list_bytes (inline_bytes p r) s c 1 its
        ++ end_block_bytes (r.cw_sa 2), 0) ∧
    (∀ t, inline_bytes p r [.text .NORMAL t] = rtf_escaped_bytes r.escape_map t) := by
  refine ⟨?_, inline_bytes_text p r⟩
  have e : list_ctx r r.out r.list (2 ^ 32 - 1) r.list_stop r.list_reset = r := by
    rw [← hdepth]
    exact list_ctx_self r
  have h := ordered_list_inline_ctx p r r.out r.list r.list_stop r.list_reset s is_tight c
    it0 its hc hs hin
  rw [e] at h
  rw [h]
  have hd := ol_level_delim r.cw_sa r.cw_li (level_at r.list 0) 0 s is_tight c hc
  have hn : ultostr ((0 + s) % 2 ^ 32) 10 = decimal s := by
    rw [Nat.zero_add, Nat.mod_eq_of_lt (by omega)]
    exact ultostr_eq_decimal _ (by omega)
  have et : cstr "\\tab\x7d\x7b\\*\\pn\\pnlvlbody\\pnf0\\pnstart"
      = cstr "\\tab" ++ cstr "\x7d" ++ cstr "\x7b\\*\\pn\\pnlvlbody\\pnf0\\pnstart" := by decide
  have ht : (ol_level r.cw_sa r.cw_li (level_at r.list 0) 0 s is_tight c).type
      = MD_RTF_LIST_TYPE_OL := rfl
  have hst : (ol_level r.cw_sa r.cw_li (level_at r.list 0) 0 s is_tight c).start = s := rfl
  have hcn : (ol_level r.cw_sa r.cw_li (level_at r.list 0) 0 s is_tight c).count = 0 := rfl
  have hli : (ol_level r.cw_sa r.cw_li (level_at r.list 0) 0 s is_tight c).cw_li = r.cw_li 0 :=
    rfl
  have hsa : (ol_level r.cw_sa r.cw_li (level_at r.list 0) 0 s is_tight c).cw_sa
      = if is_tight then r.cw_sa 0 else r.cw_sa 1 := rfl
  unfold list_start_bytes ol_marker
  simp only [ht, hst, hcn, hli, hsa, hd, hn, et, if_true, Nat.add_zero, List.append_assoc]

set_option maxRecDepth 100000 in
/-- C11, amended, at a concrete input: start 3, delimiter `)`, a tight list of three items
in the context built for font size 12 and document width 210; the first item holds the
text `a`, the second the text `b` inside an emphasis span, the third the text `c`.  The
markers are `3)`, `4)`, `5)`, each followed by one tab, and one `\par` ends each item. -/
theorem ordered_list_markers_witness :
    (sample_context.list_depth = 2 ^ 32 - 1 ∧ ((41 : Byte).val = 46 ∨ (41 : Byte).val = 41)
      ∧ 3 + (([[.enter_span .EM, .text .NORMAL [98], .leave_span .EM], [.text .NORMAL [99]]]
          : List (List Event)).length + 1) < 2 ^ 32
      ∧ (∀ it ∈ ([.text .NORMAL [97]] :: [[.enter_span .EM, .text .NORMAL [98], .leave_span .EM],
            [.text .NORMAL [99]]] : List (List Event)),
          ∀ e ∈ it, inline_event e = true ∧ handler_defined sample_context e = true)) ∧
    (run_events sample_platform (ol_list_events 3 true 41
          ([.text .NORMAL [97]] :: [[.enter_span .EM, .text .NORMAL [98], .leave_span .EM],
            [.text .NORMAL [99]]]))
        sample_context).map (fun x => (x.1.out, x.2))
      = some (sample_context.out ++ cstr "\\pard" ++ c_str (sample_context.cw_fs 0)
        ++ cstr "\x7b\\pntext\\f0 " ++ ol_marker 3 0 41 ++ cstr "\x7d"
        ++ cstr "\x7b\\*\\pn\\pnlvlbody\\pnf0\\pnstart" ++ decimal 3
        ++ cstr "\\pndec\x7b\\pntxta" ++ [41] ++ cstr "\x7d\x7d"
        ++ c_str (sample_context.cw_li 0)
        ++ c_str (if true then sample_context.cw_sa 0 else sample_context.cw_sa 1)
        ++ c_str (sample_context.cw_fi 1)
        ++ inline_bytes sample_platform sample_context [.text .NORMAL [97]] ++ cstr "\\par"
        ++ ol_item_list_bytes (inline_bytes sample_platform sample_context) 3 41 1
            [[.enter_span .EM, .text .NORMAL [98], .leave_span .EM], [.text .NORMAL [99]]]
        ++ end_block_bytes (sample_context.cw_sa 2), 0) ∧
    ol_marker 3 0 41 = cstr "3)\\tab" ∧ ol_marker 3 1 41 = cstr "4)\\tab" ∧
    ol_marker 3 2 41 = cstr "5)\\tab" ∧
    (run_events sample_platform (ol_list_events 3 true 41
          ([.text .NORMAL [97]] :: [[.enter_span .EM, .text .NORMAL [98], .leave_span .EM],
            [.text .NORMAL [99]]]))
        sample_context).map (fun x => (x.1.out, x.2))
      = some (cstr "\\pard\\fs24\x7b\\pntext\\f0 3)\\tab\x7d\x7b\\*\\pn\\pnlvlbody\\pnf0\\pnstart3\\pndec\x7b\\pntxta)\x7d\x7d\\li480\\sa48 \\fi-288"
        ++ cstr "a" ++ cstr "\\par"
        ++ cstr "\x7b\\pntext\\f0 4)\\tab\x7d" ++ cstr "\\i b\\i0 " ++ cstr "\\par"
        ++ cstr "\x7b\\pntext\\f0 5)\\tab\x7d" ++ cstr "c" ++ cstr "\\par"
        ++ cstr "\\pard\\f0\\fs0\\sa144 \\par\r\n", 0) :=
  ⟨⟨by decide, by decide, by decide, by decide⟩,
   (ordered_list_markers sample_platform sample_context 3 true 41 [.text .NORMAL [97]]
     [[.enter_span .EM, .text .NORMAL [98], .leave_span .EM], [.text .NORMAL [99]]]
     (by decide) (by decide) (by decide) (by decide)).1, by decide, by decide, by decide,
   by decide!⟩

theorem render_tr_cell_eq (cw : Nat) (r : MD_RTF) (i : Nat) (h : cw * (i + 1) < 2 ^ 32) :
    render_tr_cell cw r i = { r with out := r.out ++ tr_cell_bytes r.tabl_head (cw * (i + 1)) } := by
  have e1 : c_str (cstr "\\clvertalc\\clbrdrt\\brdrs\\brdrw20\\brdrcf3\\clbrdrb\\brdrs\\brdrw20\\brdrcf3\\clbrdrl\\brdrs\\brdrw20\\brdrcf3\\clbrdrr\\brdrs\\brdrw20\\brdrcf3")
      = cstr "\\clvertalc\\clbrdrt\\brdrs\\brdrw20\\brdrcf3\\clbrdrb\\brdrs\\brdrw20\\brdrcf3\\clbrdrl\\brdrs\\brdrw20\\brdrcf3\\clbrdrr\\brdrs\\brdrw20\\brdrcf3" := by
    decide
  have e2 : c_str (cstr "\\clcbpat5\\cellx") = cstr "\\clcbpat5" ++ cstr "\\cellx" := by decide
  have e3 : c_str (cstr "\\cellx") = cstr "\\cellx" := by decide
  have hn : c_str (ultostr ((cw * (i + 1)) % 2 ^ 32) 10) = decimal (cw * (i + 1)) := by
    rw [c_str_ultostr _ 10 (by omega) (by omega), Nat.mod_eq_of_lt h]
    exact ultostr_eq_decimal _ (by omega)
  unfold render_tr_cell tr_cell_bytes
  by_cases hh : r.tabl_head ≠ 0
  · simp only [RENDER_VERBATIM, render_verbatim, hh, if_true, e1, e2, hn, ne_eq,
      not_false_eq_true, List.append_assoc]
  · simp only [RENDER_VERBATIM, render_verbatim, hh, if_false, e1, e3, hn,
      List.append_assoc, List.nil_append]

theorem foldl_render_tr_cell (cw : Nat) (n : Nat) (hcw : cw * n < 2 ^ 32) :
    ∀ (l : List Nat) (r : MD_RTF), (∀ i ∈ l, i < n) →
      l.foldl (render_tr_cell cw) r
        = { r with out := r.out
              ++ (l.map (fun i => tr_cell_bytes r.tabl_head (cw * (i + 1)))).flatten } := by
  intro l
  induction l with
  | nil =>
    intro r _
    simp only [List.foldl_nil, List.map_nil, List.flatten_nil, List.append_nil]
  | cons i l ih =>
    intro r hl
    have hi : i < n := hl i (List.mem_cons_self _ _)
    have hb : cw * (i + 1) < 2 ^ 32 :=
      lt_of_le_of_lt (Nat.mul_le_mul_left cw (by omega)) hcw
    rw [List.foldl_cons, render_tr_cell_eq cw r i hb,
      ih _ (fun j hj => hl j (List.mem_cons_of_mem _ hj))]
    simp only [List.map_cons, List.flatten_cons, List.append_assoc]

theorem table_frame_trans (r r1 r2 : MD_RTF) (h1 : TableFrame r r1) (h2 : TableFrame r1 r2) :
    TableFrame r r2 :=
  ⟨h2.1.trans h1.1, h2.2.1.trans h1.2.1, h2.2.2.1.trans h1.2.2.1, h2.2.2.2.trans h1.2.2.2⟩

theorem foldl_render_tr_cell_frame (cw : Nat) :
    ∀ (l : List Nat) (r : MD_RTF), TableFrame r (l.foldl (render_tr_cell cw) r) := by
  intro l
  induction l with
  | nil => intro r; exact ⟨rfl, rfl, rfl, rfl⟩
  | cons i l ih =>
    intro r
    rw [List.foldl_cons]
    refine table_frame_trans _ _ _ ?_ (ih _)
    unfold render_tr_cell
    simp only
    split <;> exact ⟨rfl, rfl, rfl, rfl⟩

theorem render_entity_table_frame (ulong_max : Nat) (r r1 : MD_RTF) (text : List Byte)
    (h : render_entity ulong_max r text render_rtf_escaped = some r1) : TableFrame r r1 := by
  have hesc : ∀ r1, render_rtf_escaped r text = some r1 → TableFrame r r1 := by
    intro r1 h
    rw [render_rtf_escaped_eq] at h
    cases h
    exact ⟨rfl, rfl, rfl, rfl⟩
  unfold render_entity at h
  split at h
  · cases h
    exact ⟨rfl, rfl, rfl, rfl⟩
  · cases hc : (if text.length > 3 then text[1]? else none) with
    | none =>
      rw [hc] at h
      exact hesc r1 h
    | some c1 =>
      rw [hc] at h
      simp only at h
      split at h
      · cases hc2 : text[2]? with
        | none => rw [hc2] at h; cases h
        | some c2 =>
          rw [hc2] at h
          simp only at h
          cases hv : (if (decide (c2.val = 120) || decide (c2.val = 88)) = true
              then strtoul ulong_max (List.drop 3 text) 16
              else strtoul ulong_max (List.drop 2 text) 10) with
          | none => rw [hv] at h; cases h
          | some v =>
            rw [hv] at h
            cases h
            exact ⟨rfl, rfl, rfl, rfl⟩
      · exact hesc r1 h

set_option maxRecDepth 100000 in
theorem dispatch_table_frame (p : Platform) (e : Event) (r r1 : MD_RTF) (ret : Int)
    (he : table_inner_event e = true) (h : dispatch p e r = some (r1, ret)) :
    ret = 0 ∧ TableFrame r r1 := by
  cases e with
  | enter_block b =>
    simp only [dispatch, enter_block_callback, Option.map_eq_some', Prod.mk.injEq] at h
    obtain ⟨r2, h2, rfl, rfl⟩ := h
    refine ⟨rfl, ?_⟩
    cases b
    case THEAD => cases h2; exact ⟨rfl, rfl, rfl, rfl⟩
    case TBODY => cases h2; exact ⟨rfl, rfl, rfl, rfl⟩
    case TR =>
      cases h2
      exact table_frame_trans _ _ _ ⟨rfl, rfl, rfl, rfl⟩ (foldl_render_tr_cell_frame _ _ _)
    case TH align => cases h2; cases align <;> exact ⟨rfl, rfl, rfl, rfl⟩
    case TD align => cases h2; cases align <;> exact ⟨rfl, rfl, rfl, rfl⟩
    all_goals cases he
  | leave_block b =>
    simp only [dispatch, leave_block_callback, Option.some.injEq, Prod.mk.injEq] at h
    obtain ⟨rfl, rfl⟩ := h
    refine ⟨rfl, ?_⟩
    cases b
    case THEAD => exact ⟨rfl, rfl, rfl, rfl⟩
    case TBODY => exact ⟨rfl, rfl, rfl, rfl⟩
    case TR => exact ⟨rfl, rfl, rfl, rfl⟩
    case TH align => exact ⟨rfl, rfl, rfl, rfl⟩
    case TD align => exact ⟨rfl, rfl, rfl, rfl⟩
    all_goals cases he
  | enter_span s =>
    simp only [dispatch, enter_span_callback, Option.map_eq_some', Prod.mk.injEq] at h
    obtain ⟨r2, h2, rfl, rfl⟩ := h
    refine ⟨rfl, ?_⟩
    cases s
    case A href =>
      simp only [render_enter_span_url, render_url_escaped_eq, Option.some.injEq] at h2
      cases h2
      exact ⟨rfl, rfl, rfl, rfl⟩
    all_goals
      cases h2
      exact ⟨rfl, rfl, rfl, rfl⟩
  | leave_span s =>
    simp only [dispatch, leave_span_callback, Option.some.injEq, Prod.mk.injEq] at h
    obtain ⟨rfl, rfl⟩ := h
    refine ⟨rfl, ?_⟩
    cases s <;> exact ⟨rfl, rfl, rfl, rfl⟩
  | text t d =>
    simp only [dispatch, text_callback, Option.map_eq_some', Prod.mk.injEq] at h
    obtain ⟨r2, h2, rfl, rfl⟩ := h
    refine ⟨rfl, ?_⟩
    cases t
    case ENTITY => exact render_entity_table_frame p.ulong_max r _ d h2
    case NULLCHAR => cases h2; exact ⟨rfl, rfl, rfl, rfl⟩
    case BR => cases h2; exact ⟨rfl, rfl, rfl, rfl⟩
    case SOFTBR => cases h2; exact ⟨rfl, rfl, rfl, rfl⟩
    all_goals
      simp only [render_rtf_escaped_eq, Option.some.injEq] at h2
      cases h2
      exact ⟨rfl, rfl, rfl, rfl⟩

theorem run_events_table_frame (p : Platform) :
    ∀ (es : List Event) (r r1 : MD_RTF) (ret : Int),
      (∀ e ∈ es, table_inner_event e = true) → run_events p es r = some (r1, ret) →
      ret = 0 ∧ TableFrame r r1 := by
  intro es
  induction es with
  | nil =>
    intro r r1 ret _ h
    simp only [run_events, Option.some.injEq, Prod.mk.injEq] at h
    obtain ⟨rfl, rfl⟩ := h
    exact ⟨rfl, rfl, rfl, rfl, rfl⟩
  | cons e es ih =>
    intro r r1 ret hes h
    simp only [run_events] at h
    cases hd : dispatch p e r with
    | none => rw [hd] at h; cases h
    | some x =>
      obtain ⟨r2, ret2⟩ := x
      rw [hd] at h
      obtain ⟨rfl, hf⟩ := dispatch_table_frame p e r r2 ret2 (hes e (List.mem_cons_self _ _)) hd
      simp only [ne_eq, not_true_eq_false, if_false] at h
      obtain ⟨h0, hf2⟩ := ih r2 r1 ret (fun e1 h1 => hes e1 (List.mem_cons_of_mem _ h1)) h
      exact ⟨h0, table_frame_trans _ _ _ hf hf2⟩

theorem render_enter_block_tr_eq (p : Platform) (r : MD_RTF)
    (hcw : p.cell_width r.page_width r.page_margin r.tabl_cols * r.tabl_cols < 2 ^ 32) :
    render_enter_block_tr p r
      = { r with out := r.out ++ cstr "\\trowd" ++ c_str (r.cw_tr 1)
            ++ ((List.range r.tabl_cols).map (fun i => tr_cell_bytes r.tabl_head
                  (p.cell_width r.page_width r.page_margin r.tabl_cols * (i + 1)))).flatten } := by
  have e1 : c_str (cstr "\\trowd") = cstr "\\trowd" := by decide
  unfold render_enter_block_tr
  simp only [RENDER_VERBATIM, render_verbatim, e1]
  rw [foldl_render_tr_cell _ r.tabl_cols hcw _ _ (fun i hi => List.mem_range.mp hi)]

set_option maxRecDepth 100000 in
theorem f32_cell_width_default :
    ∀ n ∈ List.range 65, f32_cell_width 11904 400 n = cw_exact 11904 400 n := by
  decide

theorem f32_cell_width_pages :
    ∀ dw ∈ List.range 301, 18 ≤ dw → ∀ n ∈ List.range 9,
      f32_cell_width (f32_fmul 56689 1000 dw) 400 n
        = cw_exact (f32_fmul 56689 1000 dw) 400 n := by
  decide!

set_option maxRecDepth 100000 in
/-- C13, counterexample: for document width 92505 `md_rtf` sets the page width 5244016 and
the margin 400, and the row of a one-column table declares the boundary 4194413, the
single-precision value of `cw`, whereas `(W - 2M - 0.2W) / n` is 4194412.8 and truncates
to 4194412. -/
theorem cell_width_single_precision :
    (∃ r r1, md_rtf_setup sample_platform sample_render 0 12 92505 = some r ∧
      r.page_width = 5244016 ∧ r.page_margin = 400 ∧
      run_events sample_platform one_column_row_events r = some (r1, 0) ∧
      r1.out = r.out ++ cstr "\\pard\\f0\\fs21\\trowd\\trgaph72\\trrh384\\trleft288"
        ++ cstr "\\clvertalc\\clbrdrt\\brdrs\\brdrw20\\brdrcf3\\clbrdrb\\brdrs\\brdrw20\\brdrcf3\\clbrdrl\\brdrs\\brdrw20\\brdrcf3\\clbrdrr\\brdrs\\brdrw20\\brdrcf3"
        ++ cstr "\\clcbpat5" ++ cstr "\\cellx" ++ cstr "4194413") ∧
    f32_cell_width 5244016 400 1 = 4194413 ∧
    cw_exact 5244016 400 1 = 4194412 ∧
    (10 * (5244016 - 2 * 400) - 2 * 5244016) / (10 * 1) = 4194412 := by
  refine ⟨?_, by decide, by decide, by decide⟩
  have h : ((md_rtf_setup sample_platform sample_render 0 12 92505).bind (fun r =>
      (run_events sample_platform one_column_row_events r).map (fun x =>
        (r.page_width, r.page_margin, x.2,
          decide (x.1.out = r.out ++ cstr "\\pard\\f0\\fs21\\trowd\\trgaph72\\trrh384\\trleft288"
            ++ cstr "\\clvertalc\\clbrdrt\\brdrs\\brdrw20\\brdrcf3\\clbrdrb\\brdrs\\brdrw20\\brdrcf3\\clbrdrl\\brdrs\\brdrw20\\brdrcf3\\clbrdrr\\brdrs\\brdrw20\\brdrcf3"
            ++ cstr "\\clcbpat5" ++ cstr "\\cellx" ++ cstr "4194413")))))
      = some (5244016, 400, 0, true) := by decide
  cases hs : md_rtf_setup sample_platform sample_render 0 12 92505 with
  | none => rw [hs] at h; cases h
  | some r =>
    rw [hs] at h
    simp only [Option.some_bind] at h
    cases hr : run_events sample_platform one_column_row_events r with
    | none => rw [hr] at h; cases h
    | some x =>
      obtain ⟨r1, ret⟩ := x
      rw [hr] at h
      simp only [Option.map_some', Option.some.injEq, Prod.mk.injEq, decide_eq_true_eq] at h
      obtain ⟨hw, hm, hret, hout⟩ := h
      subst hret
      exact ⟨r, r1, rfl, hw, hm, hr, hout⟩

/-- C13, amended: after the enter of a table with `n >= 1` columns in a context with page
width `W = r.page_width` and margin `M = r.page_margin`, and after any events `es` of the
inside of the table (sections, rows, cells, spans, text), a row-enter writes `\trowd`, the
row control words and exactly `n` cell declarations whose right boundaries are `cw`,
`2 * cw`, ..., `n * cw` in decimal, where `cw = f32_cell_width W M n` is the value of the
source expression in single precision: `W - 2*M` in `unsigned`, converted to `float`, minus
the `float` product `0.2f * W`, divided by `n` as a `float`, and truncated.  The value of
`cw` does not depend on `es` nor on the header flag, which only adds `\clcbpat5` to each
declaration; nothing but the output changes.  For the page of `main.c` (`W = 11904`,
`M = 400`) and up to 64 columns, and for the page `md_rtf` sets for a document width from
18 to 300 (`M = 400`) and up to 8 columns, `cw` is `(W - 2M - 0.2W) / n` truncated. -/
theorem render_enter_block_tr_cells (ulong_max : Nat) (r r1 : MD_RTF) (n : Nat)
    (es : List Event) (ret : Int) (hn : 0 < n)
    (hcw : f32_cell_width r.page_width r.page_margin n * n < 2 ^ 32)
    (hes : ∀ e ∈ es, table_inner_event e = true)
    (hrun : run_events (f32_platform ulong_max) es (render_enter_block_table r n)
      = some (r1, ret)) :
    render_enter_block_tr (f32_platform ulong_max) r1
      = { r1 with out := r1.out ++ cstr "\\trowd" ++ c_str (r.cw_tr 1)
            ++ ((List.range n).map (fun i => tr_cell_bytes r1.tabl_head
                  (f32_cell_width r.page_width r.page_margin n * (i + 1)))).flatten } ∧
    ((List.range n).map (fun i => tr_cell_bytes r1.tabl_head
        (f32_cell_width r.page_width r.page_margin n * (i + 1)))).length = n ∧
    (∀ b, tr_cell_bytes 0 b
        = cstr "\\clvertalc\\clbrdrt\\brdrs\\brdrw20\\brdrcf3\\clbrdrb\\brdrs\\brdrw20\\brdrcf3\\clbrdrl\\brdrs\\brdrw20\\brdrcf3\\clbrdrr\\brdrs\\brdrw20\\brdrcf3"
          ++ cstr "\\cellx" ++ decimal b) ∧
    (∀ b, tr_cell_bytes 1 b
        = cstr "\\clvertalc\\clbrdrt\\brdrs\\brdrw20\\brdrcf3\\clbrdrb\\brdrs\\brdrw20\\brdrcf3\\clbrdrl\\brdrs\\brdrw20\\brdrcf3\\clbrdrr\\brdrs\\brdrw20\\brdrcf3"
          ++ cstr "\\clcbpat5" ++ cstr "\\cellx" ++ decimal b) ∧
    (r.page_width = 11904 → r.page_margin = 400 → n ≤ 64 →
      f32_cell_width r.page_width r.page_margin n = cw_exact 11904 400 n) ∧
    (∀ doc_width, 18 ≤ doc_width → doc_width ≤ 300 →
      r.page_width = f32_fmul 56689 1000 doc_width → r.page_margin = 400 → n ≤ 8 →
      f32_cell_width r.page_width r.page_margin n = cw_exact r.page_width 400 n) := by
  have _ := hn
  obtain ⟨_, hw, hm, hc, htr⟩ :=
    run_events_table_frame (f32_platform ulong_max) es _ r1 ret hes hrun
  have hw1 : r1.page_width = r.page_width := hw
  have hm1 : r1.page_margin = r.page_margin := hm
  have hc1 : r1.tabl_cols = n := hc
  have htr1 : r1.cw_tr = r.cw_tr := htr
  refine ⟨?_, by simp only [List.length_map, List.length_range], ?_, ?_, ?_, ?_⟩
  · have h := render_enter_block_tr_eq (f32_platform ulong_max) r1
      (by rw [hw1, hm1, hc1]; exact hcw)
    rw [hw1, hm1, hc1, htr1] at h ⊢
    exact h
  · intro b
    simp only [tr_cell_bytes, ne_eq, not_true_eq_false, if_false, List.append_nil,
      List.append_assoc, List.nil_append]
  · intro b
    simp only [tr_cell_bytes, ne_eq, one_ne_zero, not_false_eq_true, if_true,
      List.append_assoc]
  · intro hW hM h64
    rw [hW, hM]
    exact f32_cell_width_default n (List.mem_range.mpr (by omega))
  · intro doc_width h18 h300 hW hM h8
    rw [hW, hM]
    exact f32_cell_width_pages doc_width (List.mem_range.mpr (by omega)) h18 n
      (List.mem_range.mpr (by omega))

/-- C13, amended, at a concrete input: three columns in the context built for font size 12
and document width 210, whose page width is 11904 and margin 400; the row entered inside
the table head gets the boundaries 2907, 5814 and 8721, and 2907 is 8723.2 / 3
truncated. -/
theorem render_enter_block_tr_cells_witness :
    (0 < 3 ∧
      f32_cell_width sample_context.page_width sample_context.page_margin 3 * 3 < 2 ^ 32 ∧
      (∀ e ∈ [Event.enter_block .THEAD], table_inner_event e = true) ∧
      run_events sample_platform [Event.enter_block .THEAD]
          (render_enter_block_table sample_context 3)
        = some (render_enter_block_thead (render_enter_block_table sample_context 3), 0)) ∧
    render_enter_block_tr sample_platform
        (render_enter_block_thead (render_enter_block_table sample_context 3))
      = { render_enter_block_thead (render_enter_block_table sample_context 3) with
          out := (render_enter_block_thead (render_enter_block_table sample_context 3)).out
            ++ cstr "\\trowd" ++ c_str (sample_context.cw_tr 1)
            ++ ((List.range 3).map (fun i => tr_cell_bytes
                  (render_enter_block_thead (render_enter_block_table sample_context 3)).tabl_head
                  (f32_cell_width sample_context.page_width
                    sample_context.page_margin 3 * (i + 1)))).flatten } ∧
    sample_context.page_width = 11904 ∧ sample_context.page_margin = 400 ∧
    (List.range 3).map (fun i =>
        f32_cell_width sample_context.page_width sample_context.page_margin 3
          * (i + 1)) = [2907, 5814, 8721] ∧
    cw_exact 11904 400 3 = 2907 :=
  ⟨⟨by decide, by decide, by decide, rfl⟩,
   (render_enter_block_tr_cells (2 ^ 64 - 1) sample_context
      (render_enter_block_thead (render_enter_block_table sample_context 3)) 3
      [Event.enter_block .THEAD] 0 (by decide) (by decide) (by decide) rfl).1,
   by decide, by decide, by decide, by decide⟩

theorem render_entity_frame (ulong_max : Nat) (r r1 : MD_RTF) (text : List Byte)
    (h : render_entity ulong_max r text render_rtf_escaped = some r1) :
    ∃ w, r1 = { r with out := r.out ++ w } := by
  have hesc : ∀ r1, render_rtf_escaped r text = some r1 →
      ∃ w, r1 = { r with out := r.out ++ w } := by
    intro r1 h
    rw [render_rtf_escaped_eq] at h
    cases h
    exact ⟨_, rfl⟩
  unfold render_entity at h
  split at h
  · cases h
    exact ⟨_, rfl⟩
  · cases hc : (if text.length > 3 then text[1]? else none) with
    | none =>
      rw [hc] at h
      exact hesc r1 h
    | some c1 =>
      rw [hc] at h
      simp only at h
      split at h
      · cases hc2 : text[2]? with
        | none => rw [hc2] at h; cases h
        | some c2 =>
          rw [hc2] at h
          simp only at h
          cases hv : (if (decide (c2.val = 120) || decide (c2.val = 88)) = true
              then strtoul ulong_max (List.drop 3 text) 16
              else strtoul ulong_max (List.drop 2 text) 10) with
          | none => rw [hv] at h; cases h
          | some v =>
            rw [hv] at h
            cases h
            exact ⟨_, render_unicode_eq r _⟩
      · exact hesc r1 h

theorem verbatim_frame (r : MD_RTF) (s : List Byte) :
    ∃ w, RENDER_VERBATIM r s = { r with out := r.out ++ w } := ⟨_, rfl⟩

theorem verbatim2_frame (r : MD_RTF) (s t : MD_RTF → List Byte) :
    ∃ w, RENDER_VERBATIM (RENDER_VERBATIM r (s r)) (t r) = { r with out := r.out ++ w } :=
  ⟨c_str (s r) ++ c_str (t r), by
    simp only [RENDER_VERBATIM, render_verbatim, List.append_assoc]⟩

/-- Every span-enter handler only appends to the sink. -/
theorem enter_span_frame (s : MD_SPAN) (r r1 : MD_RTF) (ret : Int)
    (h : enter_span_callback s r = some (r1, ret)) :
    ret = 0 ∧ ∃ w, r1 = { r with out := r.out ++ w } := by
  simp only [enter_span_callback, Option.map_eq_some', Prod.mk.injEq] at h
  obtain ⟨r2, h2, rfl, rfl⟩ := h
  refine ⟨rfl, ?_⟩
  cases s
  case A href =>
    simp only [render_enter_span_url, render_url_escaped_eq, Option.some.injEq] at h2
    cases h2
    exact ⟨c_str (cstr "\\cf4\\ul \x7b\\field\x7b\\*\\fldinst HYPERLINK \"")
        ++ (href.flatMap (url_escaped_byte r.escape_map) ++ c_str (cstr "\"\x7d\x7b\\fldrslt ")),
      by simp only [RENDER_VERBATIM, render_verbatim, List.append_assoc]⟩
  case CODE =>
    cases h2
    exact verbatim2_frame r (fun _ => cstr "\\f1") (fun r => r.cw_fs 1)
  case EM => cases h2; exact verbatim_frame r _
  case STRONG => cases h2; exact verbatim_frame r _
  case U => cases h2; exact verbatim_frame r _
  case DEL => cases h2; exact verbatim_frame r _
  all_goals
    cases h2
    exact ⟨[], by simp only [List.append_nil]⟩

/-- Every span-leave handler only appends to the sink. -/
theorem leave_span_frame (s : MD_SPAN) (r r1 : MD_RTF) (ret : Int)
    (h : leave_span_callback s r = some (r1, ret)) :
    ret = 0 ∧ ∃ w, r1 = { r with out := r.out ++ w } := by
  simp only [leave_span_callback, Option.some.injEq, Prod.mk.injEq] at h
  obtain ⟨rfl, rfl⟩ := h
  refine ⟨rfl, ?_⟩
  cases s
  case A href => exact verbatim_frame r _
  case CODE => exact verbatim2_frame r (fun _ => cstr "\\f0") (fun r => r.cw_fs 0)
  case EM => exact verbatim_frame r _
  case STRONG => exact verbatim_frame r _
  case U => exact verbatim_frame r _
  case DEL => exact verbatim_frame r _
  all_goals exact ⟨[], by simp only [List.append_nil]⟩

/-- Every text handler only appends to the sink. -/
theorem text_frame (p : Platform) (t : MD_TEXTTYPE) (d : List Byte) (r r1 : MD_RTF) (ret : Int)
    (h : text_callback p t d r = some (r1, ret)) :
    ret = 0 ∧ ∃ w, r1 = { r with out := r.out ++ w } := by
  simp only [text_callback, Option.map_eq_some', Prod.mk.injEq] at h
  obtain ⟨r2, h2, rfl, rfl⟩ := h
  refine ⟨rfl, ?_⟩
  cases t
  case ENTITY => exact render_entity_frame p.ulong_max r _ d h2
  case NULLCHAR => cases h2; exact verbatim_frame r _
  case BR => cases h2; exact verbatim_frame r _
  case SOFTBR => cases h2; exact verbatim_frame r _
  all_goals
    simp only [render_rtf_escaped_eq, Option.some.injEq] at h2
    cases h2
    exact ⟨_, rfl⟩

theorem foldl_render_tr_cell_out (cw : Nat) :
    ∀ (l : List Nat) (r : MD_RTF),
      ∃ w, l.foldl (render_tr_cell cw) r = { r with out := r.out ++ w } := by
  intro l
  induction l with
  | nil => intro r; exact ⟨[], by simp only [List.foldl_nil, List.append_nil]⟩
  | cons i l ih =>
    intro r
    rw [List.foldl_cons]
    obtain ⟨w1, h1⟩ : ∃ w, render_tr_cell cw r i = { r with out := r.out ++ w } := by
      unfold render_tr_cell
      simp only
      split
      · exact ⟨_ ++ (_ ++ _), by
          simp only [RENDER_VERBATIM, render_verbatim, List.append_assoc]; rfl⟩
      · exact ⟨_ ++ (_ ++ _), by
          simp only [RENDER_VERBATIM, render_verbatim, List.append_assoc]; rfl⟩
    obtain ⟨w2, h2⟩ := ih (render_tr_cell cw r i)
    rw [h2, h1]
    exact ⟨w1 ++ w2, by simp only [List.append_assoc]⟩

theorem render_enter_block_tr_out (p : Platform) (r : MD_RTF) :
    ∃ w, render_enter_block_tr p r = { r with out := r.out ++ w } := by
  obtain ⟨w, hw⟩ := foldl_render_tr_cell_out
    (p.cell_width r.page_width r.page_margin r.tabl_cols) (List.range r.tabl_cols)
    (RENDER_VERBATIM (RENDER_VERBATIM r (cstr "\\trowd")) (r.cw_tr 1))
  exact ⟨c_str (cstr "\\trowd") ++ (c_str (r.cw_tr 1) ++ w), hw.trans (by
    simp only [RENDER_VERBATIM, render_verbatim, List.append_assoc])⟩

theorem render_leave_block_ul_flags (r : MD_RTF) :
    (render_leave_block_ul r).no_p_end = r.no_p_end ∧
    (render_leave_block_ul r).list_stop = r.list_stop ∧
    (render_leave_block_ul r).tabl_cols = r.tabl_cols := by
  rw [render_leave_block_ul_eq]
  split <;> simp only [and_self]

set_option maxRecDepth 100000 in
/-- What every handler does to the flags `no_p_end`, `list_stop` and `tabl_cols`. -/
theorem dispatch_flags (p : Platform) (e : Event) (r r1 : MD_RTF) (ret : Int)
    (h : dispatch p e r = some (r1, ret)) :
    r1.no_p_end = no_p_end_after r.no_p_end e ∧
    r1.list_stop = list_stop_after r.list_stop e ∧
    r1.tabl_cols = tabl_cols_after r.tabl_cols e := by
  cases e with
  | enter_block b =>
    simp only [dispatch, enter_block_callback, Option.map_eq_some', Prod.mk.injEq] at h
    obtain ⟨r2, h2, rfl, rfl⟩ := h
    cases b <;> simp only [Option.some.injEq] at h2
    case UL is_tight =>
      rw [render_enter_block_ul_eq] at h2
      split at h2 <;> cases h2 <;> exact ⟨rfl, rfl, rfl⟩
    case OL s t m =>
      rw [render_enter_block_ol_eq] at h2
      split at h2 <;> cases h2 <;> exact ⟨rfl, rfl, rfl⟩
    case LI =>
      rw [render_enter_block_li_eq] at h2
      split at h2
      · cases h2; exact ⟨rfl, rfl, rfl⟩
      · cases h2
    case H level =>
      simp only [render_enter_block_h] at h2
      split at h2
      · cases h2; exact ⟨rfl, rfl, rfl⟩
      · cases h2
    case TR =>
      subst h2
      obtain ⟨w, hw⟩ := render_enter_block_tr_out p r
      rw [hw]
      exact ⟨rfl, rfl, rfl⟩
    case TH align => subst h2; cases align <;> exact ⟨rfl, rfl, rfl⟩
    case TD align => subst h2; cases align <;> exact ⟨rfl, rfl, rfl⟩
    case DOC => subst h2; exact ⟨rfl, rfl, rfl⟩
    case QUOTE => subst h2; exact ⟨rfl, rfl, rfl⟩
    case CODE => subst h2; exact ⟨rfl, rfl, rfl⟩
    case HR => subst h2; exact ⟨rfl, rfl, rfl⟩
    case P => subst h2; exact ⟨rfl, rfl, rfl⟩
    case HTML => subst h2; exact ⟨rfl, rfl, rfl⟩
    case TABLE n => subst h2; exact ⟨rfl, rfl, rfl⟩
    case THEAD => subst h2; exact ⟨rfl, rfl, rfl⟩
    case TBODY => subst h2; exact ⟨rfl, rfl, rfl⟩
  | leave_block b =>
    simp only [dispatch, leave_block_callback, Option.some.injEq, Prod.mk.injEq] at h
    obtain ⟨rfl, rfl⟩ := h
    cases b
    case UL is_tight => exact render_leave_block_ul_flags r
    case OL s t m => exact render_leave_block_ul_flags r
    case LI =>
      simp only [render_leave_block_li, list_stop_after, no_p_end_after, tabl_cols_after]
      split
      · exact ⟨rfl, rfl, rfl⟩
      · rename_i hs
        exact ⟨rfl, by simpa using hs, rfl⟩
    case H level =>
      simp only [render_leave_block_h]
      split <;> exact ⟨rfl, rfl, rfl⟩
    case P =>
      simp only [render_leave_block_p]
      split <;> exact ⟨rfl, rfl, rfl⟩
    all_goals exact ⟨rfl, rfl, rfl⟩
  | enter_span s =>
    obtain ⟨_, w, rfl⟩ := enter_span_frame s r r1 ret h
    exact ⟨rfl, rfl, rfl⟩
  | leave_span s =>
    obtain ⟨_, w, rfl⟩ := leave_span_frame s r r1 ret h
    exact ⟨rfl, rfl, rfl⟩
  | text t d =>
    obtain ⟨_, w, rfl⟩ := text_frame p t d r r1 ret h
    exact ⟨rfl, rfl, rfl⟩

set_option maxRecDepth 100000 in
/-- C30: the valid UTF-8 texts `C3 A9 31` (U+00E9 followed by the digit `1`) and
`E0 A4 9B` (U+091B alone), both without NUL, are distinct and `render_rtf_escaped` writes
the same bytes `\u2331` for both, in the context `md_rtf` builds. -/
theorem render_rtf_escaped_not_injective :
    ([0xC3, 0xA9, 0x31] : List Byte) ≠ [0xE0, 0xA4, 0x9B] ∧
    (render_rtf_escaped sample_context [0xC3, 0xA9, 0x31]).map (fun r => r.out)
      = some (sample_context.out ++ cstr "\\u2331") ∧
    (render_rtf_escaped sample_context [0xE0, 0xA4, 0x9B]).map (fun r => r.out)
      = some (sample_context.out ++ cstr "\\u2331") ∧
    (render_non_ascii sample_context [0xC3, 0xA9, 0x31]).map (fun x => (x.1.out, x.2))
      = some (sample_context.out ++ cstr "\\u233", 2) := by
  refine ⟨by decide, by decide, by decide, by decide⟩

set_option maxRecDepth 100000 in
/-- C21: after the events of `> > a` up to the leave of the inner quote, run from the
context `md_rtf` builds, the outer quote is still open and `no_p_end` is 0; the leave of a
paragraph in that state writes the paragraph break `\par` CR LF inside the open quote. -/
theorem no_p_end_cleared_in_open_quote :
    stack_after [] nested_quote_events = some [.block .QUOTE, .block .DOC] ∧
    ∃ r, run_events sample_platform nested_quote_events sample_context = some (r, 0) ∧
      r.no_p_end = 0 ∧
      (render_leave_block_p r).out = r.out ++ cstr "\\par\r\n" := by
  refine ⟨by decide, ?_⟩
  have h : (run_events sample_platform nested_quote_events sample_context).map
      (fun x => (x.1.no_p_end, x.2)) = some (0, 0) := by decide
  cases hx : run_events sample_platform nested_quote_events sample_context with
  | none => rw [hx] at h; cases h
  | some x =>
    obtain ⟨r, ret⟩ := x
    rw [hx] at h
    simp only [Option.map_some', Option.some.injEq, Prod.mk.injEq] at h
    obtain ⟨h0, rfl⟩ := h
    refine ⟨r, rfl, h0, ?_⟩
    have e1 : c_str (cstr "\\par\r\n") = cstr "\\par\r\n" := by decide
    simp only [render_leave_block_p, h0, if_true, RENDER_VERBATIM, render_verbatim, e1]

theorem render_leave_block_li_eq (r : MD_RTF) :
    render_leave_block_li r
      = if r.list_stop ≠ 0 then { r with out := r.out ++ cstr "\\par", list_stop := 0 }
        else r := by
  have e1 : c_str (cstr "\\par") = cstr "\\par" := by decide
  unfold render_leave_block_li
  split
  · simp only [RENDER_VERBATIM, render_verbatim, e1]
  · rfl

theorem li_close_run (p : Platform) : ∀ (es : List Event) (r : MD_RTF),
    (∀ e ∈ es, li_close_event e = true) → list_leaves es ≤ r.list_depth →
    r.list_depth < 2 ^ 32 →
    ∃ r1, run_events p es r = some (r1, 0) ∧
      r1.out = r.out
        ++ (if r.list_stop ≠ 0 ∧ Event.leave_block .LI ∈ es then cstr "\\par" else []) ∧
      r1.list_stop = (if Event.leave_block .LI ∈ es then 0 else r.list_stop) := by
  intro es
  induction es with
  | nil =>
    intro r _ _ _
    exact ⟨r, rfl, by simp, by simp⟩
  | cons e es ih =>
    intro r hes hn hd
    have hrest : ∀ e1 ∈ es, li_close_event e1 = true :=
      fun e1 h1 => hes e1 (List.mem_cons_of_mem _ h1)
    have he := hes e (List.mem_cons_self _ _)
    cases e with
    | leave_block b =>
      cases b
      case LI =>
        have hn1 : list_leaves es ≤ (render_leave_block_li r).list_depth := by
          rw [render_leave_block_li_eq]
          split <;> exact hn
        have hd1 : (render_leave_block_li r).list_depth < 2 ^ 32 := by
          rw [render_leave_block_li_eq]
          split <;> exact hd
        obtain ⟨r1, h1, ho, hs⟩ := ih (render_leave_block_li r) hrest hn1 hd1
        refine ⟨r1, ?_, ?_, ?_⟩
        · rw [run_events_cons_some p (.leave_block .LI) es r (render_leave_block_li r) rfl]
          exact h1
        · rw [ho, render_leave_block_li_eq]
          by_cases hst : r.list_stop ≠ 0
          · simp [hst]
          · simp only [ne_eq, not_not] at hst
            simp [hst]
        · rw [hs, render_leave_block_li_eq]
          by_cases hst : r.list_stop ≠ 0
          · simp [hst]
          · simp only [ne_eq, not_not] at hst
            simp [hst]
      case UL is_tight =>
        simp only [list_leaves] at hn
        have hne : r.list_depth ≠ 0 := by omega
        have hr : render_leave_block_ul r
            = { r with list_reset := 1, list_depth := (r.list_depth + 2 ^ 32 - 1) % 2 ^ 32 } := by
          rw [render_leave_block_ul_eq, if_pos hne]
        have hdd : (r.list_depth + 2 ^ 32 - 1) % 2 ^ 32 = r.list_depth - 1 := by omega
        obtain ⟨r1, h1, ho, hs⟩ := ih
          { r with list_reset := 1, list_depth := (r.list_depth + 2 ^ 32 - 1) % 2 ^ 32 } hrest
          (by simp only [hdd]; omega) (by simp only [hdd]; omega)
        refine ⟨r1, ?_, ?_, ?_⟩
        · rw [run_events_cons_some p (.leave_block (.UL is_tight)) es r (render_leave_block_ul r)
            rfl, hr]
          exact h1
        · rw [ho]
          simp
        · rw [hs]
          simp
      case OL s t m =>
        simp only [list_leaves] at hn
        have hne : r.list_depth ≠ 0 := by omega
        have hr : render_leave_block_ul r
            = { r with list_reset := 1, list_depth := (r.list_depth + 2 ^ 32 - 1) % 2 ^ 32 } := by
          rw [render_leave_block_ul_eq, if_pos hne]
        have hdd : (r.list_depth + 2 ^ 32 - 1) % 2 ^ 32 = r.list_depth - 1 := by omega
        obtain ⟨r1, h1, ho, hs⟩ := ih
          { r with list_reset := 1, list_depth := (r.list_depth + 2 ^ 32 - 1) % 2 ^ 32 } hrest
          (by simp only [hdd]; omega) (by simp only [hdd]; omega)
        refine ⟨r1, ?_, ?_, ?_⟩
        · rw [run_events_cons_some p (.leave_block (.OL s t m)) es r (render_leave_block_ul r)
            rfl, hr]
          exact h1
        · rw [ho]
          simp
        · rw [hs]
          simp
      all_goals cases he
    | _ => cases he

theorem list_stop_pending (p : Platform) : ∀ (es : List Event) (r r1 : MD_RTF) (ret : Int),
    run_events p es r = some (r1, ret) → r.list_stop = 1 → Event.leave_block .LI ∉ es →
    r1.list_stop = 1 := by
  intro es
  induction es with
  | nil =>
    intro r r1 ret h hs _
    simp only [run_events, Option.some.injEq, Prod.mk.injEq] at h
    rw [← h.1]
    exact hs
  | cons e es ih =>
    intro r r1 ret h hs hno
    simp only [run_events] at h
    cases hd : dispatch p e r with
    | none => rw [hd] at h; cases h
    | some x =>
      obtain ⟨r2, ret2⟩ := x
      rw [hd] at h
      have hret := (dispatch_depth p e r r2 ret2 hd).1
      subst hret
      simp only [ne_eq, not_true_eq_false, if_false] at h
      have hf := (dispatch_flags p e r r2 0 hd).2.1
      have hne : e ≠ Event.leave_block .LI := fun hc => hno (by rw [hc]; exact List.mem_cons_self _ _)
      have h2 : r2.list_stop = 1 := by
        rw [hf, hs]
        cases e with
        | enter_block b => cases b <;> rfl
        | leave_block b =>
          cases b
          case LI => exact absurd rfl hne
          all_goals rfl
        | enter_span s => rfl
        | leave_span s => rfl
        | text t d => rfl
      exact ih r2 r1 ret h h2 (fun hc => hno (List.mem_cons_of_mem _ hc))

/-- C22: `render_leave_block_li` writes one `\par` and clears `list_stop` when the flag is
set and returns the context unchanged when it is clear.  A run of leaves of list items and
of nested lists (each list left while a parent list is open: no more list leaves than the
depth) returns, writes in total one `\par` when the flag was set and the run holds a
list-item leave and nothing otherwise, and leaves the flag clear after a list-item leave.
The flag is set after a list-item enter and stays set through every event sequence without
a list-item leave. -/
theorem render_leave_block_li_once (p : Platform) :
    (∀ r : MD_RTF, r.list_stop ≠ 0 →
      render_leave_block_li r = { r with out := r.out ++ cstr "\\par", list_stop := 0 }) ∧
    (∀ r : MD_RTF, r.list_stop = 0 → render_leave_block_li r = r) ∧
    (∀ (es : List Event) (r : MD_RTF),
      (∀ e ∈ es, li_close_event e = true) → list_leaves es ≤ r.list_depth →
      r.list_depth < 2 ^ 32 →
      ∃ r1, run_events p es r = some (r1, 0) ∧
        r1.out = r.out
          ++ (if r.list_stop ≠ 0 ∧ Event.leave_block .LI ∈ es then cstr "\\par" else []) ∧
        r1.list_stop = (if Event.leave_block .LI ∈ es then 0 else r.list_stop)) ∧
    (∀ (es : List Event) (r r0 r1 : MD_RTF) (ret : Int),
      render_enter_block_li r = some r0 → Event.leave_block .LI ∉ es →
      run_events p es r0 = some (r1, ret) → r1.list_stop = 1) := by
  refine ⟨?_, ?_, li_close_run p, ?_⟩
  · intro r h
    rw [render_leave_block_li_eq, if_pos h]
  · intro r h
    rw [render_leave_block_li_eq, if_neg (by simpa using h)]
  · intro es r r0 r1 ret h0 hno hrun
    have hs : r0.list_stop = 1 := by
      rw [render_enter_block_li_eq] at h0
      split at h0
      · cases h0; rfl
      · cases h0
    exact list_stop_pending p es r0 r1 ret hrun hs hno

/-- C22 at a concrete input: in the sample context at list depth 1 with the flag set, the
run list-item leave, list leave, list-item leave writes one `\par` in total. -/
theorem render_leave_block_li_once_witness :
    ∃ r1, run_events sample_platform
        [.leave_block .LI, .leave_block (.UL true), .leave_block .LI]
        (list_ctx sample_context [] sample_context.list 1 1 0) = some (r1, 0) ∧
      r1.out = [] ++ (if (1 : Nat) ≠ 0 ∧ Event.leave_block .LI ∈
          [Event.leave_block .LI, .leave_block (.UL true), .leave_block .LI]
        then cstr "\\par" else []) ∧
      r1.list_stop = (if Event.leave_block .LI ∈
          [Event.leave_block .LI, .leave_block (.UL true), .leave_block .LI]
        then 0 else 1) :=
  (render_leave_block_li_once sample_platform).2.2.1
    [.leave_block .LI, .leave_block (.UL true), .leave_block .LI]
    (list_ctx sample_context [] sample_context.list 1 1 0) (by decide) (by decide) (by decide)

/-- C23: a list enter that brings the depth to `d <= 7` writes `\par` exactly when `d > 0`,
stores at level `d` the item count 0, the indent word `cw_li[d]`, the tight or loose
space-after word, and the marker (for an unordered list the first bullet word of
`g_cw_list_bullt`, code point 8226, for even `d` and the second, code point 9702, for odd
`d`; for an ordered list `)` when the delimiter is `)` and `.` otherwise, with the start
value of the list), then writes the list-start bytes of that level (and clears
`list_reset`, as `render_list_start` does). -/
theorem render_enter_block_list_level (r : MD_RTF) (is_tight : Bool) (start : Nat)
    (mark_delimiter : Byte) (d : Nat) (hd : (r.list_depth + 1) % 2 ^ 32 = d) (h7 : d ≤ 7) :
    render_enter_block_ul r is_tight
      = some { r with
          list_depth := d
          out := r.out ++ (if d > 0 then cstr "\\par" else [])
            ++ list_start_bytes (r.cw_fs 0) r.cw_fi
              { level_at r.list d with
                type := MD_RTF_LIST_TYPE_UL
                count := 0
                cw_tx := if d % 2 = 0 then cstr "\\u8226 " else cstr "\\u9702 "
                cw_sa := if is_tight then r.cw_sa 0 else r.cw_sa 1
                cw_li := r.cw_li (Fin.ofNat d) }
          list := level_set r.list d
              { level_at r.list d with
                type := MD_RTF_LIST_TYPE_UL
                count := 0
                cw_tx := if d % 2 = 0 then cstr "\\u8226 " else cstr "\\u9702 "
                cw_sa := if is_tight then r.cw_sa 0 else r.cw_sa 1
                cw_li := r.cw_li (Fin.ofNat d) }
          list_reset := 0 } ∧
    render_enter_block_ol r start is_tight mark_delimiter
      = some { r with
          list_depth := d
          out := r.out ++ (if d > 0 then cstr "\\par" else [])
            ++ list_start_bytes (r.cw_fs 0) r.cw_fi
              { level_at r.list d with
                type := MD_RTF_LIST_TYPE_OL
                count := 0
                start := start
                cw_tx := if mark_delimiter.val = 41 then cstr ")" else cstr "."
                cw_sa := if is_tight then r.cw_sa 0 else r.cw_sa 1
                cw_li := r.cw_li (Fin.ofNat d) }
          list := level_set r.list d
              { level_at r.list d with
                type := MD_RTF_LIST_TYPE_OL
                count := 0
                start := start
                cw_tx := if mark_delimiter.val = 41 then cstr ")" else cstr "."
                cw_sa := if is_tight then r.cw_sa 0 else r.cw_sa 1
                cw_li := r.cw_li (Fin.ofNat d) }
          list_reset := 0 } := by
  have hb : g_cw_list_bullt (Fin.ofNat (d % 2))
      = if d % 2 = 0 then cstr "\\u8226 " else cstr "\\u9702 " := by
    have h2 : d % 2 = 0 ∨ d % 2 = 1 := by omega
    rcases h2 with h | h <;> rw [h] <;> rfl
  have hdl : (if mark_delimiter.val = 41 then g_cw_list_delim 1 else g_cw_list_delim 0)
      = if mark_delimiter.val = 41 then cstr ")" else cstr "." := rfl
  have hnot : ¬ d > 7 := by omega
  constructor
  · rw [render_enter_block_ul_eq, hd, if_neg hnot]
    simp only [ul_level, hb]
  · rw [render_enter_block_ol_eq, hd, if_neg hnot]
    simp only [ol_level, hdl]

/-- C23 at a concrete input: in the sample context at list depth 0, the enter of a tight
list brings the depth to 1: `\par` is written, level 1 gets the second bullet word, resp.
the delimiter `)` and the start value 3. -/
theorem render_enter_block_list_level_witness :
    (((list_ctx sample_context [] sample_context.list 0 0 0).list_depth + 1) % 2 ^ 32 = 1
      ∧ 1 ≤ 7) ∧
    render_enter_block_ul (list_ctx sample_context [] sample_context.list 0 0 0) true
      = some { (list_ctx sample_context [] sample_context.list 0 0 0) with
          list_depth := 1
          out := (list_ctx sample_context [] sample_context.list 0 0 0).out ++ (if 1 > 0 then cstr "\\par" else [])
            ++ list_start_bytes ((list_ctx sample_context [] sample_context.list 0 0 0).cw_fs 0) (list_ctx sample_context [] sample_context.list 0 0 0).cw_fi
              { level_at (list_ctx sample_context [] sample_context.list 0 0 0).list 1 with
                type := MD_RTF_LIST_TYPE_UL
                count := 0
                cw_tx := if 1 % 2 = 0 then cstr "\\u8226 " else cstr "\\u9702 "
                cw_sa := if true then (list_ctx sample_context [] sample_context.list 0 0 0).cw_sa 0 else (list_ctx sample_context [] sample_context.list 0 0 0).cw_sa 1
                cw_li := (list_ctx sample_context [] sample_context.list 0 0 0).cw_li (Fin.ofNat 1) }
          list := level_set (list_ctx sample_context [] sample_context.list 0 0 0).list 1
              { level_at (list_ctx sample_context [] sample_context.list 0 0 0).list 1 with
                type := MD_RTF_LIST_TYPE_UL
                count := 0
                cw_tx := if 1 % 2 = 0 then cstr "\\u8226 " else cstr "\\u9702 "
                cw_sa := if true then (list_ctx sample_context [] sample_context.list 0 0 0).cw_sa 0 else (list_ctx sample_context [] sample_context.list 0 0 0).cw_sa 1
                cw_li := (list_ctx sample_context [] sample_context.list 0 0 0).cw_li (Fin.ofNat 1) }
          list_reset := 0 } ∧
    render_enter_block_ol (list_ctx sample_context [] sample_context.list 0 0 0) 3 true 41
      = some { (list_ctx sample_context [] sample_context.list 0 0 0) with
          list_depth := 1
          out := (list_ctx sample_context [] sample_context.list 0 0 0).out ++ (if 1 > 0 then cstr "\\par" else [])
            ++ list_start_bytes ((list_ctx sample_context [] sample_context.list 0 0 0).cw_fs 0) (list_ctx sample_context [] sample_context.list 0 0 0).cw_fi
              { level_at (list_ctx sample_context [] sample_context.list 0 0 0).list 1 with
                type := MD_RTF_LIST_TYPE_OL
                count := 0
                start := 3
                cw_tx := if (41 : Byte).val = 41 then cstr ")" else cstr "."
                cw_sa := if true then (list_ctx sample_context [] sample_context.list 0 0 0).cw_sa 0 else (list_ctx sample_context [] sample_context.list 0 0 0).cw_sa 1
                cw_li := (list_ctx sample_context [] sample_context.list 0 0 0).cw_li (Fin.ofNat 1) }
          list := level_set (list_ctx sample_context [] sample_context.list 0 0 0).list 1
              { level_at (list_ctx sample_context [] sample_context.list 0 0 0).list 1 with
                type := MD_RTF_LIST_TYPE_OL
                count := 0
                start := 3
                cw_tx := if (41 : Byte).val = 41 then cstr ")" else cstr "."
                cw_sa := if true then (list_ctx sample_context [] sample_context.list 0 0 0).cw_sa 0 else (list_ctx sample_context [] sample_context.list 0 0 0).cw_sa 1
                cw_li := (list_ctx sample_context [] sample_context.list 0 0 0).cw_li (Fin.ofNat 1) }
          list_reset := 0 } :=
  ⟨⟨by decide, by decide⟩,
   render_enter_block_list_level (list_ctx sample_context [] sample_context.list 0 0 0) true 3 41 1
     (by decide) (by decide)⟩

theorem list_depth_after_shift (stk stk1 : List Frame) (e : Event) (d : Nat)
    (hd : d < 2 ^ 32) (hn : next_stack stk e = some stk1) :
    (list_depth_after d e + open_lists stk) % 2 ^ 32 = (d + open_lists stk1) % 2 ^ 32 ∧
    list_depth_after d e < 2 ^ 32 := by
  cases e with
  | enter_block b =>
    simp only [next_stack, Option.some.injEq] at hn
    subst hn
    cases b <;> simp only [list_depth_after, open_lists] <;>
        first | omega | exact ⟨trivial, hd⟩
  | enter_span s =>
    simp only [next_stack, Option.some.injEq] at hn
    subst hn
    cases s <;> simp only [list_depth_after, open_lists] <;>
        first | omega | exact ⟨trivial, hd⟩
  | text t data =>
    simp only [next_stack, Option.some.injEq] at hn
    subst hn
    simp only [list_depth_after]
    exact ⟨trivial, hd⟩
  | leave_block b =>
    cases stk with
    | nil => simp only [next_stack] at hn; cases hn
    | cons f t =>
      simp only [next_stack] at hn
      by_cases hf : f = .block b
      · rw [if_pos hf, Option.some.injEq] at hn
        subst hn hf
        cases b <;> simp only [list_depth_after, open_lists] <;>
        first | omega | exact ⟨trivial, hd⟩
      · rw [if_neg hf] at hn
        cases hn
  | leave_span s =>
    cases stk with
    | nil => simp only [next_stack] at hn; cases hn
    | cons f t =>
      simp only [next_stack] at hn
      by_cases hf : f = .span s
      · rw [if_pos hf, Option.some.injEq] at hn
        subst hn hf
        cases s <;> simp only [list_depth_after, open_lists] <;>
        first | omega | exact ⟨trivial, hd⟩
      · rw [if_neg hf] at hn
        cases hn

theorem foldl_list_depth_after_shift (es : List Event) : ∀ (stk stk1 : List Frame) (d : Nat),
    d < 2 ^ 32 → stack_after stk es = some stk1 →
    (es.foldl list_depth_after d + open_lists stk) % 2 ^ 32 = (d + open_lists stk1) % 2 ^ 32 ∧
    es.foldl list_depth_after d < 2 ^ 32 := by
  induction es with
  | nil =>
    intro stk stk1 d hd hs
    simp only [stack_after, Option.some.injEq] at hs
    subst hs
    exact ⟨rfl, hd⟩
  | cons e t ih =>
    intro stk stk1 d hd hs
    simp only [stack_after] at hs
    cases hn : next_stack stk e with
    | none => rw [hn] at hs; cases hs
    | some stk2 =>
      rw [hn] at hs
      simp only [List.foldl_cons]
      obtain ⟨h1, h2⟩ := list_depth_after_shift stk stk2 e d hd hn
      obtain ⟨h3, h4⟩ := ih stk2 stk1 _ h2 hs
      refine ⟨?_, h4⟩
      omega

/-- C24: a list leave at depth `d > 0` sets `list_reset`, writes nothing and brings the
depth to `d - 1`; at depth 0 it writes the block-end bytes (`\pard\f0\fs0`, the block-end
space-after word, `\par` CR LF), leaves `list_reset` as it is and brings the depth to the
sentinel `2^32 - 1`; `render_leave_block_ol` is the same function.  Every event sequence
that returns the open frames to what they were returns `list_depth` to its value, and from
the context `md_rtf` builds the depth is the sentinel whenever no list is open. -/
theorem render_leave_block_list_depth (p : Platform) :
    (∀ (r : MD_RTF) (d : Nat), r.list_depth = d → 0 < d → d < 2 ^ 32 →
      render_leave_block_ul r = { r with list_reset := 1, list_depth := d - 1 }) ∧
    (∀ r : MD_RTF, r.list_depth = 0 →
      render_leave_block_ul r
        = { r with
            out := r.out ++ cstr "\\pard\\f0\\fs0" ++ c_str (r.cw_sa 2) ++ cstr "\\par\r\n"
            list_depth := 2 ^ 32 - 1 }) ∧
    (∀ r : MD_RTF, render_leave_block_ol r = render_leave_block_ul r) ∧
    (∀ (es : List Event) (stk : List Frame) (r r1 : MD_RTF) (ret : Int),
      stack_after stk es = some stk → r.list_depth < 2 ^ 32 →
      run_events p es r = some (r1, ret) → r1.list_depth = r.list_depth) ∧
    (∀ (es : List Event) (stk : List Frame) (render r r1 : MD_RTF)
        (renderer_flags font_size doc_width : Nat) (ret : Int),
      md_rtf_setup p render renderer_flags font_size doc_width = some r →
      stack_after [] es = some stk → open_lists stk = 0 →
      run_events p es r = some (r1, ret) → r1.list_depth = 2 ^ 32 - 1) := by
  refine ⟨?_, ?_, fun _ => rfl, ?_, ?_⟩
  · intro r d hd h0 hlt
    have hne : r.list_depth ≠ 0 := by omega
    have hdd : (r.list_depth + 2 ^ 32 - 1) % 2 ^ 32 = d - 1 := by omega
    rw [render_leave_block_ul_eq, if_pos hne, hdd]
  · intro r hd
    have hdd : (r.list_depth + 2 ^ 32 - 1) % 2 ^ 32 = 2 ^ 32 - 1 := by
      rw [hd]
      norm_num
    rw [render_leave_block_ul_eq, if_neg (by simpa using hd), hdd]
    simp only [end_block_bytes, List.append_assoc]
  · intro es stk r r1 ret hstk hd hrun
    have h1 := (run_events_status p es r r1 ret hrun).2
    obtain ⟨h2, h3⟩ := foldl_list_depth_after_shift es stk stk r.list_depth hd hstk
    rw [h1]
    omega
  · intro es stk render r r1 renderer_flags font_size doc_width ret hs hstk h0 hrun
    obtain ⟨fb, pw, _, hr⟩ := md_rtf_setup_some p render r renderer_flags font_size doc_width hs
    have hd : r.list_depth = (open_lists [] + 2 ^ 32 - 1) % 2 ^ 32 := by rw [hr]; rfl
    have h1 := (run_events_status p es r r1 ret hrun).2
    rw [foldl_list_depth_after es [] stk _ hd hstk, h0] at h1
    rw [h1]
    norm_num

/-- C24 at a concrete input: a list leave at depth 1 in the sample context, and the events
of a one-item list run from the sample context, which return the depth to the sentinel. -/
theorem render_leave_block_list_depth_witness :
    render_leave_block_ul (list_ctx sample_context [] sample_context.list 1 0 0)
      = { list_ctx sample_context [] sample_context.list 1 0 0 with
          list_reset := 1, list_depth := 1 - 1 } ∧
    ∃ r1 ret, run_events sample_platform
        [.enter_block (.UL true), .enter_block .LI, .leave_block .LI, .leave_block (.UL true)]
        sample_context = some (r1, ret) ∧
      r1.list_depth = sample_context.list_depth := by
  refine ⟨(render_leave_block_list_depth sample_platform).1
    (list_ctx sample_context [] sample_context.list 1 0 0) 1 rfl (by decide) (by decide), ?_⟩
  have h : (run_events sample_platform
      [.enter_block (.UL true), .enter_block .LI, .leave_block .LI, .leave_block (.UL true)]
      sample_context).isSome = true := by decide
  obtain ⟨⟨r1, ret⟩, hx⟩ := Option.isSome_iff_exists.mp h
  exact ⟨r1, ret, hx, (render_leave_block_list_depth sample_platform).2.2.2.1 _ [] sample_context
    r1 ret (by decide) (by decide) hx⟩

theorem run_events_tabl_cols (p : Platform) : ∀ (es : List Event) (r r1 : MD_RTF) (ret : Int),
    (∀ e ∈ es, is_table_event e = false) → run_events p es r = some (r1, ret) →
    r1.tabl_cols = r.tabl_cols := by
  intro es
  induction es with
  | nil =>
    intro r r1 ret _ h
    simp only [run_events, Option.some.injEq, Prod.mk.injEq] at h
    rw [← h.1]
  | cons e es ih =>
    intro r r1 ret hes h
    simp only [run_events] at h
    cases hd : dispatch p e r with
    | none => rw [hd] at h; cases h
    | some x =>
      obtain ⟨r2, ret2⟩ := x
      rw [hd] at h
      have hret := (dispatch_depth p e r r2 ret2 hd).1
      subst hret
      simp only [ne_eq, not_true_eq_false, if_false] at h
      have hf := (dispatch_flags p e r r2 0 hd).2.2
      have he := hes e (List.mem_cons_self _ _)
      have h2 : r2.tabl_cols = r.tabl_cols := by
        rw [hf]
        cases e with
        | enter_block b =>
          cases b
          case TABLE n => cases he
          all_goals rfl
        | leave_block b =>
          cases b
          case TABLE n => cases he
          all_goals rfl
        | enter_span s => rfl
        | leave_span s => rfl
        | text t d => rfl
      rw [ih r2 r1 ret (fun e1 h1 => hes e1 (List.mem_cons_of_mem _ h1)) h, h2]

set_option maxRecDepth 100000 in
/-- C25: `md_rtf` does not assign `tabl_cols` (nor `tabl_head`): the context it hands to
the parsing engine holds whatever the local variable `render` held, for instance 7, while
no table is open.  From a table enter on the field behaves as stated: the enter stores the
column count `n`, every event other than a table enter or leave keeps it, so the divisor of
a row enter inside the table is `n`, and the table leave stores 0. -/
theorem md_rtf_setup_keeps_tabl_cols (p : Platform) :
    (∃ r, md_rtf_setup sample_platform { sample_render with tabl_cols := 7 } 0 12 210 = some r ∧
      r.tabl_cols = 7) ∧
    (∀ (render r : MD_RTF) (renderer_flags font_size doc_width : Nat),
      md_rtf_setup p render renderer_flags font_size doc_width = some r →
      r.tabl_cols = render.tabl_cols ∧ r.tabl_head = render.tabl_head) ∧
    (∀ (r r1 : MD_RTF) (n : Nat) (es : List Event) (ret : Int),
      (∀ e ∈ es, is_table_event e = false) →
      run_events p es (render_enter_block_table r n) = some (r1, ret) → r1.tabl_cols = n) ∧
    (∀ r : MD_RTF, (render_leave_block_table r).tabl_cols = 0) := by
  refine ⟨?_, ?_, ?_, fun _ => rfl⟩
  · have h : (md_rtf_setup sample_platform { sample_render with tabl_cols := 7 } 0 12 210).map
        (fun r => r.tabl_cols) = some 7 := by decide
    cases hx : md_rtf_setup sample_platform { sample_render with tabl_cols := 7 } 0 12 210 with
    | none => rw [hx] at h; cases h
    | some r =>
      rw [hx] at h
      simp only [Option.map_some', Option.some.injEq] at h
      exact ⟨r, rfl, h⟩
  · intro render r renderer_flags font_size doc_width h
    obtain ⟨fb, pw, _, hr⟩ := md_rtf_setup_some p render r renderer_flags font_size doc_width h
    rw [hr]
    simp only [and_self]
  · intro r r1 n es ret hes hrun
    rw [run_events_tabl_cols p es _ r1 ret hes hrun]
    rfl

/-- C25 at a concrete input: the context built from the sample variable has its
`tabl_cols`, and after the enter of a table with 3 columns and the enter of its head section
the field is 3. -/
theorem md_rtf_setup_keeps_tabl_cols_witness :
    (sample_context.tabl_cols = sample_render.tabl_cols ∧
      sample_context.tabl_head = sample_render.tabl_head) ∧
    (render_enter_block_thead (render_enter_block_table sample_context 3)).tabl_cols = 3 :=
  ⟨(md_rtf_setup_keeps_tabl_cols sample_platform).2.1 sample_render sample_context 0 12 210
      sample_context_setup,
   (md_rtf_setup_keeps_tabl_cols sample_platform).2.2.1 sample_context
      (render_enter_block_thead (render_enter_block_table sample_context 3)) 3
      [.enter_block .THEAD] 0 (by decide) rfl⟩

/-- C26: every span-enter, span-leave and text handler returns 0 and leaves every field of
the context but the sink as it was, the sink getting bytes appended; the handlers return
for every span and for every text (an entity text ending in `;`).  The simple spans write
a control word at enter and its inverse at leave. -/
theorem span_text_only_append (p : Platform) :
    (∀ (s : MD_SPAN) (r r1 : MD_RTF) (ret : Int),
      dispatch p (.enter_span s) r = some (r1, ret) →
        ret = 0 ∧ ∃ w, r1 = { r with out := r.out ++ w }) ∧
    (∀ (s : MD_SPAN) (r r1 : MD_RTF) (ret : Int),
      dispatch p (.leave_span s) r = some (r1, ret) →
        ret = 0 ∧ ∃ w, r1 = { r with out := r.out ++ w }) ∧
    (∀ (t : MD_TEXTTYPE) (d : List Byte) (r r1 : MD_RTF) (ret : Int),
      dispatch p (.text t d) r = some (r1, ret) →
        ret = 0 ∧ ∃ w, r1 = { r with out := r.out ++ w }) ∧
    (∀ (s : MD_SPAN) (r : MD_RTF),
      (∃ r1, dispatch p (.enter_span s) r = some (r1, 0)) ∧
      (∃ r1, dispatch p (.leave_span s) r = some (r1, 0))) ∧
    (∀ (t : MD_TEXTTYPE) (d : List Byte) (r : MD_RTF),
      (t = .ENTITY → d.getLast? = some 59) → ∃ r1, dispatch p (.text t d) r = some (r1, 0)) ∧
    (∀ r : MD_RTF,
      dispatch p (.enter_span .EM) r = some ({ r with out := r.out ++ cstr "\\i " }, 0) ∧
      dispatch p (.leave_span .EM) r = some ({ r with out := r.out ++ cstr "\\i0 " }, 0) ∧
      dispatch p (.enter_span .STRONG) r = some ({ r with out := r.out ++ cstr "\\b " }, 0) ∧
      dispatch p (.leave_span .STRONG) r = some ({ r with out := r.out ++ cstr "\\b0 " }, 0) ∧
      dispatch p (.enter_span .U) r = some ({ r with out := r.out ++ cstr "\\ul " }, 0) ∧
      dispatch p (.leave_span .U) r = some ({ r with out := r.out ++ cstr "\\ul0 " }, 0) ∧
      dispatch p (.enter_span .DEL) r = some ({ r with out := r.out ++ cstr "\\strike " }, 0) ∧
      dispatch p (.leave_span .DEL) r
        = some ({ r with out := r.out ++ cstr "\\strike0 " }, 0)) := by
  refine ⟨fun s r r1 ret h => enter_span_frame s r r1 ret h,
    fun s r r1 ret h => leave_span_frame s r r1 ret h,
    fun t d r r1 ret h => text_frame p t d r r1 ret h, ?_, ?_, ?_⟩
  · intro s r
    exact ⟨dispatch_total p (.enter_span s) r rfl, dispatch_total p (.leave_span s) r rfl⟩
  · intro t d r h
    refine dispatch_total p (.text t d) r ?_
    cases t
    case ENTITY =>
      simp only [handler_defined, h rfl]
      decide
    all_goals rfl
  · intro r
    have e1 : c_str (cstr "\\i ") = cstr "\\i " := by decide
    have e2 : c_str (cstr "\\i0 ") = cstr "\\i0 " := by decide
    have e3 : c_str (cstr "\\b ") = cstr "\\b " := by decide
    have e4 : c_str (cstr "\\b0 ") = cstr "\\b0 " := by decide
    have e5 : c_str (cstr "\\ul ") = cstr "\\ul " := by decide
    have e6 : c_str (cstr "\\ul0 ") = cstr "\\ul0 " := by decide
    have e7 : c_str (cstr "\\strike ") = cstr "\\strike " := by decide
    have e8 : c_str (cstr "\\strike0 ") = cstr "\\strike0 " := by decide
    simp only [dispatch, enter_span_callback, leave_span_callback, Option.map_some',
      RENDER_VERBATIM, render_verbatim, e1, e2, e3, e4, e5, e6, e7, e8, and_self]

/-- C26 at a concrete input: the entity text `&amp;` in the sample context. -/
theorem span_text_only_append_witness :
    ∃ r1, dispatch sample_platform (.text .ENTITY (cstr "&amp;")) sample_context = some (r1, 0) ∧
      ∃ w, r1 = { sample_context with out := sample_context.out ++ w } := by
  obtain ⟨r1, h1⟩ := (span_text_only_append sample_platform).2.2.2.2.1 .ENTITY (cstr "&amp;")
    sample_context (fun _ => by decide)
  exact ⟨r1, h1, ((span_text_only_append sample_platform).2.2.1 .ENTITY (cstr "&amp;")
    sample_context r1 0 h1).2⟩

theorem no_raw_brace_append (a b : List Byte) : ∀ e, no_raw_brace e a = true →
    no_raw_brace e (a ++ b) = no_raw_brace false b := by
  induction a with
  | nil =>
    intro e h
    cases e
    · rfl
    · simp [no_raw_brace] at h
  | cons x t ih =>
    intro e h
    cases e with
    | true =>
      simp only [no_raw_brace, List.cons_append] at h ⊢
      exact ih false h
    | false =>
      simp only [no_raw_brace, List.cons_append] at h ⊢
      by_cases hx : x.val = 92
      · rw [if_pos hx] at h ⊢
        exact ih true h
      · rw [if_neg hx] at h ⊢
        simp only [Bool.and_eq_true] at h
        simp only [List.append_eq]
        rw [ih false h.2, h.1.1, h.1.2]
        simp

theorem count_unescaped_of_no_raw_brace (c : Byte) (hc : c.val = 123 ∨ c.val = 125)
    (t : List Byte) : ∀ (s : List Byte) (e : Bool), no_raw_brace e s = true →
    count_unescaped c e (s ++ t) = count_unescaped c false t := by
  intro s
  induction s with
  | nil =>
    intro e h
    cases e
    · rfl
    · simp [no_raw_brace] at h
  | cons x s ih =>
    intro e h
    cases e with
    | true =>
      simp only [no_raw_brace] at h
      simp only [List.cons_append, count_unescaped]
      exact ih false h
    | false =>
      simp only [no_raw_brace] at h
      simp only [List.cons_append, count_unescaped]
      by_cases hx : x.val = 92
      · rw [if_pos hx] at h ⊢
        exact ih true h
      · rw [if_neg hx] at h ⊢
        simp only [Bool.and_eq_true, bne_iff_ne, ne_eq] at h
        have hne : ¬ x = c := by
          intro hxc
          rw [hxc] at h
          rcases hc with hc | hc
          · exact h.1.1 hc
          · exact h.1.2 hc
        simp only [List.append_eq]
        rw [if_neg hne, ih false h.2]
        simp

theorem rtftext_append {a b : List Byte} (ha : RtfText a) (hb : RtfText b) : RtfText (a ++ b) := by
  refine ⟨?_, ?_⟩
  · intro x hx
    rcases List.mem_append.mp hx with h | h
    · exact ha.1 x h
    · exact hb.1 x h
  · rw [no_raw_brace_append a b false ha.2]
    exact hb.2

theorem rtftext_of_rtf_textb (s : List Byte) (h : rtf_textb s = true) : RtfText s := by
  simp only [rtf_textb, Bool.and_eq_true, List.all_eq_true, decide_eq_true_eq, bne_iff_ne,
    ne_eq] at h
  exact ⟨fun b hb => h.1 b hb, h.2⟩

theorem rtftext_plain (s : List Byte)
    (h : ∀ b ∈ s, b.val < 128 ∧ b.val ≠ 10 ∧ b.val ≠ 92 ∧ b.val ≠ 123 ∧ b.val ≠ 125) :
    RtfText s := by
  refine ⟨fun b hb => ⟨(h b hb).1, (h b hb).2.1⟩, ?_⟩
  induction s with
  | nil => rfl
  | cons x t ih =>
    obtain ⟨_, _, h1, h2, h3⟩ := h x (List.mem_cons_self _ _)
    simp only [no_raw_brace, if_neg h1]
    rw [ih (fun b hb => h b (List.mem_cons_of_mem _ hb))]
    simp [h2, h3]

set_option maxRecDepth 100000 in
theorem alnum_rtf_plain : ∀ b : Byte, ISALNUM b = true →
    b.val < 128 ∧ b.val ≠ 10 ∧ b.val ≠ 92 ∧ b.val ≠ 123 ∧ b.val ≠ 125 := by
  decide

set_option maxRecDepth 100000 in
theorem escape_map_rtf_plain : ∀ b : Byte,
    (md_rtf_escape_map b &&& NEED_RTF_ESC_FLAG != 0) = false →
    b.val < 128 ∧ b.val ≠ 10 ∧ b.val ≠ 92 ∧ b.val ≠ 123 ∧ b.val ≠ 125 := by
  decide

set_option maxRecDepth 100000 in
theorem rtf_reserved_seq_text : ∀ b : Byte, rtf_textb (rtf_reserved_seq b) = true := by
  decide

theorem rtftext_ultostr (n base : Nat) (hb : base ≤ 16) (hb0 : 0 < base) :
    RtfText (c_str (ultostr n base)) := by
  rw [c_str_ultostr n base hb hb0]
  exact rtftext_plain _ (fun b hm => alnum_rtf_plain b (ultostr_alnum n base hb hb0 b hm))

theorem non_ascii_seq_text (s : List Byte) (s0 : Byte) : RtfText (non_ascii_seq s s0).1 := by
  unfold non_ascii_seq
  split
  · split
    · exact rtftext_append (rtftext_of_rtf_textb _ (by decide))
        (rtftext_ultostr _ 10 (by omega) (by omega))
    · exact rtftext_append (rtftext_of_rtf_textb _ (by decide))
        (rtftext_ultostr _ 16 (by omega) (by omega))
  · exact rtftext_of_rtf_textb _ (by decide)

theorem rtf_escaped_bytes_text : ∀ (n : Nat) (data : List Byte), data.length ≤ n →
    RtfText (rtf_escaped_bytes md_rtf_escape_map data) := by
  intro n
  induction n with
  | zero =>
    intro data h
    have : data = [] := List.length_eq_zero.mp (Nat.le_zero.mp h)
    rw [this, rtf_escaped_bytes_nil]
    exact rtftext_of_rtf_textb _ (by decide)
  | succ n ih =>
    intro data h
    cases data with
    | nil => rw [rtf_escaped_bytes_nil]; exact rtftext_of_rtf_textb _ (by decide)
    | cons ch rest =>
      simp only [List.length_cons] at h
      rw [rtf_escaped_bytes_cons]
      by_cases hf : (md_rtf_escape_map ch &&& NEED_RTF_ESC_FLAG != 0) = true
      · rw [if_pos hf]
        by_cases hhi : ch.val > 0x7F
        · rw [if_pos hhi]
          refine rtftext_append (non_ascii_seq_text _ _) (ih _ ?_)
          simp only [List.length_drop]; omega
        · rw [if_neg hhi]
          exact rtftext_append (rtftext_of_rtf_textb _ (rtf_reserved_seq_text ch)) (ih _ (by omega))
      · rw [if_neg hf]
        have hp := escape_map_rtf_plain ch (by simpa using hf)
        have h1 : RtfText [ch] := rtftext_plain [ch] (by
          intro b hb
          simp only [List.mem_singleton] at hb
          rw [hb]; exact hp)
        exact rtftext_append (a := [ch]) h1 (ih _ (by omega))

/-- C28: in a context with the escape table of `md_rtf`, `render_rtf_escaped` returns for
every input and only appends bytes `w` to the sink; every byte of `w` is below 0x80 and
none is a newline; `w` holds no unescaped brace (scanning left to right, a backslash
consuming the byte after it), and placed before any bytes `t` it leaves the counts of
unescaped braces of `t` as they are: it opens and closes no group and ends outside an
escape. -/
theorem render_rtf_escaped_ascii (r : MD_RTF) (data : List Byte)
    (hmap : r.escape_map = md_rtf_escape_map) :
    ∃ w, render_rtf_escaped r data = some { r with out := r.out ++ w } ∧
      (∀ b ∈ w, b.val < 128 ∧ b.val ≠ 10) ∧
      group_opens w = 0 ∧ group_closes w = 0 ∧
      ∀ t, group_opens (w ++ t) = group_opens t ∧ group_closes (w ++ t) = group_closes t := by
  refine ⟨rtf_escaped_bytes r.escape_map data, render_rtf_escaped_eq r data, ?_⟩
  rw [hmap]
  have h := rtf_escaped_bytes_text data.length data (Nat.le_refl _)
  have hc : ∀ (c : Byte), c.val = 123 ∨ c.val = 125 → ∀ t,
      count_unescaped c false (rtf_escaped_bytes md_rtf_escape_map data ++ t)
        = count_unescaped c false t :=
    fun c hc t => count_unescaped_of_no_raw_brace c hc t _ false h.2
  refine ⟨h.1, ?_, ?_, fun t => ⟨hc 123 (Or.inl rfl) t, hc 125 (Or.inr rfl) t⟩⟩
  · have := hc 123 (Or.inl rfl) []
    rw [List.append_nil] at this
    exact this
  · have := hc 125 (Or.inr rfl) []
    rw [List.append_nil] at this
    exact this

set_option maxRecDepth 100000 in
/-- C28 at a concrete input: the text `a{é}` with a newline, in the sample context. -/
theorem render_rtf_escaped_ascii_witness :
    sample_context.escape_map = md_rtf_escape_map ∧
    ∃ w, render_rtf_escaped sample_context [97, 123, 0xC3, 0xA9, 125, 10]
        = some { sample_context with out := sample_context.out ++ w } ∧
      (∀ b ∈ w, b.val < 128 ∧ b.val ≠ 10) ∧
      group_opens w = 0 ∧ group_closes w = 0 ∧
      ∀ t, group_opens (w ++ t) = group_opens t ∧ group_closes (w ++ t) = group_closes t :=
  ⟨sample_context_escape_map,
   render_rtf_escaped_ascii sample_context [97, 123, 0xC3, 0xA9, 125, 10]
     sample_context_escape_map⟩

set_option maxRecDepth 100000 in
theorem url_escaped_byte_ok : ∀ ch : Byte, ch ≠ 0 →
    (url_escaped_byte md_rtf_escape_map ch).all url_out_ok = true := by
  decide

/-- C29: in a context with the escape table of `md_rtf`, for a link target without NUL
byte `render_url_escaped` returns and only appends bytes `w` to the sink, each of them a
printable seven-bit character (above 0x20, below 0x7F) other than the double quote, the
backslash and the braces; `render_enter_span_url` writes `w` between the opening of the
quoted `HYPERLINK "` field instruction and its closing quote. -/
theorem render_url_escaped_safe (r : MD_RTF) (href : List Byte)
    (hmap : r.escape_map = md_rtf_escape_map) (hnul : ∀ b ∈ href, b ≠ 0) :
    ∃ w, render_url_escaped r href = some { r with out := r.out ++ w } ∧
      (∀ b ∈ w, 32 < b.val ∧ b.val < 127 ∧ b.val ≠ 34 ∧ b.val ≠ 92 ∧ b.val ≠ 123
        ∧ b.val ≠ 125) ∧
      render_enter_span_url r href
        = some { r with
            out := r.out ++ cstr "\\cf4\\ul \x7b\\field\x7b\\*\\fldinst HYPERLINK \"" ++ w
              ++ cstr "\"\x7d\x7b\\fldrslt " } := by
  refine ⟨href.flatMap (url_escaped_byte r.escape_map), render_url_escaped_eq r href, ?_, ?_⟩
  · intro b hb
    rw [hmap] at hb
    obtain ⟨ch, hch, hbch⟩ := List.mem_flatMap.mp hb
    have h := url_escaped_byte_ok ch (hnul ch hch)
    rw [List.all_eq_true] at h
    have hb2 := h b hbch
    simp only [url_out_ok, Bool.and_eq_true, decide_eq_true_eq, bne_iff_ne, ne_eq] at hb2
    obtain ⟨⟨⟨⟨⟨h1, h2⟩, h3⟩, h4⟩, h5⟩, h6⟩ := hb2
    exact ⟨h1, h2, h3, h4, h5, h6⟩
  · have e1 : c_str (cstr "\\cf4\\ul \x7b\\field\x7b\\*\\fldinst HYPERLINK \"")
        = cstr "\\cf4\\ul \x7b\\field\x7b\\*\\fldinst HYPERLINK \"" := by decide
    have e2 : c_str (cstr "\"\x7d\x7b\\fldrslt ") = cstr "\"\x7d\x7b\\fldrslt " := by decide
    simp only [render_enter_span_url, render_url_escaped_eq, RENDER_VERBATIM, render_verbatim,
      e1, e2, List.append_assoc]

set_option maxRecDepth 100000 in
/-- C29 at a concrete input: the target `a b"}` in the sample context. -/
theorem render_url_escaped_safe_witness :
    (sample_context.escape_map = md_rtf_escape_map ∧
      ∀ b ∈ ([97, 32, 98, 34, 125] : List Byte), b ≠ 0) ∧
    ∃ w, render_url_escaped sample_context [97, 32, 98, 34, 125]
        = some { sample_context with out := sample_context.out ++ w } ∧
      (∀ b ∈ w, 32 < b.val ∧ b.val < 127 ∧ b.val ≠ 34 ∧ b.val ≠ 92 ∧ b.val ≠ 123
        ∧ b.val ≠ 125) ∧
      render_enter_span_url sample_context [97, 32, 98, 34, 125]
        = some { sample_context with
            out := sample_context.out ++ cstr "\\cf4\\ul \x7b\\field\x7b\\*\\fldinst HYPERLINK \""
              ++ w ++ cstr "\"\x7d\x7b\\fldrslt " } :=
  ⟨⟨sample_context_escape_map, by decide⟩,
   render_url_escaped_safe sample_context [97, 32, 98, 34, 125] sample_context_escape_map
     (by decide)⟩

theorem md2rtf_grow_spec (bits need : Nat) (hfit : 2 * need ≤ 2 ^ bits) :
    ∀ (n cap : Nat), 0 < cap → need ≤ cap * 2 ^ n →
    ∃ k, need ≤ cap * 2 ^ k ∧ (∀ j, j < k → cap * 2 ^ j < need) ∧
      ∀ fuel, k < fuel → md2rtf_grow bits fuel cap need = some (cap * 2 ^ k) := by
  intro n
  induction n with
  | zero =>
    intro cap _ hle
    refine ⟨0, hle, fun j hj => absurd hj (Nat.not_lt_zero j), ?_⟩
    intro fuel hf
    obtain ⟨f, rfl⟩ : ∃ f, fuel = f + 1 := ⟨fuel - 1, by omega⟩
    simp only [md2rtf_grow, pow_zero, Nat.mul_one] at hle ⊢
    rw [if_neg (by omega)]
  | succ n ih =>
    intro cap hcap hle
    by_cases hc : cap < need
    · have h2 : cap * 2 % 2 ^ bits = cap * 2 := Nat.mod_eq_of_lt (by omega)
      obtain ⟨k, hk1, hk2, hk3⟩ := ih (cap * 2) (by omega) (by
        rw [pow_succ] at hle
        calc need ≤ cap * (2 ^ n * 2) := hle
          _ = cap * 2 * 2 ^ n := by ring)
      refine ⟨k + 1, ?_, ?_, ?_⟩
      · calc need ≤ cap * 2 * 2 ^ k := hk1
          _ = cap * 2 ^ (k + 1) := by ring
      · intro j hj
        cases j with
        | zero => simpa using hc
        | succ j =>
          have := hk2 j (by omega)
          calc cap * 2 ^ (j + 1) = cap * 2 * 2 ^ j := by ring
            _ < need := this
      · intro fuel hf
        obtain ⟨f, rfl⟩ : ∃ f, fuel = f + 1 := ⟨fuel - 1, by omega⟩
        simp only [md2rtf_grow]
        rw [if_pos hc, h2, hk3 f (by omega)]
        congr 1
        ring
    · refine ⟨0, by simpa using Nat.le_of_not_lt hc, fun j hj => absurd hj (Nat.not_lt_zero j), ?_⟩
      intro fuel hf
      obtain ⟨f, rfl⟩ : ∃ f, fuel = f + 1 := ⟨fuel - 1, by omega⟩
      simp only [md2rtf_grow, pow_zero, Nat.mul_one]
      rw [if_neg hc]

theorem md2rtf_grow_zero (bits need : Nat) (h : 0 < need) :
    ∀ fuel, md2rtf_grow bits fuel 0 need = none := by
  intro fuel
  induction fuel with
  | zero => rfl
  | succ f ih =>
    simp only [md2rtf_grow]
    rw [if_pos h]
    simpa using ih

theorem realloc_ok_length (fresh : Nat → Byte) (buf : List Byte) (n : Nat) :
    (realloc_ok fresh buf n).length = n := by
  simp only [realloc_ok, List.length_append, List.length_take, List.length_map,
    List.length_range]
  omega

theorem realloc_ok_take (fresh : Nat → Byte) (buf : List Byte) (n m : Nat)
    (hm : m ≤ buf.length) (hn : buf.length ≤ n) :
    (realloc_ok fresh buf n).take m = buf.take m := by
  simp only [realloc_ok]
  rw [List.take_of_length_le hn, List.take_append_of_le_length hm]

theorem memcpy_at_spec (buf : List Byte) (off : Nat) (data : List Byte)
    (h : off + data.length ≤ buf.length) :
    ∃ buf1, memcpy_at buf off data = some buf1 ∧ buf1.length = buf.length ∧
      buf1.take off = buf.take off ∧ (buf1.drop off).take data.length = data := by
  have hoff : (buf.take off).length = off := by
    rw [List.length_take]
    omega
  refine ⟨buf.take off ++ data ++ buf.drop (off + data.length), ?_, ?_, ?_, ?_⟩
  · simp only [memcpy_at]
    rw [if_pos h]
  · simp only [List.length_append, List.length_take, List.length_drop]
    omega
  · rw [List.append_assoc, List.take_append_of_le_length (by omega)]
    rw [List.take_take]
    simp
  · rw [List.append_assoc, List.drop_append_of_le_length (by omega)]
    rw [List.drop_of_length_le (by omega), List.nil_append]
    rw [List.take_append_of_le_length (by omega), List.take_of_length_le (by omega)]

theorem md2rtf_write_cb_of_grow_none (bits : Nat) (fresh : Nat → Byte) (fuel : Nat)
    (data : List Byte) (mdrtf : MD2RTF_CTX)
    (h1 : (mdrtf.len + data.length) % 2 ^ bits > mdrtf.cap) (h2 : mdrtf.cap > 0)
    (h3 : md2rtf_grow bits fuel mdrtf.cap ((mdrtf.len + data.length) % 2 ^ bits) = none) :
    md2rtf_write_cb bits fresh fuel data mdrtf = none := by
  simp only [md2rtf_write_cb]
  rw [if_pos h1, if_pos h2, h3]

/-- C27, counterexample: with a 64-bit `size_t`, a sink with `cap = len = 2^63` (capacity
above 0, `len <= cap`, a block of `cap` bytes) and a write of one byte: `cap *= 2` wraps to
0 and the loop `while(cap < need)` never ends, so the write yields no sink state, whatever
the number of loop tests allowed. -/
theorem md2rtf_write_cb_overflow :
    0 < 2 ^ 63 ∧ 2 ^ 63 ≤ 2 ^ 63 ∧ (List.replicate (2 ^ 63) (0 : Byte)).length = 2 ^ 63 ∧
    ∀ (fresh : Nat → Byte) (fuel : Nat), md2rtf_write_cb 64 fresh fuel [65]
      { buf := List.replicate (2 ^ 63) 0, cap := 2 ^ 63, len := 2 ^ 63, brd := 0 } = none := by
  refine ⟨by norm_num, Nat.le_refl _, List.length_replicate _ _, ?_⟩
  intro fresh fuel
  have h2 : md2rtf_grow 64 fuel (2 ^ 63) (2 ^ 63 + 1) = none := by
    cases fuel with
    | zero => rfl
    | succ f =>
      simp only [md2rtf_grow]
      rw [if_pos (by norm_num)]
      have h3 : (2 ^ 63 * 2 % 2 ^ 64 : Nat) = 0 := by norm_num
      rw [h3]
      exact md2rtf_grow_zero 64 _ (by norm_num) f
  refine md2rtf_write_cb_of_grow_none 64 fresh fuel [65] _ ?_ ?_ ?_
  · show (2 ^ 63 + 1) % 2 ^ 64 > 2 ^ 63
    norm_num
  · show 2 ^ 63 > 0
    norm_num
  · show md2rtf_grow 64 fuel (2 ^ 63) ((2 ^ 63 + 1) % 2 ^ 64) = none
    have h4 : ((2 ^ 63 + 1) % 2 ^ 64 : Nat) = 2 ^ 63 + 1 := by norm_num
    rw [h4]
    exact h2

/-- C27, amended: for a sink with capacity above 0, `len <= cap`, a block of `cap` bytes,
and a write of `size` bytes with `2 * (len + size) <= 2 ^ bits` (no wrap of `size_t`), there
is a smallest `k` with `len + size <= cap * 2 ^ k`, and with more than `k` loop tests
allowed the write yields the sink with `len + size` bytes, capacity `cap * 2 ^ k` (so `cap`
itself when the bytes fit), the first `len` bytes as before, then the bytes written, and
`len <= cap` holds again.  A write to a sink of capacity 0 (and `len` 0) returns the sink
unchanged.  The sink `md2rtf_ctx_init` builds has capacity 4096, `len` 0 and a block of
4096 bytes. -/
theorem md2rtf_write_cb_appends (bits : Nat) (fresh : Nat → Byte) (data : List Byte)
    (mdrtf : MD2RTF_CTX) (hcap : 0 < mdrtf.cap) (hlen : mdrtf.len ≤ mdrtf.cap)
    (hbuf : mdrtf.buf.length = mdrtf.cap)
    (hfit : 2 * (mdrtf.len + data.length) ≤ 2 ^ bits) :
    (∃ k c1, mdrtf.len + data.length ≤ mdrtf.cap * 2 ^ k ∧
      (∀ j, j < k → mdrtf.cap * 2 ^ j < mdrtf.len + data.length) ∧
      (∀ fuel, k < fuel → md2rtf_write_cb bits fresh fuel data mdrtf = some c1) ∧
      c1.len = mdrtf.len + data.length ∧ c1.cap = mdrtf.cap * 2 ^ k ∧ c1.brd = mdrtf.brd ∧
      c1.buf.take mdrtf.len = mdrtf.buf.take mdrtf.len ∧
      (c1.buf.drop mdrtf.len).take data.length = data ∧
      c1.len ≤ c1.cap ∧ c1.buf.length = c1.cap) ∧
    (∀ (c0 : MD2RTF_CTX) (fuel : Nat), c0.cap = 0 → c0.len = 0 → data.length < 2 ^ bits →
      md2rtf_write_cb bits fresh fuel data c0 = some c0) ∧
    (0 < (md2rtf_ctx_init fresh).cap ∧
      (md2rtf_ctx_init fresh).len ≤ (md2rtf_ctx_init fresh).cap ∧
      (md2rtf_ctx_init fresh).buf.length = (md2rtf_ctx_init fresh).cap) := by
  have hp : 0 < 2 ^ bits := by positivity
  have hmod : (mdrtf.len + data.length) % 2 ^ bits = mdrtf.len + data.length :=
    Nat.mod_eq_of_lt (by omega)
  refine ⟨?_, ?_, by simp [md2rtf_ctx_init]⟩
  · by_cases hgt : mdrtf.len + data.length > mdrtf.cap
    · obtain ⟨k, hk1, hk2, hk3⟩ := md2rtf_grow_spec bits (mdrtf.len + data.length) hfit
        (mdrtf.len + data.length) mdrtf.cap hcap (by
          calc mdrtf.len + data.length ≤ 2 ^ (mdrtf.len + data.length) :=
                Nat.le_of_lt (Nat.lt_two_pow _)
            _ ≤ mdrtf.cap * 2 ^ (mdrtf.len + data.length) := Nat.le_mul_of_pos_left _ hcap)
      have hk0 : mdrtf.cap ≤ mdrtf.cap * 2 ^ k := Nat.le_mul_of_pos_right _ (by positivity)
      obtain ⟨buf1, hb1, hb2, hb3, hb4⟩ := memcpy_at_spec
        (realloc_ok fresh mdrtf.buf (mdrtf.cap * 2 ^ k)) mdrtf.len data (by
          rw [realloc_ok_length]
          exact hk1)
      refine ⟨k, ⟨buf1, mdrtf.cap * 2 ^ k, mdrtf.len + data.length, mdrtf.brd⟩, hk1, hk2, ?_,
        rfl, rfl, rfl, ?_, hb4, hk1, ?_⟩
      · intro fuel hf
        simp only [md2rtf_write_cb, hmod]
        rw [if_pos hgt, if_pos hcap, hk3 fuel hf]
        simp only [hb1]
      · show buf1.take mdrtf.len = _
        rw [hb3, realloc_ok_take fresh mdrtf.buf _ _ (by omega) (by omega)]
      · show buf1.length = _
        rw [hb2, realloc_ok_length]
    · obtain ⟨buf1, hb1, hb2, hb3, hb4⟩ := memcpy_at_spec mdrtf.buf mdrtf.len data (by omega)
      refine ⟨0, ⟨buf1, mdrtf.cap, mdrtf.len + data.length, mdrtf.brd⟩, (by omega),
        fun j hj => absurd hj (Nat.not_lt_zero j), ?_, rfl, (by simp), rfl, hb3, hb4, ?_, ?_⟩
      · intro fuel _
        simp only [md2rtf_write_cb, hmod]
        rw [if_neg hgt]
        simp only [hb1]
      · show mdrtf.len + data.length ≤ mdrtf.cap
        omega
      · show buf1.length = mdrtf.cap
        rw [hb2, hbuf]
  · intro c0 fuel hc hl hd
    have hm : (c0.len + data.length) % 2 ^ bits = data.length := by
      rw [hl, Nat.zero_add]
      exact Nat.mod_eq_of_lt hd
    simp only [md2rtf_write_cb, hm, hc]
    by_cases h0 : data.length > 0
    · rw [if_pos h0, if_neg (by omega)]
    · rw [if_neg h0]
      have hd0 : data = [] := List.length_eq_zero.mp (by omega)
      subst hd0
      simp only [memcpy_at, hl, List.length_nil, Nat.add_zero, Nat.zero_le, if_true,
        List.take_zero, List.nil_append, List.drop_zero]
      cases c0
      simp only at hl hc
      subst hl hc
      rfl

/-- C27, amended, at a concrete input: a sink of capacity 4 holding 3 bytes, written 3
bytes: the capacity doubles once, and the sink holds the 6 bytes. -/
theorem md2rtf_write_cb_appends_witness :
    (0 < 4 ∧ 3 ≤ 4 ∧ ([1, 2, 3, 0] : List Byte).length = 4 ∧
      2 * (3 + ([7, 8, 9] : List Byte).length) ≤ 2 ^ 64) ∧
    (∃ k c1, 3 + ([7, 8, 9] : List Byte).length ≤ 4 * 2 ^ k ∧
      (∀ j, j < k → 4 * 2 ^ j < 3 + ([7, 8, 9] : List Byte).length) ∧
      (∀ fuel, k < fuel →
        md2rtf_write_cb 64 (fun _ => 0) fuel [7, 8, 9] ⟨[1, 2, 3, 0], 4, 3, 0⟩ = some c1) ∧
      c1.len = 3 + ([7, 8, 9] : List Byte).length ∧ c1.cap = 4 * 2 ^ k ∧ c1.brd = 0 ∧
      c1.buf.take 3 = ([1, 2, 3, 0] : List Byte).take 3 ∧
      (c1.buf.drop 3).take ([7, 8, 9] : List Byte).length = [7, 8, 9] ∧
      c1.len ≤ c1.cap ∧ c1.buf.length = c1.cap) ∧
    md2rtf_write_cb 64 (fun _ => 0) 2 [7, 8, 9] ⟨[1, 2, 3, 0], 4, 3, 0⟩
      = some ⟨[1, 2, 3, 7, 8, 9, 0, 0], 8, 6, 0⟩ :=
  ⟨⟨by decide, by decide, by decide, by norm_num⟩,
   (md2rtf_write_cb_appends 64 (fun _ => 0) [7, 8, 9] ⟨[1, 2, 3, 0], 4, 3, 0⟩ (by decide)
     (by decide) (by decide) (by norm_num)).1,
   by decide⟩

theorem ultostr_digit_spec (d : Nat) (h : d < 16) :
    digit_value (ultostr_digit d) = d ∧
    ((48 ≤ (ultostr_digit d).val ∧ (ultostr_digit d).val ≤ 57) ∨
      (97 ≤ (ultostr_digit d).val ∧ (ultostr_digit d).val ≤ 102)) ∧
    (0 < d → ultostr_digit d ≠ 48) := by
  interval_cases d <;> decide

theorem ultostr_fill_spec (b : Nat) (hb2 : 2 ≤ b) (hb16 : b ≤ 16) :
    ∀ (k v : Nat), v < b ^ (k + 1) → ∀ fuel, k < fuel →
      (ultostr_fill fuel v b).length ≤ k + 1 ∧
      (ultostr_fill fuel v b).foldr (fun d acc => acc * b + digit_value d) 0 = v ∧
      (0 < v → (ultostr_fill fuel v b).getLast? ≠ some 48) ∧
      (∀ c ∈ ultostr_fill fuel v b, digit_value c < b ∧
        ((48 ≤ c.val ∧ c.val ≤ 57) ∨ (97 ≤ c.val ∧ c.val ≤ 102))) := by
  intro k
  induction k with
  | zero =>
    intro v hv fuel hf
    obtain ⟨f, rfl⟩ : ∃ f, fuel = f + 1 := ⟨fuel - 1, by omega⟩
    simp only [Nat.zero_add, pow_one] at hv
    have h0 : v / b = 0 := Nat.div_eq_of_lt hv
    have hm : v % b = v := Nat.mod_eq_of_lt hv
    obtain ⟨d1, d2, d3⟩ := ultostr_digit_spec v (by omega)
    simp only [ultostr_fill, h0, ne_eq, not_true_eq_false, if_false, hm, List.length_singleton,
      List.foldr_cons, List.foldr_nil, Nat.zero_mul, Nat.zero_add, List.getLast?_singleton,
      Option.some.injEq, List.mem_singleton, forall_eq]
    refine ⟨by omega, d1, d3, by omega, d2⟩
  | succ k ih =>
    intro v hv fuel hf
    obtain ⟨f, rfl⟩ : ∃ f, fuel = f + 1 := ⟨fuel - 1, by omega⟩
    have hm : v % b < b := Nat.mod_lt v (by omega)
    obtain ⟨d1, d2, d3⟩ := ultostr_digit_spec (v % b) (by omega)
    by_cases h0 : v / b = 0
    · have hvb : v < b := by
        by_contra hc
        have : 0 < v / b := Nat.div_pos (by omega) (by omega)
        omega
      have hmv : v % b = v := Nat.mod_eq_of_lt hvb
      simp only [ultostr_fill, h0, ne_eq, not_true_eq_false, if_false, List.length_singleton,
        List.foldr_cons, List.foldr_nil, Nat.zero_mul, Nat.zero_add, List.getLast?_singleton,
        Option.some.injEq, List.mem_singleton, forall_eq]
      rw [hmv] at d1 d2 d3
      rw [hmv]
      refine ⟨by omega, d1, d3, by omega, d2⟩
    · have hdiv : v / b < b ^ (k + 1) := by
        apply Nat.div_lt_of_lt_mul
        rw [Nat.pow_succ, Nat.mul_comm] at hv
        exact hv
      obtain ⟨i1, i2, i3, i4⟩ := ih (v / b) hdiv f (by omega)
      have hne : ultostr_fill f (v / b) b ≠ [] := by
        intro hc
        rw [hc] at i2
        simp only [List.foldr_nil] at i2
        exact h0 i2.symm
      simp only [ultostr_fill, ne_eq, h0, not_false_eq_true, if_true, List.length_cons,
        List.foldr_cons, List.mem_cons, forall_eq_or_imp]
      refine ⟨by omega, ?_, ?_, ⟨by omega, d2⟩, i4⟩
      · rw [i2, d1]
        have := Nat.div_add_mod v b
        rw [Nat.mul_comm] at this
        exact this
      · intro hpos
        obtain ⟨x, t, hxt⟩ := List.exists_cons_of_ne_nil hne
        rw [hxt] at i3 ⊢
        rw [List.getLast?_cons_cons]
        exact i3 (Nat.pos_of_ne_zero h0)

theorem ultostr_eq_toDigits (v b : Nat) (hb2 : 2 ≤ b) (hb16 : b ≤ 16) (hv : v < b ^ 32) :
    ultostr v b = (Nat.toDigits b v).map (fun c => (Fin.ofNat c.toNat : Byte)) := by
  unfold ultostr Nat.toDigits
  rw [toDigitsCore_eq_fill b hb16 (by omega)]
  simp only [List.map_nil, List.append_nil]
  congr 1
  by_cases hc : 32 ≤ v + 1
  · exact (ultostr_fill_fuel b 31 v hv (v + 1) hc).symm
  · have hlt : v < b ^ (v + 1) := by
      have := Nat.lt_pow_self (show 1 < b by omega) v
      calc v < b ^ v := this
        _ ≤ b ^ (v + 1) := Nat.pow_le_pow_right (by omega) (by omega)
    exact ultostr_fill_fuel b v v hlt 32 (by omega)

/-- C31: for every value `v < 2^32` and base `b` 10 or 16, `ultostr` writes the numeral of
`v` the standard library writes (`Nat.toDigits`); its characters are `0`..`9` and `a`..`f`
with a digit value below `b`; read most significant digit first it has the value `v`, and
`strtoul` reads `v` back from it; it is `0` for `v = 0` and does not start with `0`
otherwise; it has at least one character, at most 10 in base 10 and 8 in base 16, so with
its terminator it fits a buffer of 16 bytes, and the digits never fill the 32 bytes of the
local `buf` (any budget of 10 or more gives the same digits); in base 16 it has exactly two
characters for the values 0x80..0xFF. -/
theorem ultostr_canonical (v b : Nat) (hv : v < 2 ^ 32) (hb : b = 10 ∨ b = 16) :
    ultostr v b = (Nat.toDigits b v).map (fun c => (Fin.ofNat c.toNat : Byte)) ∧
    (∀ c ∈ ultostr v b,
      ((48 ≤ c.val ∧ c.val ≤ 57) ∨ (97 ≤ c.val ∧ c.val ≤ 102)) ∧ digit_value c < b) ∧
    numeral_value b (ultostr v b) = v ∧
    (∀ ulong_max, v ≤ ulong_max → strtoul ulong_max (ultostr v b ++ [59]) b = some v) ∧
    (v = 0 → ultostr v b = [48]) ∧
    (0 < v → (ultostr v b).head? ≠ some 48) ∧
    0 < (ultostr v b).length ∧
    (ultostr v b).length ≤ (if b = 10 then 10 else 8) ∧
    (ultostr v b).length + 1 ≤ 16 ∧
    (∀ fuel, 10 ≤ fuel → ultostr_fill fuel v b = ultostr_fill 32 v b) ∧
    (b = 16 → 0x80 ≤ v → v ≤ 0xFF → (ultostr v b).length = 2) := by
  have hb2 : 2 ≤ b := by omega
  have hb16 : b ≤ 16 := by omega
  have hk : ∃ k, k + 1 = (if b = 10 then 10 else 8) ∧ v < b ^ (k + 1) := by
    rcases hb with h | h
    · subst h
      exact ⟨9, rfl, by
        have : (2 : Nat) ^ 32 < 10 ^ (9 + 1) := by norm_num
        omega⟩
    · subst h
      exact ⟨7, rfl, by
        have : (2 : Nat) ^ 32 = 16 ^ (7 + 1) := by norm_num
        omega⟩
  obtain ⟨k, hk1, hk2⟩ := hk
  have hk9 : k ≤ 9 := by
    split at hk1 <;> omega
  obtain ⟨s1, s2, s3, s4⟩ := ultostr_fill_spec b hb2 hb16 k v hk2 32 (by omega)
  have hval : numeral_value b (ultostr v b) = v := by
    unfold numeral_value ultostr
    rw [List.foldl_reverse]
    exact s2
  have hlen : (ultostr v b).length = (ultostr_fill 32 v b).length := by
    unfold ultostr
    rw [List.length_reverse]
  have hpos : 0 < (ultostr v b).length := by
    rw [hlen]
    cases hf : ultostr_fill 32 v b with
    | nil => simp [ultostr_fill] at hf
    | cons x t => simp
  have hdig : ∀ c ∈ ultostr v b,
      ((48 ≤ c.val ∧ c.val ≤ 57) ∨ (97 ≤ c.val ∧ c.val ≤ 102)) ∧ digit_value c < b := by
    intro c hc
    unfold ultostr at hc
    rw [List.mem_reverse] at hc
    exact ⟨(s4 c hc).2, (s4 c hc).1⟩
  have hpow : v < b ^ 32 := by
    calc v < b ^ (k + 1) := hk2
      _ ≤ b ^ 32 := Nat.pow_le_pow_right (by omega) (by omega)
  refine ⟨ultostr_eq_toDigits v b hb2 hb16 hpow, hdig, hval, ?_, ?_, ?_, hpos, ?_, ?_, ?_, ?_⟩
  · intro ulong_max hmax
    have hne : ultostr v b ≠ [] := by
      intro hc
      rw [hc] at hpos
      exact absurd hpos (by simp)
    have h := strtoul_numeral ulong_max b (ultostr v b) hne (by
      intro d hd
      obtain ⟨hd1, hd2⟩ := hdig d hd
      have hx := digit_val_of_hex d (by
        rcases hd1 with h | h
        · exact Or.inl h
        · exact Or.inr (Or.inl h))
      exact ⟨hx.1, hd2, hx.2.2⟩) (by rw [hval]; exact hmax)
    rw [h, hval]
  · intro h0
    subst h0
    rcases hb with h | h <;> subst h <;> decide
  · intro hv0
    unfold ultostr
    rw [List.head?_reverse]
    exact s3 hv0
  · rw [hlen, ← hk1]
    exact s1
  · rw [hlen]
    omega
  · intro fuel hfuel
    have hv10 : v < b ^ (9 + 1) := by
      calc v < b ^ (k + 1) := hk2
        _ ≤ b ^ (9 + 1) := Nat.pow_le_pow_right (by omega) (by omega)
    rw [ultostr_fill_fuel b 9 v hv10 fuel (by omega), ultostr_fill_fuel b 9 v hv10 32 (by omega)]
  · intro hb16' hlo hhi
    subst hb16'
    rw [hlen, ultostr_fill_fuel 16 1 v (by norm_num; omega) 32 (by omega)]
    have h1 : v / 16 ≠ 0 := by omega
    have h2 : v / 16 / 16 = 0 := by omega
    simp [ultostr_fill, h1, h2]

set_option maxRecDepth 100000 in
/-- C31 at concrete inputs: 2^32 - 1 in base 10 and the byte value 0xE9 in base 16. -/
theorem ultostr_canonical_witness :
    (4294967295 < 2 ^ 32 ∧ ((10 : Nat) = 10 ∨ (10 : Nat) = 16)) ∧
    numeral_value 10 (ultostr 4294967295 10) = 4294967295 ∧
    ultostr 4294967295 10 = cstr "4294967295" ∧
    ultostr 0xE9 16 = cstr "e9" ∧
    ultostr 0 16 = cstr "0" :=
  ⟨⟨by norm_num, Or.inl rfl⟩,
   (ultostr_canonical 4294967295 10 (by norm_num) (Or.inl rfl)).2.2.1,
   by decide, by decide, by decide⟩

end Md4cRtf
